import Mathlib

/-! The status aggregation engine of nf-deploy-controller.

A shallow embedding of `deployment/status.go` and `deployment/Deployment.go`:
the per-NF status state machine, the four aggregate deployment conditions and
the status writer. Go maps are association lists, Go `int` is `Int` with
64-bit wraparound on addition, `time.Time` is an instant on the integer line,
and the remote store is an explicit argument of the status writer.
-/

namespace NFDeploy

/-! ## Go maps -/

/-- A Go `map[string]V`, given by its entries in one iteration order. Go leaves
the iteration order unspecified; a well-formed map has no repeated key. -/
structure GoMap (V : Type) where
  entries : List (String × V)
deriving DecidableEq

namespace GoMap

variable {V : Type}

/-- The empty map, `make(map[string]V)` (a nil map reads the same way). -/
def empty : GoMap V := ⟨[]⟩

/-- The value of the first entry with key `k`. -/
def lookup (k : String) : List (String × V) → Option V
  | [] => none
  | e :: es => if e.1 = k then some e.2 else lookup k es

/-- The two-valued lookup `v, isPresent := m[k]`. -/
def get? (m : GoMap V) (k : String) : Option V := lookup k m.entries

/-- The second component of `_, isPresent := m[k]`. -/
def contains (m : GoMap V) (k : String) : Bool := (m.get? k).isSome

/-- The one-valued lookup `m[k]`: the zero value of `V` for an absent key. -/
def get [Inhabited V] (m : GoMap V) (k : String) : V := (m.get? k).getD default

/-- The assignment `m[k] = v`. -/
def set (m : GoMap V) (k : String) (v : V) : GoMap V :=
  if m.contains k then
    ⟨m.entries.map (fun e => if e.1 = k then (k, v) else e)⟩
  else
    ⟨m.entries ++ [(k, v)]⟩

/-- The builtin `delete(m, k)`. -/
def delete (m : GoMap V) (k : String) : GoMap V :=
  ⟨m.entries.filter (fun e => e.1 ≠ k)⟩

/-- The builtin `len(m)`. -/
def len (m : GoMap V) : Nat := m.entries.length

/-- The keys of the map, in iteration order. -/
def keys (m : GoMap V) : List String := m.entries.map Prod.fst

/-- The values of the map, in iteration order. -/
def values (m : GoMap V) : List V := m.entries.map Prod.snd

/-- Well-formedness of a Go map: every key occurs once. -/
def WF (m : GoMap V) : Prop := m.keys.Nodup

instance (m : GoMap V) : Decidable m.WF := by
  unfold WF; infer_instance

end GoMap

/-! ## Data model -/

/-- An instant, standing for `time.Time` and `metav1.Time`; `0` is the zero value. -/
abbrev Time := Int

/-- The Kubernetes `corev1.ConditionStatus`, a string type. -/
abbrev ConditionStatus := String

def ConditionTrue : ConditionStatus := "True"
def ConditionFalse : ConditionStatus := "False"
def ConditionUnknown : ConditionStatus := "Unknown"

/-- The common-lib `types.NFConditionType`, a string type. -/
abbrev NFConditionType := String

def Reconciling : NFConditionType := "Reconciling"
def Peering : NFConditionType := "Peering"
def Ready : NFConditionType := "Ready"
def Stalled : NFConditionType := "Stalled"
def Available : NFConditionType := "Available"

/-- One raw condition report of an edge event, `types.NFCondition`. -/
structure NFCondition where
  type : NFConditionType
  status : ConditionStatus
  message : String
deriving DecidableEq

/-- Modelled from the spec: the declaration of `NFStatus` (deployment/types.go) is
not among the sources; the fields are those the code reads and writes. The zero
value `NFStatus{}` has empty strings, a nil map and the zero time. -/
structure NFStatus where
  state : NFConditionType := ""
  stateMessage : String := ""
  activeConditions : GoMap String := GoMap.empty
  lastEventTimestamp : Time := 0
deriving DecidableEq

/-! ## Per-NF consistency validation (status.go 50-100) -/

def inconsistentReadyStalled : String :=
  "Inconsistent NFTypeDeploy status received. Ready and stalled " ++
    "conditions cannot be true at the same time."

def inconsistentAvailable : String :=
  "Inconsistent NFTypeDeploy status received." ++
    " Available condition cannot be false when ready or peering conditions are true."

def inconsistentReconciling : String :=
  "Inconsistent NFTypeDeploy status received. Reconciling " ++
    "condition cannot be false when peering condition is true."

def inconsistentReady : String :=
  "Inconsistent NFTypeDeploy status received." ++
    " Ready condition cannot be true when either reconciling or peering " ++
    "condition are true."

/-- The status every violated rule returns: state Stalled, the diagnostic as state
message, and a fresh map holding the diagnostic under Stalled. -/
def stalledStatus (message : String) : NFStatus :=
  { state := Stalled, stateMessage := message,
    activeConditions := ⟨[(Stalled, message)]⟩ }

/-- Go `validateNFConditionSet`: checks whether the condition set of an NF status
is consistent; returns the Stalled status and `true` when it is not. -/
def validateNFConditionSet (conditions : GoMap ConditionStatus) : NFStatus × Bool :=
  if conditions.get Ready = ConditionTrue ∧ conditions.get Stalled = ConditionTrue then
    (stalledStatus inconsistentReadyStalled, true)
  else if (conditions.get Ready = ConditionTrue ∨ conditions.get Peering = ConditionTrue) ∧
      conditions.get Available = ConditionFalse then
    (stalledStatus inconsistentAvailable, true)
  else if conditions.get Reconciling = ConditionFalse ∧
      conditions.get Peering = ConditionTrue then
    (stalledStatus inconsistentReconciling, true)
  else if (conditions.get Peering = ConditionTrue ∨
      conditions.get Reconciling = ConditionTrue) ∧
      conditions.get Ready = ConditionTrue then
    (stalledStatus inconsistentReady, true)
  else
    ({}, false)

/-! ## Nodes and the deployment graph (Deployment.go 46-71) -/

/-- Modelled from the spec: the declaration of `NFType` (deployment/types.go) is
not among the sources; the spec gives the fixed enumeration. -/
inductive NFType where
  | UnspecifiedNFType | UPF | SMF | AMF | AUSF | UDM
deriving DecidableEq

/-- Modelled from the spec: the declaration of `Node` (deployment/types.go) is not
among the sources; the fields are those the code reads and writes. `Connections`
is a `map[string]void` used as a set of neighbour ids; it is the set the spec gives
every node, built with `make` by each `addOrUpdate` function, never a nil map. -/
structure Node where
  Id : String
  NFType : NFType
  Connections : GoMap Unit := GoMap.empty
  Status : NFStatus := {}
deriving DecidableEq

structure UPFSpec where
  clusterName : String := ""
  throughput : String := ""
deriving DecidableEq

structure SMFSpec where
  clusterName : String := ""
  maxSessions : String := ""
deriving DecidableEq

structure UPFNode extends Node where
  Spec : UPFSpec := {}
deriving DecidableEq

structure SMFNode extends Node where
  Spec : SMFSpec := {}
deriving DecidableEq

structure AMFNode extends Node
deriving DecidableEq

structure AUSFNode extends Node
deriving DecidableEq

structure UDMNode extends Node
deriving DecidableEq

/-- Modelled from the spec: the declaration of `Edge` (deployment/types.go) is not
among the sources; an edge is a pair of node ids. -/
structure Edge where
  FirstNode : String
  SecondNode : String
deriving DecidableEq

/-- The graph part of Go `Deployment`: the typed node partitions and the edge list.
The lock, the channels and the collaborators are not state of the embedding. -/
structure Deployment where
  name : String := ""
  upfNodes : GoMap UPFNode := GoMap.empty
  smfNodes : GoMap SMFNode := GoMap.empty
  amfNodes : GoMap AMFNode := GoMap.empty
  ausfNodes : GoMap AUSFNode := GoMap.empty
  udmNodes : GoMap UDMNode := GoMap.empty
  edges : List Edge := []
deriving DecidableEq

/-! ## Normalisation and the ambiguity guard (status.go 32-46, 492-518) -/

/-- Go `calculateNFConditionSet`: the status and the message of every condition of a
report, later entries overwriting earlier ones; the five known types default to
Unknown when the report does not carry them. -/
def calculateNFConditionSet (nfConditions : List NFCondition) :
    GoMap ConditionStatus × GoMap String :=
  let init : GoMap ConditionStatus × GoMap String := (GoMap.empty, GoMap.empty)
  let (conditions, conditionMessage) :=
    nfConditions.foldl
      (fun acc condition =>
        (acc.1.set condition.type condition.status,
         acc.2.set condition.type condition.message))
      init
  let conditions :=
    if conditions.contains Reconciling then conditions
    else conditions.set Reconciling ConditionUnknown
  let conditions :=
    if conditions.contains Peering then conditions
    else conditions.set Peering ConditionUnknown
  let conditions :=
    if conditions.contains Ready then conditions
    else conditions.set Ready ConditionUnknown
  let conditions :=
    if conditions.contains Stalled then conditions
    else conditions.set Stalled ConditionUnknown
  let conditions :=
    if conditions.contains Available then conditions
    else conditions.set Available ConditionUnknown
  (conditions, conditionMessage)

/-- Go `isAmbiguousConditionSet`: no condition is True and the set is not the
Stalled pattern Available=False, Reconciling=False. -/
def isAmbiguousConditionSet (conditions : GoMap ConditionStatus) : Bool :=
  let isAnyConditionSet :=
    conditions.entries.foldl
      (fun isAny e => if e.2 = ConditionTrue then true else isAny) false
  let isStalled : Bool :=
    if conditions.get Available = ConditionFalse ∧
        conditions.get Reconciling = ConditionFalse then true
    else false
  !isAnyConditionSet && !isStalled

/-! ## Per-NF state derivation (status.go 403-487) -/

def neitherAvailableNorReconciling : String := "NF is neither available nor reconciling."

def readyStateMessage : String := "NF is in ready state."

def peeringStateMessage : String := "NF is in peering state."

/-- The loop of status.go 411-415: every condition whose status is True, with the
message the report carried for it. -/
def collectActiveConditions (conditions : GoMap ConditionStatus)
    (conditionMessage : GoMap String) : GoMap String :=
  conditions.entries.foldl
    (fun activeConditions e =>
      if e.2 = ConditionTrue then activeConditions.set e.1 (conditionMessage.get e.1)
      else activeConditions)
    GoMap.empty

/-- The first half of Go `updateCurrentNFStatus` (status.go 407-462): the status
computed from the condition set, before it is stored in the node. -/
def deriveNFStatus (conditions : GoMap ConditionStatus)
    (conditionMessage : GoMap String) : NFStatus :=
  let (currentStatus, isSet) := validateNFConditionSet conditions
  if isSet then currentStatus
  else
    let activeConditions := collectActiveConditions conditions conditionMessage
    if conditions.get Available = ConditionFalse ∧
        conditions.get Reconciling = ConditionFalse then
      stalledStatus neitherAvailableNorReconciling
    else if conditions.get Stalled = ConditionTrue then
      { state := Stalled, stateMessage := conditionMessage.get Stalled,
        activeConditions := activeConditions }
    else if conditions.get Ready = ConditionTrue then
      let activeConditions :=
        if activeConditions.contains Available then activeConditions
        else activeConditions.set Available readyStateMessage
      { state := Ready, stateMessage := conditionMessage.get Ready,
        activeConditions := activeConditions }
    else if conditions.get Peering = ConditionTrue then
      let activeConditions :=
        if activeConditions.contains Reconciling then activeConditions
        else activeConditions.set Reconciling peeringStateMessage
      let activeConditions :=
        if activeConditions.contains Available then activeConditions
        else activeConditions.set Available peeringStateMessage
      { state := Peering, stateMessage := conditionMessage.get Peering,
        activeConditions := activeConditions }
    else if conditions.get Reconciling = ConditionTrue then
      { state := Reconciling, stateMessage := conditionMessage.get Reconciling,
        activeConditions := activeConditions }
    else
      { state := Available, stateMessage := conditionMessage.get Available,
        activeConditions := activeConditions }

/-- The status stored in a node: the computed status with the node's own
`lastEventTimestamp` (status.go 465-466). -/
def storedStatus (currentStatus : NFStatus) (old : NFStatus) : NFStatus :=
  { currentStatus with lastEventTimestamp := old.lastEventTimestamp }

/-- Go `updateCurrentNFStatus`: computes the status of an NF from its condition set
and stores it in the node of every status-bearing partition that tracks `nfId`. -/
def updateCurrentNFStatus (deployment : Deployment) (nfId : String)
    (conditions : GoMap ConditionStatus) (conditionMessage : GoMap String) :
    Deployment :=
  let currentStatus := deriveNFStatus conditions conditionMessage
  let deployment :=
    match deployment.upfNodes.get? nfId with
    | some nf =>
      { deployment with
        upfNodes := deployment.upfNodes.set nfId
          { nf with Status := storedStatus currentStatus nf.Status } }
    | none => deployment
  let deployment :=
    match deployment.smfNodes.get? nfId with
    | some nf =>
      { deployment with
        smfNodes := deployment.smfNodes.set nfId
          { nf with Status := storedStatus currentStatus nf.Status } }
    | none => deployment
  let deployment :=
    match deployment.ausfNodes.get? nfId with
    | some nf =>
      { deployment with
        ausfNodes := deployment.ausfNodes.set nfId
          { nf with Status := storedStatus currentStatus nf.Status } }
    | none => deployment
  let deployment :=
    match deployment.udmNodes.get? nfId with
    | some nf =>
      { deployment with
        udmNodes := deployment.udmNodes.set nfId
          { nf with Status := storedStatus currentStatus nf.Status } }
    | none => deployment
  deployment

/-! ## Go integers and strings -/

/-- The value of a Go `int` (64 bits, two's complement) holding the integer `x`
after wraparound. -/
def wrapInt (x : Int) : Int := (x + 2 ^ 63) % 2 ^ 64 - 2 ^ 63

/-- Go `a + b` on `int`. -/
def intAdd (a b : Int) : Int := wrapInt (a + b)

/-- The conversion `int32(x)`. -/
def toInt32 (x : Int) : Int := (x + 2 ^ 31) % 2 ^ 32 - 2 ^ 31

/-- Go `strings.TrimSuffix`: `s` without the trailing `suffix`, or `s` itself when it
does not end with `suffix`. -/
def TrimSuffix (s suffix : String) : String :=
  if suffix.data <:+ s.data then
    ⟨s.data.take (s.data.length - suffix.data.length)⟩
  else s

/-! ## Deployment-wide counts (status.go 339-399) -/

/-- The nodes of the four partitions the aggregate status ranges over, in the order
of the four loops: UPF, SMF, AUSF, UDM. AMF nodes are not scanned. -/
def statusNodes (deployment : Deployment) : List Node :=
  deployment.upfNodes.values.map UPFNode.toNode ++
  deployment.smfNodes.values.map SMFNode.toNode ++
  deployment.ausfNodes.values.map AUSFNode.toNode ++
  deployment.udmNodes.values.map UDMNode.toNode

/-- The counters `availableNFs`, `readyNFs`, `stalledNFs` of `calculateNFCount`. The
increments are not wrapped: the counters are bounded by the number of map entries. -/
structure NFCount where
  availableNFs : Int := 0
  readyNFs : Int := 0
  stalledNFs : Int := 0
deriving DecidableEq

/-- The inner loop of `calculateNFCount` over the active conditions of one node. -/
def countNode (count : NFCount) (node : Node) : NFCount :=
  node.Status.activeConditions.entries.foldl
    (fun count e =>
      let count := if e.1 = Ready then { count with readyNFs := count.readyNFs + 1 } else count
      let count :=
        if e.1 = Stalled then { count with stalledNFs := count.stalledNFs + 1 } else count
      let count :=
        if e.1 = Available then { count with availableNFs := count.availableNFs + 1 }
        else count
      count)
    count

/-- Go `calculateNFCount`: the counts of available, ready, stalled and targeted NFs,
in the order of the Go results. -/
def calculateNFCount (deployment : Deployment) : Int × Int × Int × Int :=
  let targetedNFs : Int :=
    deployment.upfNodes.len + deployment.smfNodes.len +
      deployment.ausfNodes.len + deployment.udmNodes.len
  let count : NFCount := {}
  let count := (deployment.upfNodes.values.map UPFNode.toNode).foldl countNode count
  let count := (deployment.smfNodes.values.map SMFNode.toNode).foldl countNode count
  let count := (deployment.ausfNodes.values.map AUSFNode.toNode).foldl countNode count
  let count := (deployment.udmNodes.values.map UDMNode.toNode).foldl countNode count
  (count.availableNFs, count.readyNFs, count.stalledNFs, targetedNFs)

/-! ## The four aggregate conditions (status.go 104-335) -/

/-- Modelled from the spec: the declaration of `NFDeployConditionType`
(api/v1alpha1) is not among the sources; the spec names the four aggregate
condition types. -/
inductive NFDeployConditionType where
  | DeploymentReconciling | DeploymentPeering | DeploymentReady | DeploymentStalled
deriving DecidableEq

/-- Modelled from the spec: the declaration of `NFDeployCondition` (api/v1alpha1) is
not among the sources; the fields are those the code reads and writes. The code
sets `Type` at once on every condition it builds. -/
structure NFDeployCondition where
  type : NFDeployConditionType
  Status : ConditionStatus := ""
  Reason : String := ""
  Message : String := ""
  LastUpdateTime : Time := 0
  LastTransitionTime : Time := 0
deriving DecidableEq

/-- One of the four identical loops of `computeReconcilingCondition` and
`computePeeringCondition`: appends the id of every node with `conditionType`
active and counts these nodes. -/
def scanActive (conditionType : NFConditionType) (nodes : List Node)
    (acc : String × Nat) : String × Nat :=
  nodes.foldl
    (fun acc node =>
      if node.Status.activeConditions.contains conditionType then
        (acc.1 ++ node.Id ++ ", ", acc.2 + 1)
      else acc)
    acc

/-- Go `computeReconcilingCondition`. -/
def computeReconcilingCondition (deployment : Deployment) (readyNFs targetedNFs : Int) :
    NFDeployCondition :=
  if targetedNFs = readyNFs then
    { type := .DeploymentReconciling, Reason := "AllNFsReconciled",
      Status := ConditionFalse, Message := "All NFs are in reconciled state." }
  else
    let acc : String × Nat := ("The NFs which are in Reconciling state are: ", 0)
    let acc := scanActive Reconciling (deployment.upfNodes.values.map UPFNode.toNode) acc
    let acc := scanActive Reconciling (deployment.smfNodes.values.map SMFNode.toNode) acc
    let acc := scanActive Reconciling (deployment.ausfNodes.values.map AUSFNode.toNode) acc
    let acc := scanActive Reconciling (deployment.udmNodes.values.map UDMNode.toNode) acc
    let message := acc.1
    let reconcilingNFs : Int := acc.2
    if intAdd readyNFs reconcilingNFs = targetedNFs then
      { type := .DeploymentReconciling, Reason := "AllUnReconciledNFsReconciling",
        Message := TrimSuffix message ", " ++ ".", Status := ConditionTrue }
    else if reconcilingNFs ≠ 0 then
      { type := .DeploymentReconciling, Reason := "SomeNFsReconciling",
        Message := TrimSuffix message ", " ++ ".", Status := ConditionTrue }
    else
      { type := .DeploymentReconciling, Reason := "NoNFsReconciling",
        Message := "No NFs are in reconciling state.", Status := ConditionFalse }

/-- Go `computePeeringCondition`. -/
def computePeeringCondition (deployment : Deployment) (readyNFs targetedNFs : Int) :
    NFDeployCondition :=
  if targetedNFs = readyNFs then
    { type := .DeploymentPeering, Reason := "AllNFsPeered",
      Status := ConditionFalse, Message := "All NFs are in Peered state." }
  else
    let acc : String × Nat := ("The NFs which are in Peering state are: ", 0)
    let acc := scanActive Peering (deployment.upfNodes.values.map UPFNode.toNode) acc
    let acc := scanActive Peering (deployment.smfNodes.values.map SMFNode.toNode) acc
    let acc := scanActive Peering (deployment.ausfNodes.values.map AUSFNode.toNode) acc
    let acc := scanActive Peering (deployment.udmNodes.values.map UDMNode.toNode) acc
    let message := acc.1
    let peeringNFs : Int := acc.2
    if intAdd readyNFs peeringNFs = targetedNFs then
      { type := .DeploymentPeering, Reason := "AllUnPeeredNFsPeering",
        Message := TrimSuffix message ", " ++ ".", Status := ConditionTrue }
    else if peeringNFs ≠ 0 then
      { type := .DeploymentPeering, Reason := "SomeNFsPeering",
        Message := TrimSuffix message ", " ++ ".", Status := ConditionTrue }
    else
      { type := .DeploymentPeering, Reason := "NoNFsPeering",
        Message := "No NFs are in peering state.", Status := ConditionFalse }

/-- One of the four identical loops of `computeReadyCondition`: appends the id of
every node without an active Ready condition. -/
def scanNotReady (nodes : List Node) (message : String) : String :=
  nodes.foldl
    (fun message node =>
      if node.Status.activeConditions.contains Ready then message
      else message ++ node.Id ++ ", ")
    message

/-- Go `computeReadyCondition`. -/
def computeReadyCondition (deployment : Deployment) (readyNFs targetedNFs : Int) :
    NFDeployCondition :=
  let status := if readyNFs = targetedNFs then ConditionTrue else ConditionFalse
  let reason :=
    if readyNFs = 0 then "NoNFsReady"
    else if readyNFs = targetedNFs then "AllNFsReady"
    else "SomeNFsReady"
  if readyNFs = targetedNFs then
    { type := .DeploymentReady, Status := status, Reason := reason,
      Message := "All NFs are in Ready state." }
  else
    let message := "The NFs which are not in Ready state are: "
    let message := scanNotReady (deployment.upfNodes.values.map UPFNode.toNode) message
    let message := scanNotReady (deployment.smfNodes.values.map SMFNode.toNode) message
    let message := scanNotReady (deployment.ausfNodes.values.map AUSFNode.toNode) message
    let message := scanNotReady (deployment.udmNodes.values.map UDMNode.toNode) message
    { type := .DeploymentReady, Status := status, Reason := reason,
      Message := TrimSuffix message ", " ++ "." }

/-- One of the four identical loops of `computeStalledCondition`: for every node,
ranges over its active conditions and appends `<id>: <message>` for the Stalled
entry. -/
def scanStalled (nodes : List Node) (message : String) : String :=
  nodes.foldl
    (fun message node =>
      node.Status.activeConditions.entries.foldl
        (fun message e =>
          if e.1 = Stalled then message ++ node.Id ++ ": " ++ e.2 ++ ", " else message)
        message)
    message

/-- Go `computeStalledCondition`. -/
def computeStalledCondition (deployment : Deployment) (stalledNFs targetedNFs : Int) :
    NFDeployCondition :=
  let status := if stalledNFs ≠ 0 then ConditionTrue else ConditionFalse
  let reason :=
    if stalledNFs = targetedNFs then "AllNFsStalled"
    else if stalledNFs = 0 then "NoNFsStalled"
    else "SomeNFsStalled"
  if stalledNFs = 0 then
    { type := .DeploymentStalled, Status := status, Reason := reason,
      Message := "No NFs are in stalled state." }
  else
    let message := ""
    let message := scanStalled (deployment.upfNodes.values.map UPFNode.toNode) message
    let message := scanStalled (deployment.smfNodes.values.map SMFNode.toNode) message
    let message := scanStalled (deployment.ausfNodes.values.map AUSFNode.toNode) message
    let message := scanStalled (deployment.udmNodes.values.map UDMNode.toNode) message
    { type := .DeploymentStalled, Status := status, Reason := reason,
      Message := TrimSuffix message ", " ++ "." }

/-! ## The status writer (status.go 522-616) -/

/-- Go `areNFDeployStatusConditionsEqual`: same Reason, Status and Message. -/
def areNFDeployStatusConditionsEqual (conditionA conditionB : NFDeployCondition) : Bool :=
  if conditionA.Reason = conditionB.Reason ∧ conditionA.Status = conditionB.Status ∧
      conditionA.Message = conditionB.Message then true
  else false

/-- The loop of status.go 540-545: the index of the last persisted condition of
type `t`; `none` stands for `-1`. -/
def findConditionIdx (conditions : List NFDeployCondition) (t : NFDeployConditionType) :
    Option Nat :=
  conditions.enum.foldl
    (fun conditionIdx e => if e.2.type = t then some e.1 else conditionIdx) none

/-- Go `computeSingleNFDeployStatusConditionChange`. The Go function receives a
pointer `currentCondition`; the result here is the value the caller's condition
holds after the call. In the branch of equal conditions the Go code assigns
`currentCondition = &conditions[conditionIdx]`, which rebinds the parameter and
stores nothing through the pointer, so the caller's condition stays as it was. -/
def computeSingleNFDeployStatusConditionChange (conditions : List NFDeployCondition)
    (currentCondition : NFDeployCondition) (currentTime : Time) : NFDeployCondition :=
  match findConditionIdx conditions currentCondition.type with
  | none =>
    { currentCondition with
      LastTransitionTime := currentTime, LastUpdateTime := currentTime }
  | some conditionIdx =>
    match conditions[conditionIdx]? with
    | none => currentCondition
    | some original =>
      if areNFDeployStatusConditionsEqual currentCondition original then
        currentCondition
      else if currentCondition.Status = original.Status then
        { currentCondition with
          LastTransitionTime := original.LastTransitionTime,
          LastUpdateTime := currentTime }
      else
        { currentCondition with
          LastTransitionTime := currentTime, LastUpdateTime := currentTime }

/-- Modelled from the spec: the declaration of `NfDeployStatus` (api/v1alpha1) is
not among the sources; the fields are those of the spec's status output. -/
structure NfDeployStatus where
  ObservedGeneration : Int := 0
  TargetedNFs : Int := 0
  ReadyNFs : Int := 0
  AvailableNFs : Int := 0
  StalledNFs : Int := 0
  Conditions : List NFDeployCondition := []
deriving DecidableEq

/-- The arguments of one call of `updateNFDeployStatus`: the four counts and the
four freshly computed conditions. -/
structure StatusUpdate where
  availableNFs : Int
  readyNFs : Int
  stalledNFs : Int
  targetedNFs : Int
  stalledCondition : NFDeployCondition
  readyCondition : NFDeployCondition
  peeringCondition : NFDeployCondition
  reconcilingCondition : NFDeployCondition
deriving DecidableEq

/-- The readings of `time.Now()` in the four calls of
`computeSingleNFDeployStatusConditionChange` of one pass of the writer. -/
structure Clock where
  stalled : Time
  ready : Time
  peering : Time
  reconciling : Time
deriving DecidableEq

/-- One pass of the closure of `updateNFDeployStatus` (status.go 577-605) after a
successful `Get` that returned `persisted`: the four conditions as the pass leaves
them behind the caller's pointers, and the status handed to `Update`. -/
def updateNFDeployStatusPass (persisted : NfDeployStatus) (clock : Clock)
    (update : StatusUpdate) : StatusUpdate × NfDeployStatus :=
  let stalledCondition :=
    computeSingleNFDeployStatusConditionChange persisted.Conditions
      update.stalledCondition clock.stalled
  let readyCondition :=
    computeSingleNFDeployStatusConditionChange persisted.Conditions
      update.readyCondition clock.ready
  let peeringCondition :=
    computeSingleNFDeployStatusConditionChange persisted.Conditions
      update.peeringCondition clock.peering
  let reconcilingCondition :=
    computeSingleNFDeployStatusConditionChange persisted.Conditions
      update.reconcilingCondition clock.reconciling
  let newConditions :=
    [stalledCondition, readyCondition, peeringCondition, reconcilingCondition]
  let newNFDeployStatus : NfDeployStatus :=
    { ObservedGeneration := persisted.ObservedGeneration,
      TargetedNFs := update.targetedNFs, ReadyNFs := update.readyNFs,
      AvailableNFs := update.availableNFs, StalledNFs := update.stalledNFs,
      Conditions := newConditions }
  ({ update with
      stalledCondition := stalledCondition, readyCondition := readyCondition,
      peeringCondition := peeringCondition,
      reconcilingCondition := reconcilingCondition },
   newNFDeployStatus)

/-- An error of the remote store: a version conflict, which `retry.RetryOnConflict`
retries, or any other error, which it surfaces. -/
inductive ApiError where
  | conflict | other
deriving DecidableEq

/-- What the remote store answers during one pass of the writer: the result of
`Get`, the clock readings, and the result of `Update` (`none` for success). -/
structure ApiRound where
  get : Except ApiError NfDeployStatus
  clock : Clock
  update : Option ApiError

/-- The retry loop of `retry.RetryOnConflict`: at most `steps` passes, a further
pass only after a conflict. Returns the statuses handed to `Update`, in order, and
the error returned to the caller. -/
def retryOnConflict (steps : Nat) (rounds : Nat → ApiRound) (attempt : Nat)
    (update : StatusUpdate) : List NfDeployStatus × Option ApiError :=
  match steps with
  | 0 => ([], some .conflict)
  | steps + 1 =>
    let round := rounds attempt
    match round.get with
    | .error .conflict =>
      if steps = 0 then ([], some .conflict)
      else retryOnConflict steps rounds (attempt + 1) update
    | .error .other => ([], some .other)
    | .ok persisted =>
      let (update, newNFDeployStatus) := updateNFDeployStatusPass persisted round.clock update
      match round.update with
      | none => ([newNFDeployStatus], none)
      | some .other => ([newNFDeployStatus], some .other)
      | some .conflict =>
        if steps = 0 then ([newNFDeployStatus], some .conflict)
        else
          let (written, err) := retryOnConflict steps rounds (attempt + 1) update
          (newNFDeployStatus :: written, err)

/-- Go `updateNFDeployStatus`: the writer under `retry.DefaultRetry` (five steps). -/
def updateNFDeployStatus (rounds : Nat → ApiRound) (update : StatusUpdate) :
    List NfDeployStatus × Option ApiError :=
  retryOnConflict 5 rounds 0 update

/-! ## Edge events (Deployment.go 416-637) -/

/-- Go `processNFEdgeEvent`, up to the call of the writer: the deployment after the
event and the arguments handed to `updateNFDeployStatus`; `none` when the event is
dropped as ambiguous and the writer is not called. -/
def processNFEdgeEvent (deployment : Deployment) (nfConditions : List NFCondition)
    (nfId : String) : Deployment × Option StatusUpdate :=
  let (conditions, conditionMessage) := calculateNFConditionSet nfConditions
  if isAmbiguousConditionSet conditions then (deployment, none)
  else
    let deployment := updateCurrentNFStatus deployment nfId conditions conditionMessage
    let (availableNFs, readyNFs, stalledNFs, targetedNFs) := calculateNFCount deployment
    let stalledCondition := computeStalledCondition deployment stalledNFs targetedNFs
    let readyCondition := computeReadyCondition deployment readyNFs targetedNFs
    let peeringCondition := computePeeringCondition deployment readyNFs targetedNFs
    let reconcilingCondition := computeReconcilingCondition deployment readyNFs targetedNFs
    (deployment,
     some
      { availableNFs := toInt32 availableNFs, readyNFs := toInt32 readyNFs,
        stalledNFs := toInt32 stalledNFs, targetedNFs := toInt32 targetedNFs,
        stalledCondition := stalledCondition, readyCondition := readyCondition,
        peeringCondition := peeringCondition,
        reconcilingCondition := reconcilingCondition })

/-- The per-NF status document of an edge event after the conversion from
`*unstructured.Unstructured`: the site id taken from the label
`util.NFSiteIDLabel` (empty when the label is missing) and the raw conditions. -/
structure NFDeployDocument where
  siteId : String
  Conditions : List NFCondition
deriving DecidableEq

/-- The `preprocessor.Event` of the edge watcher. `Object` is `none` when the object
is not a `*unstructured.Unstructured` or its conversion to the typed document of
`Kind` fails. -/
structure Event where
  Kind : String
  Object : Option NFDeployDocument
  Timestamp : Time
deriving DecidableEq

/-- Go `time.Time.Before`. -/
def Before (t u : Time) : Bool := decide (t < u)

/-- Go `processEdgeEvent`, up to the call of the writer: the deployment after the
event and the arguments handed to `updateNFDeployStatus`, if it is called. -/
def processEdgeEvent (deployment : Deployment) (object : Event) :
    Deployment × Option StatusUpdate :=
  match object.Object with
  | none => (deployment, none)
  | some obj =>
    if object.Kind = "UPFDeploy" then
      let upfName := obj.siteId
      match deployment.upfNodes.get? upfName with
      | none => (deployment, none)
      | some upfNode =>
        if Before object.Timestamp upfNode.Status.lastEventTimestamp then (deployment, none)
        else
          let upfNode : UPFNode :=
            { upfNode with
              Status := { upfNode.Status with lastEventTimestamp := object.Timestamp } }
          let deployment :=
            { deployment with upfNodes := deployment.upfNodes.set upfName upfNode }
          processNFEdgeEvent deployment obj.Conditions upfName
    else if object.Kind = "SMFDeploy" then
      let smfName := obj.siteId
      match deployment.smfNodes.get? smfName with
      | none => (deployment, none)
      | some smfNode =>
        if Before object.Timestamp smfNode.Status.lastEventTimestamp then (deployment, none)
        else
          let smfNode : SMFNode :=
            { smfNode with
              Status := { smfNode.Status with lastEventTimestamp := object.Timestamp } }
          let deployment :=
            { deployment with smfNodes := deployment.smfNodes.set smfName smfNode }
          processNFEdgeEvent deployment obj.Conditions smfName
    else if object.Kind = "UDMDeploy" then
      let udmName := obj.siteId
      match deployment.udmNodes.get? udmName with
      | none => (deployment, none)
      | some udmNode =>
        if Before object.Timestamp udmNode.Status.lastEventTimestamp then (deployment, none)
        else
          let udmNode : UDMNode :=
            { udmNode with
              Status := { udmNode.Status with lastEventTimestamp := object.Timestamp } }
          let deployment :=
            { deployment with udmNodes := deployment.udmNodes.set udmName udmNode }
          processNFEdgeEvent deployment obj.Conditions udmName
    else if object.Kind = "AUSFDeploy" then
      let ausfName := obj.siteId
      match deployment.ausfNodes.get? ausfName with
      | none => (deployment, none)
      | some ausfNode =>
        if Before object.Timestamp ausfNode.Status.lastEventTimestamp then (deployment, none)
        else
          let ausfNode : AUSFNode :=
            { ausfNode with
              Status := { ausfNode.Status with lastEventTimestamp := object.Timestamp } }
          let deployment :=
            { deployment with ausfNodes := deployment.ausfNodes.set ausfName ausfNode }
          processNFEdgeEvent deployment obj.Conditions ausfName
    else (deployment, none)


/-! ## The deployment graph (Deployment.go 109-335) -/

/-- Modelled from the spec: the method `Edge.IsEqual` (deployment/types.go) is not
among the sources; the spec compares the two ids of an edge as an unordered pair. -/
def Edge.IsEqual (edge : Edge) (nfId1 nfId2 : String) : Bool :=
  (edge.FirstNode = nfId1 ∧ edge.SecondNode = nfId2) ∨
    (edge.FirstNode = nfId2 ∧ edge.SecondNode = nfId1)

/-- Modelled from the spec: the declaration of `Connectivity` (api/v1alpha1) is not
among the sources; a declared neighbour of a site. -/
structure Connectivity where
  NeighborName : String
deriving DecidableEq

/-- Modelled from the spec: the declaration of `Site` (api/v1alpha1) is not among the
sources; the fields are those the graph builder and the hydration read. The Go field
`NFType` is a string that the code converts with `NFType(site.NFType)`; a string that
names none of the NF types stands here as `UnspecifiedNFType`, which no `case`
matches either. -/
structure Site where
  Id : String
  NFType : NFType
  NFTypeName : String := ""
  ClusterName : String := ""
  Connectivities : List Connectivity := []
  NFVendor : String := ""
  NFVersion : String := ""
deriving DecidableEq

/-- Modelled from the spec: the declaration of `NfDeploy` (api/v1alpha1) is not among
the sources; the declared topology is the name and the ordered list of sites of
`nfDeploy.Spec.Sites`. -/
structure NfDeploy where
  Name : String := ""
  Sites : List Site := []
deriving DecidableEq

/-- Go `crdreader.UPFIntent`. -/
structure UPFIntent where
  Throughput : String := ""
deriving DecidableEq

/-- Go `crdreader.SMFIntent`. -/
structure SMFIntent where
  MaxSessions : String := ""
deriving DecidableEq

/-- The profile repository as the graph builder sees it: the results of
`GetUPFIntent` and `GetSMFIntent` for a type name, `none` for an error. -/
structure IntentProcessors where
  GetUPFIntent : String → Option UPFIntent
  GetSMFIntent : String → Option SMFIntent

/-- Go `getNFType`: linear lookup across the typed partitions. -/
def getNFType (deployment : Deployment) (nfId : String) : NFType :=
  if deployment.upfNodes.contains nfId then .UPF
  else if deployment.smfNodes.contains nfId then .SMF
  else if deployment.amfNodes.contains nfId then .AMF
  else if deployment.ausfNodes.contains nfId then .AUSF
  else if deployment.udmNodes.contains nfId then .UDM
  else .UnspecifiedNFType

/-- Go `addOrUpdateUPFNode`. -/
def addOrUpdateUPFNode (intents : IntentProcessors) (deployment : Deployment) (site : Site) :
    Deployment :=
  let nfTypeName := site.NFTypeName
  let nfId := site.Id
  let clusterName := site.ClusterName
  let deployment :=
    if deployment.upfNodes.contains nfId then deployment
    else
      { deployment with
        upfNodes := deployment.upfNodes.set nfId
          { Id := nfId, NFType := .UPF, Connections := GoMap.empty,
            Spec := { clusterName := clusterName } } }
  match intents.GetUPFIntent nfTypeName with
  | none => deployment
  | some upfIntent =>
    match deployment.upfNodes.get? nfId with
    | none => deployment
    | some upfNode =>
      { deployment with
        upfNodes := deployment.upfNodes.set nfId
          { upfNode with Spec := { upfNode.Spec with throughput := upfIntent.Throughput } } }

/-- Go `addOrUpdateSMFNode`. -/
def addOrUpdateSMFNode (intents : IntentProcessors) (deployment : Deployment) (site : Site) :
    Deployment :=
  let nfTypeName := site.NFTypeName
  let nfId := site.Id
  let clusterName := site.ClusterName
  let deployment :=
    if deployment.smfNodes.contains nfId then deployment
    else
      { deployment with
        smfNodes := deployment.smfNodes.set nfId
          { Id := nfId, NFType := .SMF, Connections := GoMap.empty,
            Spec := { clusterName := clusterName } } }
  match deployment.smfNodes.get? nfId with
  | none => deployment
  | some smfNode =>
    match intents.GetSMFIntent nfTypeName with
    | none => deployment
    | some smfIntent =>
      { deployment with
        smfNodes := deployment.smfNodes.set nfId
          { smfNode with Spec := { smfNode.Spec with maxSessions := smfIntent.MaxSessions } } }

/-- Go `addOrUpdateAMFNode`; `ReportNFDeployEvent` does not call it. -/
def addOrUpdateAMFNode (deployment : Deployment) (site : Site) : Deployment :=
  let nfId := site.Id
  if deployment.amfNodes.contains nfId then deployment
  else
    { deployment with
      amfNodes := deployment.amfNodes.set nfId
        { Id := nfId, NFType := .AMF, Connections := GoMap.empty } }

/-- Go `addOrUpdateAUSFNode`. -/
def addOrUpdateAUSFNode (deployment : Deployment) (site : Site) : Deployment :=
  let nfId := site.Id
  if deployment.ausfNodes.contains nfId then deployment
  else
    { deployment with
      ausfNodes := deployment.ausfNodes.set nfId
        { Id := nfId, NFType := .AUSF, Connections := GoMap.empty } }

/-- Go `addOrUpdateUDMNode`. -/
def addOrUpdateUDMNode (deployment : Deployment) (site : Site) : Deployment :=
  let nfId := site.Id
  if deployment.udmNodes.contains nfId then deployment
  else
    { deployment with
      udmNodes := deployment.udmNodes.set nfId
        { Id := nfId, NFType := .UDM, Connections := GoMap.empty } }

/-- Go `addConnection`: adds `nfId2` to the connection set of the node `nfId1` of the
partition `nfType1`. The Go statement writes through the map held by the stored
node; for an id the partition does not hold it would write to the nil map of a
zero node, which `createEdge` never asks for, and the deployment stays as it is. -/
def addConnection (deployment : Deployment) (nfId1 : String) (nfType1 : NFType)
    (nfId2 : String) : Deployment :=
  match nfType1 with
  | .UPF =>
    match deployment.upfNodes.get? nfId1 with
    | some node =>
      { deployment with
        upfNodes := deployment.upfNodes.set nfId1
          { node with Connections := node.Connections.set nfId2 () } }
    | none => deployment
  | .SMF =>
    match deployment.smfNodes.get? nfId1 with
    | some node =>
      { deployment with
        smfNodes := deployment.smfNodes.set nfId1
          { node with Connections := node.Connections.set nfId2 () } }
    | none => deployment
  | .AMF =>
    match deployment.amfNodes.get? nfId1 with
    | some node =>
      { deployment with
        amfNodes := deployment.amfNodes.set nfId1
          { node with Connections := node.Connections.set nfId2 () } }
    | none => deployment
  | .UDM =>
    match deployment.udmNodes.get? nfId1 with
    | some node =>
      { deployment with
        udmNodes := deployment.udmNodes.set nfId1
          { node with Connections := node.Connections.set nfId2 () } }
    | none => deployment
  | .AUSF =>
    match deployment.ausfNodes.get? nfId1 with
    | some node =>
      { deployment with
        ausfNodes := deployment.ausfNodes.set nfId1
          { node with Connections := node.Connections.set nfId2 () } }
    | none => deployment
  | .UnspecifiedNFType => deployment

/-- Go `createEdge`: creates the edge between two NFs if no edge connects them yet. -/
def createEdge (deployment : Deployment) (nfId1 nfId2 : String) : Deployment :=
  if deployment.edges.any (fun edge => edge.IsEqual nfId2 nfId1) then deployment
  else
    let edge : Edge := { FirstNode := nfId1, SecondNode := nfId2 }
    let nfType1 := getNFType deployment nfId1
    let nfType2 := getNFType deployment nfId2
    let deployment := addConnection deployment nfId1 nfType1 nfId2
    let deployment := addConnection deployment nfId2 nfType2 nfId1
    { deployment with edges := deployment.edges ++ [edge] }

/-- The loop of `removeEdge`: the edge list without the first edge that connects
`nfId1` and `nfId2`. -/
def removeFirstEdge (nfId1 nfId2 : String) : List Edge → List Edge
  | [] => []
  | edge :: edges =>
    if edge.IsEqual nfId1 nfId2 then edges else edge :: removeFirstEdge nfId1 nfId2 edges

/-- Go `removeEdge`: removes an edge connecting `nfId1` and `nfId2`; no-op when there
is none. -/
def removeEdge (deployment : Deployment) (nfId1 nfId2 : String) : Deployment :=
  { deployment with edges := removeFirstEdge nfId1 nfId2 deployment.edges }

/-- The first loop of `removeNFs`: the NF type declared for every site id. -/
def siteTypes (nfDeploy : NfDeploy) : GoMap NFType :=
  nfDeploy.Sites.foldl (fun nfList site => nfList.set site.Id site.NFType) GoMap.empty

/-- The test `!isPresent || nfList[key] != nfType` of `removeNFs`. -/
def isStale (nfList : GoMap NFType) (key : String) (nfType : NFType) : Bool :=
  match nfList.get? key with
  | none => true
  | some declared => declared ≠ nfType

/-- The inner loop of `removeNFs`: removes the edge to every neighbour in the
connection set of the node `key`. -/
def removeEdgesOf (deployment : Deployment) (key : String) (connections : GoMap Unit) :
    Deployment :=
  connections.keys.foldl (fun deployment node => removeEdge deployment key node) deployment

/-- Go `removeNFs`: removes the NFs that are not present in `nfDeploy` under their
type, each with its edges. Every loop ranges over the entries its partition holds
when the loop starts; deleting the current key does not disturb the range. -/
def removeNFs (deployment : Deployment) (nfDeploy : NfDeploy) : Deployment :=
  let nfList := siteTypes nfDeploy
  let deployment :=
    deployment.upfNodes.entries.foldl
      (fun deployment e =>
        if isStale nfList e.1 .UPF then
          let deployment := removeEdgesOf deployment e.1 e.2.Connections
          { deployment with upfNodes := deployment.upfNodes.delete e.1 }
        else deployment)
      deployment
  let deployment :=
    deployment.smfNodes.entries.foldl
      (fun deployment e =>
        if isStale nfList e.1 .SMF then
          let deployment := removeEdgesOf deployment e.1 e.2.Connections
          { deployment with smfNodes := deployment.smfNodes.delete e.1 }
        else deployment)
      deployment
  let deployment :=
    deployment.amfNodes.entries.foldl
      (fun deployment e =>
        if isStale nfList e.1 .AMF then
          let deployment := removeEdgesOf deployment e.1 e.2.Connections
          { deployment with amfNodes := deployment.amfNodes.delete e.1 }
        else deployment)
      deployment
  let deployment :=
    deployment.udmNodes.entries.foldl
      (fun deployment e =>
        if isStale nfList e.1 .UDM then
          let deployment := removeEdgesOf deployment e.1 e.2.Connections
          { deployment with udmNodes := deployment.udmNodes.delete e.1 }
        else deployment)
      deployment
  let deployment :=
    deployment.ausfNodes.entries.foldl
      (fun deployment e =>
        if isStale nfList e.1 .AUSF then
          let deployment := removeEdgesOf deployment e.1 e.2.Connections
          { deployment with ausfNodes := deployment.ausfNodes.delete e.1 }
        else deployment)
      deployment
  deployment

/-- The first loop of `ReportNFDeployEvent`: creates or updates the node of one site.
The case for AMF sites is commented out in the source. -/
def addOrUpdateNode (intents : IntentProcessors) (deployment : Deployment) (site : Site) :
    Deployment :=
  match site.NFType with
  | .UPF => addOrUpdateUPFNode intents deployment site
  | .SMF => addOrUpdateSMFNode intents deployment site
  | .AUSF => addOrUpdateAUSFNode deployment site
  | .UDM => addOrUpdateUDMNode deployment site
  | _ => deployment

/-- The second loop of `ReportNFDeployEvent` for one site: an edge to every declared
neighbour. -/
def createEdgesOf (deployment : Deployment) (site : Site) : Deployment :=
  site.Connectivities.foldl
    (fun deployment connection => createEdge deployment site.Id connection.NeighborName)
    deployment

/-- Go `ReportNFDeployEvent`: builds and prunes the deployment graph from the declared
topology. -/
def ReportNFDeployEvent (intents : IntentProcessors) (deployment : Deployment)
    (nfDeploy : NfDeploy) : Deployment :=
  let deployment := { deployment with name := nfDeploy.Name }
  let deployment := nfDeploy.Sites.foldl (addOrUpdateNode intents) deployment
  let deployment := nfDeploy.Sites.foldl createEdgesOf deployment
  removeNFs deployment nfDeploy

/-! ## The edge event listener (Deployment.go 337-413, 572-596) -/

/-- Go `updateSubscriptionFailureCondition`, up to the call of the writer: the
arguments handed to `updateNFDeployStatus`, all four conditions Unknown with the
given reason and message and stamped with `currentTime`, the reading of
`time.Now()`. -/
def updateSubscriptionFailureCondition (reason message : String) (currentTime : Time) :
    StatusUpdate :=
  let stalledCondition : NFDeployCondition :=
    { type := .DeploymentStalled, Status := ConditionUnknown,
      LastUpdateTime := currentTime, LastTransitionTime := currentTime,
      Reason := reason, Message := message }
  let readyCondition : NFDeployCondition :=
    { type := .DeploymentReady, Status := ConditionUnknown,
      LastUpdateTime := currentTime, LastTransitionTime := currentTime,
      Reason := reason, Message := message }
  let peeringCondition : NFDeployCondition :=
    { type := .DeploymentPeering, Status := ConditionUnknown,
      LastUpdateTime := currentTime, LastTransitionTime := currentTime,
      Reason := reason, Message := message }
  let reconcilingCondition : NFDeployCondition :=
    { type := .DeploymentReconciling, Status := ConditionUnknown,
      LastUpdateTime := currentTime, LastTransitionTime := currentTime,
      Reason := reason, Message := message }
  { availableNFs := 0, readyNFs := 0, stalledNFs := 0, targetedNFs := 0,
    stalledCondition := stalledCondition, readyCondition := readyCondition,
    peeringCondition := peeringCondition, reconcilingCondition := reconcilingCondition }

/-- The surroundings of a listener: what the remote store answers to each attempt
of the n-th call of the writer, and the reading of `time.Now()` taken for the n-th
call. -/
structure World where
  rounds : Nat → Nat → ApiRound
  now : Nat → Time

/-- One call of `updateNFDeployStatus` made by the listener: its arguments, the
statuses it handed to `Update` and the error it returned. -/
structure WriterCall where
  update : StatusUpdate
  written : List NfDeployStatus
  err : Option ApiError
deriving DecidableEq

/-- The n-th call of the writer in the given surroundings. -/
def callWriter (world : World) (n : Nat) (update : StatusUpdate) : WriterCall :=
  { update := update,
    written := (updateNFDeployStatus (world.rounds n) update).1,
    err := (updateNFDeployStatus (world.rounds n) update).2 }

/-- What one `select` of `listenEdgeEvents` observes: the processing lifetime is
cancelled, an event arrives, or the event channel is found closed. A closed channel
stays closed: every later `select` observes `closed` or `done`. -/
inductive SelectOutcome where
  | done
  | event (object : Event)
  | closed
deriving DecidableEq

/-- Go `listenEdgeEvents` run over the observations of its successive `select`
statements: the deployment and the calls of the writer made so far. The loop
returns on `done` only; when the observations end the listener is waiting in
`select`. `calls` counts the calls of the writer made before. -/
def listenEdgeEvents (world : World) (deployment : Deployment) (calls : Nat) :
    List SelectOutcome → Deployment × List WriterCall
  | [] => (deployment, [])
  | .done :: _ => (deployment, [])
  | .event object :: rest =>
    match processEdgeEvent deployment object with
    | (deployment, none) => listenEdgeEvents world deployment calls rest
    | (deployment, some update) =>
      let call := callWriter world calls update
      let (deployment, later) := listenEdgeEvents world deployment (calls + 1) rest
      (deployment, call :: later)
  | .closed :: rest =>
    let call :=
      callWriter world calls
        (updateSubscriptionFailureCondition "EdgeConnectionBroken"
          "Connection to edge broke unexpectedly." (world.now calls))
    let (deployment, later) := listenEdgeEvents world deployment (calls + 1) rest
    (deployment, call :: later)

/-- What `ListenSubscriptionStatus` receives from the subscription-result channel:
a value, which is nil or an error with its text, or nothing because the channel
is closed. -/
inductive SubscriptionSignal where
  | success
  | failure (errorText : String)
  | closed
deriving DecidableEq

/-- Go `ListenSubscriptionStatus`: waits for the subscription result; on success it
runs the event loop, otherwise it reports the failure through the writer and
returns. -/
def ListenSubscriptionStatus (world : World) (deployment : Deployment)
    (signal : SubscriptionSignal) (observations : List SelectOutcome) :
    Deployment × List WriterCall :=
  match signal with
  | .success => listenEdgeEvents world deployment 0 observations
  | .failure errorText =>
    (deployment,
     [callWriter world 0
        (updateSubscriptionFailureCondition "EdgeConnectionFailure"
          ("Connection with edge failed due to " ++ errorText) (world.now 0))])
  | .closed =>
    (deployment,
     [callWriter world 0
        (updateSubscriptionFailureCondition "EdgeConnectionFailure"
          "Edge connection broke unexpectedly" (world.now 0))])

/-! ## The profile repository (crd-reader/UPFIntent.go) -/

/-- A Go `error`: a new error with its text, or an error made by `fmt.Errorf` with
the verb `%w` around a cause. The operands of the format other than the cause are not
rendered. -/
inductive GoError where
  | new (text : String)
  | wrap (format : String) (cause : GoError)
deriving DecidableEq

/-- The spec of `UPFType` of the common library, reduced to the field the intent
processor reads. -/
structure UPFTypeSpec where
  CapacityProfile : String := ""
deriving DecidableEq

/-- The type `UPFType` of the common library. -/
structure UPFType where
  Spec : UPFTypeSpec := {}
deriving DecidableEq

/-- The spec of `UPFCapacityProfile` of the common library, reduced to the field the
intent processor reads. -/
structure UPFCapacityProfileSpec where
  Throughput : String := ""
deriving DecidableEq

/-- The type `UPFCapacityProfile` of the common library. -/
structure UPFCapacityProfile where
  Spec : UPFCapacityProfileSpec := {}
deriving DecidableEq

/-- The two methods of the Go interface `CRDReader` that the UPF intent processor
calls: a lookup answers with an object or with an error. -/
structure CRDReader where
  GetUPFTypeObject : String → Except GoError UPFType
  GetUPFCapacityProfileObject : String → Except GoError UPFCapacityProfile

/-- A call of a method of `CRDReader`, with its argument. -/
inductive ReaderCall where
  | GetUPFTypeObject (crdName : String)
  | GetUPFCapacityProfileObject (crdName : String)
deriving DecidableEq

/-- Go `getUPFCapacityProfileName`: the two results, and the calls made on the
reader. -/
def getUPFCapacityProfileName (upfTypeName : String) (crdReader : CRDReader) :
    (String × Option GoError) × List ReaderCall :=
  match crdReader.GetUPFTypeObject upfTypeName with
  | .error err => (("", some err), [.GetUPFTypeObject upfTypeName])
  | .ok upfType => ((upfType.Spec.CapacityProfile, none), [.GetUPFTypeObject upfTypeName])

/-- Go `getUPFCapacityProfile`: the two results, and the calls made on the reader. -/
def getUPFCapacityProfile (capacityProfileName : String) (crdReader : CRDReader) :
    (UPFCapacityProfile × Option GoError) × List ReaderCall :=
  match crdReader.GetUPFCapacityProfileObject capacityProfileName with
  | .error err => (({}, some err), [.GetUPFCapacityProfileObject capacityProfileName])
  | .ok upfCapacityProfile =>
    ((upfCapacityProfile, none), [.GetUPFCapacityProfileObject capacityProfileName])

/-- Go `GetUPFIntent`: the two results, and the calls made on the reader, in order. -/
def GetUPFIntent (upfTypeName : String) (crdReader : CRDReader) :
    (UPFIntent × Option GoError) × List ReaderCall :=
  let ((capacityProfileName, err), calls) := getUPFCapacityProfileName upfTypeName crdReader
  match err with
  | some err => (({}, some err), calls)
  | none =>
    let ((capacityProfile, err), calls') := getUPFCapacityProfile capacityProfileName crdReader
    match err with
    | some err => (({}, some err), calls ++ calls')
    | none => (({ Throughput := capacityProfile.Spec.Throughput }, none), calls ++ calls')

/-! ## The actuator packages (hydration/hydration.go 112-158) -/

/-- Modelled from the spec: the declaration of `ps.VendorNFKey` (packageservice) is
not among the sources; the fields are those `CreateNFDeployActuators` fills. -/
structure VendorNFKey where
  Vendor : String
  Version : String
  NFType : NFType
deriving DecidableEq

/-- Modelled from the spec: the declaration of `util.NamingContext` is not among the
sources; it stands for the cluster name and the NfDeploy name it is made from. -/
structure NamingContext where
  clusterName : String
  nfDeployName : String
deriving DecidableEq

/-- The collaborators of `CreateNFDeployActuators`: `util.NewNamingContext`, which is
not among the sources, and the method `CreateNFDeployActuators` of the package
service, whose answer (package name and whether the package is new, or an error) may
depend on the number of calls made before. -/
structure ActuatorService where
  NewNamingContext : String → String → Except GoError NamingContext
  CreateNFDeployActuators : Nat → NamingContext → VendorNFKey → Except GoError (String × Bool)

/-- A call of the package service: the cluster whose keys are being ranged over, the
arguments, and the answer. -/
structure ActuatorCall where
  cluster : String
  nc : NamingContext
  key : VendorNFKey
  answer : Except GoError (String × Bool)

/-- The assignment `m[key] = true` on a `map[ps.VendorNFKey]bool`, kept as the list of
its entries in iteration order. -/
def setVendorNF (m : List (VendorNFKey × Bool)) (key : VendorNFKey) :
    List (VendorNFKey × Bool) :=
  if m.any (fun e => e.1 = key) then m.map (fun e => if e.1 = key then (key, true) else e)
  else m ++ [(key, true)]

/-- The first loop of `CreateNFDeployActuators`: the keys of every cluster. -/
def collectVendorNFs (sites : List Site) : GoMap (List (VendorNFKey × Bool)) :=
  sites.foldl
    (fun clusterVendorNFsMap site =>
      let key : VendorNFKey :=
        { Vendor := site.NFVendor, Version := site.NFVersion, NFType := site.NFType }
      let clusterVendorNFsMap :=
        if clusterVendorNFsMap.contains site.ClusterName then clusterVendorNFsMap
        else clusterVendorNFsMap.set site.ClusterName []
      clusterVendorNFsMap.set site.ClusterName
        (setVendorNF (clusterVendorNFsMap.get site.ClusterName) key))
    GoMap.empty

/-- The inner loop of `CreateNFDeployActuators` over the keys of one cluster: the
package names for approval so far or the error returned, and the calls made so far. -/
def createActuatorsOfCluster (service : ActuatorService) (cluster : String)
    (nc : NamingContext) :
    List (VendorNFKey × Bool) → List String → List ActuatorCall →
      Except GoError (List String) × List ActuatorCall
  | [], pkgNamesForApproval, calls => (.ok pkgNamesForApproval, calls)
  | (vendorNF, _) :: rest, pkgNamesForApproval, calls =>
    let answer := service.CreateNFDeployActuators calls.length nc vendorNF
    let calls := calls ++ [{ cluster := cluster, nc := nc, key := vendorNF, answer := answer }]
    match answer with
    | .error err => (.error (.wrap "Error creating actuators with key:%#v , %w" err), calls)
    | .ok (pkgName, isNew) =>
      if !isNew then createActuatorsOfCluster service cluster nc rest pkgNamesForApproval calls
      else
        createActuatorsOfCluster service cluster nc rest (pkgNamesForApproval ++ [pkgName])
          calls

/-- The outer loop of `CreateNFDeployActuators` over the clusters. -/
def createActuatorsOfClusters (service : ActuatorService) (nfDeployName : String) :
    List (String × List (VendorNFKey × Bool)) → List String → List ActuatorCall →
      Except GoError (List String) × List ActuatorCall
  | [], pkgNamesForApproval, calls => (.ok pkgNamesForApproval, calls)
  | (cluster, vendorNFs) :: rest, pkgNamesForApproval, calls =>
    match service.NewNamingContext cluster nfDeployName with
    | .error err =>
      (.error (.wrap "Error creating actuators, error creating naming context: %w" err), calls)
    | .ok nc =>
      match createActuatorsOfCluster service cluster nc vendorNFs pkgNamesForApproval calls with
      | (.error err, calls) => (.error err, calls)
      | (.ok pkgNamesForApproval, calls) =>
        createActuatorsOfClusters service nfDeployName rest pkgNamesForApproval calls

/-- Go `CreateNFDeployActuators`: the list returned (`none` for a nil slice), the error
returned, and the calls made on the package service, in order. -/
def CreateNFDeployActuators (service : ActuatorService) (nfDeploy : NfDeploy) :
    (Option (List String) × Option GoError) × List ActuatorCall :=
  let clusterVendorNFsMap := collectVendorNFs nfDeploy.Sites
  match createActuatorsOfClusters service nfDeploy.Name clusterVendorNFsMap.entries [] [] with
  | (.error err, calls) => ((none, some err), calls)
  | (.ok pkgNamesForApproval, calls) => ((some pkgNamesForApproval, none), calls)

/-! ## Vocabulary of the specification -/

/-- The number of UPF, SMF, AUSF and UDM nodes whose active-conditions map contains
`conditionType`. -/
def activeCount (deployment : Deployment) (conditionType : NFConditionType) : Nat :=
  (statusNodes deployment).countP
    (fun node => node.Status.activeConditions.contains conditionType)

/-- The ids of the UPF, SMF, AUSF and UDM nodes without an active Ready condition. -/
def notReadyIds (deployment : Deployment) : List String :=
  ((statusNodes deployment).filter
    (fun node => !node.Status.activeConditions.contains Ready)).map Node.Id

/-- One entry `<id>: <message>` for every UPF, SMF, AUSF and UDM node whose
active-conditions map contains Stalled, with the message stored under Stalled. -/
def stalledEntries (deployment : Deployment) : List String :=
  (statusNodes deployment).filterMap
    (fun node =>
      (node.Status.activeConditions.get? Stalled).map (fun m => node.Id ++ ": " ++ m))

/-- The nodes tracked under `nfId` in the four partitions that carry a status. -/
def trackedNodes (deployment : Deployment) (nfId : String) : List Node :=
  (deployment.upfNodes.get? nfId).toList.map UPFNode.toNode ++
  (deployment.smfNodes.get? nfId).toList.map SMFNode.toNode ++
  (deployment.ausfNodes.get? nfId).toList.map AUSFNode.toNode ++
  (deployment.udmNodes.get? nfId).toList.map UDMNode.toNode

/-- The tracked node an edge event reports on: the node with the event's site id in
the partition of the event's kind. -/
def addressedNode (deployment : Deployment) (object : Event) : Option Node :=
  match object.Object with
  | none => none
  | some obj =>
    if object.Kind = "UPFDeploy" then
      (deployment.upfNodes.get? obj.siteId).map UPFNode.toNode
    else if object.Kind = "SMFDeploy" then
      (deployment.smfNodes.get? obj.siteId).map SMFNode.toNode
    else if object.Kind = "UDMDeploy" then
      (deployment.udmNodes.get? obj.siteId).map UDMNode.toNode
    else if object.Kind = "AUSFDeploy" then
      (deployment.ausfNodes.get? obj.siteId).map AUSFNode.toNode
    else none

/-! ## Concrete inputs -/

/-- The two-node deployment of the controller tests: one UPF and one SMF, no event
received yet. -/
def exampleDeployment : Deployment :=
  { upfNodes := ⟨[("upf", { Id := "upf", NFType := .UPF })]⟩,
    smfNodes := ⟨[("smf", { Id := "smf", NFType := .SMF })]⟩ }

/-- The two-node deployment after the UPF has seen an event at instant 5. -/
def staleDeployment : Deployment :=
  { upfNodes :=
      ⟨[("upf", { Id := "upf", NFType := .UPF, Status := { lastEventTimestamp := 5 } })]⟩,
    smfNodes := ⟨[("smf", { Id := "smf", NFType := .SMF })]⟩ }

/-- The two-node deployment with the UPF stalled. -/
def stalledDeployment : Deployment :=
  { upfNodes :=
      ⟨[("upf",
          { Id := "upf", NFType := .UPF,
            Status :=
              { state := Stalled, stateMessage := "disk full",
                activeConditions := ⟨[(Stalled, "disk full")]⟩ } })]⟩,
    smfNodes := ⟨[("smf", { Id := "smf", NFType := .SMF })]⟩ }

/-- A report with Reconciling=True and the other four conditions False. -/
def reconcilingReport : List NFCondition :=
  [⟨Stalled, ConditionFalse, ""⟩, ⟨Reconciling, ConditionTrue, "rolling out"⟩,
   ⟨Available, ConditionFalse, ""⟩, ⟨Peering, ConditionFalse, ""⟩,
   ⟨Ready, ConditionFalse, ""⟩]

/-- A self-contradictory report: Ready=True together with Stalled=True. -/
def readyStalledReport : List NFCondition :=
  [⟨Stalled, ConditionTrue, "disk full"⟩, ⟨Reconciling, ConditionFalse, ""⟩,
   ⟨Available, ConditionTrue, ""⟩, ⟨Peering, ConditionFalse, ""⟩,
   ⟨Ready, ConditionTrue, "serving"⟩]

/-- A report with Stalled=True carrying its own message, Available=False and
Reconciling=False. -/
def unavailableStalledReport : List NFCondition :=
  [⟨Stalled, ConditionTrue, "disk full"⟩, ⟨Reconciling, ConditionFalse, ""⟩,
   ⟨Available, ConditionFalse, ""⟩]

/-- A report with Peering=True and Reconciling=True; the other conditions are absent. -/
def peeringReport : List NFCondition :=
  [⟨Peering, ConditionTrue, "peering with smf"⟩, ⟨Reconciling, ConditionTrue, "rolling out"⟩]

/-- An edge event of kind UPFDeploy for the site `upf`. -/
def upfEvent (conditions : List NFCondition) (timestamp : Time) : Event :=
  { Kind := "UPFDeploy", Object := some { siteId := "upf", Conditions := conditions },
    Timestamp := timestamp }

/-- A persisted status whose Stalled condition was last written at instant 100. -/
def persistedStatus : NfDeployStatus :=
  { ObservedGeneration := 1, TargetedNFs := 2,
    Conditions :=
      [{ type := .DeploymentStalled, Status := ConditionFalse, Reason := "NoNFsStalled",
         Message := "No NFs are in stalled state.",
         LastUpdateTime := 100, LastTransitionTime := 100 }] }

/-- The arguments `processNFEdgeEvent` hands to the writer for the two-node
deployment with no NF ready or stalled. -/
def freshUpdate : StatusUpdate :=
  { availableNFs := 0, readyNFs := 0, stalledNFs := 0, targetedNFs := 2,
    stalledCondition := computeStalledCondition exampleDeployment 0 2,
    readyCondition := computeReadyCondition exampleDeployment 0 2,
    peeringCondition := computePeeringCondition exampleDeployment 0 2,
    reconcilingCondition := computeReconcilingCondition exampleDeployment 0 2 }

/-- A remote store that returns `persistedStatus` at instant 200 and accepts the
update. -/
def steadyStore : Nat → ApiRound :=
  fun _ => { get := .ok persistedStatus, clock := ⟨200, 200, 200, 200⟩, update := none }

/-! ## Vocabulary and inputs of the deployment graph -/

/-- The persisted condition of type `t`: the last condition of that type in the
persisted list. -/
def persistedCondition (conditions : List NFDeployCondition) (t : NFDeployConditionType) :
    Option NFDeployCondition :=
  (conditions.filter (fun c => c.type = t)).getLast?

/-- The type, status, reason and message of a condition, without its timestamps. -/
def NFDeployCondition.core (c : NFDeployCondition) :
    NFDeployConditionType × ConditionStatus × String × String :=
  (c.type, c.Status, c.Reason, c.Message)

/-- The sample deployment of the unit tests: one UPF, one SMF and one AMF node. -/
def sampleDeployment : Deployment :=
  { name := "sample",
    upfNodes :=
      ⟨[("sample-upf",
          { Id := "sample-upf", NFType := .UPF,
            Connections := ⟨[("sample-smf", ())]⟩ })]⟩,
    smfNodes :=
      ⟨[("sample-smf",
          { Id := "sample-smf", NFType := .SMF,
            Connections := ⟨[("sample-upf", ()), ("sample-amf", ())]⟩ })]⟩,
    amfNodes :=
      ⟨[("sample-amf",
          { Id := "sample-amf", NFType := .AMF,
            Connections := ⟨[("sample-smf", ())]⟩ })]⟩,
    edges := [⟨"sample-upf", "sample-smf"⟩, ⟨"sample-smf", "sample-amf"⟩] }

/-- A report with all five conditions Unknown. -/
def unknownReport : List NFCondition :=
  [⟨Stalled, ConditionUnknown, ""⟩, ⟨Reconciling, ConditionUnknown, ""⟩,
   ⟨Available, ConditionUnknown, ""⟩, ⟨Peering, ConditionUnknown, ""⟩,
   ⟨Ready, ConditionUnknown, ""⟩]

/-- Surroundings in which the remote store holds `persistedStatus`, accepts every
update, and the clock reads 300. -/
def steadyWorld : World :=
  { rounds := fun _ => steadyStore, now := fun _ => 300 }

end NFDeploy

namespace NFDeploy

/-- The four conditions of a call of the writer, without their timestamps, in the
order Stalled, Ready, Peering, Reconciling of the written list. -/
def StatusUpdate.cores (update : StatusUpdate) :
    List (NFDeployConditionType × ConditionStatus × String × String) :=
  [update.stalledCondition.core, update.readyCondition.core,
   update.peeringCondition.core, update.reconcilingCondition.core]

end NFDeploy

namespace NFDeploy

/-- The message `ListenSubscriptionStatus` reports for a failed subscription: the
error text embedded after a fixed opening, or a fixed text for a closed channel. -/
def failureMessage : SubscriptionSignal → String
  | .failure errorText => "Connection with edge failed due to " ++ errorText
  | _ => "Edge connection broke unexpectedly"

/-- A persisted list with two Ready conditions, the later one written at instant 40. -/
def persistedReady : List NFDeployCondition :=
  [{ type := .DeploymentReady, Status := ConditionTrue, Reason := "AllNFsReady",
     Message := "All NFs are in Ready state.", LastUpdateTime := 10, LastTransitionTime := 10 },
   { type := .DeploymentStalled, Status := ConditionFalse, Reason := "NoNFsStalled",
     Message := "No NFs are in stalled state.", LastUpdateTime := 20,
     LastTransitionTime := 20 },
   { type := .DeploymentReady, Status := ConditionFalse, Reason := "NoNFsReady",
     Message := "The NFs which are not in Ready state are: upf, smf.",
     LastUpdateTime := 40, LastTransitionTime := 30 }]

/-- A profile repository that resolves no type name. -/
def noIntents : IntentProcessors :=
  { GetUPFIntent := fun _ => none, GetSMFIntent := fun _ => none }

/-- A topology of a UPF and an SMF that declare each other as neighbours. -/
def pairTopology : NfDeploy :=
  { Name := "pair",
    Sites :=
      [{ Id := "upf", NFType := .UPF, Connectivities := [⟨"smf"⟩] },
       { Id := "smf", NFType := .SMF, Connectivities := [⟨"upf"⟩] }] }

/-- The topology `pairTopology` without the site `upf`. -/
def smfOnlyTopology : NfDeploy :=
  { Name := "pair", Sites := [{ Id := "smf", NFType := .SMF }] }

/-- A topology of a UPF and an AMF that declare each other as neighbours. -/
def amfTopology : NfDeploy :=
  { Name := "core",
    Sites :=
      [{ Id := "upf", NFType := .UPF, Connectivities := [⟨"amf"⟩] },
       { Id := "amf", NFType := .AMF, Connectivities := [⟨"upf"⟩] }] }

/-- The topology `amfTopology` without the site `amf`. -/
def upfOnlyTopology : NfDeploy :=
  { Name := "core", Sites := [{ Id := "upf", NFType := .UPF }] }

/-- The edge list holds no two edges connecting the same unordered pair of ids. -/
def NoDuplicateEdges (edges : List Edge) : Prop :=
  edges.Pairwise (fun e f => f.IsEqual e.FirstNode e.SecondNode = false)

instance (edges : List Edge) : Decidable (NoDuplicateEdges edges) := by
  unfold NoDuplicateEdges; infer_instance

/-- The node with key `id` in the partition of type `t`. -/
def nodeAt (deployment : Deployment) (t : NFType) (id : String) : Option Node :=
  match t with
  | .UPF => (deployment.upfNodes.get? id).map UPFNode.toNode
  | .SMF => (deployment.smfNodes.get? id).map SMFNode.toNode
  | .AMF => (deployment.amfNodes.get? id).map AMFNode.toNode
  | .AUSF => (deployment.ausfNodes.get? id).map AUSFNode.toNode
  | .UDM => (deployment.udmNodes.get? id).map UDMNode.toNode
  | .UnspecifiedNFType => none

/-- The keys of the partition of type `t`. -/
def partitionKeys (deployment : Deployment) (t : NFType) : List String :=
  match t with
  | .UPF => deployment.upfNodes.keys
  | .SMF => deployment.smfNodes.keys
  | .AMF => deployment.amfNodes.keys
  | .AUSF => deployment.ausfNodes.keys
  | .UDM => deployment.udmNodes.keys
  | .UnspecifiedNFType => []

/-- The deployment with every connection set emptied and the edge list emptied:
what remains is everything an operation on the connectivity must leave alone. -/
def withoutConnectivity (deployment : Deployment) : Deployment :=
  { name := deployment.name,
    upfNodes :=
      ⟨deployment.upfNodes.entries.map
        (fun e => (e.1, { e.2 with Connections := GoMap.empty }))⟩,
    smfNodes :=
      ⟨deployment.smfNodes.entries.map
        (fun e => (e.1, { e.2 with Connections := GoMap.empty }))⟩,
    amfNodes :=
      ⟨deployment.amfNodes.entries.map
        (fun e => (e.1, { e.2 with Connections := GoMap.empty }))⟩,
    ausfNodes :=
      ⟨deployment.ausfNodes.entries.map
        (fun e => (e.1, { e.2 with Connections := GoMap.empty }))⟩,
    udmNodes :=
      ⟨deployment.udmNodes.entries.map
        (fun e => (e.1, { e.2 with Connections := GoMap.empty }))⟩,
    edges := [] }

/-- Every partition of the deployment is a Go map: no key is repeated. -/
def WFNodes (deployment : Deployment) : Prop :=
  deployment.upfNodes.WF ∧ deployment.smfNodes.WF ∧ deployment.amfNodes.WF ∧
    deployment.ausfNodes.WF ∧ deployment.udmNodes.WF

instance (deployment : Deployment) : Decidable (WFNodes deployment) := by
  unfold WFNodes; infer_instance

/-- The node with `id` added to its connection set. -/
def Node.connect (node : Node) (id : String) : Node :=
  { node with Connections := node.Connections.set id () }

/-- The node with `id` added to its connection set when `c` holds, the node itself
otherwise. -/
def connectIf (c : Prop) [Decidable c] (node : Node) (id : String) : Node :=
  if c then node.connect id else node

/-- The edge list after the edge to every listed neighbour of `key` was removed. -/
def removeEdgesTo (key : String) (neighbours : List String) (edges : List Edge) : List Edge :=
  neighbours.foldl (fun edges node => removeFirstEdge key node edges) edges

/-- The edge list after the edges of every listed node, given with its connection
set, were removed. -/
def pruneEdges (nodes : List (String × GoMap Unit)) (edges : List Edge) : List Edge :=
  nodes.foldl (fun edges e => removeEdgesTo e.1 e.2.keys edges) edges

/-- The nodes that `removeNFs` removes for the declared types `nfList`, each with its
connection set, in the order of the five loops. -/
def staleNodes (deployment : Deployment) (nfList : GoMap NFType) :
    List (String × GoMap Unit) :=
  (deployment.upfNodes.entries.filter (fun e => isStale nfList e.1 .UPF)).map
      (fun e => (e.1, e.2.Connections)) ++
  ((deployment.smfNodes.entries.filter (fun e => isStale nfList e.1 .SMF)).map
      (fun e => (e.1, e.2.Connections)) ++
  ((deployment.amfNodes.entries.filter (fun e => isStale nfList e.1 .AMF)).map
      (fun e => (e.1, e.2.Connections)) ++
  ((deployment.udmNodes.entries.filter (fun e => isStale nfList e.1 .UDM)).map
      (fun e => (e.1, e.2.Connections)) ++
  (deployment.ausfNodes.entries.filter (fun e => isStale nfList e.1 .AUSF)).map
      (fun e => (e.1, e.2.Connections)))))

/-- Some node tracked under the id `x` has `y` in its connection set. -/
def connectedTo (deployment : Deployment) (x y : String) : Prop :=
  ∃ t node, nodeAt deployment t x = some node ∧ node.Connections.contains y = true

/-- Every edge is recorded as a connection entry on both of its endpoints. -/
def Covered (deployment : Deployment) : Prop :=
  ∀ e ∈ deployment.edges,
    connectedTo deployment e.FirstNode e.SecondNode ∧
      connectedTo deployment e.SecondNode e.FirstNode

/-- The invariant of the deployment graph: no duplicate edge, every edge recorded on
both endpoints, and partitions that are Go maps. -/
def GraphInv (deployment : Deployment) : Prop :=
  NoDuplicateEdges deployment.edges ∧ Covered deployment ∧ WFNodes deployment

/-- The site ids a topology declares, in the order of the sites. -/
def siteIds (nfDeploy : NfDeploy) : List String := nfDeploy.Sites.map Site.Id

/-- A well-formed topology: unique site ids, no dangling neighbour, and mutual
connectivity. -/
def WellFormedTopology (nfDeploy : NfDeploy) : Prop :=
  (siteIds nfDeploy).Nodup ∧
  (∀ site ∈ nfDeploy.Sites, ∀ c ∈ site.Connectivities, c.NeighborName ∈ siteIds nfDeploy) ∧
  (∀ site ∈ nfDeploy.Sites, ∀ c ∈ site.Connectivities, ∀ other ∈ nfDeploy.Sites,
    other.Id = c.NeighborName → ∃ back ∈ other.Connectivities, back.NeighborName = site.Id)

instance (nfDeploy : NfDeploy) : Decidable (WellFormedTopology nfDeploy) := by
  unfold WellFormedTopology; infer_instance

/-- The NF types whose sites `ReportNFDeployEvent` turns into nodes. -/
def NFType.isTracked : NFType → Bool
  | .UPF => true
  | .SMF => true
  | .AUSF => true
  | .UDM => true
  | _ => false

/-- Every site of the topology has an NF type that the graph builder turns into a
node: UPF, SMF, AUSF or UDM. -/
def TrackedTypes (nfDeploy : NfDeploy) : Prop :=
  ∀ site ∈ nfDeploy.Sites, site.NFType.isTracked = true

instance (nfDeploy : NfDeploy) : Decidable (TrackedTypes nfDeploy) := by
  unfold TrackedTypes; infer_instance

/-- The deployment states reached from the empty deployment by well-formed topology
updates whose sites all have a tracked NF type. -/
inductive Reachable : Deployment → Prop where
  | empty : Reachable {}
  | report (intents : IntentProcessors) (deployment : Deployment) (nfDeploy : NfDeploy) :
      Reachable deployment → WellFormedTopology nfDeploy → TrackedTypes nfDeploy →
      Reachable (ReportNFDeployEvent intents deployment nfDeploy)

/-- The number of targeted NFs that `calculateNFCount` computes. -/
def targetedNFs (deployment : Deployment) : Int := (calculateNFCount deployment).2.2.2

/-- The deployment `after` is `before` with the node `id` of the partition `t`
created if it was missing: same edges, the keys of the partition `t` extended by a
missing `id`, and the connection set of every node kept. -/
def Upserted (before after : Deployment) (t : NFType) (id : String) : Prop :=
  after.edges = before.edges ∧
  (∀ t', partitionKeys after t' =
    if t' = t ∧ id ∉ partitionKeys before t' then partitionKeys before t' ++ [id]
    else partitionKeys before t') ∧
  (∀ t' x node, nodeAt before t' x = some node →
    ∃ node', nodeAt after t' x = some node' ∧ node'.Connections = node.Connections)

/-! ## Vocabulary and inputs of the topology update, the profiles and the actuators -/

/-- The ids of the tracked nodes, over all five type partitions. -/
def trackedIds (deployment : Deployment) : List String :=
  deployment.upfNodes.keys ++ deployment.smfNodes.keys ++ deployment.amfNodes.keys ++
    deployment.ausfNodes.keys ++ deployment.udmNodes.keys

/-- The topology `pairTopology` with the site `upf` declared as an AUSF. -/
def retypedTopology : NfDeploy :=
  { Name := "pair",
    Sites :=
      [{ Id := "upf", NFType := .AUSF, Connectivities := [⟨"smf"⟩] },
       { Id := "smf", NFType := .SMF, Connectivities := [⟨"upf"⟩] }] }

/-- A reader that knows the UPF type `upf-type` with the capacity profile
`capacity-profile` of throughput `10G`. -/
def sampleReader : CRDReader :=
  { GetUPFTypeObject := fun crdName =>
      if crdName = "upf-type" then .ok { Spec := { CapacityProfile := "capacity-profile" } }
      else .error (.new ("UPFType CRD with name " ++ crdName ++ " not found")),
    GetUPFCapacityProfileObject := fun crdName =>
      if crdName = "capacity-profile" then .ok { Spec := { Throughput := "10G" } }
      else .error (.new ("UPFCapacityProfile CRD with name " ++ crdName ++ " not found")) }

/-- An edge event of kind AMFDeploy for the site `upf`. -/
def amfEvent (conditions : List NFCondition) (timestamp : Time) : Event :=
  { Kind := "AMFDeploy", Object := some { siteId := "upf", Conditions := conditions },
    Timestamp := timestamp }

/-- An edge event of kind UPFDeploy for the site `ghost`, which is not tracked. -/
def ghostEvent (conditions : List NFCondition) (timestamp : Time) : Event :=
  { Kind := "UPFDeploy", Object := some { siteId := "ghost", Conditions := conditions },
    Timestamp := timestamp }

/-- The `lastEventTimestamp` of the node with key `id` in the partition of type `t`,
if that node is tracked. -/
def lastEventTimestampAt (deployment : Deployment) (t : NFType) (id : String) : Option Time :=
  (nodeAt deployment t id).map (fun node => node.Status.lastEventTimestamp)

namespace GoMap
variable {V W : Type}

/-- The map with `f` applied to every value. -/
def mapValues (f : V → W) (m : GoMap V) : GoMap W :=
  ⟨m.entries.map (fun e => (e.1, f e.2))⟩

end GoMap

/-- The UPF node with an empty enrichment field. -/
def UPFNode.withoutEnrichment (node : UPFNode) : UPFNode :=
  { node with Spec := { node.Spec with throughput := "" } }

/-- The SMF node with an empty enrichment field. -/
def SMFNode.withoutEnrichment (node : SMFNode) : SMFNode :=
  { node with Spec := { node.Spec with maxSessions := "" } }

/-- The deployment with the enrichment field of every UPF node (`throughput`) and of
every SMF node (`maxSessions`) emptied: everything a topology update builds apart from
the values the profile lookups return. -/
def withoutEnrichment (deployment : Deployment) : Deployment :=
  { deployment with
    upfNodes := deployment.upfNodes.mapValues UPFNode.withoutEnrichment,
    smfNodes := deployment.smfNodes.mapValues SMFNode.withoutEnrichment }

/-- A profile repository that resolves every UPF type to the throughput `10G` and
every SMF type to `1000` sessions. -/
def sampleIntents : IntentProcessors :=
  { GetUPFIntent := fun _ => some { Throughput := "10G" },
    GetSMFIntent := fun _ => some { MaxSessions := "1000" } }

/-- The key `CreateNFDeployActuators` makes for a site. -/
def vendorNFKeyOf (site : Site) : VendorNFKey :=
  { Vendor := site.NFVendor, Version := site.NFVersion, NFType := site.NFType }

/-- The (cluster, vendor, version, NF type) combination of a site. -/
def combinationOf (site : Site) : String × VendorNFKey :=
  (site.ClusterName, vendorNFKeyOf site)

/-- The (cluster, vendor, version, NF type) combination a call was made for. -/
def ActuatorCall.combination (call : ActuatorCall) : String × VendorNFKey :=
  (call.cluster, call.key)

/-- The calls of the log made for the combination `p`. -/
def callsFor (calls : List ActuatorCall) (p : String × VendorNFKey) : List ActuatorCall :=
  calls.filter (fun call => decide (call.combination = p))

/-- The call was answered with a package, new or not. -/
def ActuatorCall.succeeded (call : ActuatorCall) : Prop :=
  ∃ answer, call.answer = .ok answer

/-- The package names of the calls that reported a newly created package, in the
order of the calls. -/
def newPackages (calls : List ActuatorCall) : List String :=
  calls.filterMap
    (fun call =>
      match call.answer with
      | .ok (pkgName, true) => some pkgName
      | _ => none)

/-- The (cluster, key) pairs of a `map[string]map[ps.VendorNFKey]bool`, in the order
the two nested loops range over them. -/
def flattenVendorNFs :
    List (String × List (VendorNFKey × Bool)) → List (String × VendorNFKey)
  | [] => []
  | e :: rest => e.2.map (fun k => (e.1, k.1)) ++ flattenVendorNFs rest

/-- The log is faithful from the call number `n` on: every call was made with the
naming context of its cluster and carries the answer the package service gave to the
call of its number. -/
def FaithfulFrom (service : ActuatorService) (nfDeployName : String) :
    Nat → List ActuatorCall → Prop
  | _, [] => True
  | n, call :: calls =>
    (service.NewNamingContext call.cluster nfDeployName = .ok call.nc ∧
      call.answer = service.CreateNFDeployActuators n call.nc call.key) ∧
    FaithfulFrom service nfDeployName (n + 1) calls

/-- The sites of the hydration unit test: four distinct combinations on `cluster1`,
one of them declared twice, and one on `cluster2`. -/
def actuatorSites : List Site :=
  [{ Id := "", ClusterName := "cluster1", NFVendor := "ABC", NFVersion := "1.0", NFType := .UPF },
   { Id := "", ClusterName := "cluster1", NFVendor := "ABC", NFVersion := "1.0", NFType := .UPF },
   { Id := "", ClusterName := "cluster1", NFVendor := "ABC", NFVersion := "1.0", NFType := .SMF },
   { Id := "", ClusterName := "cluster1", NFVendor := "ABC", NFVersion := "2.0", NFType := .UPF },
   { Id := "", ClusterName := "cluster1", NFVendor := "XYZ", NFVersion := "1.0", NFType := .UPF },
   { Id := "", ClusterName := "cluster2", NFVendor := "ABC", NFVersion := "1.0", NFType := .UPF }]

/-- The package service of the hydration unit test: the naming context fails for an
empty cluster name; the first, second and fifth call report a new package. -/
def actuatorService : ActuatorService :=
  { NewNamingContext := fun cluster name =>
      if cluster = "" then .error (.new "cluster name is empty") else .ok ⟨cluster, name⟩,
    CreateNFDeployActuators := fun n _ _ =>
      .ok ("package" ++ toString (n + 1), n < 2 || n = 4) }

/-- A package service whose every call fails. -/
def failingActuatorService : ActuatorService :=
  { NewNamingContext := fun cluster name => .ok ⟨cluster, name⟩,
    CreateNFDeployActuators := fun _ _ _ => .error (.new "Error fetching pkg revision") }

/-- A deployment that tracks exactly two nodes: the UPF `upfNode` and the SMF
`smfNode`, each under its id. -/
def twoNodeDeployment (name : String) (edges : List Edge) (upfNode : UPFNode)
    (smfNode : SMFNode) : Deployment :=
  { name := name, upfNodes := ⟨[(upfNode.Id, upfNode)]⟩,
    smfNodes := ⟨[(smfNode.Id, smfNode)]⟩, edges := edges }

/-- The UPF node `id` with the given connection set, spec and status. -/
def upfNodeWith (id : String) (connections : GoMap Unit) (spec : UPFSpec)
    (status : NFStatus) : UPFNode :=
  { Id := id, NFType := .UPF, Connections := connections, Status := status, Spec := spec }

/-- The SMF node `id` with the given connection set, spec and status. -/
def smfNodeWith (id : String) (connections : GoMap Unit) (spec : SMFSpec)
    (status : NFStatus) : SMFNode :=
  { Id := id, NFType := .SMF, Connections := connections, Status := status, Spec := spec }

/-- The edge event of kind `kind` in which the site `id` reports `conditions` at the
instant `timestamp`. -/
def reportEvent (kind id : String) (conditions : List NFCondition) (timestamp : Time) :
    Event :=
  { Kind := kind, Object := some { siteId := id, Conditions := conditions },
    Timestamp := timestamp }

/-- The status a node stores after it reported `conditions` at the instant
`timestamp`. -/
def reportedStatus (conditions : List NFCondition) (timestamp : Time) : NFStatus :=
  { deriveNFStatus (calculateNFConditionSet conditions).1
      (calculateNFConditionSet conditions).2 with
    lastEventTimestamp := timestamp }

/-- The arguments `processNFEdgeEvent` hands to the writer, computed from the
deployment after the per-NF update. -/
def aggregateStatus (deployment : Deployment) : StatusUpdate :=
  { availableNFs := toInt32 (calculateNFCount deployment).1,
    readyNFs := toInt32 (calculateNFCount deployment).2.1,
    stalledNFs := toInt32 (calculateNFCount deployment).2.2.1,
    targetedNFs := toInt32 (calculateNFCount deployment).2.2.2,
    stalledCondition :=
      computeStalledCondition deployment (calculateNFCount deployment).2.2.1
        (calculateNFCount deployment).2.2.2,
    readyCondition :=
      computeReadyCondition deployment (calculateNFCount deployment).2.1
        (calculateNFCount deployment).2.2.2,
    peeringCondition :=
      computePeeringCondition deployment (calculateNFCount deployment).2.1
        (calculateNFCount deployment).2.2.2,
    reconcilingCondition :=
      computeReconcilingCondition deployment (calculateNFCount deployment).2.1
        (calculateNFCount deployment).2.2.2 }

/-- 1 if the status has an active condition of the type, 0 otherwise. -/
def activeIn (status : NFStatus) (conditionType : NFConditionType) : Nat :=
  if status.activeConditions.contains conditionType then 1 else 0

/-- Status and reason of the aggregate Reconciling condition of two targeted NFs of
which `ready` have an active Ready and `reconciling` an active Reconciling
condition. -/
def reconcilingOutcome (ready reconciling : Nat) : ConditionStatus × String :=
  if (ready : Int) = 2 then (ConditionFalse, "AllNFsReconciled")
  else if intAdd ready reconciling = 2 then (ConditionTrue, "AllUnReconciledNFsReconciling")
  else if reconciling ≠ 0 then (ConditionTrue, "SomeNFsReconciling")
  else (ConditionFalse, "NoNFsReconciling")

/-- Status and reason of the aggregate Ready condition of two targeted NFs of which
`ready` have an active Ready condition. -/
def readyOutcome (ready : Nat) : ConditionStatus × String :=
  (if (ready : Int) = 2 then ConditionTrue else ConditionFalse,
   if (ready : Int) = 0 then "NoNFsReady"
   else if (ready : Int) = 2 then "AllNFsReady" else "SomeNFsReady")

/-- The deployment after a sequence of edge events, with the writer call of the last
event. -/
def processEdgeEvents (deployment : Deployment) (events : List Event) :
    Deployment × Option StatusUpdate :=
  events.foldl (fun acc object => processEdgeEvent acc.1 object) (deployment, none)

/-- A report with all five conditions False. -/
def allFalseReport : List NFCondition :=
  [⟨Stalled, ConditionFalse, ""⟩, ⟨Reconciling, ConditionFalse, ""⟩,
   ⟨Available, ConditionFalse, ""⟩, ⟨Peering, ConditionFalse, ""⟩,
   ⟨Ready, ConditionFalse, ""⟩]

/-- A report with Ready=True, Available=True and the other three conditions False. -/
def readyReport : List NFCondition :=
  [⟨Stalled, ConditionFalse, ""⟩, ⟨Reconciling, ConditionFalse, ""⟩,
   ⟨Available, ConditionTrue, ""⟩, ⟨Peering, ConditionFalse, ""⟩,
   ⟨Ready, ConditionTrue, ""⟩]

/-! ## Vocabulary and inputs of edge events and reachable states -/

/-- The partition that an edge event of kind `kind` addresses; events of any other
kind address none. -/
def kindType (kind : String) : NFType :=
  if kind = "UPFDeploy" then .UPF
  else if kind = "SMFDeploy" then .SMF
  else if kind = "UDMDeploy" then .UDM
  else if kind = "AUSFDeploy" then .AUSF
  else .UnspecifiedNFType

/-- The node with `timestamp` as its `lastEventTimestamp`. -/
def Node.stamp (node : Node) (timestamp : Time) : Node :=
  { node with Status := { node.Status with lastEventTimestamp := timestamp } }

/-- The node with the status computed from a report, which keeps the node's own
`lastEventTimestamp`. -/
def Node.store (node : Node) (currentStatus : NFStatus) : Node :=
  { node with Status := storedStatus currentStatus node.Status }

/-- The deployment with `timestamp` written as `lastEventTimestamp` into the node
`id` of the partition `t`, if that node is tracked: the three statements before the
call of `processNFEdgeEvent` in every case of `processEdgeEvent`. -/
def stampNode (deployment : Deployment) (t : NFType) (id : String) (timestamp : Time) :
    Deployment :=
  match t with
  | .UPF =>
    match deployment.upfNodes.get? id with
    | some node =>
      { deployment with
        upfNodes := deployment.upfNodes.set id
          { node with Status := { node.Status with lastEventTimestamp := timestamp } } }
    | none => deployment
  | .SMF =>
    match deployment.smfNodes.get? id with
    | some node =>
      { deployment with
        smfNodes := deployment.smfNodes.set id
          { node with Status := { node.Status with lastEventTimestamp := timestamp } } }
    | none => deployment
  | .AMF =>
    match deployment.amfNodes.get? id with
    | some node =>
      { deployment with
        amfNodes := deployment.amfNodes.set id
          { node with Status := { node.Status with lastEventTimestamp := timestamp } } }
    | none => deployment
  | .AUSF =>
    match deployment.ausfNodes.get? id with
    | some node =>
      { deployment with
        ausfNodes := deployment.ausfNodes.set id
          { node with Status := { node.Status with lastEventTimestamp := timestamp } } }
    | none => deployment
  | .UDM =>
    match deployment.udmNodes.get? id with
    | some node =>
      { deployment with
        udmNodes := deployment.udmNodes.set id
          { node with Status := { node.Status with lastEventTimestamp := timestamp } } }
    | none => deployment
  | .UnspecifiedNFType => deployment

/-- The last condition of type `t` in a report, if the report carries one. -/
def lastOccurrence (nfConditions : List NFCondition) (t : NFConditionType) :
    Option NFCondition :=
  nfConditions.reverse.find? (fun condition => decide (condition.type = t))

/-- The five condition types an NF reports. -/
def knownConditionTypes : List NFConditionType :=
  [Available, Ready, Peering, Reconciling, Stalled]

/-- A status whose active Ready condition comes with an active Available condition
and excludes active Stalled, Peering and Reconciling conditions. -/
def ReadyExclusive (status : NFStatus) : Prop :=
  status.activeConditions.contains Ready = true →
    status.activeConditions.contains Available = true ∧
    status.activeConditions.contains Stalled = false ∧
    status.activeConditions.contains Peering = false ∧
    status.activeConditions.contains Reconciling = false

/-- The deployment states reached from the empty deployment by topology updates, with
any topology and any outcome of the profile lookups, and by edge events. -/
inductive ReachableByEvents : Deployment → Prop where
  | empty : ReachableByEvents {}
  | report (intents : IntentProcessors) (deployment : Deployment) (nfDeploy : NfDeploy) :
      ReachableByEvents deployment →
      ReachableByEvents (ReportNFDeployEvent intents deployment nfDeploy)
  | event (deployment : Deployment) (object : Event) :
      ReachableByEvents deployment →
      ReachableByEvents (processEdgeEvent deployment object).1

/-- The active conditions of every tracked node form a Go map in which an active
Ready condition comes with Available and excludes Stalled, Peering and Reconciling. -/
def SoundStatuses (deployment : Deployment) : Prop :=
  ∀ t x node, nodeAt deployment t x = some node →
    node.Status.activeConditions.WF ∧ ReadyExclusive node.Status

/-- Every id is tracked in at most one type partition. -/
def OnePartition (deployment : Deployment) : Prop :=
  ∀ t1 t2 x, (nodeAt deployment t1 x).isSome = true →
    (nodeAt deployment t2 x).isSome = true → t1 = t2

/-- The topology `pairTopology` without the site `smf`. -/
def upfAloneTopology : NfDeploy :=
  { Name := "pair", Sites := [{ Id := "upf", NFType := .UPF }] }

/-- The topology of a connected SMF `smf` and UPF `upf`, the SMF declared first. -/
def smfFirstTopology : NfDeploy :=
  { Name := "pair",
    Sites :=
      [{ Id := "smf", NFType := .SMF, Connectivities := [⟨"upf"⟩] },
       { Id := "upf", NFType := .UPF, Connectivities := [⟨"smf"⟩] }] }

/-- The state of the graph after the topology `smfFirstTopology` was replaced by
`upfAloneTopology`, both applied from the empty deployment. -/
def prunedDeployment : Deployment :=
  ReportNFDeployEvent noIntents (ReportNFDeployEvent noIntents {} smfFirstTopology)
    upfAloneTopology

/-- The two-node deployment after the UPF reported Reconciling=True at instant 1 and
an ambiguous report, all conditions Unknown, at instant 10. -/
def ambiguousDeployment : Deployment :=
  (processEdgeEvents exampleDeployment
    [upfEvent reconcilingReport 1, upfEvent unknownReport 10]).1

/-- The spec of the UPF node `x`, if it is tracked. -/
def upfSpecAt (deployment : Deployment) (x : String) : Option UPFSpec :=
  (deployment.upfNodes.get? x).map UPFNode.Spec

/-- The spec of the SMF node `x`, if it is tracked. -/
def smfSpecAt (deployment : Deployment) (x : String) : Option SMFSpec :=
  (deployment.smfNodes.get? x).map SMFNode.Spec

/-- The state of the graph after the topology `pairTopology` was applied to the empty
deployment and the UPF reported Reconciling=True at instant 1. -/
def reportingDeployment : Deployment :=
  (processEdgeEvent (ReportNFDeployEvent noIntents {} pairTopology)
    (upfEvent reconcilingReport 1)).1

/-! ## Lemmas on Go maps -/

namespace GoMap

variable {V : Type}

theorem lookup_replace (l : List (String × V)) (k k' : String) (v : V) :
    lookup k' (l.map (fun e => if e.1 = k then (k, v) else e)) =
      if k' = k then (lookup k l).map (fun _ => v) else lookup k' l := by
  induction l with
  | nil => simp [lookup]
  | cons e es ih =>
    simp only [List.map_cons, lookup]
    by_cases hk : e.1 = k
    · by_cases hk' : k' = k
      · simp [hk, hk']
      · have : ¬ k = k' := fun h => hk' h.symm
        have h2 : ¬ e.1 = k' := by rw [hk]; exact this
        simp [hk, hk', this, h2, ih]
    · by_cases hk' : k' = k
      · subst hk'
        simp [hk, ih]
      · by_cases h3 : e.1 = k'
        · simp [hk, hk', h3]
        · simp [hk, hk', h3, ih]

theorem lookup_append (l l' : List (String × V)) (k : String) :
    lookup k (l ++ l') = (lookup k l).orElse (fun _ => lookup k l') := by
  induction l with
  | nil => simp [lookup]
  | cons e es ih =>
    simp only [List.cons_append, lookup]
    by_cases h : e.1 = k
    · simp [h]
    · simp [h, ih]

theorem get?_set (m : GoMap V) (k k' : String) (v : V) :
    (m.set k v).get? k' = if k' = k then some v else m.get? k' := by
  unfold set
  by_cases hc : m.contains k = true
  · rw [if_pos hc]
    unfold contains get? at hc
    unfold get?
    simp only [lookup_replace]
    by_cases hk : k' = k
    · simp only [hk, if_true]
      cases h : lookup k m.entries with
      | none => simp [h] at hc
      | some x => rfl
    · simp [hk]
  · rw [if_neg hc]
    have hnone : lookup k m.entries = none := by
      unfold contains get? at hc
      cases h : lookup k m.entries with
      | none => rfl
      | some x => simp [h] at hc
    unfold get?
    simp only [lookup_append, lookup]
    by_cases hk : k' = k
    · subst hk; simp [hnone]
    · have : ¬ k = k' := fun h => hk h.symm
      simp [hk, this]

theorem get?_set_self (m : GoMap V) (k : String) (v : V) : (m.set k v).get? k = some v := by
  simp [get?_set]

theorem contains_set (m : GoMap V) (k k' : String) (v : V) :
    (m.set k v).contains k' = (decide (k' = k) || m.contains k') := by
  unfold contains
  rw [get?_set]
  by_cases h : k' = k <;> simp [h]

theorem lookup_eq_none_iff (l : List (String × V)) (k : String) :
    lookup k l = none ↔ k ∉ l.map Prod.fst := by
  induction l with
  | nil => simp [lookup]
  | cons e es ih =>
    simp only [lookup, List.map_cons, List.mem_cons, not_or]
    by_cases h : e.1 = k
    · simp [h]
    · have : ¬ k = e.1 := fun h' => h h'.symm
      simp [h, this, ih]

theorem keys_set (m : GoMap V) (k : String) (v : V) :
    (m.set k v).keys = if m.contains k then m.keys else m.keys ++ [k] := by
  unfold set keys
  by_cases hc : m.contains k = true
  · simp only [hc, if_true, List.map_map]
    apply List.map_congr_left
    intro e _
    by_cases h : e.1 = k <;> simp [h]
  · simp [hc]

theorem WF_set (m : GoMap V) (k : String) (v : V) (h : m.WF) : (m.set k v).WF := by
  unfold WF at *
  rw [keys_set]
  by_cases hc : m.contains k = true
  · simpa [hc] using h
  · rw [if_neg hc]
    have hnone : lookup k m.entries = none := by
      unfold contains get? at hc
      cases h : lookup k m.entries with
      | none => rfl
      | some x => simp [h] at hc
    have hk : k ∉ m.keys := (lookup_eq_none_iff _ _).mp hnone
    rw [List.nodup_append]
    refine ⟨h, by simp, ?_⟩
    intro a ha hb
    simp at hb
    subst hb
    exact absurd ha hk

theorem WF_empty : (GoMap.empty : GoMap V).WF := by
  simp [WF, keys, empty]

theorem mem_of_lookup_eq_some (l : List (String × V)) (k : String) (v : V)
    (h : lookup k l = some v) : (k, v) ∈ l := by
  induction l with
  | nil => simp [lookup] at h
  | cons e es ih =>
    simp only [lookup] at h
    by_cases hk : e.1 = k
    · rw [if_pos hk] at h
      have hv : e.2 = v := by simpa using h
      have : e = (k, v) := by
        cases e; simp_all
      simp [this]
    · rw [if_neg hk] at h
      exact List.mem_cons_of_mem _ (ih h)

theorem lookup_eq_some_of_mem (l : List (String × V)) (k : String) (v : V)
    (hnodup : (l.map Prod.fst).Nodup) (h : (k, v) ∈ l) : lookup k l = some v := by
  induction l with
  | nil => simp at h
  | cons e es ih =>
    simp only [List.map_cons, List.nodup_cons] at hnodup
    simp only [lookup]
    rcases List.mem_cons.mp h with heq | hmem
    · subst heq; simp
    · have hk : e.1 ≠ k := by
        intro hek
        apply hnodup.1
        rw [hek]
        exact List.mem_map.mpr ⟨(k, v), hmem, rfl⟩
      rw [if_neg hk]
      exact ih hnodup.2 hmem

theorem get?_eq_some_iff_mem (m : GoMap V) (h : m.WF) (k : String) (v : V) :
    m.get? k = some v ↔ (k, v) ∈ m.entries :=
  ⟨mem_of_lookup_eq_some _ _ _, lookup_eq_some_of_mem _ _ _ h⟩

end GoMap

/-! ## Lemmas on the embedding -/

theorem wrapInt_of_range (x : Int) (h1 : -(2 : Int) ^ 63 ≤ x) (h2 : x < 2 ^ 63) :
    wrapInt x = x := by
  unfold wrapInt
  norm_num at h1 h2 ⊢
  omega

theorem TrimSuffix_append (x sep : String) : TrimSuffix (x ++ sep) sep = x := by
  unfold TrimSuffix
  have h : sep.data <:+ (x ++ sep).data := by
    rw [String.data_append]; exact List.suffix_append _ _
  rw [if_pos h]
  apply String.ext
  simp [String.data_append]

theorem TrimSuffix_of_not_suffix (s sep : String) (h : ¬ sep.data <:+ s.data) :
    TrimSuffix s sep = s := by
  unfold TrimSuffix
  rw [if_neg h]

theorem intercalate_go (sep : String) (as : List String) (acc : String) :
    as.foldl (fun m s => m ++ s ++ sep) (acc ++ sep) = String.intercalate.go acc sep as ++ sep := by
  induction as generalizing acc with
  | nil => simp [String.intercalate.go]
  | cons b bs ih =>
    simp only [List.foldl_cons, String.intercalate.go]
    have : acc ++ sep ++ b ++ sep = (acc ++ sep ++ b) ++ sep := rfl
    rw [this, ih]

theorem foldl_append_init (sep : String) (as : List String) (p : String) :
    as.foldl (fun m s => m ++ s ++ sep) p = p ++ as.foldl (fun m s => m ++ s ++ sep) "" := by
  induction as generalizing p with
  | nil => simp
  | cons b bs ih =>
    simp only [List.foldl_cons]
    rw [ih (p ++ b ++ sep), ih ("" ++ b ++ sep)]
    simp [String.append_assoc]

/-- The separator loop followed by `TrimSuffix` and the final full stop lists the
items joined by the separator. -/
theorem joined_message (sep p : String) (as : List String)
    (hp : ¬ sep.data <:+ p.data) :
    TrimSuffix (as.foldl (fun m s => m ++ s ++ sep) p) sep ++ "." =
      p ++ sep.intercalate as ++ "." := by
  cases as with
  | nil =>
    simp only [List.foldl_nil, String.intercalate]
    rw [TrimSuffix_of_not_suffix _ _ hp]
    simp
  | cons a as =>
    rw [foldl_append_init]
    simp only [List.foldl_cons, String.intercalate]
    have h1 : ("" : String) ++ a ++ sep = a ++ sep := by simp
    rw [h1, intercalate_go]
    rw [← String.append_assoc, TrimSuffix_append]

theorem scanActive_append (t : NFConditionType) (xs ys : List Node) (acc : String × Nat) :
    scanActive t ys (scanActive t xs acc) = scanActive t (xs ++ ys) acc := by
  simp [scanActive, List.foldl_append]

theorem scanActive_snd (t : NFConditionType) (nodes : List Node) (acc : String × Nat) :
    (scanActive t nodes acc).2 =
      acc.2 + nodes.countP (fun node => node.Status.activeConditions.contains t) := by
  induction nodes generalizing acc with
  | nil => simp [scanActive]
  | cons n ns ih =>
    have hstep : scanActive t (n :: ns) acc =
        scanActive t ns
          (if n.Status.activeConditions.contains t then (acc.1 ++ n.Id ++ ", ", acc.2 + 1)
           else acc) := rfl
    rw [hstep, ih, List.countP_cons]
    by_cases h : n.Status.activeConditions.contains t = true
    · simp [h]; omega
    · simp [h]

theorem scanActive_statusNodes (deployment : Deployment) (t : NFConditionType)
    (acc : String × Nat) :
    (scanActive t (deployment.udmNodes.values.map UDMNode.toNode)
      (scanActive t (deployment.ausfNodes.values.map AUSFNode.toNode)
        (scanActive t (deployment.smfNodes.values.map SMFNode.toNode)
          (scanActive t (deployment.upfNodes.values.map UPFNode.toNode) acc)))).2 =
      acc.2 + activeCount deployment t := by
  rw [scanActive_append, scanActive_append, scanActive_append, scanActive_snd]
  simp [activeCount, statusNodes, List.append_assoc]

theorem scanNotReady_append (xs ys : List Node) (message : String) :
    scanNotReady ys (scanNotReady xs message) = scanNotReady (xs ++ ys) message := by
  simp [scanNotReady, List.foldl_append]

theorem scanNotReady_eq (nodes : List Node) (message : String) :
    scanNotReady nodes message =
      ((nodes.filter (fun node => !node.Status.activeConditions.contains Ready)).map
        Node.Id).foldl (fun m s => m ++ s ++ ", ") message := by
  induction nodes generalizing message with
  | nil => simp [scanNotReady]
  | cons n ns ih =>
    have hstep : scanNotReady (n :: ns) message =
        scanNotReady ns
          (if n.Status.activeConditions.contains Ready then message
           else message ++ n.Id ++ ", ") := rfl
    rw [hstep, ih]
    by_cases h : n.Status.activeConditions.contains Ready = true
    · simp [h]
    · simp [h]

theorem stalledLoop_eq (id : String) (entries : List (String × String)) (message : String)
    (hnodup : (entries.map Prod.fst).Nodup) :
    entries.foldl
        (fun message e =>
          if e.1 = Stalled then message ++ id ++ ": " ++ e.2 ++ ", " else message) message =
      match GoMap.lookup Stalled entries with
      | some m => message ++ (id ++ ": " ++ m) ++ ", "
      | none => message := by
  induction entries generalizing message with
  | nil => simp [GoMap.lookup]
  | cons e es ih =>
    simp only [List.map_cons, List.nodup_cons] at hnodup
    simp only [List.foldl_cons, GoMap.lookup]
    by_cases h : e.1 = Stalled
    · have hnone : GoMap.lookup Stalled es = none := by
        rw [GoMap.lookup_eq_none_iff]; rw [← h]; exact hnodup.1
      rw [if_pos h, if_pos h, ih _ hnodup.2, hnone]
      simp [String.append_assoc]
    · rw [if_neg h, if_neg h, ih _ hnodup.2]

theorem scanStalled_append (xs ys : List Node) (message : String) :
    scanStalled ys (scanStalled xs message) = scanStalled (xs ++ ys) message := by
  simp [scanStalled, List.foldl_append]

theorem scanStalled_eq (nodes : List Node) (message : String)
    (hwf : ∀ node ∈ nodes, node.Status.activeConditions.WF) :
    scanStalled nodes message =
      (nodes.filterMap
        (fun node =>
          (node.Status.activeConditions.get? Stalled).map
            (fun m => node.Id ++ ": " ++ m))).foldl
        (fun m s => m ++ s ++ ", ") message := by
  induction nodes generalizing message with
  | nil => simp [scanStalled]
  | cons n ns ih =>
    have hstep : scanStalled (n :: ns) message =
        scanStalled ns
          (n.Status.activeConditions.entries.foldl
            (fun message e =>
              if e.1 = Stalled then message ++ n.Id ++ ": " ++ e.2 ++ ", " else message)
            message) := rfl
    have hn : n.Status.activeConditions.WF := hwf n (List.mem_cons_self _ _)
    rw [hstep, ih _ (fun node hmem => hwf node (List.mem_cons_of_mem _ hmem)),
      stalledLoop_eq _ _ _ hn]
    unfold GoMap.get?
    cases hl : GoMap.lookup Stalled n.Status.activeConditions.entries with
    | none => simp [List.filterMap_cons, hl]
    | some m => simp [List.filterMap_cons, hl]

theorem collectLoop_get? (conditionMessage : GoMap String)
    (l : List (String × ConditionStatus)) (acc : GoMap String) (t : String) :
    (l.foldl
      (fun activeConditions e =>
        if e.2 = ConditionTrue then activeConditions.set e.1 (conditionMessage.get e.1)
        else activeConditions) acc).get? t =
      if (t, ConditionTrue) ∈ l then some (conditionMessage.get t) else acc.get? t := by
  induction l generalizing acc with
  | nil => simp
  | cons e es ih =>
    simp only [List.foldl_cons, List.mem_cons]
    rw [ih]
    by_cases hes : (t, ConditionTrue) ∈ es
    · simp [hes]
    · simp only [hes, if_false, or_false]
      by_cases he : e.2 = ConditionTrue
      · rw [if_pos he, GoMap.get?_set]
        by_cases hk : t = e.1
        · have : (t, ConditionTrue) = e := by cases e; simp_all
          rw [if_pos hk, if_pos this, hk]
        · have : ¬ (t, ConditionTrue) = e := by
            intro h; apply hk; rw [← h]
          simp [hk, this]
      · rw [if_neg he]
        have : ¬ (t, ConditionTrue) = e := by
          intro h; apply he; rw [← h]
        simp [this]

theorem collectActiveConditions_get? (conditions : GoMap ConditionStatus)
    (conditionMessage : GoMap String) (hwf : conditions.WF) (t : String) :
    (collectActiveConditions conditions conditionMessage).get? t =
      if conditions.get? t = some ConditionTrue then some (conditionMessage.get t)
      else none := by
  unfold collectActiveConditions
  rw [collectLoop_get?]
  have hiff := GoMap.get?_eq_some_iff_mem conditions hwf t ConditionTrue
  by_cases h : conditions.get? t = some ConditionTrue
  · simp [h, hiff.mp h]
  · have : ¬ (t, ConditionTrue) ∈ conditions.entries := fun hm => h (hiff.mpr hm)
    rw [if_neg this, if_neg h]
    rfl

theorem get_eq_iff_get? (conditions : GoMap ConditionStatus) (t : String) :
    conditions.get t = ConditionTrue ↔ conditions.get? t = some ConditionTrue := by
  unfold GoMap.get
  cases h : conditions.get? t with
  | none => simp; decide
  | some v => simp

theorem validateNFConditionSet_false_iff (conditions : GoMap ConditionStatus) :
    (validateNFConditionSet conditions).2 = false ↔
      (¬ (conditions.get Ready = ConditionTrue ∧ conditions.get Stalled = ConditionTrue) ∧
       ¬ ((conditions.get Ready = ConditionTrue ∨ conditions.get Peering = ConditionTrue) ∧
          conditions.get Available = ConditionFalse) ∧
       ¬ (conditions.get Reconciling = ConditionFalse ∧
          conditions.get Peering = ConditionTrue) ∧
       ¬ ((conditions.get Peering = ConditionTrue ∨
          conditions.get Reconciling = ConditionTrue) ∧
          conditions.get Ready = ConditionTrue)) := by
  unfold validateNFConditionSet
  split_ifs with ha hb hc hd <;> simp_all

/-- The status `updateCurrentNFStatus` derives from a condition set that passes
validation, branch by branch. -/
theorem deriveNFStatus_of_valid (conditions : GoMap ConditionStatus)
    (conditionMessage : GoMap String)
    (hvalid : (validateNFConditionSet conditions).2 = false) :
    deriveNFStatus conditions conditionMessage =
      if conditions.get Available = ConditionFalse ∧
          conditions.get Reconciling = ConditionFalse then
        stalledStatus neitherAvailableNorReconciling
      else if conditions.get Stalled = ConditionTrue then
        { state := Stalled, stateMessage := conditionMessage.get Stalled,
          activeConditions := collectActiveConditions conditions conditionMessage }
      else if conditions.get Ready = ConditionTrue then
        { state := Ready, stateMessage := conditionMessage.get Ready,
          activeConditions :=
            if (collectActiveConditions conditions conditionMessage).contains Available then
              collectActiveConditions conditions conditionMessage
            else (collectActiveConditions conditions conditionMessage).set Available
              readyStateMessage }
      else if conditions.get Peering = ConditionTrue then
        { state := Peering, stateMessage := conditionMessage.get Peering,
          activeConditions :=
            if (if (collectActiveConditions conditions conditionMessage).contains Reconciling
                then collectActiveConditions conditions conditionMessage
                else (collectActiveConditions conditions conditionMessage).set Reconciling
                  peeringStateMessage).contains Available then
              (if (collectActiveConditions conditions conditionMessage).contains Reconciling
                then collectActiveConditions conditions conditionMessage
                else (collectActiveConditions conditions conditionMessage).set Reconciling
                  peeringStateMessage)
            else
              (if (collectActiveConditions conditions conditionMessage).contains Reconciling
                then collectActiveConditions conditions conditionMessage
                else (collectActiveConditions conditions conditionMessage).set Reconciling
                  peeringStateMessage).set Available peeringStateMessage }
      else if conditions.get Reconciling = ConditionTrue then
        { state := Reconciling, stateMessage := conditionMessage.get Reconciling,
          activeConditions := collectActiveConditions conditions conditionMessage }
      else
        { state := Available, stateMessage := conditionMessage.get Available,
          activeConditions := collectActiveConditions conditions conditionMessage } := by
  unfold deriveNFStatus
  rcases hv : validateNFConditionSet conditions with ⟨s, b⟩
  rw [hv] at hvalid
  simp only at hvalid
  subst hvalid
  simp only [Bool.false_eq_true, if_false]

theorem deriveNFStatus_state (conditions : GoMap ConditionStatus)
    (conditionMessage : GoMap String)
    (hvalid : (validateNFConditionSet conditions).2 = false) :
    (deriveNFStatus conditions conditionMessage).state =
      (if conditions.get Available = ConditionFalse ∧
          conditions.get Reconciling = ConditionFalse then Stalled
       else if conditions.get Stalled = ConditionTrue then Stalled
       else if conditions.get Ready = ConditionTrue then Ready
       else if conditions.get Peering = ConditionTrue then Peering
       else if conditions.get Reconciling = ConditionTrue then Reconciling
       else Available) ∧
    (deriveNFStatus conditions conditionMessage).stateMessage =
      (if conditions.get Available = ConditionFalse ∧
          conditions.get Reconciling = ConditionFalse then neitherAvailableNorReconciling
       else if conditions.get Stalled = ConditionTrue then conditionMessage.get Stalled
       else if conditions.get Ready = ConditionTrue then conditionMessage.get Ready
       else if conditions.get Peering = ConditionTrue then conditionMessage.get Peering
       else if conditions.get Reconciling = ConditionTrue then
        conditionMessage.get Reconciling
       else conditionMessage.get Available) := by
  rw [deriveNFStatus_of_valid _ _ hvalid]
  split_ifs <;> exact ⟨rfl, rfl⟩

theorem get?_ensure (active : GoMap String) (k message t : String) :
    (if active.contains k then active else active.set k message).get? t =
      (active.get? t).orElse (fun _ => if t = k then some message else none) := by
  by_cases hc : active.contains k = true
  · rw [if_pos hc]
    cases ht : active.get? t with
    | some v => rfl
    | none =>
      have hne : ¬ t = k := by
        intro h
        subst h
        simp [GoMap.contains, ht] at hc
      simp [hne]
  · rw [if_neg hc, GoMap.get?_set]
    by_cases h : t = k
    · subst h
      have hnone : active.get? t = none := by
        cases hg : active.get? t with
        | none => rfl
        | some v => simp [GoMap.contains, hg] at hc
      simp [hnone]
    · simp only [h, if_false]
      cases active.get? t <;> rfl

theorem deriveNFStatus_activeConditions (conditions : GoMap ConditionStatus)
    (conditionMessage : GoMap String) (hwf : conditions.WF)
    (hvalid : (validateNFConditionSet conditions).2 = false) (t : String) :
    (deriveNFStatus conditions conditionMessage).activeConditions.get? t =
      if conditions.get Available = ConditionFalse ∧
          conditions.get Reconciling = ConditionFalse then
        (if t = Stalled then some neitherAvailableNorReconciling else none)
      else if conditions.get? t = some ConditionTrue then some (conditionMessage.get t)
      else if (deriveNFStatus conditions conditionMessage).state = Ready ∧ t = Available then
        some readyStateMessage
      else if (deriveNFStatus conditions conditionMessage).state = Peering ∧
          (t = Reconciling ∨ t = Available) then
        some peeringStateMessage
      else none := by
  have hA := collectActiveConditions_get? conditions conditionMessage hwf t
  have hstate := (deriveNFStatus_state conditions conditionMessage hvalid).1
  rw [hstate, deriveNFStatus_of_valid _ _ hvalid]
  have d1 : ¬ Stalled = Ready := by decide
  have d2 : ¬ Stalled = Peering := by decide
  have d3 : ¬ Ready = Peering := by decide
  have d4 : ¬ Peering = Ready := by decide
  have d5 : ¬ Reconciling = Ready := by decide
  have d6 : ¬ Reconciling = Peering := by decide
  have d7 : ¬ Available = Ready := by decide
  have d8 : ¬ Available = Peering := by decide
  by_cases h0 : conditions.get Available = ConditionFalse ∧
      conditions.get Reconciling = ConditionFalse
  · simp only [h0, and_self, if_true, stalledStatus, GoMap.get?, GoMap.lookup]
    by_cases ht : t = Stalled
    · simp [ht]
    · have : ¬ Stalled = t := fun h => ht h.symm
      simp [ht, this]
  · simp only [h0, if_false]
    by_cases h1 : conditions.get Stalled = ConditionTrue
    · simp only [h1, if_true, hA, d1, d2, false_and, if_false]
    · simp only [h1, if_false]
      by_cases h2 : conditions.get Ready = ConditionTrue
      · simp only [h2, if_true, get?_ensure, hA, true_and, d3, false_and, if_false]
        by_cases hc : conditions.get? t = some ConditionTrue
        · simp [hc]
        · simp [hc]
      · simp only [h2, if_false]
        by_cases h3 : conditions.get Peering = ConditionTrue
        · simp only [h3, if_true, get?_ensure, hA, true_and, d4, false_and, if_false]
          by_cases hc : conditions.get? t = some ConditionTrue
          · simp [hc]
          · by_cases hr : t = Reconciling
            · subst hr
              simp [hc]
            · simp [hc, hr]
        · simp only [h3, if_false]
          by_cases h4 : conditions.get Reconciling = ConditionTrue
          · simp only [h4, if_true, hA, d5, d6, false_and, if_false]
          · simp only [h4, if_false, hA, d7, d8, false_and, if_false]

theorem updateCurrentNFStatus_upfNodes (deployment : Deployment) (nfId : String)
    (conditions : GoMap ConditionStatus) (conditionMessage : GoMap String) :
    (updateCurrentNFStatus deployment nfId conditions conditionMessage).upfNodes =
      match deployment.upfNodes.get? nfId with
      | some nf =>
        deployment.upfNodes.set nfId
          { nf with
            Status := storedStatus (deriveNFStatus conditions conditionMessage) nf.Status }
      | none => deployment.upfNodes := by
  unfold updateCurrentNFStatus
  cases h1 : deployment.upfNodes.get? nfId <;> dsimp only <;>
  cases h2 : deployment.smfNodes.get? nfId <;> dsimp only <;>
  cases h3 : deployment.ausfNodes.get? nfId <;> dsimp only <;>
  cases h4 : deployment.udmNodes.get? nfId <;> rfl

theorem updateCurrentNFStatus_smfNodes (deployment : Deployment) (nfId : String)
    (conditions : GoMap ConditionStatus) (conditionMessage : GoMap String) :
    (updateCurrentNFStatus deployment nfId conditions conditionMessage).smfNodes =
      match deployment.smfNodes.get? nfId with
      | some nf =>
        deployment.smfNodes.set nfId
          { nf with
            Status := storedStatus (deriveNFStatus conditions conditionMessage) nf.Status }
      | none => deployment.smfNodes := by
  unfold updateCurrentNFStatus
  cases h1 : deployment.upfNodes.get? nfId <;> dsimp only <;>
  cases h2 : deployment.smfNodes.get? nfId <;> dsimp only <;>
  cases h3 : deployment.ausfNodes.get? nfId <;> dsimp only <;>
  cases h4 : deployment.udmNodes.get? nfId <;> rfl

theorem updateCurrentNFStatus_ausfNodes (deployment : Deployment) (nfId : String)
    (conditions : GoMap ConditionStatus) (conditionMessage : GoMap String) :
    (updateCurrentNFStatus deployment nfId conditions conditionMessage).ausfNodes =
      match deployment.ausfNodes.get? nfId with
      | some nf =>
        deployment.ausfNodes.set nfId
          { nf with
            Status := storedStatus (deriveNFStatus conditions conditionMessage) nf.Status }
      | none => deployment.ausfNodes := by
  unfold updateCurrentNFStatus
  cases h1 : deployment.upfNodes.get? nfId <;> dsimp only <;>
  cases h2 : deployment.smfNodes.get? nfId <;> dsimp only <;>
  cases h3 : deployment.ausfNodes.get? nfId <;> dsimp only <;>
  cases h4 : deployment.udmNodes.get? nfId <;> rfl

theorem updateCurrentNFStatus_udmNodes (deployment : Deployment) (nfId : String)
    (conditions : GoMap ConditionStatus) (conditionMessage : GoMap String) :
    (updateCurrentNFStatus deployment nfId conditions conditionMessage).udmNodes =
      match deployment.udmNodes.get? nfId with
      | some nf =>
        deployment.udmNodes.set nfId
          { nf with
            Status := storedStatus (deriveNFStatus conditions conditionMessage) nf.Status }
      | none => deployment.udmNodes := by
  unfold updateCurrentNFStatus
  cases h1 : deployment.upfNodes.get? nfId <;> dsimp only <;>
  cases h2 : deployment.smfNodes.get? nfId <;> dsimp only <;>
  cases h3 : deployment.ausfNodes.get? nfId <;> dsimp only <;>
  cases h4 : deployment.udmNodes.get? nfId <;> rfl

/-- After `updateCurrentNFStatus` the nodes tracked under `nfId` are the same nodes
with the derived status stored, each keeping its own `lastEventTimestamp`. -/
theorem trackedNodes_updateCurrentNFStatus (deployment : Deployment) (nfId : String)
    (conditions : GoMap ConditionStatus) (conditionMessage : GoMap String) :
    trackedNodes (updateCurrentNFStatus deployment nfId conditions conditionMessage) nfId =
      (trackedNodes deployment nfId).map
        (fun node =>
          { node with
            Status := storedStatus (deriveNFStatus conditions conditionMessage) node.Status }) := by
  unfold trackedNodes
  rw [updateCurrentNFStatus_upfNodes, updateCurrentNFStatus_smfNodes,
    updateCurrentNFStatus_ausfNodes, updateCurrentNFStatus_udmNodes]
  cases h1 : deployment.upfNodes.get? nfId <;>
  cases h2 : deployment.smfNodes.get? nfId <;>
  cases h3 : deployment.ausfNodes.get? nfId <;>
  cases h4 : deployment.udmNodes.get? nfId <;>
  simp [h1, h2, h3, h4, GoMap.get?_set_self]

theorem anyLoop_eq (l : List (String × ConditionStatus)) (b : Bool) :
    l.foldl (fun isAny e => if e.2 = ConditionTrue then true else isAny) b =
      (b || l.any (fun e => decide (e.2 = ConditionTrue))) := by
  induction l generalizing b with
  | nil => simp
  | cons e es ih =>
    simp only [List.foldl_cons, List.any_cons]
    rw [ih]
    by_cases h : e.2 = ConditionTrue
    · simp [h]
    · simp [h]

theorem isAmbiguousConditionSet_of_true (conditions : GoMap ConditionStatus) (t : String)
    (h : conditions.get t = ConditionTrue) : isAmbiguousConditionSet conditions = false := by
  have hmem : (t, ConditionTrue) ∈ conditions.entries :=
    GoMap.mem_of_lookup_eq_some _ _ _ ((get_eq_iff_get? conditions t).mp h)
  unfold isAmbiguousConditionSet
  simp only [anyLoop_eq, Bool.false_or]
  have : conditions.entries.any (fun e => decide (e.2 = ConditionTrue)) = true :=
    List.any_eq_true.mpr ⟨(t, ConditionTrue), hmem, by simp⟩
  simp [this]

theorem processNFEdgeEvent_of_not_ambiguous (deployment : Deployment)
    (nfConditions : List NFCondition) (nfId : String)
    (h : isAmbiguousConditionSet (calculateNFConditionSet nfConditions).1 = false) :
    (processNFEdgeEvent deployment nfConditions nfId).1 =
      updateCurrentNFStatus deployment nfId (calculateNFConditionSet nfConditions).1
        (calculateNFConditionSet nfConditions).2 := by
  unfold processNFEdgeEvent
  rcases hc : calculateNFConditionSet nfConditions with ⟨c, m⟩
  rw [hc] at h
  simp only at h
  simp only [h, Bool.false_eq_true, if_false]

theorem deriveNFStatus_readyStalled (conditions : GoMap ConditionStatus)
    (conditionMessage : GoMap String) (hready : conditions.get Ready = ConditionTrue)
    (hstalled : conditions.get Stalled = ConditionTrue) :
    deriveNFStatus conditions conditionMessage = stalledStatus inconsistentReadyStalled := by
  unfold deriveNFStatus validateNFConditionSet
  simp [hready, hstalled]

/-- A stale event, whose timestamp is before the addressed node's
`lastEventTimestamp`, is discarded. -/
theorem processEdgeEvent_of_before (deployment : Deployment) (object : Event) (node : Node)
    (hnode : addressedNode deployment object = some node)
    (hstale : object.Timestamp < node.Status.lastEventTimestamp) :
    processEdgeEvent deployment object = (deployment, none) := by
  unfold addressedNode at hnode
  unfold processEdgeEvent
  cases hobj : object.Object with
  | none => rfl
  | some obj =>
    rw [hobj] at hnode
    simp only at hnode ⊢
    split_ifs at hnode ⊢ with k1 k2 k3 k4
    · cases hg : deployment.upfNodes.get? obj.siteId with
      | none => rfl
      | some nf =>
        rw [hg] at hnode
        simp only [Option.map_some', Option.some.injEq] at hnode
        subst hnode
        simp [Before, hstale]
    · cases hg : deployment.smfNodes.get? obj.siteId with
      | none => rfl
      | some nf =>
        rw [hg] at hnode
        simp only [Option.map_some', Option.some.injEq] at hnode
        subst hnode
        simp [Before, hstale]
    · cases hg : deployment.udmNodes.get? obj.siteId with
      | none => rfl
      | some nf =>
        rw [hg] at hnode
        simp only [Option.map_some', Option.some.injEq] at hnode
        subst hnode
        simp [Before, hstale]
    · cases hg : deployment.ausfNodes.get? obj.siteId with
      | none => rfl
      | some nf =>
        rw [hg] at hnode
        simp only [Option.map_some', Option.some.injEq] at hnode
        subst hnode
        simp [Before, hstale]

/-- An event that is neither stale nor ambiguous stores the status derived from its
condition set, stamped with the event's timestamp, in the node it addresses. -/
theorem addressedNode_processEdgeEvent (deployment : Deployment) (object : Event)
    (obj : NFDeployDocument) (node : Node)
    (hobj : object.Object = some obj)
    (hnode : addressedNode deployment object = some node)
    (hfresh : ¬ object.Timestamp < node.Status.lastEventTimestamp)
    (hclear : isAmbiguousConditionSet (calculateNFConditionSet obj.Conditions).1 = false) :
    addressedNode (processEdgeEvent deployment object).1 object =
      some { node with
        Status :=
          { deriveNFStatus (calculateNFConditionSet obj.Conditions).1
              (calculateNFConditionSet obj.Conditions).2 with
            lastEventTimestamp := object.Timestamp } } := by
  unfold addressedNode at hnode ⊢
  unfold processEdgeEvent
  rw [hobj] at hnode ⊢
  simp only at hnode ⊢
  split_ifs at hnode ⊢ with k1 k2 k3 k4
  · cases hg : deployment.upfNodes.get? obj.siteId with
    | none => rw [hg] at hnode; cases hnode
    | some nf =>
      rw [hg] at hnode
      simp only [Option.map_some', Option.some.injEq] at hnode
      subst hnode
      have hb : Before object.Timestamp nf.Status.lastEventTimestamp = false := by
        simp only [Before, decide_eq_false_iff_not]; exact hfresh
      simp only [hb, Bool.false_eq_true, if_false]
      rw [processNFEdgeEvent_of_not_ambiguous _ _ _ hclear, updateCurrentNFStatus_upfNodes]
      simp only [GoMap.get?_set_self, Option.map_some']
      rfl
  · cases hg : deployment.smfNodes.get? obj.siteId with
    | none => rw [hg] at hnode; cases hnode
    | some nf =>
      rw [hg] at hnode
      simp only [Option.map_some', Option.some.injEq] at hnode
      subst hnode
      have hb : Before object.Timestamp nf.Status.lastEventTimestamp = false := by
        simp only [Before, decide_eq_false_iff_not]; exact hfresh
      simp only [hb, Bool.false_eq_true, if_false]
      rw [processNFEdgeEvent_of_not_ambiguous _ _ _ hclear, updateCurrentNFStatus_smfNodes]
      simp only [GoMap.get?_set_self, Option.map_some']
      rfl
  · cases hg : deployment.udmNodes.get? obj.siteId with
    | none => rw [hg] at hnode; cases hnode
    | some nf =>
      rw [hg] at hnode
      simp only [Option.map_some', Option.some.injEq] at hnode
      subst hnode
      have hb : Before object.Timestamp nf.Status.lastEventTimestamp = false := by
        simp only [Before, decide_eq_false_iff_not]; exact hfresh
      simp only [hb, Bool.false_eq_true, if_false]
      rw [processNFEdgeEvent_of_not_ambiguous _ _ _ hclear, updateCurrentNFStatus_udmNodes]
      simp only [GoMap.get?_set_self, Option.map_some']
      rfl
  · cases hg : deployment.ausfNodes.get? obj.siteId with
    | none => rw [hg] at hnode; cases hnode
    | some nf =>
      rw [hg] at hnode
      simp only [Option.map_some', Option.some.injEq] at hnode
      subst hnode
      have hb : Before object.Timestamp nf.Status.lastEventTimestamp = false := by
        simp only [Before, decide_eq_false_iff_not]; exact hfresh
      simp only [hb, Bool.false_eq_true, if_false]
      rw [processNFEdgeEvent_of_not_ambiguous _ _ _ hclear, updateCurrentNFStatus_ausfNodes]
      simp only [GoMap.get?_set_self, Option.map_some']
      rfl

/-! ## Lemmas on the writer, the listener and the graph -/

theorem isAmbiguousConditionSet_eq (conditions : GoMap ConditionStatus) :
    isAmbiguousConditionSet conditions =
      (!(conditions.entries.any (fun e => decide (e.2 = ConditionTrue))) &&
        !(decide (conditions.get Available = ConditionFalse ∧
            conditions.get Reconciling = ConditionFalse))) := by
  unfold isAmbiguousConditionSet
  simp only [anyLoop_eq, Bool.false_or]
  by_cases h : conditions.get Available = ConditionFalse ∧
      conditions.get Reconciling = ConditionFalse
  · simp [h]
  · simp [h]

theorem processNFEdgeEvent_of_ambiguous (deployment : Deployment)
    (nfConditions : List NFCondition) (nfId : String)
    (h : isAmbiguousConditionSet (calculateNFConditionSet nfConditions).1 = true) :
    processNFEdgeEvent deployment nfConditions nfId = (deployment, none) := by
  unfold processNFEdgeEvent
  rcases hc : calculateNFConditionSet nfConditions with ⟨c, m⟩
  rw [hc] at h
  simp only at h
  simp only [h, if_true]

theorem countLoop_eq (entries : List (String × String)) (count : NFCount)
    (hnodup : (entries.map Prod.fst).Nodup) :
    entries.foldl
        (fun count e =>
          let count :=
            if e.1 = Ready then { count with readyNFs := count.readyNFs + 1 } else count
          let count :=
            if e.1 = Stalled then { count with stalledNFs := count.stalledNFs + 1 } else count
          let count :=
            if e.1 = Available then { count with availableNFs := count.availableNFs + 1 }
            else count
          count)
        count =
      { availableNFs :=
          count.availableNFs + (if (GoMap.lookup Available entries).isSome then 1 else 0),
        readyNFs := count.readyNFs + (if (GoMap.lookup Ready entries).isSome then 1 else 0),
        stalledNFs :=
          count.stalledNFs + (if (GoMap.lookup Stalled entries).isSome then 1 else 0) } := by
  induction entries generalizing count with
  | nil => simp [GoMap.lookup]
  | cons e es ih =>
    simp only [List.map_cons, List.nodup_cons] at hnodup
    simp only [List.foldl_cons]
    rw [ih _ hnodup.2]
    have hnone : ∀ k, e.1 = k → GoMap.lookup k es = none := by
      intro k hk
      rw [GoMap.lookup_eq_none_iff, ← hk]
      exact hnodup.1
    have d1 : ¬ Ready = Stalled := by decide
    have d2 : ¬ Ready = Available := by decide
    have d3 : ¬ Stalled = Ready := by decide
    have d4 : ¬ Stalled = Available := by decide
    have d5 : ¬ Available = Ready := by decide
    have d6 : ¬ Available = Stalled := by decide
    simp only [GoMap.lookup]
    by_cases h1 : e.1 = Ready
    · simp [h1, d1, d2, hnone Ready h1]
    · by_cases h2 : e.1 = Stalled
      · simp [h2, d3, d4, hnone Stalled h2]
      · by_cases h3 : e.1 = Available
        · simp [h3, d5, d6, hnone Available h3]
        · simp [h1, h2, h3]

theorem countNode_eq (count : NFCount) (node : Node)
    (hwf : node.Status.activeConditions.WF) :
    countNode count node =
      { availableNFs :=
          count.availableNFs + (if node.Status.activeConditions.contains Available then 1 else 0),
        readyNFs :=
          count.readyNFs + (if node.Status.activeConditions.contains Ready then 1 else 0),
        stalledNFs :=
          count.stalledNFs +
            (if node.Status.activeConditions.contains Stalled then 1 else 0) } := by
  unfold countNode
  rw [countLoop_eq _ _ hwf]
  rfl

theorem countNodes_eq (nodes : List Node) (count : NFCount)
    (hwf : ∀ node ∈ nodes, node.Status.activeConditions.WF) :
    nodes.foldl countNode count =
      { availableNFs :=
          count.availableNFs +
            (nodes.countP (fun node => node.Status.activeConditions.contains Available) : Nat),
        readyNFs :=
          count.readyNFs +
            (nodes.countP (fun node => node.Status.activeConditions.contains Ready) : Nat),
        stalledNFs :=
          count.stalledNFs +
            (nodes.countP (fun node => node.Status.activeConditions.contains Stalled) : Nat) } := by
  induction nodes generalizing count with
  | nil => simp
  | cons n ns ih =>
    simp only [List.foldl_cons]
    rw [ih _ (fun node hmem => hwf node (List.mem_cons_of_mem _ hmem)),
      countNode_eq _ _ (hwf n (List.mem_cons_self _ _))]
    simp only [List.countP_cons]
    congr 1
    · split_ifs <;> push_cast <;> omega
    · split_ifs <;> push_cast <;> omega
    · split_ifs <;> push_cast <;> omega

theorem calculateNFCount_eq (deployment : Deployment)
    (hwf : ∀ node ∈ statusNodes deployment, node.Status.activeConditions.WF) :
    calculateNFCount deployment =
      ((activeCount deployment Available : Int), (activeCount deployment Ready : Int),
       (activeCount deployment Stalled : Int), ((statusNodes deployment).length : Int)) := by
  have hfold :
      (deployment.udmNodes.values.map UDMNode.toNode).foldl countNode
        ((deployment.ausfNodes.values.map AUSFNode.toNode).foldl countNode
          ((deployment.smfNodes.values.map SMFNode.toNode).foldl countNode
            ((deployment.upfNodes.values.map UPFNode.toNode).foldl countNode {}))) =
        (statusNodes deployment).foldl countNode {} := by
    simp [statusNodes, List.foldl_append]
  unfold calculateNFCount
  simp only [hfold, countNodes_eq _ _ hwf]
  simp [activeCount, statusNodes, GoMap.len, GoMap.values]
  omega

theorem computeSingleNFDeployStatusConditionChange_core
    (conditions : List NFDeployCondition) (currentCondition : NFDeployCondition)
    (currentTime : Time) :
    (computeSingleNFDeployStatusConditionChange conditions currentCondition
      currentTime).core = currentCondition.core := by
  unfold computeSingleNFDeployStatusConditionChange
  cases findConditionIdx conditions currentCondition.type with
  | none => rfl
  | some idx =>
    simp only
    cases conditions[idx]? with
    | none => rfl
    | some original =>
      simp only
      split_ifs <;> rfl

theorem updateNFDeployStatusPass_cores (persisted : NfDeployStatus) (clock : Clock)
    (update : StatusUpdate) :
    (updateNFDeployStatusPass persisted clock update).1.cores = update.cores ∧
    (updateNFDeployStatusPass persisted clock update).2.Conditions.map
      NFDeployCondition.core = update.cores := by
  unfold updateNFDeployStatusPass StatusUpdate.cores
  simp [computeSingleNFDeployStatusConditionChange_core]

theorem retryOnConflict_cores (steps : Nat) (rounds : Nat → ApiRound) (attempt : Nat)
    (update : StatusUpdate) :
    ∀ status ∈ (retryOnConflict steps rounds attempt update).1,
      status.Conditions.map NFDeployCondition.core = update.cores := by
  induction steps generalizing attempt update with
  | zero => intro status h; simp [retryOnConflict] at h
  | succ n ih =>
    intro status h
    unfold retryOnConflict at h
    simp only at h
    cases hget : (rounds attempt).get with
    | error e =>
      rw [hget] at h
      cases e with
      | conflict =>
        simp only at h
        split_ifs at h
        · simp at h
        · exact ih _ _ status h
      | other => simp at h
    | ok persisted =>
      rw [hget] at h
      simp only at h
      have hpass := updateNFDeployStatusPass_cores persisted (rounds attempt).clock update
      rcases hp : updateNFDeployStatusPass persisted (rounds attempt).clock update
        with ⟨update', status'⟩
      rw [hp] at h hpass
      simp only at h hpass
      cases hupd : (rounds attempt).update with
      | none =>
        rw [hupd] at h
        simp only [List.mem_singleton] at h
        rw [h]; exact hpass.2
      | some e =>
        rw [hupd] at h
        cases e with
        | other =>
          simp only [List.mem_singleton] at h
          rw [h]; exact hpass.2
        | conflict =>
          simp only at h
          split_ifs at h
          · simp only [List.mem_singleton] at h
            rw [h]; exact hpass.2
          · rcases hr : retryOnConflict n rounds (attempt + 1) update' with ⟨written, err⟩
            rw [hr] at h
            simp only [List.mem_cons] at h
            rcases h with h | h
            · rw [h]; exact hpass.2
            · have := ih (attempt + 1) update' status (by rw [hr]; exact h)
              rw [this]; exact hpass.1

/-- Every status the writer hands to the store holds the four conditions of the
call, in the order Stalled, Ready, Peering, Reconciling, with their type, status,
reason and message. -/
theorem updateNFDeployStatus_cores (rounds : Nat → ApiRound) (update : StatusUpdate) :
    ∀ status ∈ (updateNFDeployStatus rounds update).1,
      status.Conditions.map NFDeployCondition.core = update.cores :=
  retryOnConflict_cores 5 rounds 0 update

theorem updateNFDeployStatus_written_of_get (rounds : Nat → ApiRound) (update : StatusUpdate)
    (persisted : NfDeployStatus) (hget : (rounds 0).get = .ok persisted) :
    (updateNFDeployStatus rounds update).1 ≠ [] := by
  unfold updateNFDeployStatus retryOnConflict
  simp only [hget]
  rcases hp : updateNFDeployStatusPass persisted (rounds 0).clock update with ⟨u, s⟩
  simp only
  cases hupd : (rounds 0).update with
  | none => simp
  | some e =>
    cases e with
    | other => simp
    | conflict => simp

theorem processNFEdgeEvent_types (deployment deployment' : Deployment)
    (nfConditions : List NFCondition) (nfId : String) (update : StatusUpdate)
    (h : processNFEdgeEvent deployment nfConditions nfId = (deployment', some update)) :
    update.cores.map Prod.fst =
      [.DeploymentStalled, .DeploymentReady, .DeploymentPeering,
       .DeploymentReconciling] := by
  unfold processNFEdgeEvent at h
  rcases hc : calculateNFConditionSet nfConditions with ⟨c, m⟩
  rw [hc] at h
  simp only at h
  split_ifs at h
  · cases h
  · rcases hcount : calculateNFCount (updateCurrentNFStatus deployment nfId c m)
      with ⟨a, r, s, t⟩
    rw [hcount] at h
    simp only [Prod.mk.injEq, Option.some.injEq] at h
    rw [← h.2]
    simp only [StatusUpdate.cores, NFDeployCondition.core, List.map_cons, List.map_nil]
    have h1 : (computeStalledCondition (updateCurrentNFStatus deployment nfId c m) s t).type =
        .DeploymentStalled := by
      unfold computeStalledCondition; split_ifs <;> rfl
    have h2 : (computeReadyCondition (updateCurrentNFStatus deployment nfId c m) r t).type =
        .DeploymentReady := by
      unfold computeReadyCondition; split_ifs <;> rfl
    have h3 : (computePeeringCondition (updateCurrentNFStatus deployment nfId c m) r t).type =
        .DeploymentPeering := by
      unfold computePeeringCondition; dsimp only; split_ifs <;> rfl
    have h4 : (computeReconcilingCondition (updateCurrentNFStatus deployment nfId c m) r t).type =
        .DeploymentReconciling := by
      unfold computeReconcilingCondition; dsimp only; split_ifs <;> rfl
    rw [h1, h2, h3, h4]

theorem findConditionIdx_append (conditions : List NFDeployCondition) (c : NFDeployCondition)
    (t : NFDeployConditionType) :
    findConditionIdx (conditions ++ [c]) t =
      if c.type = t then some conditions.length else findConditionIdx conditions t := by
  unfold findConditionIdx
  rw [List.enum_append, List.foldl_append]
  simp [List.enumFrom]

theorem persistedCondition_append (conditions : List NFDeployCondition) (c : NFDeployCondition)
    (t : NFDeployConditionType) :
    persistedCondition (conditions ++ [c]) t =
      if c.type = t then some c else persistedCondition conditions t := by
  unfold persistedCondition
  rw [List.filter_append]
  by_cases h : c.type = t
  · simp [h, List.filter_cons]
  · simp [h, List.filter_cons]

theorem findConditionIdx_spec (conditions : List NFDeployCondition)
    (t : NFDeployConditionType) :
    match findConditionIdx conditions t with
    | none => persistedCondition conditions t = none
    | some idx => conditions[idx]? = persistedCondition conditions t ∧
        (persistedCondition conditions t).isSome = true := by
  induction conditions using List.reverseRecOn with
  | nil => simp [findConditionIdx, persistedCondition]
  | append_singleton l c ih =>
    rw [findConditionIdx_append, persistedCondition_append]
    by_cases h : c.type = t
    · simp [h]
    · simp only [h, if_false]
      cases hidx : findConditionIdx l t with
      | none => rw [hidx] at ih; exact ih
      | some idx =>
        rw [hidx] at ih
        simp only at ih ⊢
        refine ⟨?_, ih.2⟩
        rw [← ih.1]
        have hsome : (l[idx]?).isSome = true := by rw [ih.1]; exact ih.2
        have hlt : idx < l.length := by
          rcases hl : l[idx]? with _ | x
          · rw [hl] at hsome; cases hsome
          · exact (List.getElem?_eq_some_iff.mp hl).1
        exact List.getElem?_append_left hlt

/-- The code's index search and lookup, read as the persisted condition of the same
type. -/
theorem computeSingleNFDeployStatusConditionChange_eq
    (conditions : List NFDeployCondition) (currentCondition : NFDeployCondition)
    (currentTime : Time) :
    computeSingleNFDeployStatusConditionChange conditions currentCondition currentTime =
      match persistedCondition conditions currentCondition.type with
      | none =>
        { currentCondition with
          LastTransitionTime := currentTime, LastUpdateTime := currentTime }
      | some original =>
        if areNFDeployStatusConditionsEqual currentCondition original then currentCondition
        else if currentCondition.Status = original.Status then
          { currentCondition with
            LastTransitionTime := original.LastTransitionTime,
            LastUpdateTime := currentTime }
        else
          { currentCondition with
            LastTransitionTime := currentTime, LastUpdateTime := currentTime } := by
  have hspec := findConditionIdx_spec conditions currentCondition.type
  unfold computeSingleNFDeployStatusConditionChange
  cases hidx : findConditionIdx conditions currentCondition.type with
  | none =>
    rw [hidx] at hspec
    simp only at hspec
    rw [hspec]
  | some idx =>
    rw [hidx] at hspec
    simp only at hspec ⊢
    rw [hspec.1]
    cases hp : persistedCondition conditions currentCondition.type with
    | none => rw [hp] at hspec; cases hspec.2
    | some original => rfl

namespace GoMap
variable {V : Type}

theorem contains_iff_mem_keys (m : GoMap V) (k : String) :
    m.contains k = true ↔ k ∈ m.keys := by
  unfold contains get? keys
  have h := lookup_eq_none_iff m.entries k
  cases hl : lookup k m.entries with
  | none => simp [h.mp hl]
  | some v =>
    have : ¬ k ∉ m.entries.map Prod.fst := fun hn => by
      rw [h.mpr hn] at hl; cases hl
    simp only [Option.isSome_some, true_iff]
    exact not_not.mp this

theorem lookup_filter_key (p : String → Bool) (l : List (String × V)) (k : String) :
    lookup k (l.filter (fun e => p e.1)) = if p k then lookup k l else none := by
  induction l with
  | nil => simp [lookup]
  | cons e es ih =>
    by_cases hp : p e.1 = true
    · rw [List.filter_cons_of_pos (by simpa using hp)]
      simp only [lookup]
      by_cases hk : e.1 = k
      · subst hk; simp [hp]
      · simp [hk, ih]
    · rw [List.filter_cons_of_neg (by simpa using hp)]
      simp only [lookup]
      by_cases hk : e.1 = k
      · subst hk; simp [hp, ih]
      · simp [hk, ih]

theorem keys_set_of_contains (m : GoMap V) (k : String) (v : V) (h : m.contains k = true) :
    (m.set k v).keys = m.keys := by
  rw [keys_set, if_pos h]

theorem keys_set_of_not_contains (m : GoMap V) (k : String) (v : V)
    (h : m.contains k = false) : (m.set k v).keys = m.keys ++ [k] := by
  rw [keys_set]; simp [h]

end GoMap

/-! ### Edges -/

theorem Edge.IsEqual_comm (edge : Edge) (a b : String) :
    edge.IsEqual a b = edge.IsEqual b a := by
  unfold Edge.IsEqual
  by_cases h1 : edge.FirstNode = a <;> by_cases h2 : edge.SecondNode = b <;>
    by_cases h3 : edge.FirstNode = b <;> by_cases h4 : edge.SecondNode = a <;>
    simp [h1, h2, h3, h4]

theorem removeFirstEdge_sublist (a b : String) (edges : List Edge) :
    (removeFirstEdge a b edges).Sublist edges := by
  induction edges with
  | nil => simp [removeFirstEdge]
  | cons e es ih =>
    unfold removeFirstEdge
    split_ifs
    · exact List.sublist_cons_self e es
    · exact ih.cons₂ e

theorem Edge.IsEqual_of_IsEqual (e f : Edge) (a b : String) (he : e.IsEqual a b = true)
    (hf : f.IsEqual a b = true) : f.IsEqual e.FirstNode e.SecondNode = true := by
  unfold Edge.IsEqual at *
  simp only [Bool.decide_or, Bool.decide_and, Bool.or_eq_true, Bool.and_eq_true,
    decide_eq_true_eq] at *
  rcases he with ⟨h1, h2⟩ | ⟨h1, h2⟩ <;> rcases hf with ⟨h3, h4⟩ | ⟨h3, h4⟩
  · left; exact ⟨h3.trans h1.symm, h4.trans h2.symm⟩
  · right; exact ⟨h3.trans h2.symm, h4.trans h1.symm⟩
  · right; exact ⟨h3.trans h2.symm, h4.trans h1.symm⟩
  · left; exact ⟨h3.trans h1.symm, h4.trans h2.symm⟩

/-- In an edge list without duplicates, removing the first edge between two ids
removes every edge between them. -/
theorem removeFirstEdge_eq_filter (a b : String) (edges : List Edge)
    (hnd : NoDuplicateEdges edges) :
    removeFirstEdge a b edges = edges.filter (fun e => !e.IsEqual a b) := by
  induction edges with
  | nil => simp [removeFirstEdge]
  | cons e es ih =>
    unfold NoDuplicateEdges at hnd
    rw [List.pairwise_cons] at hnd
    unfold removeFirstEdge
    by_cases he : e.IsEqual a b = true
    · rw [if_pos he, List.filter_cons_of_neg (by simp [he])]
      symm
      rw [List.filter_eq_self]
      intro f hf
      have hfe := hnd.1 f hf
      cases hfab : f.IsEqual a b with
      | false => rfl
      | true =>
        have := Edge.IsEqual_of_IsEqual e f a b he hfab
        rw [hfe] at this; cases this
    · rw [if_neg he, List.filter_cons_of_pos (by simpa using he), ih hnd.2]

theorem NoDuplicateEdges.sublist {l l' : List Edge} (h : l'.Sublist l)
    (hnd : NoDuplicateEdges l) : NoDuplicateEdges l' :=
  List.Pairwise.sublist h hnd

theorem nodeAt_isSome_iff (deployment : Deployment) (t : NFType) (x : String) :
    (nodeAt deployment t x).isSome = true ↔ x ∈ partitionKeys deployment t := by
  cases t <;>
    simp [nodeAt, partitionKeys, ← GoMap.contains_iff_mem_keys, GoMap.contains]

theorem nodeAt_getNFType (deployment : Deployment) (x : String)
    (h : getNFType deployment x ≠ .UnspecifiedNFType) :
    (nodeAt deployment (getNFType deployment x) x).isSome = true := by
  unfold getNFType at h ⊢
  split_ifs at h ⊢ with h1 h2 h3 h4 h5
  · simpa [nodeAt, GoMap.contains] using h1
  · simpa [nodeAt, GoMap.contains] using h2
  · simpa [nodeAt, GoMap.contains] using h3
  · simpa [nodeAt, GoMap.contains] using h4
  · simpa [nodeAt, GoMap.contains] using h5
  · exact absurd rfl h

theorem getNFType_ne_unspecified_of_mem (deployment : Deployment) (t : NFType) (x : String)
    (h : x ∈ partitionKeys deployment t) :
    getNFType deployment x ≠ .UnspecifiedNFType := by
  unfold getNFType
  cases t <;> simp only [partitionKeys, ← GoMap.contains_iff_mem_keys] at h
  · simp at h
  all_goals (split_ifs <;> simp_all)

theorem getNFType_eq_unspecified_of_not_mem (deployment : Deployment) (x : String)
    (h : ∀ t, x ∉ partitionKeys deployment t) :
    getNFType deployment x = .UnspecifiedNFType := by
  by_contra hne
  have hs := nodeAt_getNFType deployment x hne
  exact h _ ((nodeAt_isSome_iff _ _ _).mp hs)

theorem addConnection_edges (deployment : Deployment) (a : String) (t : NFType) (b : String) :
    (addConnection deployment a t b).edges = deployment.edges := by
  unfold addConnection
  cases t <;> simp only <;> split <;> rfl

theorem addConnection_name (deployment : Deployment) (a : String) (t : NFType) (b : String) :
    (addConnection deployment a t b).name = deployment.name := by
  unfold addConnection
  cases t <;> simp only <;> split <;> rfl

/-- After `addConnection` every node is where it was; the node `a` of the partition
`t` has `b` added to its connection set. -/
theorem nodeAt_addConnection (deployment : Deployment) (a : String) (t : NFType) (b : String)
    (t' : NFType) (x : String) :
    nodeAt (addConnection deployment a t b) t' x =
      (nodeAt deployment t' x).map
        (fun node =>
          if t' = t ∧ x = a then { node with Connections := node.Connections.set b () }
          else node) := by
  by_cases htt : t' = t
  swap
  · have hid : (fun node : Node =>
        if t' = t ∧ x = a then ({ node with Connections := node.Connections.set b () } : Node)
        else node) = id := by
      funext node; simp [htt]
    rw [hid, Option.map_id]
    unfold addConnection
    cases t <;> simp only <;> (try split) <;> cases t' <;>
      first
      | rfl
      | exact absurd rfl htt
  · subst htt
    by_cases hxa : x = a
    swap
    · have hid : (fun node : Node =>
          if t' = t' ∧ x = a then
            ({ node with Connections := node.Connections.set b () } : Node)
          else node) = id := by
        funext node; simp [hxa]
      rw [hid, Option.map_id]
      unfold addConnection
      cases t' <;> simp only <;> (try split) <;>
        simp [nodeAt, GoMap.get?_set, hxa]
    · subst hxa
      have hf : (fun node : Node =>
          if t' = t' ∧ x = x then
            ({ node with Connections := node.Connections.set b () } : Node)
          else node) =
          (fun node : Node => { node with Connections := node.Connections.set b () }) := by
        funext node; simp
      rw [hf]
      unfold addConnection
      cases t' <;> simp only <;> (try split) <;>
        simp_all [nodeAt, GoMap.get?_set]

namespace GoMap
variable {V W : Type}

/-- Replacing the value of a present key by one that a projection cannot tell from
the old one leaves the projected entries as they were. -/
theorem map_entries_set (m : GoMap V) (hwf : m.WF) (k : String) (v v' : V) (f : V → W)
    (hget : m.get? k = some v) (hf : f v' = f v) :
    (m.set k v').entries.map (fun e => (e.1, f e.2)) =
      m.entries.map (fun e => (e.1, f e.2)) := by
  have hc : m.contains k = true := by simp [contains, hget]
  unfold set
  rw [if_pos hc]
  simp only [List.map_map]
  apply List.map_congr_left
  intro e he
  by_cases hk : e.1 = k
  · have hl : lookup k m.entries = some e.2 := by
      apply lookup_eq_some_of_mem _ _ _ hwf
      rw [← hk]; exact he
    have hv : e.2 = v := by
      have : some e.2 = some v := by rw [← hl]; exact hget
      exact Option.some.inj this
    simp [hk, hf, hv]
  · simp [hk]

end GoMap

theorem partitionKeys_addConnection (deployment : Deployment) (a : String) (t : NFType)
    (b : String) (t' : NFType) :
    partitionKeys (addConnection deployment a t b) t' = partitionKeys deployment t' := by
  unfold addConnection
  cases t <;> simp only
  all_goals
    split
    · rename_i node hg
      cases t' <;> simp only [partitionKeys]
      all_goals
        apply GoMap.keys_set_of_contains
        simp [GoMap.contains, hg]
    · rfl

theorem WFNodes_addConnection (deployment : Deployment) (a : String) (t : NFType) (b : String)
    (hwf : WFNodes deployment) : WFNodes (addConnection deployment a t b) := by
  have hk := partitionKeys_addConnection deployment a t b
  have h1 := hk .UPF
  have h2 := hk .SMF
  have h3 := hk .AMF
  have h4 := hk .AUSF
  have h5 := hk .UDM
  simp only [partitionKeys] at h1 h2 h3 h4 h5
  unfold WFNodes GoMap.WF at *
  rw [h1, h2, h3, h4, h5]
  exact hwf

theorem withoutConnectivity_addConnection (deployment : Deployment) (a : String) (t : NFType)
    (b : String) (hwf : WFNodes deployment) :
    withoutConnectivity (addConnection deployment a t b) = withoutConnectivity deployment := by
  obtain ⟨w1, w2, w3, w4, w5⟩ := hwf
  unfold addConnection
  cases t <;> simp only
  case UPF =>
    split
    · rename_i node hg
      unfold withoutConnectivity
      simp only [Deployment.mk.injEq, GoMap.mk.injEq, true_and, and_true]
      exact GoMap.map_entries_set _ w1 a node _
        (fun n : UPFNode => ({ n with Connections := GoMap.empty } : UPFNode)) hg rfl
    · rfl
  case SMF =>
    split
    · rename_i node hg
      unfold withoutConnectivity
      simp only [Deployment.mk.injEq, GoMap.mk.injEq, true_and, and_true]
      exact GoMap.map_entries_set _ w2 a node _
        (fun n : SMFNode => ({ n with Connections := GoMap.empty } : SMFNode)) hg rfl
    · rfl
  case AMF =>
    split
    · rename_i node hg
      unfold withoutConnectivity
      simp only [Deployment.mk.injEq, GoMap.mk.injEq, true_and, and_true]
      exact GoMap.map_entries_set _ w3 a node _
        (fun n : AMFNode => ({ n with Connections := GoMap.empty } : AMFNode)) hg rfl
    · rfl
  case AUSF =>
    split
    · rename_i node hg
      unfold withoutConnectivity
      simp only [Deployment.mk.injEq, GoMap.mk.injEq, true_and, and_true]
      exact GoMap.map_entries_set _ w4 a node _
        (fun n : AUSFNode => ({ n with Connections := GoMap.empty } : AUSFNode)) hg rfl
    · rfl
  case UDM =>
    split
    · rename_i node hg
      unfold withoutConnectivity
      simp only [Deployment.mk.injEq, GoMap.mk.injEq, true_and, and_true]
      exact GoMap.map_entries_set _ w5 a node _
        (fun n : UDMNode => ({ n with Connections := GoMap.empty } : UDMNode)) hg rfl
    · rfl

/-! ### createEdge -/

theorem createEdge_of_connected (deployment : Deployment) (a b : String)
    (h : ∃ e ∈ deployment.edges, e.IsEqual a b = true) :
    createEdge deployment a b = deployment := by
  unfold createEdge
  have : deployment.edges.any (fun edge => edge.IsEqual b a) = true := by
    obtain ⟨e, he, heq⟩ := h
    exact List.any_eq_true.mpr ⟨e, he, by rw [Edge.IsEqual_comm]; exact heq⟩
  rw [if_pos this]

theorem createEdge_of_not_connected (deployment : Deployment) (a b : String)
    (h : ¬ ∃ e ∈ deployment.edges, e.IsEqual a b = true) :
    createEdge deployment a b =
      { addConnection (addConnection deployment a (getNFType deployment a) b) b
          (getNFType deployment b) a with
        edges := deployment.edges ++ [{ FirstNode := a, SecondNode := b }] } := by
  unfold createEdge
  have : ¬ deployment.edges.any (fun edge => edge.IsEqual b a) = true := by
    intro hany
    obtain ⟨e, he, heq⟩ := List.any_eq_true.mp hany
    exact h ⟨e, he, by rw [Edge.IsEqual_comm]; exact heq⟩
  rw [if_neg this]
  simp only [addConnection_edges]

theorem createEdge_edges (deployment : Deployment) (a b : String) :
    (createEdge deployment a b).edges =
      if ∃ e ∈ deployment.edges, e.IsEqual a b = true then deployment.edges
      else deployment.edges ++ [{ FirstNode := a, SecondNode := b }] := by
  by_cases h : ∃ e ∈ deployment.edges, e.IsEqual a b = true
  · rw [createEdge_of_connected _ _ _ h, if_pos h]
  · rw [createEdge_of_not_connected _ _ _ h, if_neg h]

theorem partitionKeys_createEdge (deployment : Deployment) (a b : String) (t : NFType) :
    partitionKeys (createEdge deployment a b) t = partitionKeys deployment t := by
  by_cases h : ∃ e ∈ deployment.edges, e.IsEqual a b = true
  · rw [createEdge_of_connected _ _ _ h]
  · rw [createEdge_of_not_connected _ _ _ h]
    have : partitionKeys
        { addConnection (addConnection deployment a (getNFType deployment a) b) b
            (getNFType deployment b) a with
          edges := deployment.edges ++ [{ FirstNode := a, SecondNode := b }] } t =
        partitionKeys (addConnection (addConnection deployment a (getNFType deployment a) b) b
            (getNFType deployment b) a) t := by
      cases t <;> rfl
    rw [this, partitionKeys_addConnection, partitionKeys_addConnection]

theorem nodeAt_createEdge (deployment : Deployment) (a b : String) (t : NFType) (x : String)
    (h : ¬ ∃ e ∈ deployment.edges, e.IsEqual a b = true) :
    nodeAt (createEdge deployment a b) t x =
      (nodeAt deployment t x).map
        (fun node =>
          connectIf (t = getNFType deployment b ∧ x = b)
            (connectIf (t = getNFType deployment a ∧ x = a) node b) a) := by
  rw [createEdge_of_not_connected _ _ _ h]
  have : nodeAt
      { addConnection (addConnection deployment a (getNFType deployment a) b) b
          (getNFType deployment b) a with
        edges := deployment.edges ++ [{ FirstNode := a, SecondNode := b }] } t x =
      nodeAt (addConnection (addConnection deployment a (getNFType deployment a) b) b
          (getNFType deployment b) a) t x := by
    cases t <;> rfl
  rw [this, nodeAt_addConnection, nodeAt_addConnection, Option.map_map]
  rfl

theorem WFNodes_createEdge (deployment : Deployment) (a b : String)
    (hwf : WFNodes deployment) : WFNodes (createEdge deployment a b) := by
  have hk := partitionKeys_createEdge deployment a b
  have h1 := hk .UPF
  have h2 := hk .SMF
  have h3 := hk .AMF
  have h4 := hk .AUSF
  have h5 := hk .UDM
  simp only [partitionKeys] at h1 h2 h3 h4 h5
  unfold WFNodes GoMap.WF at *
  rw [h1, h2, h3, h4, h5]
  exact hwf

theorem withoutConnectivity_createEdge (deployment : Deployment) (a b : String)
    (hwf : WFNodes deployment) :
    withoutConnectivity (createEdge deployment a b) = withoutConnectivity deployment := by
  by_cases h : ∃ e ∈ deployment.edges, e.IsEqual a b = true
  · rw [createEdge_of_connected _ _ _ h]
  · rw [createEdge_of_not_connected _ _ _ h]
    have : withoutConnectivity
        { addConnection (addConnection deployment a (getNFType deployment a) b) b
            (getNFType deployment b) a with
          edges := deployment.edges ++ [{ FirstNode := a, SecondNode := b }] } =
        withoutConnectivity
          (addConnection (addConnection deployment a (getNFType deployment a) b) b
            (getNFType deployment b) a) := rfl
    rw [this, withoutConnectivity_addConnection _ _ _ _ (WFNodes_addConnection _ _ _ _ hwf),
      withoutConnectivity_addConnection _ _ _ _ hwf]

namespace GoMap
variable {V : Type}

/-- Deleting the stale keys among `ks` one by one filters the entries. -/
theorem foldl_delete_entries (stale : String → Bool) (ks : List String) (m : GoMap V) :
    (ks.foldl (fun m k => if stale k then m.delete k else m) m).entries =
      m.entries.filter (fun e => !(stale e.1 && decide (e.1 ∈ ks))) := by
  induction ks generalizing m with
  | nil => simp
  | cons k ks ih =>
    rw [List.foldl_cons, ih]
    by_cases hk : stale k = true
    · rw [if_pos hk]
      unfold delete
      simp only [List.filter_filter]
      apply List.filter_congr
      intro e _
      by_cases hek : e.1 = k
      · simp [hek, hk]
      · simp [hek]
    · rw [if_neg hk]
      apply List.filter_congr
      intro e _
      by_cases hek : e.1 = k
      · simp [hek, hk]
      · simp [hek]

/-- Deleting the stale keys of a map while ranging over it keeps the entries whose
key is not stale. -/
theorem foldl_delete_self (stale : String → Bool) (m : GoMap V) :
    (m.keys.foldl (fun m k => if stale k then m.delete k else m) m) =
      ⟨m.entries.filter (fun e => !stale e.1)⟩ := by
  have h := foldl_delete_entries stale m.keys m
  cases hm : (m.keys.foldl (fun m k => if stale k then m.delete k else m) m) with
  | mk entries =>
    rw [hm] at h
    simp only at h
    rw [h]
    congr 1
    apply List.filter_congr
    intro e he
    have : e.1 ∈ m.keys := List.mem_map_of_mem Prod.fst he
    simp [this]

theorem get?_filter_key (p : String → Bool) (m : GoMap V) (k : String) :
    (⟨m.entries.filter (fun e => p e.1)⟩ : GoMap V).get? k =
      if p k then m.get? k else none := by
  unfold get?
  exact lookup_filter_key p m.entries k

theorem keys_filter_key (p : String → Bool) (m : GoMap V) :
    (⟨m.entries.filter (fun e => p e.1)⟩ : GoMap V).keys = m.keys.filter p := by
  unfold keys
  simp only
  rw [List.filter_map]
  rfl

end GoMap

/-! ### Removing edges -/

theorem removeEdgesOf_eq (deployment : Deployment) (key : String) (connections : GoMap Unit) :
    removeEdgesOf deployment key connections =
      { deployment with edges := removeEdgesTo key connections.keys deployment.edges } := by
  unfold removeEdgesOf removeEdgesTo
  generalize connections.keys = l
  induction l generalizing deployment with
  | nil => rfl
  | cons n l ih =>
    rw [List.foldl_cons, ih]
    rfl

theorem removeEdgesTo_sublist (key : String) (neighbours : List String) (edges : List Edge) :
    (removeEdgesTo key neighbours edges).Sublist edges := by
  unfold removeEdgesTo
  induction neighbours generalizing edges with
  | nil => exact List.Sublist.refl _
  | cons n l ih =>
    rw [List.foldl_cons]
    exact (ih _).trans (removeFirstEdge_sublist key n edges)

theorem pruneEdges_sublist (nodes : List (String × GoMap Unit)) (edges : List Edge) :
    (pruneEdges nodes edges).Sublist edges := by
  unfold pruneEdges
  induction nodes generalizing edges with
  | nil => exact List.Sublist.refl _
  | cons n l ih =>
    rw [List.foldl_cons]
    exact (ih _).trans (removeEdgesTo_sublist _ _ edges)

theorem pruneEdges_append (xs ys : List (String × GoMap Unit)) (edges : List Edge) :
    pruneEdges (xs ++ ys) edges = pruneEdges ys (pruneEdges xs edges) := by
  unfold pruneEdges
  rw [List.foldl_append]

/-- In an edge list without duplicates no edge to a listed neighbour of `key`
survives `removeEdgesTo`. -/
theorem removeEdgesTo_spec (key : String) (neighbours : List String) (edges : List Edge)
    (hnd : NoDuplicateEdges edges) :
    ∀ e ∈ removeEdgesTo key neighbours edges, ∀ n ∈ neighbours, e.IsEqual key n = false := by
  unfold removeEdgesTo
  induction neighbours generalizing edges with
  | nil => intro e _ n hn; cases hn
  | cons m l ih =>
    intro e he n hn
    rw [List.foldl_cons] at he
    have hnd' : NoDuplicateEdges (removeFirstEdge key m edges) :=
      NoDuplicateEdges.sublist (removeFirstEdge_sublist key m edges) hnd
    rcases List.mem_cons.mp hn with hnm | hnl
    · subst hnm
      have hsub := removeEdgesTo_sublist key l (removeFirstEdge key n edges)
      unfold removeEdgesTo at hsub
      have hmem := hsub.subset he
      rw [removeFirstEdge_eq_filter _ _ _ hnd] at hmem
      have := (List.mem_filter.mp hmem).2
      simpa using this
    · exact ih _ hnd' e he n hnl

/-- In an edge list without duplicates no edge between a listed node and one of its
neighbours survives `pruneEdges`. -/
theorem pruneEdges_spec (nodes : List (String × GoMap Unit)) (edges : List Edge)
    (hnd : NoDuplicateEdges edges) :
    ∀ e ∈ pruneEdges nodes edges, ∀ p ∈ nodes, ∀ n ∈ p.2.keys, e.IsEqual p.1 n = false := by
  unfold pruneEdges
  induction nodes generalizing edges with
  | nil => intro e _ p hp; cases hp
  | cons q l ih =>
    intro e he p hp n hn
    rw [List.foldl_cons] at he
    have hnd' : NoDuplicateEdges (removeEdgesTo q.1 q.2.keys edges) :=
      NoDuplicateEdges.sublist (removeEdgesTo_sublist _ _ edges) hnd
    rcases List.mem_cons.mp hp with hpq | hpl
    · subst hpq
      have hsub := pruneEdges_sublist l (removeEdgesTo p.1 p.2.keys edges)
      unfold pruneEdges at hsub
      exact removeEdgesTo_spec p.1 p.2.keys edges hnd e (hsub.subset he) n hn
    · exact ih _ hnd' e he p hpl n hn

/-! ### The loops of removeNFs -/

theorem foldl_prune_upf (nfList : GoMap NFType) (l : List (String × UPFNode))
    (deployment : Deployment) :
    l.foldl
        (fun deployment e =>
          if isStale nfList e.1 .UPF then
            let deployment := removeEdgesOf deployment e.1 e.2.Connections
            { deployment with upfNodes := deployment.upfNodes.delete e.1 }
          else deployment)
        deployment =
      { deployment with
        upfNodes :=
          (l.map Prod.fst).foldl
            (fun m k => if isStale nfList k .UPF then m.delete k else m) deployment.upfNodes,
        edges :=
          pruneEdges
            ((l.filter (fun e => isStale nfList e.1 .UPF)).map (fun e => (e.1, e.2.Connections)))
            deployment.edges } := by
  induction l generalizing deployment with
  | nil => rfl
  | cons e l ih =>
    rw [List.foldl_cons, ih]
    by_cases h : isStale nfList e.1 .UPF = true
    · simp only [h, if_true, removeEdgesOf_eq, List.map_cons, List.foldl_cons,
        List.filter_cons_of_pos, pruneEdges]
    · simp only [h, if_false, List.map_cons, List.foldl_cons, Bool.false_eq_true]
      rw [List.filter_cons_of_neg (by simpa using h)]

theorem foldl_prune_smf (nfList : GoMap NFType) (l : List (String × SMFNode))
    (deployment : Deployment) :
    l.foldl
        (fun deployment e =>
          if isStale nfList e.1 .SMF then
            let deployment := removeEdgesOf deployment e.1 e.2.Connections
            { deployment with smfNodes := deployment.smfNodes.delete e.1 }
          else deployment)
        deployment =
      { deployment with
        smfNodes :=
          (l.map Prod.fst).foldl
            (fun m k => if isStale nfList k .SMF then m.delete k else m) deployment.smfNodes,
        edges :=
          pruneEdges
            ((l.filter (fun e => isStale nfList e.1 .SMF)).map (fun e => (e.1, e.2.Connections)))
            deployment.edges } := by
  induction l generalizing deployment with
  | nil => rfl
  | cons e l ih =>
    rw [List.foldl_cons, ih]
    by_cases h : isStale nfList e.1 .SMF = true
    · simp only [h, if_true, removeEdgesOf_eq, List.map_cons, List.foldl_cons,
        List.filter_cons_of_pos, pruneEdges]
    · simp only [h, if_false, List.map_cons, List.foldl_cons, Bool.false_eq_true]
      rw [List.filter_cons_of_neg (by simpa using h)]

theorem foldl_prune_amf (nfList : GoMap NFType) (l : List (String × AMFNode))
    (deployment : Deployment) :
    l.foldl
        (fun deployment e =>
          if isStale nfList e.1 .AMF then
            let deployment := removeEdgesOf deployment e.1 e.2.Connections
            { deployment with amfNodes := deployment.amfNodes.delete e.1 }
          else deployment)
        deployment =
      { deployment with
        amfNodes :=
          (l.map Prod.fst).foldl
            (fun m k => if isStale nfList k .AMF then m.delete k else m) deployment.amfNodes,
        edges :=
          pruneEdges
            ((l.filter (fun e => isStale nfList e.1 .AMF)).map (fun e => (e.1, e.2.Connections)))
            deployment.edges } := by
  induction l generalizing deployment with
  | nil => rfl
  | cons e l ih =>
    rw [List.foldl_cons, ih]
    by_cases h : isStale nfList e.1 .AMF = true
    · simp only [h, if_true, removeEdgesOf_eq, List.map_cons, List.foldl_cons,
        List.filter_cons_of_pos, pruneEdges]
    · simp only [h, if_false, List.map_cons, List.foldl_cons, Bool.false_eq_true]
      rw [List.filter_cons_of_neg (by simpa using h)]

theorem foldl_prune_udm (nfList : GoMap NFType) (l : List (String × UDMNode))
    (deployment : Deployment) :
    l.foldl
        (fun deployment e =>
          if isStale nfList e.1 .UDM then
            let deployment := removeEdgesOf deployment e.1 e.2.Connections
            { deployment with udmNodes := deployment.udmNodes.delete e.1 }
          else deployment)
        deployment =
      { deployment with
        udmNodes :=
          (l.map Prod.fst).foldl
            (fun m k => if isStale nfList k .UDM then m.delete k else m) deployment.udmNodes,
        edges :=
          pruneEdges
            ((l.filter (fun e => isStale nfList e.1 .UDM)).map (fun e => (e.1, e.2.Connections)))
            deployment.edges } := by
  induction l generalizing deployment with
  | nil => rfl
  | cons e l ih =>
    rw [List.foldl_cons, ih]
    by_cases h : isStale nfList e.1 .UDM = true
    · simp only [h, if_true, removeEdgesOf_eq, List.map_cons, List.foldl_cons,
        List.filter_cons_of_pos, pruneEdges]
    · simp only [h, if_false, List.map_cons, List.foldl_cons, Bool.false_eq_true]
      rw [List.filter_cons_of_neg (by simpa using h)]

theorem foldl_prune_ausf (nfList : GoMap NFType) (l : List (String × AUSFNode))
    (deployment : Deployment) :
    l.foldl
        (fun deployment e =>
          if isStale nfList e.1 .AUSF then
            let deployment := removeEdgesOf deployment e.1 e.2.Connections
            { deployment with ausfNodes := deployment.ausfNodes.delete e.1 }
          else deployment)
        deployment =
      { deployment with
        ausfNodes :=
          (l.map Prod.fst).foldl
            (fun m k => if isStale nfList k .AUSF then m.delete k else m) deployment.ausfNodes,
        edges :=
          pruneEdges
            ((l.filter (fun e => isStale nfList e.1 .AUSF)).map (fun e => (e.1, e.2.Connections)))
            deployment.edges } := by
  induction l generalizing deployment with
  | nil => rfl
  | cons e l ih =>
    rw [List.foldl_cons, ih]
    by_cases h : isStale nfList e.1 .AUSF = true
    · simp only [h, if_true, removeEdgesOf_eq, List.map_cons, List.foldl_cons,
        List.filter_cons_of_pos, pruneEdges]
    · simp only [h, if_false, List.map_cons, List.foldl_cons, Bool.false_eq_true]
      rw [List.filter_cons_of_neg (by simpa using h)]

/-- The result of `removeNFs`: every partition keeps the entries that are declared
under its type, and the edges of the removed nodes are removed. -/
theorem removeNFs_eq (deployment : Deployment) (nfDeploy : NfDeploy) :
    removeNFs deployment nfDeploy =
      { name := deployment.name,
        upfNodes :=
          ⟨deployment.upfNodes.entries.filter
            (fun e => !isStale (siteTypes nfDeploy) e.1 .UPF)⟩,
        smfNodes :=
          ⟨deployment.smfNodes.entries.filter
            (fun e => !isStale (siteTypes nfDeploy) e.1 .SMF)⟩,
        amfNodes :=
          ⟨deployment.amfNodes.entries.filter
            (fun e => !isStale (siteTypes nfDeploy) e.1 .AMF)⟩,
        ausfNodes :=
          ⟨deployment.ausfNodes.entries.filter
            (fun e => !isStale (siteTypes nfDeploy) e.1 .AUSF)⟩,
        udmNodes :=
          ⟨deployment.udmNodes.entries.filter
            (fun e => !isStale (siteTypes nfDeploy) e.1 .UDM)⟩,
        edges := pruneEdges (staleNodes deployment (siteTypes nfDeploy)) deployment.edges } := by
  unfold removeNFs
  simp only [foldl_prune_upf, foldl_prune_smf, foldl_prune_amf, foldl_prune_udm,
    foldl_prune_ausf]
  have h1 := GoMap.foldl_delete_self (fun k => isStale (siteTypes nfDeploy) k .UPF)
    deployment.upfNodes
  have h2 := GoMap.foldl_delete_self (fun k => isStale (siteTypes nfDeploy) k .SMF)
    deployment.smfNodes
  have h3 := GoMap.foldl_delete_self (fun k => isStale (siteTypes nfDeploy) k .AMF)
    deployment.amfNodes
  have h4 := GoMap.foldl_delete_self (fun k => isStale (siteTypes nfDeploy) k .UDM)
    deployment.udmNodes
  have h5 := GoMap.foldl_delete_self (fun k => isStale (siteTypes nfDeploy) k .AUSF)
    deployment.ausfNodes
  unfold GoMap.keys at h1 h2 h3 h4 h5
  simp only [h1, h2, h3, h4, h5, staleNodes, pruneEdges_append]

/-! ### Creating and updating nodes -/

theorem WFNodes_iff (deployment : Deployment) :
    WFNodes deployment ↔ ∀ t, (partitionKeys deployment t).Nodup := by
  constructor
  · intro h t
    obtain ⟨h1, h2, h3, h4, h5⟩ := h
    cases t
    · exact List.nodup_nil
    · exact h1
    · exact h2
    · exact h3
    · exact h4
    · exact h5
  · intro h
    exact ⟨h .UPF, h .SMF, h .AMF, h .AUSF, h .UDM⟩

theorem Upserted.refl (deployment : Deployment) (t : NFType) (id : String)
    (h : id ∈ partitionKeys deployment t) : Upserted deployment deployment t id := by
  refine ⟨rfl, ?_, ?_⟩
  · intro t'
    by_cases ht : t' = t
    · subst ht; simp [h]
    · simp [ht]
  · intro t' x node hn
    exact ⟨node, hn, rfl⟩

theorem Upserted.update {d1 d2 d3 : Deployment} {t : NFType} {id : String}
    (h12 : Upserted d1 d2 t id) (h23 : Upserted d2 d3 t id) : Upserted d1 d3 t id := by
  obtain ⟨e1, k1, c1⟩ := h12
  obtain ⟨e2, k2, c2⟩ := h23
  refine ⟨e2.trans e1, ?_, ?_⟩
  · intro t'
    rw [k2 t', k1 t']
    by_cases ht : t' = t
    · subst ht
      by_cases hid : id ∈ partitionKeys d1 t'
      · simp [hid]
      · simp [hid]
    · simp [ht]
  · intro t' x node hn
    obtain ⟨n2, hn2, hc2⟩ := c1 t' x node hn
    obtain ⟨n3, hn3, hc3⟩ := c2 t' x n2 hn2
    exact ⟨n3, hn3, hc3.trans hc2⟩

theorem Upserted.mem_keys {d1 d2 : Deployment} {t : NFType} {id : String}
    (h : Upserted d1 d2 t id) (t' : NFType) (x : String) :
    x ∈ partitionKeys d2 t' ↔ x ∈ partitionKeys d1 t' ∨ (x = id ∧ t' = t) := by
  rw [h.2.1 t']
  by_cases ht : t' = t
  · subst ht
    by_cases hid : id ∈ partitionKeys d1 t'
    · simp only [hid, not_true_eq_false, and_false, if_false, and_true]
      constructor
      · intro hx; exact Or.inl hx
      · rintro (hx | hx)
        · exact hx
        · rw [hx]; exact hid
    · simp [hid]
  · simp [ht]

theorem Upserted.WFNodes {d1 d2 : Deployment} {t : NFType} {id : String}
    (h : Upserted d1 d2 t id) (hwf : WFNodes d1) : WFNodes d2 := by
  rw [WFNodes_iff] at hwf ⊢
  intro t'
  rw [h.2.1 t']
  split_ifs with hc
  · rw [List.nodup_append]
    refine ⟨hwf t', List.nodup_singleton _, ?_⟩
    simp only [List.disjoint_singleton]
    exact hc.2
  · exact hwf t'

theorem Upserted.set_upf (deployment : Deployment) (k : String) (v : UPFNode)
    (hconn : ∀ v0, deployment.upfNodes.get? k = some v0 → v.Connections = v0.Connections) :
    Upserted deployment { deployment with upfNodes := deployment.upfNodes.set k v } .UPF k := by
  refine ⟨rfl, ?_, ?_⟩
  · intro t'
    cases t' <;> simp only [partitionKeys, reduceCtorEq, false_and, if_false]
    rw [GoMap.keys_set]
    simp only [true_and, ← GoMap.contains_iff_mem_keys]
    cases hc : deployment.upfNodes.contains k <;> simp
  · intro t' x node hn
    cases t' <;> simp only [nodeAt] at hn ⊢ <;> try exact ⟨node, hn, rfl⟩
    rw [GoMap.get?_set]
    by_cases hx : x = k
    · subst hx
      simp only [if_true, Option.map_some']
      refine ⟨v.toNode, rfl, ?_⟩
      cases hg : deployment.upfNodes.get? x with
      | none => rw [hg] at hn; cases hn
      | some v0 =>
        rw [hg] at hn
        simp only [Option.map_some', Option.some.injEq] at hn
        rw [← hn]
        exact hconn v0 hg
    · simp only [hx, if_false]
      exact ⟨node, hn, rfl⟩

theorem Upserted.set_smf (deployment : Deployment) (k : String) (v : SMFNode)
    (hconn : ∀ v0, deployment.smfNodes.get? k = some v0 → v.Connections = v0.Connections) :
    Upserted deployment { deployment with smfNodes := deployment.smfNodes.set k v } .SMF k := by
  refine ⟨rfl, ?_, ?_⟩
  · intro t'
    cases t' <;> simp only [partitionKeys, reduceCtorEq, false_and, if_false]
    rw [GoMap.keys_set]
    simp only [true_and, ← GoMap.contains_iff_mem_keys]
    cases hc : deployment.smfNodes.contains k <;> simp
  · intro t' x node hn
    cases t' <;> simp only [nodeAt] at hn ⊢ <;> try exact ⟨node, hn, rfl⟩
    rw [GoMap.get?_set]
    by_cases hx : x = k
    · subst hx
      simp only [if_true, Option.map_some']
      refine ⟨v.toNode, rfl, ?_⟩
      cases hg : deployment.smfNodes.get? x with
      | none => rw [hg] at hn; cases hn
      | some v0 =>
        rw [hg] at hn
        simp only [Option.map_some', Option.some.injEq] at hn
        rw [← hn]
        exact hconn v0 hg
    · simp only [hx, if_false]
      exact ⟨node, hn, rfl⟩

theorem Upserted.set_ausf (deployment : Deployment) (k : String) (v : AUSFNode)
    (hconn : ∀ v0, deployment.ausfNodes.get? k = some v0 → v.Connections = v0.Connections) :
    Upserted deployment { deployment with ausfNodes := deployment.ausfNodes.set k v } .AUSF k := by
  refine ⟨rfl, ?_, ?_⟩
  · intro t'
    cases t' <;> simp only [partitionKeys, reduceCtorEq, false_and, if_false]
    rw [GoMap.keys_set]
    simp only [true_and, ← GoMap.contains_iff_mem_keys]
    cases hc : deployment.ausfNodes.contains k <;> simp
  · intro t' x node hn
    cases t' <;> simp only [nodeAt] at hn ⊢ <;> try exact ⟨node, hn, rfl⟩
    rw [GoMap.get?_set]
    by_cases hx : x = k
    · subst hx
      simp only [if_true, Option.map_some']
      refine ⟨v.toNode, rfl, ?_⟩
      cases hg : deployment.ausfNodes.get? x with
      | none => rw [hg] at hn; cases hn
      | some v0 =>
        rw [hg] at hn
        simp only [Option.map_some', Option.some.injEq] at hn
        rw [← hn]
        exact hconn v0 hg
    · simp only [hx, if_false]
      exact ⟨node, hn, rfl⟩

theorem Upserted.set_udm (deployment : Deployment) (k : String) (v : UDMNode)
    (hconn : ∀ v0, deployment.udmNodes.get? k = some v0 → v.Connections = v0.Connections) :
    Upserted deployment { deployment with udmNodes := deployment.udmNodes.set k v } .UDM k := by
  refine ⟨rfl, ?_, ?_⟩
  · intro t'
    cases t' <;> simp only [partitionKeys, reduceCtorEq, false_and, if_false]
    rw [GoMap.keys_set]
    simp only [true_and, ← GoMap.contains_iff_mem_keys]
    cases hc : deployment.udmNodes.contains k <;> simp
  · intro t' x node hn
    cases t' <;> simp only [nodeAt] at hn ⊢ <;> try exact ⟨node, hn, rfl⟩
    rw [GoMap.get?_set]
    by_cases hx : x = k
    · subst hx
      simp only [if_true, Option.map_some']
      refine ⟨v.toNode, rfl, ?_⟩
      cases hg : deployment.udmNodes.get? x with
      | none => rw [hg] at hn; cases hn
      | some v0 =>
        rw [hg] at hn
        simp only [Option.map_some', Option.some.injEq] at hn
        rw [← hn]
        exact hconn v0 hg
    · simp only [hx, if_false]
      exact ⟨node, hn, rfl⟩

theorem addOrUpdateUPFNode_upserted (intents : IntentProcessors) (deployment : Deployment)
    (site : Site) :
    Upserted deployment (addOrUpdateUPFNode intents deployment site) .UPF site.Id := by
  unfold addOrUpdateUPFNode
  simp only
  have h1 : Upserted deployment
      (if deployment.upfNodes.contains site.Id = true then deployment
       else
        { deployment with
          upfNodes := deployment.upfNodes.set site.Id
            { Id := site.Id, NFType := .UPF, Connections := GoMap.empty,
              Spec := { clusterName := site.ClusterName } } }) .UPF site.Id := by
    split_ifs with hc
    · exact Upserted.refl _ _ _ ((GoMap.contains_iff_mem_keys _ _).mp hc)
    · apply Upserted.set_upf
      intro v0 hv0
      simp [GoMap.contains, hv0] at hc
  split
  · exact h1
  · split
    · exact h1
    · rename_i upfIntent upfNode hg
      refine Upserted.update h1 ?_
      apply Upserted.set_upf
      intro v0 hv0
      rw [hg] at hv0
      cases hv0
      rfl

theorem addOrUpdateSMFNode_upserted (intents : IntentProcessors) (deployment : Deployment)
    (site : Site) :
    Upserted deployment (addOrUpdateSMFNode intents deployment site) .SMF site.Id := by
  unfold addOrUpdateSMFNode
  simp only
  have h1 : Upserted deployment
      (if deployment.smfNodes.contains site.Id = true then deployment
       else
        { deployment with
          smfNodes := deployment.smfNodes.set site.Id
            { Id := site.Id, NFType := .SMF, Connections := GoMap.empty,
              Spec := { clusterName := site.ClusterName } } }) .SMF site.Id := by
    split_ifs with hc
    · exact Upserted.refl _ _ _ ((GoMap.contains_iff_mem_keys _ _).mp hc)
    · apply Upserted.set_smf
      intro v0 hv0
      simp [GoMap.contains, hv0] at hc
  split
  · exact h1
  · rename_i smfNode hg
    split
    · exact h1
    · refine Upserted.update h1 ?_
      apply Upserted.set_smf
      intro v0 hv0
      rw [hg] at hv0
      cases hv0
      rfl

theorem addOrUpdateAUSFNode_upserted (deployment : Deployment) (site : Site) :
    Upserted deployment (addOrUpdateAUSFNode deployment site) .AUSF site.Id := by
  unfold addOrUpdateAUSFNode
  simp only
  split_ifs with hc
  · exact Upserted.refl _ _ _ ((GoMap.contains_iff_mem_keys _ _).mp hc)
  · apply Upserted.set_ausf
    intro v0 hv0
    simp [GoMap.contains, hv0] at hc

theorem addOrUpdateUDMNode_upserted (deployment : Deployment) (site : Site) :
    Upserted deployment (addOrUpdateUDMNode deployment site) .UDM site.Id := by
  unfold addOrUpdateUDMNode
  simp only
  split_ifs with hc
  · exact Upserted.refl _ _ _ ((GoMap.contains_iff_mem_keys _ _).mp hc)
  · apply Upserted.set_udm
    intro v0 hv0
    simp [GoMap.contains, hv0] at hc

/-- The first loop of `ReportNFDeployEvent` for one site: a site of a tracked type
gets its node, a site of another type changes nothing. -/
theorem addOrUpdateNode_spec (intents : IntentProcessors) (deployment : Deployment)
    (site : Site) :
    (site.NFType.isTracked = true ∧
      Upserted deployment (addOrUpdateNode intents deployment site) site.NFType site.Id) ∨
    (site.NFType.isTracked = false ∧ addOrUpdateNode intents deployment site = deployment) := by
  unfold addOrUpdateNode
  cases ht : site.NFType
  · exact Or.inr ⟨rfl, rfl⟩
  · exact Or.inl ⟨rfl, addOrUpdateUPFNode_upserted _ _ _⟩
  · exact Or.inl ⟨rfl, addOrUpdateSMFNode_upserted _ _ _⟩
  · exact Or.inr ⟨rfl, rfl⟩
  · exact Or.inl ⟨rfl, addOrUpdateAUSFNode_upserted _ _⟩
  · exact Or.inl ⟨rfl, addOrUpdateUDMNode_upserted _ _⟩

/-- The first loop of `ReportNFDeployEvent`: the edges stay, the partitions stay Go
maps, every connection set stays, and the keys gained are the declared ids of a
tracked type. -/
theorem foldl_addOrUpdateNode (intents : IntentProcessors) (sites : List Site)
    (deployment : Deployment) :
    (sites.foldl (addOrUpdateNode intents) deployment).edges = deployment.edges ∧
    (WFNodes deployment → WFNodes (sites.foldl (addOrUpdateNode intents) deployment)) ∧
    (∀ t x node, nodeAt deployment t x = some node →
      ∃ node', nodeAt (sites.foldl (addOrUpdateNode intents) deployment) t x = some node' ∧
        node'.Connections = node.Connections) ∧
    (∀ t x, x ∈ partitionKeys (sites.foldl (addOrUpdateNode intents) deployment) t ↔
      x ∈ partitionKeys deployment t ∨
        ∃ site ∈ sites, site.Id = x ∧ site.NFType = t ∧ t.isTracked = true) := by
  induction sites generalizing deployment with
  | nil =>
    refine ⟨rfl, id, fun t x node h => ⟨node, h, rfl⟩, fun t x => ?_⟩
    simp
  | cons s sites ih =>
    rw [List.foldl_cons]
    obtain ⟨e, w, c, k⟩ := ih (addOrUpdateNode intents deployment s)
    rcases addOrUpdateNode_spec intents deployment s with ⟨htr, hup⟩ | ⟨htr, heq⟩
    · refine ⟨e.trans hup.1, fun hwf => w (hup.WFNodes hwf), ?_, ?_⟩
      · intro t x node hn
        obtain ⟨n1, hn1, hc1⟩ := hup.2.2 t x node hn
        obtain ⟨n2, hn2, hc2⟩ := c t x n1 hn1
        exact ⟨n2, hn2, hc2.trans hc1⟩
      · intro t x
        rw [k t x, hup.mem_keys t x]
        constructor
        · rintro ((h | ⟨hx, ht⟩) | ⟨site, hs, h⟩)
          · exact Or.inl h
          · refine Or.inr ⟨s, List.mem_cons_self _ _, hx.symm, ht.symm, ?_⟩
            rw [ht]; exact htr
          · exact Or.inr ⟨site, List.mem_cons_of_mem _ hs, h⟩
        · rintro (h | ⟨site, hs, h⟩)
          · exact Or.inl (Or.inl h)
          · rcases List.mem_cons.mp hs with hs | hs
            · subst hs
              exact Or.inl (Or.inr ⟨h.1.symm, h.2.1.symm⟩)
            · exact Or.inr ⟨site, hs, h⟩
    · rw [heq] at e w c k ⊢
      refine ⟨e, w, c, ?_⟩
      intro t x
      rw [k t x]
      constructor
      · rintro (h | ⟨site, hs, h⟩)
        · exact Or.inl h
        · exact Or.inr ⟨site, List.mem_cons_of_mem _ hs, h⟩
      · rintro (h | ⟨site, hs, h⟩)
        · exact Or.inl h
        · rcases List.mem_cons.mp hs with hs | hs
          · subst hs
            obtain ⟨_, ht, htt⟩ := h
            rw [← ht, htr] at htt
            cases htt
          · exact Or.inr ⟨site, hs, h⟩

/-! ### The graph invariant -/

theorem Edge.IsEqual_mk (e : Edge) (a b : String) :
    ({ FirstNode := a, SecondNode := b } : Edge).IsEqual e.FirstNode e.SecondNode =
      e.IsEqual a b := by
  unfold Edge.IsEqual
  rw [Bool.eq_iff_iff]
  simp only [Bool.decide_or, Bool.decide_and, Bool.or_eq_true, Bool.and_eq_true,
    decide_eq_true_eq]
  constructor
  · rintro (⟨h1, h2⟩ | ⟨h1, h2⟩)
    · exact Or.inl ⟨h1.symm, h2.symm⟩
    · exact Or.inr ⟨h2.symm, h1.symm⟩
  · rintro (⟨h1, h2⟩ | ⟨h1, h2⟩)
    · exact Or.inl ⟨h1.symm, h2.symm⟩
    · exact Or.inr ⟨h2.symm, h1.symm⟩

theorem Edge.IsEqual_self (e : Edge) : e.IsEqual e.FirstNode e.SecondNode = true := by
  unfold Edge.IsEqual
  simp

theorem createEdge_noDuplicateEdges (deployment : Deployment) (a b : String)
    (h : NoDuplicateEdges deployment.edges) :
    NoDuplicateEdges (createEdge deployment a b).edges := by
  rw [createEdge_edges]
  split_ifs with hc
  · exact h
  · unfold NoDuplicateEdges at h ⊢
    rw [List.pairwise_append]
    refine ⟨h, List.pairwise_singleton _ _, ?_⟩
    intro e he f hf
    rw [List.mem_singleton] at hf
    subst hf
    rw [Edge.IsEqual_mk]
    cases hab : e.IsEqual a b with
    | false => rfl
    | true => exact absurd ⟨e, he, hab⟩ hc

theorem removeNFs_noDuplicateEdges (deployment : Deployment) (nfDeploy : NfDeploy)
    (h : NoDuplicateEdges deployment.edges) :
    NoDuplicateEdges (removeNFs deployment nfDeploy).edges := by
  rw [removeNFs_eq]
  exact NoDuplicateEdges.sublist (pruneEdges_sublist _ _) h

theorem foldl_createEdge_invariant (Q : Deployment → Prop) (sites : List Site)
    (hstep : ∀ d, ∀ s ∈ sites, ∀ c ∈ s.Connectivities, Q d →
      Q (createEdge d s.Id c.NeighborName))
    (deployment : Deployment) (h : Q deployment) :
    Q (sites.foldl createEdgesOf deployment) := by
  induction sites generalizing deployment with
  | nil => exact h
  | cons s sites ih =>
    rw [List.foldl_cons]
    apply ih
    · intro d s' hs' c hc hq
      exact hstep d s' (List.mem_cons_of_mem _ hs') c hc hq
    · unfold createEdgesOf
      have hs : ∀ c ∈ s.Connectivities, ∀ d, Q d → Q (createEdge d s.Id c.NeighborName) :=
        fun c hc d hq => hstep d s (List.mem_cons_self _ _) c hc hq
      generalize s.Connectivities = cs at hs
      induction cs generalizing deployment with
      | nil => exact h
      | cons c cs ihc =>
        rw [List.foldl_cons]
        apply ihc
        · exact hs c (List.mem_cons_self _ _) deployment h
        · intro c' hc'
          exact hs c' (List.mem_cons_of_mem _ hc')

theorem connectIf_contains (c : Prop) [Decidable c] (node : Node) (id y : String)
    (h : node.Connections.contains y = true) :
    (connectIf c node id).Connections.contains y = true := by
  unfold connectIf Node.connect
  split_ifs
  · simp [GoMap.contains_set, h]
  · exact h

theorem connectIf_contains_self (c : Prop) [Decidable c] (hc : c) (node : Node) (id : String) :
    (connectIf c node id).Connections.contains id = true := by
  unfold connectIf Node.connect
  rw [if_pos hc]
  simp [GoMap.contains_set]

theorem connectedTo_createEdge (deployment : Deployment) (a b x y : String)
    (h : connectedTo deployment x y) : connectedTo (createEdge deployment a b) x y := by
  by_cases hc : ∃ e ∈ deployment.edges, e.IsEqual a b = true
  · rw [createEdge_of_connected _ _ _ hc]; exact h
  · obtain ⟨t, node, hn, hcon⟩ := h
    refine ⟨t, connectIf (t = getNFType deployment b ∧ x = b)
      (connectIf (t = getNFType deployment a ∧ x = a) node b) a, ?_, ?_⟩
    · rw [nodeAt_createEdge _ _ _ _ _ hc, hn]
      rfl
    · exact connectIf_contains _ _ _ _ (connectIf_contains _ _ _ _ hcon)

theorem connectedTo_createEdge_new (deployment : Deployment) (a b : String)
    (hc : ¬ ∃ e ∈ deployment.edges, e.IsEqual a b = true)
    (ha : getNFType deployment a ≠ .UnspecifiedNFType)
    (hb : getNFType deployment b ≠ .UnspecifiedNFType) :
    connectedTo (createEdge deployment a b) a b ∧
      connectedTo (createEdge deployment a b) b a := by
  have hna := nodeAt_getNFType deployment a ha
  have hnb := nodeAt_getNFType deployment b hb
  obtain ⟨na, hna⟩ := Option.isSome_iff_exists.mp hna
  obtain ⟨nb, hnb⟩ := Option.isSome_iff_exists.mp hnb
  constructor
  · refine ⟨getNFType deployment a,
      connectIf (getNFType deployment a = getNFType deployment b ∧ a = b)
        (connectIf (getNFType deployment a = getNFType deployment a ∧ a = a) na b) a, ?_, ?_⟩
    · rw [nodeAt_createEdge _ _ _ _ _ hc, hna]
      rfl
    · exact connectIf_contains _ _ _ _ (connectIf_contains_self _ ⟨rfl, rfl⟩ _ _)
  · refine ⟨getNFType deployment b,
      connectIf (getNFType deployment b = getNFType deployment b ∧ b = b)
        (connectIf (getNFType deployment b = getNFType deployment a ∧ b = a) nb b) a, ?_, ?_⟩
    · rw [nodeAt_createEdge _ _ _ _ _ hc, hnb]
      rfl
    · exact connectIf_contains_self _ ⟨rfl, rfl⟩ _ _

theorem getNFType_ne_unspecified_iff (deployment : Deployment) (x : String) :
    getNFType deployment x ≠ .UnspecifiedNFType ↔ ∃ t, x ∈ partitionKeys deployment t := by
  constructor
  · intro h
    exact ⟨_, (nodeAt_isSome_iff _ _ _).mp (nodeAt_getNFType deployment x h)⟩
  · rintro ⟨t, ht⟩
    exact getNFType_ne_unspecified_of_mem deployment t x ht

/-- The invariant survives `createEdge` between two tracked ids. -/
theorem GraphInv_createEdge (deployment : Deployment) (a b : String)
    (ha : ∃ t, a ∈ partitionKeys deployment t) (hb : ∃ t, b ∈ partitionKeys deployment t)
    (h : GraphInv deployment) : GraphInv (createEdge deployment a b) := by
  obtain ⟨hnd, hcov, hwf⟩ := h
  refine ⟨createEdge_noDuplicateEdges _ _ _ hnd, ?_, WFNodes_createEdge _ _ _ hwf⟩
  intro e he
  rw [createEdge_edges] at he
  split_ifs at he with hc
  · exact ⟨connectedTo_createEdge _ _ _ _ _ (hcov e he).1,
      connectedTo_createEdge _ _ _ _ _ (hcov e he).2⟩
  · rcases List.mem_append.mp he with he | he
    · exact ⟨connectedTo_createEdge _ _ _ _ _ (hcov e he).1,
        connectedTo_createEdge _ _ _ _ _ (hcov e he).2⟩
    · rw [List.mem_singleton] at he
      subst he
      exact connectedTo_createEdge_new deployment a b hc
        ((getNFType_ne_unspecified_iff _ _).mpr ha) ((getNFType_ne_unspecified_iff _ _).mpr hb)

/-! ### Pruning -/

theorem nodeAt_removeNFs (deployment : Deployment) (nfDeploy : NfDeploy) (t : NFType)
    (x : String) :
    nodeAt (removeNFs deployment nfDeploy) t x =
      if isStale (siteTypes nfDeploy) x t then none else nodeAt deployment t x := by
  rw [removeNFs_eq]
  cases t
  · simp [nodeAt]
  · have h := GoMap.get?_filter_key (fun k => !isStale (siteTypes nfDeploy) k .UPF)
      deployment.upfNodes x
    simp only [nodeAt, h]
    cases isStale (siteTypes nfDeploy) x .UPF <;> simp
  · have h := GoMap.get?_filter_key (fun k => !isStale (siteTypes nfDeploy) k .SMF)
      deployment.smfNodes x
    simp only [nodeAt, h]
    cases isStale (siteTypes nfDeploy) x .SMF <;> simp
  · have h := GoMap.get?_filter_key (fun k => !isStale (siteTypes nfDeploy) k .AMF)
      deployment.amfNodes x
    simp only [nodeAt, h]
    cases isStale (siteTypes nfDeploy) x .AMF <;> simp
  · have h := GoMap.get?_filter_key (fun k => !isStale (siteTypes nfDeploy) k .AUSF)
      deployment.ausfNodes x
    simp only [nodeAt, h]
    cases isStale (siteTypes nfDeploy) x .AUSF <;> simp
  · have h := GoMap.get?_filter_key (fun k => !isStale (siteTypes nfDeploy) k .UDM)
      deployment.udmNodes x
    simp only [nodeAt, h]
    cases isStale (siteTypes nfDeploy) x .UDM <;> simp

theorem partitionKeys_removeNFs (deployment : Deployment) (nfDeploy : NfDeploy) (t : NFType) :
    partitionKeys (removeNFs deployment nfDeploy) t =
      (partitionKeys deployment t).filter (fun x => !isStale (siteTypes nfDeploy) x t) := by
  rw [removeNFs_eq]
  cases t
  · simp [partitionKeys]
  · exact GoMap.keys_filter_key (fun k => !isStale (siteTypes nfDeploy) k .UPF) _
  · exact GoMap.keys_filter_key (fun k => !isStale (siteTypes nfDeploy) k .SMF) _
  · exact GoMap.keys_filter_key (fun k => !isStale (siteTypes nfDeploy) k .AMF) _
  · exact GoMap.keys_filter_key (fun k => !isStale (siteTypes nfDeploy) k .AUSF) _
  · exact GoMap.keys_filter_key (fun k => !isStale (siteTypes nfDeploy) k .UDM) _

theorem mem_staleNodes (deployment : Deployment) (nfList : GoMap NFType) (t : NFType)
    (x : String) (node : Node) (hn : nodeAt deployment t x = some node)
    (hs : isStale nfList x t = true) :
    (x, node.Connections) ∈ staleNodes deployment nfList := by
  unfold staleNodes
  cases t
  · simp [nodeAt] at hn
  · simp only [nodeAt, Option.map_eq_some'] at hn
    obtain ⟨v, hv, hvn⟩ := hn
    have hm := GoMap.mem_of_lookup_eq_some _ _ _ hv
    apply List.mem_append_left
    rw [List.mem_map]
    exact ⟨(x, v), List.mem_filter.mpr ⟨hm, hs⟩, by rw [← hvn]⟩
  · simp only [nodeAt, Option.map_eq_some'] at hn
    obtain ⟨v, hv, hvn⟩ := hn
    have hm := GoMap.mem_of_lookup_eq_some _ _ _ hv
    apply List.mem_append_right
    apply List.mem_append_left
    rw [List.mem_map]
    exact ⟨(x, v), List.mem_filter.mpr ⟨hm, hs⟩, by rw [← hvn]⟩
  · simp only [nodeAt, Option.map_eq_some'] at hn
    obtain ⟨v, hv, hvn⟩ := hn
    have hm := GoMap.mem_of_lookup_eq_some _ _ _ hv
    apply List.mem_append_right
    apply List.mem_append_right
    apply List.mem_append_left
    rw [List.mem_map]
    exact ⟨(x, v), List.mem_filter.mpr ⟨hm, hs⟩, by rw [← hvn]⟩
  · simp only [nodeAt, Option.map_eq_some'] at hn
    obtain ⟨v, hv, hvn⟩ := hn
    have hm := GoMap.mem_of_lookup_eq_some _ _ _ hv
    apply List.mem_append_right
    apply List.mem_append_right
    apply List.mem_append_right
    apply List.mem_append_right
    rw [List.mem_map]
    exact ⟨(x, v), List.mem_filter.mpr ⟨hm, hs⟩, by rw [← hvn]⟩
  · simp only [nodeAt, Option.map_eq_some'] at hn
    obtain ⟨v, hv, hvn⟩ := hn
    have hm := GoMap.mem_of_lookup_eq_some _ _ _ hv
    apply List.mem_append_right
    apply List.mem_append_right
    apply List.mem_append_right
    apply List.mem_append_left
    rw [List.mem_map]
    exact ⟨(x, v), List.mem_filter.mpr ⟨hm, hs⟩, by rw [← hvn]⟩

/-- A connection entry of a node survives `removeNFs` when one of its edges does. -/
theorem connectedTo_removeNFs (deployment : Deployment) (nfDeploy : NfDeploy)
    (hnd : NoDuplicateEdges deployment.edges) (e : Edge)
    (he : e ∈ (removeNFs deployment nfDeploy).edges) (x y : String)
    (hxy : e.IsEqual x y = true) (h : connectedTo deployment x y) :
    connectedTo (removeNFs deployment nfDeploy) x y := by
  obtain ⟨t, node, hn, hcon⟩ := h
  refine ⟨t, node, ?_, hcon⟩
  rw [nodeAt_removeNFs]
  cases hs : isStale (siteTypes nfDeploy) x t with
  | false => simpa using hn
  | true =>
    exfalso
    have hmem := mem_staleNodes deployment (siteTypes nfDeploy) t x node hn hs
    rw [removeNFs_eq] at he
    have := pruneEdges_spec _ _ hnd e he _ hmem y
      ((GoMap.contains_iff_mem_keys _ _).mp hcon)
    simp only at this
    rw [hxy] at this
    cases this

theorem GraphInv_removeNFs (deployment : Deployment) (nfDeploy : NfDeploy)
    (h : GraphInv deployment) : GraphInv (removeNFs deployment nfDeploy) := by
  obtain ⟨hnd, hcov, hwf⟩ := h
  refine ⟨removeNFs_noDuplicateEdges _ _ hnd, ?_, ?_⟩
  · intro e he
    have he' : e ∈ deployment.edges := by
      have hsub := pruneEdges_sublist (staleNodes deployment (siteTypes nfDeploy))
        deployment.edges
      rw [removeNFs_eq] at he
      exact hsub.subset he
    refine ⟨connectedTo_removeNFs _ _ hnd e he _ _ (Edge.IsEqual_self e) (hcov e he').1,
      connectedTo_removeNFs _ _ hnd e he _ _ ?_ (hcov e he').2⟩
    rw [Edge.IsEqual_comm]
    exact Edge.IsEqual_self e
  · rw [WFNodes_iff] at hwf ⊢
    intro t
    rw [partitionKeys_removeNFs]
    exact (hwf t).filter _

/-! ### The declared types -/

theorem siteTypes_foldl_of_not_mem (sites : List Site) (m : GoMap NFType) (x : String)
    (h : x ∉ sites.map Site.Id) :
    (sites.foldl (fun nfList site => nfList.set site.Id site.NFType) m).get? x = m.get? x := by
  induction sites generalizing m with
  | nil => rfl
  | cons s sites ih =>
    rw [List.foldl_cons]
    simp only [List.map_cons, List.mem_cons, not_or] at h
    rw [ih _ h.2, GoMap.get?_set, if_neg h.1]

theorem siteTypes_foldl_of_mem (sites : List Site) (m : GoMap NFType)
    (hnd : (sites.map Site.Id).Nodup) (site : Site) (hs : site ∈ sites) :
    (sites.foldl (fun nfList site => nfList.set site.Id site.NFType) m).get? site.Id =
      some site.NFType := by
  induction sites generalizing m with
  | nil => cases hs
  | cons s sites ih =>
    rw [List.foldl_cons]
    simp only [List.map_cons, List.nodup_cons] at hnd
    rcases List.mem_cons.mp hs with h | h
    · subst h
      rw [siteTypes_foldl_of_not_mem _ _ _ hnd.1, GoMap.get?_set, if_pos rfl]
    · exact ih _ hnd.2 h

theorem isStale_of_not_declared (nfDeploy : NfDeploy) (x : String) (t : NFType)
    (h : x ∉ siteIds nfDeploy) : isStale (siteTypes nfDeploy) x t = true := by
  unfold isStale siteTypes
  rw [siteTypes_foldl_of_not_mem _ _ _ h]
  rfl

theorem isStale_eq_false_iff (nfDeploy : NfDeploy) (hnd : (siteIds nfDeploy).Nodup)
    (x : String) (t : NFType) :
    isStale (siteTypes nfDeploy) x t = false ↔
      ∃ site ∈ nfDeploy.Sites, site.Id = x ∧ site.NFType = t := by
  constructor
  · intro h
    by_cases hx : x ∈ siteIds nfDeploy
    · obtain ⟨site, hs, hid⟩ := List.mem_map.mp hx
      refine ⟨site, hs, hid, ?_⟩
      have hg := siteTypes_foldl_of_mem nfDeploy.Sites GoMap.empty hnd site hs
      unfold isStale siteTypes at h
      rw [← hid, hg] at h
      simpa using h
    · rw [isStale_of_not_declared _ _ _ hx] at h
      cases h
  · rintro ⟨site, hs, hid, ht⟩
    have hg := siteTypes_foldl_of_mem nfDeploy.Sites GoMap.empty hnd site hs
    unfold isStale siteTypes
    rw [← hid, hg, ht]
    simp

/-! ### ReportNFDeployEvent -/

theorem ReportNFDeployEvent_eq (intents : IntentProcessors) (deployment : Deployment)
    (nfDeploy : NfDeploy) :
    ReportNFDeployEvent intents deployment nfDeploy =
      removeNFs
        (nfDeploy.Sites.foldl createEdgesOf
          (nfDeploy.Sites.foldl (addOrUpdateNode intents)
            { deployment with name := nfDeploy.Name }))
        nfDeploy := rfl

theorem partitionKeys_foldl_createEdgesOf (sites : List Site) (deployment : Deployment)
    (t : NFType) :
    partitionKeys (sites.foldl createEdgesOf deployment) t = partitionKeys deployment t := by
  apply foldl_createEdge_invariant
    (fun d => partitionKeys d t = partitionKeys deployment t) sites
  · intro d s _ c _ hq
    show partitionKeys (createEdge d s.Id c.NeighborName) t = partitionKeys deployment t
    rw [partitionKeys_createEdge]; exact hq
  · rfl

theorem noDuplicateEdges_foldl_createEdgesOf (sites : List Site) (deployment : Deployment)
    (h : NoDuplicateEdges deployment.edges) :
    NoDuplicateEdges (sites.foldl createEdgesOf deployment).edges := by
  apply foldl_createEdge_invariant (fun d => NoDuplicateEdges d.edges) sites
  · intro d s _ c _ hq
    exact createEdge_noDuplicateEdges _ _ _ hq
  · exact h

theorem ReportNFDeployEvent_noDuplicateEdges (intents : IntentProcessors)
    (deployment : Deployment) (nfDeploy : NfDeploy)
    (h : NoDuplicateEdges deployment.edges) :
    NoDuplicateEdges (ReportNFDeployEvent intents deployment nfDeploy).edges := by
  rw [ReportNFDeployEvent_eq]
  apply removeNFs_noDuplicateEdges
  apply noDuplicateEdges_foldl_createEdgesOf
  rw [(foldl_addOrUpdateNode intents nfDeploy.Sites _).1]
  exact h

/-- The keys of the partition `t` after `ReportNFDeployEvent` on a topology of unique
site ids and tracked types: the ids declared with the type `t`. -/
theorem mem_partitionKeys_ReportNFDeployEvent (intents : IntentProcessors)
    (deployment : Deployment) (nfDeploy : NfDeploy) (hnd : (siteIds nfDeploy).Nodup)
    (htr : TrackedTypes nfDeploy) (t : NFType) (x : String) :
    x ∈ partitionKeys (ReportNFDeployEvent intents deployment nfDeploy) t ↔
      ∃ site ∈ nfDeploy.Sites, site.Id = x ∧ site.NFType = t := by
  rw [ReportNFDeployEvent_eq, partitionKeys_removeNFs, List.mem_filter,
    partitionKeys_foldl_createEdgesOf,
    (foldl_addOrUpdateNode intents nfDeploy.Sites _).2.2.2 t x]
  simp only [Bool.not_eq_true', isStale_eq_false_iff nfDeploy hnd]
  constructor
  · rintro ⟨_, h⟩; exact h
  · rintro ⟨site, hs, hid, ht⟩
    refine ⟨Or.inr ⟨site, hs, hid, ht, ?_⟩, ⟨site, hs, hid, ht⟩⟩
    rw [← ht]; exact htr site hs

theorem nodeAt_ReportNFDeployEvent_of_not_declared (intents : IntentProcessors)
    (deployment : Deployment) (nfDeploy : NfDeploy) (x : String)
    (h : x ∉ siteIds nfDeploy) (t : NFType) :
    nodeAt (ReportNFDeployEvent intents deployment nfDeploy) t x = none := by
  rw [ReportNFDeployEvent_eq, nodeAt_removeNFs, isStale_of_not_declared _ _ _ h]
  rfl

/-- The invariant survives `ReportNFDeployEvent` on a well-formed topology of tracked
types. -/
theorem GraphInv_ReportNFDeployEvent (intents : IntentProcessors) (deployment : Deployment)
    (nfDeploy : NfDeploy) (hwf : WellFormedTopology nfDeploy) (htr : TrackedTypes nfDeploy)
    (h : GraphInv deployment) : GraphInv (ReportNFDeployEvent intents deployment nfDeploy) := by
  rw [ReportNFDeployEvent_eq]
  apply GraphInv_removeNFs
  obtain ⟨hnd, hcov, hw⟩ := h
  obtain ⟨e, w, c, k⟩ := foldl_addOrUpdateNode intents nfDeploy.Sites
    { deployment with name := nfDeploy.Name }
  have h1 : GraphInv (nfDeploy.Sites.foldl (addOrUpdateNode intents)
      { deployment with name := nfDeploy.Name }) := by
    refine ⟨?_, ?_, w hw⟩
    · rw [e]; exact hnd
    · intro edge he
      rw [e] at he
      obtain ⟨⟨t1, n1, hn1, hc1⟩, ⟨t2, n2, hn2, hc2⟩⟩ := hcov edge he
      obtain ⟨m1, hm1, hmc1⟩ := c t1 _ n1 (by cases t1 <;> exact hn1)
      obtain ⟨m2, hm2, hmc2⟩ := c t2 _ n2 (by cases t2 <;> exact hn2)
      exact ⟨⟨t1, m1, hm1, by rw [hmc1]; exact hc1⟩, ⟨t2, m2, hm2, by rw [hmc2]; exact hc2⟩⟩
  have hdecl : ∀ x ∈ siteIds nfDeploy,
      ∃ t, x ∈ partitionKeys (nfDeploy.Sites.foldl (addOrUpdateNode intents)
        { deployment with name := nfDeploy.Name }) t := by
    intro x hx
    obtain ⟨site, hs, hid⟩ := List.mem_map.mp hx
    exact ⟨site.NFType, (k site.NFType x).mpr (Or.inr ⟨site, hs, hid, rfl, htr site hs⟩)⟩
  have h2 := foldl_createEdge_invariant
    (fun d => GraphInv d ∧ ∀ t, partitionKeys d t =
      partitionKeys (nfDeploy.Sites.foldl (addOrUpdateNode intents)
        { deployment with name := nfDeploy.Name }) t)
    nfDeploy.Sites ?_ _ ⟨h1, fun _ => rfl⟩
  · exact h2.1
  · intro d s hs conn hc hq
    obtain ⟨hinv, hkeys⟩ := hq
    refine ⟨GraphInv_createEdge d _ _ ?_ ?_ hinv, ?_⟩
    · obtain ⟨t, ht⟩ := hdecl s.Id (List.mem_map_of_mem _ hs)
      exact ⟨t, by rw [hkeys]; exact ht⟩
    · obtain ⟨t, ht⟩ := hdecl conn.NeighborName (hwf.2.1 s hs conn hc)
      exact ⟨t, by rw [hkeys]; exact ht⟩
    · intro t
      rw [partitionKeys_createEdge]; exact hkeys t

theorem GraphInv_empty : GraphInv ({} : Deployment) := by
  refine ⟨List.Pairwise.nil, ?_, by decide⟩
  intro e he
  cases he

theorem Reachable.graphInv {deployment : Deployment} (h : Reachable deployment) :
    GraphInv deployment := by
  induction h with
  | empty => exact GraphInv_empty
  | report intents d T _ hwf htr ih => exact GraphInv_ReportNFDeployEvent intents d T hwf htr ih

/-- No edge of a graph that satisfies the invariant touches an id that is tracked in
no partition. -/
theorem GraphInv.no_edge_of_untracked {deployment : Deployment} (h : GraphInv deployment)
    (x : String) (hx : ∀ t, nodeAt deployment t x = none) :
    ∀ e ∈ deployment.edges, e.FirstNode ≠ x ∧ e.SecondNode ≠ x := by
  intro e he
  obtain ⟨⟨t1, n1, hn1, _⟩, ⟨t2, n2, hn2, _⟩⟩ := h.2.1 e he
  constructor
  · intro hex
    rw [hex, hx t1] at hn1
    cases hn1
  · intro hex
    rw [hex, hx t2] at hn2
    cases hn2

/-! ### The targeted count -/

theorem targetedNFs_eq (deployment : Deployment) :
    targetedNFs deployment =
      ((partitionKeys deployment .UPF).length + (partitionKeys deployment .SMF).length +
        (partitionKeys deployment .AUSF).length + (partitionKeys deployment .UDM).length :
        Nat) := by
  simp [targetedNFs, calculateNFCount, partitionKeys, GoMap.len, GoMap.keys]

theorem length_filter_tracked (sites : List Site)
    (h : ∀ site ∈ sites, site.NFType.isTracked = true) :
    (sites.filter (fun s => s.NFType = .UPF)).length +
      (sites.filter (fun s => s.NFType = .SMF)).length +
      (sites.filter (fun s => s.NFType = .AUSF)).length +
      (sites.filter (fun s => s.NFType = .UDM)).length = sites.length := by
  induction sites with
  | nil => rfl
  | cons s sites ih =>
    have ih := ih (fun site hs => h site (List.mem_cons_of_mem _ hs))
    have hs := h s (List.mem_cons_self _ _)
    cases ht : s.NFType <;> rw [ht] at hs <;>
      simp [NFType.isTracked, List.filter_cons, ht] at hs ⊢ <;> omega

theorem length_partitionKeys_ReportNFDeployEvent (intents : IntentProcessors)
    (deployment : Deployment) (nfDeploy : NfDeploy) (hnd : (siteIds nfDeploy).Nodup)
    (htr : TrackedTypes nfDeploy) (hwf : WFNodes deployment) (t : NFType) :
    (partitionKeys (ReportNFDeployEvent intents deployment nfDeploy) t).length =
      (nfDeploy.Sites.filter (fun s => s.NFType = t)).length := by
  have hk : (partitionKeys (ReportNFDeployEvent intents deployment nfDeploy) t).Nodup := by
    rw [ReportNFDeployEvent_eq, partitionKeys_removeNFs, partitionKeys_foldl_createEdgesOf]
    apply List.Nodup.filter
    exact (WFNodes_iff _).mp
      ((foldl_addOrUpdateNode intents nfDeploy.Sites
        { deployment with name := nfDeploy.Name }).2.1 hwf) t
  have hf : ((nfDeploy.Sites.filter (fun s => s.NFType = t)).map Site.Id).Nodup := by
    apply List.Nodup.sublist _ hnd
    exact List.Sublist.map _ (List.filter_sublist _)
  have hp := (List.perm_ext_iff_of_nodup hk hf).mpr (by
    intro x
    rw [mem_partitionKeys_ReportNFDeployEvent intents deployment nfDeploy hnd htr t x]
    simp only [List.mem_map, List.mem_filter, decide_eq_true_eq]
    constructor
    · rintro ⟨site, hs, hid, ht⟩; exact ⟨site, ⟨hs, ht⟩, hid⟩
    · rintro ⟨site, ⟨hs, ht⟩, hid⟩; exact ⟨site, hs, hid, ht⟩)
  rw [hp.length_eq, List.length_map]

/-- On a topology of unique site ids and tracked types `ReportNFDeployEvent` leaves as
many targeted NFs as the topology has sites. -/
theorem targetedNFs_ReportNFDeployEvent (intents : IntentProcessors)
    (deployment : Deployment) (nfDeploy : NfDeploy) (hnd : (siteIds nfDeploy).Nodup)
    (htr : TrackedTypes nfDeploy) (hwf : WFNodes deployment) :
    targetedNFs (ReportNFDeployEvent intents deployment nfDeploy) =
      (nfDeploy.Sites.length : Nat) := by
  rw [targetedNFs_eq]
  simp only [length_partitionKeys_ReportNFDeployEvent intents deployment nfDeploy hnd htr hwf]
  rw [length_filter_tracked nfDeploy.Sites htr]

/-! ## Lemmas on topology updates, timestamps and actuators -/

/-! ### Tracked ids and removed edges -/

theorem mem_trackedIds (deployment : Deployment) (x : String) :
    x ∈ trackedIds deployment ↔ ∃ t, x ∈ partitionKeys deployment t := by
  unfold trackedIds
  simp only [List.mem_append]
  constructor
  · rintro ((((h | h) | h) | h) | h)
    · exact ⟨.UPF, h⟩
    · exact ⟨.SMF, h⟩
    · exact ⟨.AMF, h⟩
    · exact ⟨.AUSF, h⟩
    · exact ⟨.UDM, h⟩
  · rintro ⟨t, h⟩
    cases t
    · cases h
    · exact Or.inl (Or.inl (Or.inl (Or.inl h)))
    · exact Or.inl (Or.inl (Or.inl (Or.inr h)))
    · exact Or.inl (Or.inl (Or.inr h))
    · exact Or.inl (Or.inr h)
    · exact Or.inr h

/-- The keys of the partition `t` after `ReportNFDeployEvent` on a topology of unique
site ids: the ids declared with the type `t` that were tracked under `t` before or
whose type gets a node. -/
theorem mem_partitionKeys_ReportNFDeployEvent_iff (intents : IntentProcessors)
    (deployment : Deployment) (nfDeploy : NfDeploy) (hnd : (siteIds nfDeploy).Nodup)
    (t : NFType) (x : String) :
    x ∈ partitionKeys (ReportNFDeployEvent intents deployment nfDeploy) t ↔
      (∃ site ∈ nfDeploy.Sites, site.Id = x ∧ site.NFType = t) ∧
        (x ∈ partitionKeys deployment t ∨ t.isTracked = true) := by
  rw [ReportNFDeployEvent_eq, partitionKeys_removeNFs, List.mem_filter,
    partitionKeys_foldl_createEdgesOf,
    (foldl_addOrUpdateNode intents nfDeploy.Sites _).2.2.2 t x]
  simp only [Bool.not_eq_true', isStale_eq_false_iff nfDeploy hnd]
  have hk : partitionKeys { deployment with name := nfDeploy.Name } t =
      partitionKeys deployment t := by cases t <;> rfl
  rw [hk]
  constructor
  · rintro ⟨h | ⟨site, _, _, _, htr⟩, hdecl⟩
    · exact ⟨hdecl, Or.inl h⟩
    · exact ⟨hdecl, Or.inr htr⟩
  · rintro ⟨⟨site, hs, hid, ht⟩, h | htr⟩
    · exact ⟨Or.inl h, ⟨site, hs, hid, ht⟩⟩
    · exact ⟨Or.inr ⟨site, hs, hid, ht, htr⟩, ⟨site, hs, hid, ht⟩⟩

theorem removeFirstEdge_of_no_match (a b : String) (edges : List Edge)
    (h : ∀ e ∈ edges, e.IsEqual a b = false) : removeFirstEdge a b edges = edges := by
  induction edges with
  | nil => rfl
  | cons e es ih =>
    unfold removeFirstEdge
    rw [if_neg (by rw [h e (List.mem_cons_self _ _)]; simp),
      ih (fun f hf => h f (List.mem_cons_of_mem _ hf))]

theorem removeFirstEdge_split (a b : String) (l1 : List Edge) (e : Edge) (l2 : List Edge)
    (h1 : ∀ f ∈ l1, f.IsEqual a b = false) (he : e.IsEqual a b = true) :
    removeFirstEdge a b (l1 ++ e :: l2) = l1 ++ l2 := by
  induction l1 with
  | nil =>
    simp only [List.nil_append]
    unfold removeFirstEdge
    rw [if_pos he]
  | cons f fs ih =>
    simp only [List.cons_append]
    unfold removeFirstEdge
    rw [if_neg (by rw [h1 f (List.mem_cons_self _ _)]; simp),
      ih (fun g hg => h1 g (List.mem_cons_of_mem _ hg))]

theorem exists_first_match (a b : String) (edges : List Edge)
    (h : ∃ e ∈ edges, e.IsEqual a b = true) :
    ∃ l1 e l2, edges = l1 ++ e :: l2 ∧ (∀ f ∈ l1, f.IsEqual a b = false) ∧
      e.IsEqual a b = true := by
  induction edges with
  | nil => obtain ⟨e, he, _⟩ := h; cases he
  | cons f fs ih =>
    cases hf : f.IsEqual a b with
    | true => exact ⟨[], f, fs, rfl, (fun g hg => absurd hg (List.not_mem_nil g)), hf⟩
    | false =>
      obtain ⟨e, he, hab⟩ := h
      rcases List.mem_cons.mp he with hef | hefs
      · rw [hef, hf] at hab; cases hab
      · obtain ⟨l1, e', l2, hs, h1, he'⟩ := ih ⟨e, hefs, hab⟩
        refine ⟨f :: l1, e', l2, by rw [hs]; rfl, ?_, he'⟩
        intro g hg
        rcases List.mem_cons.mp hg with hgf | hgl
        · rw [hgf]; exact hf
        · exact h1 g hgl

/-! ### Timestamps -/

theorem updateCurrentNFStatus_amfNodes (deployment : Deployment) (nfId : String)
    (conditions : GoMap ConditionStatus) (conditionMessage : GoMap String) :
    (updateCurrentNFStatus deployment nfId conditions conditionMessage).amfNodes =
      deployment.amfNodes := by
  unfold updateCurrentNFStatus
  cases h1 : deployment.upfNodes.get? nfId <;> dsimp only <;>
  cases h2 : deployment.smfNodes.get? nfId <;> dsimp only <;>
  cases h3 : deployment.ausfNodes.get? nfId <;> dsimp only <;>
  cases h4 : deployment.udmNodes.get? nfId <;> rfl

theorem lastEventTimestampAt_updateCurrentNFStatus (deployment : Deployment) (nfId : String)
    (conditions : GoMap ConditionStatus) (conditionMessage : GoMap String) (t : NFType)
    (x : String) :
    lastEventTimestampAt
        (updateCurrentNFStatus deployment nfId conditions conditionMessage) t x =
      lastEventTimestampAt deployment t x := by
  unfold lastEventTimestampAt
  cases t
  · rfl
  · simp only [nodeAt, updateCurrentNFStatus_upfNodes]
    cases hg : deployment.upfNodes.get? nfId with
    | none => rfl
    | some nf =>
      simp only [GoMap.get?_set]
      by_cases hx : x = nfId
      · subst hx; simp [hg, storedStatus]
      · simp [hx]
  · simp only [nodeAt, updateCurrentNFStatus_smfNodes]
    cases hg : deployment.smfNodes.get? nfId with
    | none => rfl
    | some nf =>
      simp only [GoMap.get?_set]
      by_cases hx : x = nfId
      · subst hx; simp [hg, storedStatus]
      · simp [hx]
  · simp only [nodeAt, updateCurrentNFStatus_amfNodes]
  · simp only [nodeAt, updateCurrentNFStatus_ausfNodes]
    cases hg : deployment.ausfNodes.get? nfId with
    | none => rfl
    | some nf =>
      simp only [GoMap.get?_set]
      by_cases hx : x = nfId
      · subst hx; simp [hg, storedStatus]
      · simp [hx]
  · simp only [nodeAt, updateCurrentNFStatus_udmNodes]
    cases hg : deployment.udmNodes.get? nfId with
    | none => rfl
    | some nf =>
      simp only [GoMap.get?_set]
      by_cases hx : x = nfId
      · subst hx; simp [hg, storedStatus]
      · simp [hx]

theorem lastEventTimestampAt_processNFEdgeEvent (deployment : Deployment)
    (nfConditions : List NFCondition) (nfId : String) (t : NFType) (x : String) :
    lastEventTimestampAt (processNFEdgeEvent deployment nfConditions nfId).1 t x =
      lastEventTimestampAt deployment t x := by
  cases h : isAmbiguousConditionSet (calculateNFConditionSet nfConditions).1 with
  | true => rw [processNFEdgeEvent_of_ambiguous _ _ _ h]
  | false =>
    rw [processNFEdgeEvent_of_not_ambiguous _ _ _ h,
      lastEventTimestampAt_updateCurrentNFStatus]

/-- After `processEdgeEvent` every tracked node is still tracked, with a
`lastEventTimestamp` that is not earlier than before. -/
theorem lastEventTimestampAt_processEdgeEvent (deployment : Deployment) (object : Event)
    (t : NFType) (x : String) (old : Time)
    (h : lastEventTimestampAt deployment t x = some old) :
    ∃ new, lastEventTimestampAt (processEdgeEvent deployment object).1 t x = some new ∧
      old ≤ new := by
  unfold processEdgeEvent
  cases hobj : object.Object with
  | none => exact ⟨old, h, le_refl _⟩
  | some obj =>
    simp only
    split_ifs with k1 k2 k3 k4
    · cases hg : deployment.upfNodes.get? obj.siteId with
      | none => exact ⟨old, h, le_refl _⟩
      | some node =>
        simp only
        split_ifs with hb
        · exact ⟨old, h, le_refl _⟩
        · rw [lastEventTimestampAt_processNFEdgeEvent]
          unfold lastEventTimestampAt at h ⊢
          cases t <;> simp only [nodeAt] at h ⊢ <;> try exact ⟨old, h, le_refl _⟩
          rw [GoMap.get?_set]
          by_cases hx : x = obj.siteId
          · subst hx
            rw [hg] at h
            simp only [Option.map_some', Option.some.injEq] at h
            simp only [if_true, Option.map_some', Option.some.injEq, exists_eq_left']
            rw [← h]
            simpa [Before] using hb
          · simp only [hx, if_false]
            exact ⟨old, h, le_refl _⟩
    · cases hg : deployment.smfNodes.get? obj.siteId with
      | none => exact ⟨old, h, le_refl _⟩
      | some node =>
        simp only
        split_ifs with hb
        · exact ⟨old, h, le_refl _⟩
        · rw [lastEventTimestampAt_processNFEdgeEvent]
          unfold lastEventTimestampAt at h ⊢
          cases t <;> simp only [nodeAt] at h ⊢ <;> try exact ⟨old, h, le_refl _⟩
          rw [GoMap.get?_set]
          by_cases hx : x = obj.siteId
          · subst hx
            rw [hg] at h
            simp only [Option.map_some', Option.some.injEq] at h
            simp only [if_true, Option.map_some', Option.some.injEq, exists_eq_left']
            rw [← h]
            simpa [Before] using hb
          · simp only [hx, if_false]
            exact ⟨old, h, le_refl _⟩
    · cases hg : deployment.udmNodes.get? obj.siteId with
      | none => exact ⟨old, h, le_refl _⟩
      | some node =>
        simp only
        split_ifs with hb
        · exact ⟨old, h, le_refl _⟩
        · rw [lastEventTimestampAt_processNFEdgeEvent]
          unfold lastEventTimestampAt at h ⊢
          cases t <;> simp only [nodeAt] at h ⊢ <;> try exact ⟨old, h, le_refl _⟩
          rw [GoMap.get?_set]
          by_cases hx : x = obj.siteId
          · subst hx
            rw [hg] at h
            simp only [Option.map_some', Option.some.injEq] at h
            simp only [if_true, Option.map_some', Option.some.injEq, exists_eq_left']
            rw [← h]
            simpa [Before] using hb
          · simp only [hx, if_false]
            exact ⟨old, h, le_refl _⟩
    · cases hg : deployment.ausfNodes.get? obj.siteId with
      | none => exact ⟨old, h, le_refl _⟩
      | some node =>
        simp only
        split_ifs with hb
        · exact ⟨old, h, le_refl _⟩
        · rw [lastEventTimestampAt_processNFEdgeEvent]
          unfold lastEventTimestampAt at h ⊢
          cases t <;> simp only [nodeAt] at h ⊢ <;> try exact ⟨old, h, le_refl _⟩
          rw [GoMap.get?_set]
          by_cases hx : x = obj.siteId
          · subst hx
            rw [hg] at h
            simp only [Option.map_some', Option.some.injEq] at h
            simp only [if_true, Option.map_some', Option.some.injEq, exists_eq_left']
            rw [← h]
            simpa [Before] using hb
          · simp only [hx, if_false]
            exact ⟨old, h, le_refl _⟩
    · exact ⟨old, h, le_refl _⟩

/-! ### Nodes kept by a topology update -/

theorem nodeAt_set_upf (deployment : Deployment) (k : String) (v : UPFNode)
    (hkeep : ∀ v0, deployment.upfNodes.get? k = some v0 → v.toNode = v0.toNode)
    (t : NFType) (x : String) (node : Node) (hn : nodeAt deployment t x = some node) :
    nodeAt { deployment with upfNodes := deployment.upfNodes.set k v } t x = some node := by
  cases t <;> simp only [nodeAt] at hn ⊢ <;> try exact hn
  rw [GoMap.get?_set]
  by_cases hx : x = k
  · subst hx
    cases hg : deployment.upfNodes.get? x with
    | none => rw [hg] at hn; cases hn
    | some v0 =>
      rw [hg] at hn
      simp only [Option.map_some', Option.some.injEq] at hn
      simp only [if_true, Option.map_some', Option.some.injEq]
      rw [hkeep v0 hg, hn]
  · simp only [hx, if_false]
    exact hn

theorem nodeAt_set_smf (deployment : Deployment) (k : String) (v : SMFNode)
    (hkeep : ∀ v0, deployment.smfNodes.get? k = some v0 → v.toNode = v0.toNode)
    (t : NFType) (x : String) (node : Node) (hn : nodeAt deployment t x = some node) :
    nodeAt { deployment with smfNodes := deployment.smfNodes.set k v } t x = some node := by
  cases t <;> simp only [nodeAt] at hn ⊢ <;> try exact hn
  rw [GoMap.get?_set]
  by_cases hx : x = k
  · subst hx
    cases hg : deployment.smfNodes.get? x with
    | none => rw [hg] at hn; cases hn
    | some v0 =>
      rw [hg] at hn
      simp only [Option.map_some', Option.some.injEq] at hn
      simp only [if_true, Option.map_some', Option.some.injEq]
      rw [hkeep v0 hg, hn]
  · simp only [hx, if_false]
    exact hn

theorem nodeAt_set_ausf (deployment : Deployment) (k : String) (v : AUSFNode)
    (hkeep : ∀ v0, deployment.ausfNodes.get? k = some v0 → v.toNode = v0.toNode)
    (t : NFType) (x : String) (node : Node) (hn : nodeAt deployment t x = some node) :
    nodeAt { deployment with ausfNodes := deployment.ausfNodes.set k v } t x = some node := by
  cases t <;> simp only [nodeAt] at hn ⊢ <;> try exact hn
  rw [GoMap.get?_set]
  by_cases hx : x = k
  · subst hx
    cases hg : deployment.ausfNodes.get? x with
    | none => rw [hg] at hn; cases hn
    | some v0 =>
      rw [hg] at hn
      simp only [Option.map_some', Option.some.injEq] at hn
      simp only [if_true, Option.map_some', Option.some.injEq]
      rw [hkeep v0 hg, hn]
  · simp only [hx, if_false]
    exact hn

theorem nodeAt_set_udm (deployment : Deployment) (k : String) (v : UDMNode)
    (hkeep : ∀ v0, deployment.udmNodes.get? k = some v0 → v.toNode = v0.toNode)
    (t : NFType) (x : String) (node : Node) (hn : nodeAt deployment t x = some node) :
    nodeAt { deployment with udmNodes := deployment.udmNodes.set k v } t x = some node := by
  cases t <;> simp only [nodeAt] at hn ⊢ <;> try exact hn
  rw [GoMap.get?_set]
  by_cases hx : x = k
  · subst hx
    cases hg : deployment.udmNodes.get? x with
    | none => rw [hg] at hn; cases hn
    | some v0 =>
      rw [hg] at hn
      simp only [Option.map_some', Option.some.injEq] at hn
      simp only [if_true, Option.map_some', Option.some.injEq]
      rw [hkeep v0 hg, hn]
  · simp only [hx, if_false]
    exact hn

theorem nodeAt_addOrUpdateUPFNode_of_some (intents : IntentProcessors)
    (deployment : Deployment) (site : Site) (t : NFType) (x : String) (node : Node)
    (hn : nodeAt deployment t x = some node) :
    nodeAt (addOrUpdateUPFNode intents deployment site) t x = some node := by
  unfold addOrUpdateUPFNode
  simp only
  have h1 : nodeAt
      (if deployment.upfNodes.contains site.Id = true then deployment
       else
        { deployment with
          upfNodes := deployment.upfNodes.set site.Id
            { Id := site.Id, NFType := .UPF, Connections := GoMap.empty,
              Spec := { clusterName := site.ClusterName } } }) t x = some node := by
    split_ifs with hc
    · exact hn
    · apply nodeAt_set_upf _ _ _ _ _ _ _ hn
      intro v0 hv0
      simp [GoMap.contains, hv0] at hc
  split
  · exact h1
  · split
    · exact h1
    · rename_i upfIntent upfNode hg
      apply nodeAt_set_upf _ _ _ _ _ _ _ h1
      intro v0 hv0
      rw [hg] at hv0
      cases hv0
      rfl

theorem nodeAt_addOrUpdateSMFNode_of_some (intents : IntentProcessors)
    (deployment : Deployment) (site : Site) (t : NFType) (x : String) (node : Node)
    (hn : nodeAt deployment t x = some node) :
    nodeAt (addOrUpdateSMFNode intents deployment site) t x = some node := by
  unfold addOrUpdateSMFNode
  simp only
  have h1 : nodeAt
      (if deployment.smfNodes.contains site.Id = true then deployment
       else
        { deployment with
          smfNodes := deployment.smfNodes.set site.Id
            { Id := site.Id, NFType := .SMF, Connections := GoMap.empty,
              Spec := { clusterName := site.ClusterName } } }) t x = some node := by
    split_ifs with hc
    · exact hn
    · apply nodeAt_set_smf _ _ _ _ _ _ _ hn
      intro v0 hv0
      simp [GoMap.contains, hv0] at hc
  split
  · exact h1
  · rename_i smfNode hg
    split
    · exact h1
    · apply nodeAt_set_smf _ _ _ _ _ _ _ h1
      intro v0 hv0
      rw [hg] at hv0
      cases hv0
      rfl

theorem nodeAt_addOrUpdateNode_of_some (intents : IntentProcessors)
    (deployment : Deployment) (site : Site) (t : NFType) (x : String) (node : Node)
    (hn : nodeAt deployment t x = some node) :
    nodeAt (addOrUpdateNode intents deployment site) t x = some node := by
  unfold addOrUpdateNode
  cases site.NFType <;> simp only
  · exact hn
  · exact nodeAt_addOrUpdateUPFNode_of_some _ _ _ _ _ _ hn
  · exact nodeAt_addOrUpdateSMFNode_of_some _ _ _ _ _ _ hn
  · exact hn
  · unfold addOrUpdateAUSFNode
    simp only
    split_ifs with hc
    · exact hn
    · apply nodeAt_set_ausf _ _ _ _ _ _ _ hn
      intro v0 hv0
      simp [GoMap.contains, hv0] at hc
  · unfold addOrUpdateUDMNode
    simp only
    split_ifs with hc
    · exact hn
    · apply nodeAt_set_udm _ _ _ _ _ _ _ hn
      intro v0 hv0
      simp [GoMap.contains, hv0] at hc

theorem nodeAt_foldl_addOrUpdateNode_of_some (intents : IntentProcessors) (sites : List Site)
    (deployment : Deployment) (t : NFType) (x : String) (node : Node)
    (hn : nodeAt deployment t x = some node) :
    nodeAt (sites.foldl (addOrUpdateNode intents) deployment) t x = some node := by
  induction sites generalizing deployment with
  | nil => exact hn
  | cons s sites ih =>
    rw [List.foldl_cons]
    exact ih _ (nodeAt_addOrUpdateNode_of_some intents deployment s t x node hn)

theorem connectIf_Status (c : Prop) [Decidable c] (node : Node) (id : String) :
    (connectIf c node id).Status = node.Status := by
  unfold connectIf Node.connect
  split_ifs <;> rfl

theorem lastEventTimestampAt_createEdge (deployment : Deployment) (a b : String) (t : NFType)
    (x : String) :
    lastEventTimestampAt (createEdge deployment a b) t x =
      lastEventTimestampAt deployment t x := by
  by_cases hc : ∃ e ∈ deployment.edges, e.IsEqual a b = true
  · rw [createEdge_of_connected _ _ _ hc]
  · unfold lastEventTimestampAt
    rw [nodeAt_createEdge _ _ _ _ _ hc, Option.map_map]
    congr 1
    funext node
    simp only [Function.comp, connectIf_Status]

theorem lastEventTimestampAt_foldl_createEdgesOf (sites : List Site) (deployment : Deployment)
    (t : NFType) (x : String) :
    lastEventTimestampAt (sites.foldl createEdgesOf deployment) t x =
      lastEventTimestampAt deployment t x := by
  apply foldl_createEdge_invariant
    (fun d => lastEventTimestampAt d t x = lastEventTimestampAt deployment t x) sites
  · intro d s _ c _ hq
    show lastEventTimestampAt (createEdge d s.Id c.NeighborName) t x = _
    rw [lastEventTimestampAt_createEdge]; exact hq
  · rfl

/-- A node that is tracked before and after `ReportNFDeployEvent` keeps its
`lastEventTimestamp`. -/
theorem lastEventTimestampAt_ReportNFDeployEvent (intents : IntentProcessors)
    (deployment : Deployment) (nfDeploy : NfDeploy) (t : NFType) (x : String)
    (old new : Time) (h : lastEventTimestampAt deployment t x = some old)
    (h' : lastEventTimestampAt (ReportNFDeployEvent intents deployment nfDeploy) t x =
      some new) : new = old := by
  rw [ReportNFDeployEvent_eq] at h'
  unfold lastEventTimestampAt at h'
  rw [nodeAt_removeNFs] at h'
  split_ifs at h' with hs
  · cases h'
  · have h2 := lastEventTimestampAt_foldl_createEdgesOf nfDeploy.Sites
      (nfDeploy.Sites.foldl (addOrUpdateNode intents)
        { deployment with name := nfDeploy.Name }) t x
    unfold lastEventTimestampAt at h2 h
    rw [h2] at h'
    obtain ⟨node, hnode, hts⟩ := Option.map_eq_some'.mp h
    have hnode' : nodeAt { deployment with name := nfDeploy.Name } t x = some node := by
      cases t <;> exact hnode
    rw [nodeAt_foldl_addOrUpdateNode_of_some intents nfDeploy.Sites _ t x node hnode'] at h'
    simp only [Option.map_some', Option.some.injEq] at h'
    rw [← h', hts]

namespace GoMap
variable {V W : Type}

theorem lookup_map (f : V → W) (l : List (String × V)) (k : String) :
    lookup k (l.map (fun e => (e.1, f e.2))) = (lookup k l).map f := by
  induction l with
  | nil => rfl
  | cons e es ih =>
    simp only [List.map_cons, lookup]
    by_cases h : e.1 = k
    · simp [h]
    · simp [h, ih]

theorem get?_mapValues (f : V → W) (m : GoMap V) (k : String) :
    (m.mapValues f).get? k = (m.get? k).map f :=
  lookup_map f m.entries k

theorem contains_mapValues (f : V → W) (m : GoMap V) (k : String) :
    (m.mapValues f).contains k = m.contains k := by
  unfold contains
  rw [get?_mapValues]
  cases m.get? k <;> rfl

theorem keys_mapValues (f : V → W) (m : GoMap V) : (m.mapValues f).keys = m.keys := by
  unfold keys mapValues
  simp [List.map_map, Function.comp]

theorem set_mapValues (f : V → W) (m : GoMap V) (k : String) (v : V) :
    (m.set k v).mapValues f = (m.mapValues f).set k (f v) := by
  unfold set
  rw [contains_mapValues]
  by_cases hc : m.contains k = true
  · simp only [hc, if_true, mapValues, List.map_map]
    congr 1
    apply List.map_congr_left
    intro e _
    by_cases he : e.1 = k <;> simp [Function.comp, he]
  · simp only [hc, if_false, mapValues, List.map_append, List.map_cons, List.map_nil,
      Bool.false_eq_true]

theorem set_set (m : GoMap V) (k : String) (v w : V) : (m.set k v).set k w = m.set k w := by
  have hc' : (m.set k v).contains k = true := by simp [contains_set]
  by_cases hc : m.contains k = true
  · unfold set at hc' ⊢
    simp only [hc, if_true] at hc' ⊢
    rw [if_pos hc']
    simp only [List.map_map]
    congr 1
    apply List.map_congr_left
    intro e _
    by_cases he : e.1 = k <;> simp [Function.comp, he]
  · unfold set at hc' ⊢
    simp only [hc, if_false, Bool.false_eq_true] at hc' ⊢
    rw [if_pos hc']
    simp only [List.map_append, List.map_cons, List.map_nil, if_true]
    congr 2
    have hk : k ∉ m.keys := fun hmem => hc ((contains_iff_mem_keys m k).mpr hmem)
    rw [List.map_congr_left (g := id)]
    · simp
    · intro e he
      have : e.1 ≠ k := fun h => hk (by rw [← h]; exact List.mem_map_of_mem Prod.fst he)
      simp [this]

theorem set_self (m : GoMap V) (hwf : m.WF) (k : String) (v : V) (h : m.get? k = some v) :
    m.set k v = m := by
  have hc : m.contains k = true := by simp [contains, h]
  unfold set
  rw [if_pos hc]
  cases m with
  | mk entries =>
    congr 1
    rw [List.map_congr_left (g := id)]
    · simp
    · intro e he
      by_cases hk : e.1 = k
      · have hl : lookup k entries = some e.2 := by
          apply lookup_eq_some_of_mem _ _ _ hwf
          rw [← hk]; exact he
        have hv : e.2 = v := by
          have : some e.2 = some v := by rw [← hl]; exact h
          exact Option.some.inj this
        simp only [hk, if_true, id]
        rw [← hk, ← hv]
      · simp [hk]

theorem WF_mapValues (f : V → W) (m : GoMap V) (h : m.WF) : (m.mapValues f).WF := by
  unfold WF at *
  rw [keys_mapValues]
  exact h

theorem filter_mapValues (f : V → W) (p : String → Bool) (m : GoMap V) :
    (⟨(m.mapValues f).entries.filter (fun e => p e.1)⟩ : GoMap W) =
      (⟨m.entries.filter (fun e => p e.1)⟩ : GoMap V).mapValues f := by
  unfold mapValues
  simp only [List.filter_map]
  rfl

end GoMap

/-! ### Topology updates without the enrichment -/

theorem getNFType_withoutEnrichment (deployment : Deployment) (x : String) :
    getNFType (withoutEnrichment deployment) x = getNFType deployment x := by
  unfold getNFType withoutEnrichment
  simp only [GoMap.contains_mapValues]

theorem addConnection_withoutEnrichment (deployment : Deployment) (a : String) (t : NFType)
    (b : String) :
    addConnection (withoutEnrichment deployment) a t b =
      withoutEnrichment (addConnection deployment a t b) := by
  unfold addConnection
  cases t <;> simp only
  · show (match (deployment.upfNodes.mapValues UPFNode.withoutEnrichment).get? a with
        | some node => _
        | none => _) = _
    rw [GoMap.get?_mapValues]
    cases hg : deployment.upfNodes.get? a with
    | none => rfl
    | some node =>
      simp only [Option.map_some', withoutEnrichment, GoMap.set_mapValues]
      rfl
  · show (match (deployment.smfNodes.mapValues SMFNode.withoutEnrichment).get? a with
        | some node => _
        | none => _) = _
    rw [GoMap.get?_mapValues]
    cases hg : deployment.smfNodes.get? a with
    | none => rfl
    | some node =>
      simp only [Option.map_some', withoutEnrichment, GoMap.set_mapValues]
      rfl
  · show (match deployment.amfNodes.get? a with
        | some node => _
        | none => _) = _
    cases hg : deployment.amfNodes.get? a <;> rfl
  · show (match deployment.ausfNodes.get? a with
        | some node => _
        | none => _) = _
    cases hg : deployment.ausfNodes.get? a <;> rfl
  · show (match deployment.udmNodes.get? a with
        | some node => _
        | none => _) = _
    cases hg : deployment.udmNodes.get? a <;> rfl

theorem createEdge_withoutEnrichment (deployment : Deployment) (a b : String) :
    createEdge (withoutEnrichment deployment) a b =
      withoutEnrichment (createEdge deployment a b) := by
  unfold createEdge
  have he : (withoutEnrichment deployment).edges = deployment.edges := rfl
  rw [he]
  split_ifs with hc
  · rfl
  · simp only [getNFType_withoutEnrichment, addConnection_withoutEnrichment]
    rfl

theorem createEdgesOf_withoutEnrichment (deployment : Deployment) (site : Site) :
    createEdgesOf (withoutEnrichment deployment) site =
      withoutEnrichment (createEdgesOf deployment site) := by
  unfold createEdgesOf
  exact List.foldl_hom withoutEnrichment
    (fun d (c : Connectivity) => createEdge d site.Id c.NeighborName)
    (fun d (c : Connectivity) => createEdge d site.Id c.NeighborName)
    site.Connectivities deployment
    (fun d c => createEdge_withoutEnrichment d site.Id c.NeighborName)

theorem foldl_createEdgesOf_withoutEnrichment (sites : List Site) (deployment : Deployment) :
    sites.foldl createEdgesOf (withoutEnrichment deployment) =
      withoutEnrichment (sites.foldl createEdgesOf deployment) :=
  List.foldl_hom withoutEnrichment createEdgesOf createEdgesOf sites deployment
    (fun d s => createEdgesOf_withoutEnrichment d s)

theorem staleNodes_withoutEnrichment (deployment : Deployment) (nfList : GoMap NFType) :
    staleNodes (withoutEnrichment deployment) nfList = staleNodes deployment nfList := by
  unfold staleNodes withoutEnrichment GoMap.mapValues
  simp only [List.filter_map, List.map_map]
  rfl

theorem removeNFs_withoutEnrichment (deployment : Deployment) (nfDeploy : NfDeploy) :
    removeNFs (withoutEnrichment deployment) nfDeploy =
      withoutEnrichment (removeNFs deployment nfDeploy) := by
  rw [removeNFs_eq, removeNFs_eq, staleNodes_withoutEnrichment]
  have h1 := GoMap.filter_mapValues UPFNode.withoutEnrichment
    (fun k => !isStale (siteTypes nfDeploy) k .UPF) deployment.upfNodes
  have h2 := GoMap.filter_mapValues SMFNode.withoutEnrichment
    (fun k => !isStale (siteTypes nfDeploy) k .SMF) deployment.smfNodes
  simp only [withoutEnrichment]
  simp only at h1 h2
  rw [h1, h2]

theorem addOrUpdateUPFNode_withoutEnrichment (intents : IntentProcessors)
    (deployment : Deployment) (site : Site) (hwf : deployment.upfNodes.WF) :
    withoutEnrichment (addOrUpdateUPFNode intents deployment site) =
      addOrUpdateUPFNode noIntents (withoutEnrichment deployment) site := by
  unfold addOrUpdateUPFNode
  simp only [noIntents]
  have hcE : (withoutEnrichment deployment).upfNodes.contains site.Id =
      deployment.upfNodes.contains site.Id := GoMap.contains_mapValues _ _ _
  rw [hcE]
  by_cases hc : deployment.upfNodes.contains site.Id = true
  · simp only [hc, if_true]
    cases hi : intents.GetUPFIntent site.NFTypeName with
    | none => rfl
    | some upfIntent =>
      simp only
      cases hg : deployment.upfNodes.get? site.Id with
      | none => rfl
      | some upfNode =>
        simp only [withoutEnrichment, GoMap.set_mapValues]
        have hself : (deployment.upfNodes.mapValues UPFNode.withoutEnrichment).set site.Id
            (UPFNode.withoutEnrichment upfNode) =
            deployment.upfNodes.mapValues UPFNode.withoutEnrichment := by
          apply GoMap.set_self _ (GoMap.WF_mapValues _ _ hwf)
          rw [GoMap.get?_mapValues, hg]
          rfl
        have he : UPFNode.withoutEnrichment
            { upfNode with Spec := { upfNode.Spec with throughput := upfIntent.Throughput } } =
            UPFNode.withoutEnrichment upfNode := rfl
        rw [he, hself]
  · simp only [hc, if_false, Bool.false_eq_true]
    cases hi : intents.GetUPFIntent site.NFTypeName with
    | none =>
      simp only [withoutEnrichment, GoMap.set_mapValues]
      rfl
    | some upfIntent =>
      simp only [GoMap.get?_set_self, withoutEnrichment, GoMap.set_mapValues, GoMap.set_set]
      rfl

theorem addOrUpdateSMFNode_withoutEnrichment (intents : IntentProcessors)
    (deployment : Deployment) (site : Site) (hwf : deployment.smfNodes.WF) :
    withoutEnrichment (addOrUpdateSMFNode intents deployment site) =
      addOrUpdateSMFNode noIntents (withoutEnrichment deployment) site := by
  unfold addOrUpdateSMFNode
  simp only [noIntents]
  have hcE : (withoutEnrichment deployment).smfNodes.contains site.Id =
      deployment.smfNodes.contains site.Id := GoMap.contains_mapValues _ _ _
  rw [hcE]
  by_cases hc : deployment.smfNodes.contains site.Id = true
  · simp only [hc, if_true]
    have hgE : (withoutEnrichment deployment).smfNodes.get? site.Id =
        (deployment.smfNodes.get? site.Id).map SMFNode.withoutEnrichment :=
      GoMap.get?_mapValues _ _ _
    rw [hgE]
    cases hg : deployment.smfNodes.get? site.Id with
    | none => rfl
    | some smfNode =>
      simp only [Option.map_some']
      cases hi : intents.GetSMFIntent site.NFTypeName with
      | none => rfl
      | some smfIntent =>
        simp only [withoutEnrichment, GoMap.set_mapValues]
        have hself : (deployment.smfNodes.mapValues SMFNode.withoutEnrichment).set site.Id
            (SMFNode.withoutEnrichment smfNode) =
            deployment.smfNodes.mapValues SMFNode.withoutEnrichment := by
          apply GoMap.set_self _ (GoMap.WF_mapValues _ _ hwf)
          rw [GoMap.get?_mapValues, hg]
          rfl
        have he : SMFNode.withoutEnrichment
            { smfNode with Spec := { smfNode.Spec with maxSessions := smfIntent.MaxSessions } } =
            SMFNode.withoutEnrichment smfNode := rfl
        rw [he, hself]
  · simp only [hc, if_false, Bool.false_eq_true, GoMap.get?_set_self]
    have hgE : ({ withoutEnrichment deployment with
        smfNodes := (withoutEnrichment deployment).smfNodes.set site.Id
          { Id := site.Id, NFType := .SMF, Connections := GoMap.empty,
            Spec := { clusterName := site.ClusterName } } } : Deployment).smfNodes.get? site.Id =
        some { Id := site.Id, NFType := .SMF, Connections := GoMap.empty,
               Spec := { clusterName := site.ClusterName } } := GoMap.get?_set_self _ _ _
    cases hi : intents.GetSMFIntent site.NFTypeName with
    | none =>
      simp only [withoutEnrichment, GoMap.set_mapValues, GoMap.get?_set_self]
      rfl
    | some smfIntent =>
      simp only [withoutEnrichment, GoMap.set_mapValues, GoMap.set_set, GoMap.get?_set_self]
      rfl

theorem addOrUpdateNode_withoutEnrichment (intents : IntentProcessors)
    (deployment : Deployment) (site : Site) (hwf : WFNodes deployment) :
    withoutEnrichment (addOrUpdateNode intents deployment site) =
      addOrUpdateNode noIntents (withoutEnrichment deployment) site := by
  unfold addOrUpdateNode
  cases site.NFType <;> simp only
  · exact addOrUpdateUPFNode_withoutEnrichment intents deployment site hwf.1
  · exact addOrUpdateSMFNode_withoutEnrichment intents deployment site hwf.2.1
  · unfold addOrUpdateAUSFNode
    simp only
    have : (withoutEnrichment deployment).ausfNodes = deployment.ausfNodes := rfl
    rw [this]
    split_ifs <;> rfl
  · unfold addOrUpdateUDMNode
    simp only
    have : (withoutEnrichment deployment).udmNodes = deployment.udmNodes := rfl
    rw [this]
    split_ifs <;> rfl

theorem WFNodes_addOrUpdateNode (intents : IntentProcessors) (deployment : Deployment)
    (site : Site) (hwf : WFNodes deployment) :
    WFNodes (addOrUpdateNode intents deployment site) := by
  rcases addOrUpdateNode_spec intents deployment site with ⟨_, hup⟩ | ⟨_, heq⟩
  · exact hup.WFNodes hwf
  · rw [heq]; exact hwf

theorem foldl_addOrUpdateNode_withoutEnrichment (intents : IntentProcessors)
    (sites : List Site) (deployment : Deployment) (hwf : WFNodes deployment) :
    withoutEnrichment (sites.foldl (addOrUpdateNode intents) deployment) =
      sites.foldl (addOrUpdateNode noIntents) (withoutEnrichment deployment) := by
  induction sites generalizing deployment with
  | nil => rfl
  | cons s sites ih =>
    rw [List.foldl_cons, List.foldl_cons,
      ih _ (WFNodes_addOrUpdateNode intents deployment s hwf),
      addOrUpdateNode_withoutEnrichment intents deployment s hwf]

/-- The result of `ReportNFDeployEvent` without the enrichment is the result of the
update made with no profile resolved on the deployment without the enrichment. -/
theorem ReportNFDeployEvent_withoutEnrichment (intents : IntentProcessors)
    (deployment : Deployment) (nfDeploy : NfDeploy) (hwf : WFNodes deployment) :
    withoutEnrichment (ReportNFDeployEvent intents deployment nfDeploy) =
      ReportNFDeployEvent noIntents (withoutEnrichment deployment) nfDeploy := by
  rw [ReportNFDeployEvent_eq, ReportNFDeployEvent_eq, ← removeNFs_withoutEnrichment,
    ← foldl_createEdgesOf_withoutEnrichment,
    foldl_addOrUpdateNode_withoutEnrichment intents nfDeploy.Sites
      { deployment with name := nfDeploy.Name } hwf]
  rfl

/-! ### The keys collected by CreateNFDeployActuators -/

theorem keys_setVendorNF (l : List (VendorNFKey × Bool)) (key : VendorNFKey) :
    (setVendorNF l key).map Prod.fst =
      if key ∈ l.map Prod.fst then l.map Prod.fst else l.map Prod.fst ++ [key] := by
  unfold setVendorNF
  have hany : (l.any (fun e => decide (e.1 = key)) = true) ↔ key ∈ l.map Prod.fst := by
    simp only [List.any_eq_true, decide_eq_true_eq, List.mem_map]
  by_cases h : key ∈ l.map Prod.fst
  · rw [if_pos (hany.mpr h), if_pos h, List.map_map]
    apply List.map_congr_left
    intro e _
    by_cases he : e.1 = key <;> simp [Function.comp, he]
  · rw [if_neg (fun hc => h (hany.mp hc)), if_neg h]
    simp

theorem mem_keys_setVendorNF (l : List (VendorNFKey × Bool)) (key k : VendorNFKey) :
    k ∈ (setVendorNF l key).map Prod.fst ↔ k ∈ l.map Prod.fst ∨ k = key := by
  rw [keys_setVendorNF]
  split_ifs with h
  · constructor
    · exact Or.inl
    · rintro (h' | h')
      · exact h'
      · rw [h']; exact h
  · simp

theorem nodup_keys_setVendorNF (l : List (VendorNFKey × Bool)) (key : VendorNFKey)
    (h : (l.map Prod.fst).Nodup) : ((setVendorNF l key).map Prod.fst).Nodup := by
  rw [keys_setVendorNF]
  split_ifs with hk
  · exact h
  · rw [List.nodup_append]
    refine ⟨h, List.nodup_singleton _, ?_⟩
    simp only [List.disjoint_singleton]
    exact hk

/-- One step of the first loop of `CreateNFDeployActuators`, read through the
two-valued lookup. -/
theorem get?_collectStep (m : GoMap (List (VendorNFKey × Bool))) (cluster : String)
    (key : VendorNFKey) (c : String) :
    ((if m.contains cluster then m else m.set cluster []).set cluster
        (setVendorNF ((if m.contains cluster then m else m.set cluster []).get cluster)
          key)).get? c =
      if c = cluster then some (setVendorNF ((m.get? cluster).getD []) key) else m.get? c := by
  rw [GoMap.get?_set]
  by_cases hc : c = cluster
  · simp only [hc, if_true, Option.some.injEq]
    congr 1
    by_cases hm : m.contains cluster = true
    · simp only [hm, if_true]
      rfl
    · simp only [hm, if_false, Bool.false_eq_true, GoMap.get, GoMap.get?_set_self]
      have : m.get? cluster = none := by
        cases hg : m.get? cluster with
        | none => rfl
        | some v => simp [GoMap.contains, hg] at hm
      rw [this]
      rfl
  · simp only [hc, if_false]
    by_cases hm : m.contains cluster = true
    · simp only [hm, if_true]
    · simp only [hm, if_false, Bool.false_eq_true, GoMap.get?_set, hc]

theorem WF_collectStep (m : GoMap (List (VendorNFKey × Bool))) (cluster : String)
    (key : VendorNFKey) (h : m.WF) :
    ((if m.contains cluster then m else m.set cluster []).set cluster
        (setVendorNF ((if m.contains cluster then m else m.set cluster []).get cluster)
          key)).WF := by
  apply GoMap.WF_set
  split_ifs
  · exact h
  · exact GoMap.WF_set _ _ _ h

/-- The loop of `collectVendorNFs` from a map `m` that already holds the combinations
of the sites `done`. -/
theorem collectVendorNFs_foldl (rest : List Site) :
    ∀ (done : List Site) (m : GoMap (List (VendorNFKey × Bool))),
      m.WF →
      (∀ c ks, m.get? c = some ks → (ks.map Prod.fst).Nodup) →
      (∀ c k, (∃ ks, m.get? c = some ks ∧ k ∈ ks.map Prod.fst) ↔
        (c, k) ∈ done.map combinationOf) →
      (rest.foldl
        (fun clusterVendorNFsMap site =>
          (if clusterVendorNFsMap.contains site.ClusterName then clusterVendorNFsMap
            else clusterVendorNFsMap.set site.ClusterName []).set site.ClusterName
            (setVendorNF
              ((if clusterVendorNFsMap.contains site.ClusterName then clusterVendorNFsMap
                else clusterVendorNFsMap.set site.ClusterName []).get site.ClusterName)
              (vendorNFKeyOf site))) m).WF ∧
      (∀ c ks, (rest.foldl
        (fun clusterVendorNFsMap site =>
          (if clusterVendorNFsMap.contains site.ClusterName then clusterVendorNFsMap
            else clusterVendorNFsMap.set site.ClusterName []).set site.ClusterName
            (setVendorNF
              ((if clusterVendorNFsMap.contains site.ClusterName then clusterVendorNFsMap
                else clusterVendorNFsMap.set site.ClusterName []).get site.ClusterName)
              (vendorNFKeyOf site))) m).get? c = some ks →
        (ks.map Prod.fst).Nodup) ∧
      (∀ c k, (∃ ks, (rest.foldl
        (fun clusterVendorNFsMap site =>
          (if clusterVendorNFsMap.contains site.ClusterName then clusterVendorNFsMap
            else clusterVendorNFsMap.set site.ClusterName []).set site.ClusterName
            (setVendorNF
              ((if clusterVendorNFsMap.contains site.ClusterName then clusterVendorNFsMap
                else clusterVendorNFsMap.set site.ClusterName []).get site.ClusterName)
              (vendorNFKeyOf site))) m).get? c = some ks ∧
          k ∈ ks.map Prod.fst) ↔
        (c, k) ∈ (done ++ rest).map combinationOf) := by
  induction rest with
  | nil =>
    intro done m hwf hnd hmem
    simp only [List.foldl_nil, List.append_nil]
    exact ⟨hwf, hnd, hmem⟩
  | cons s rest ih =>
    intro done m hwf hnd hmem
    simp only [List.foldl_cons]
    have hstep := ih (done ++ [s]) _ (WF_collectStep m s.ClusterName (vendorNFKeyOf s) hwf)
      (by
        intro c ks hg
        rw [get?_collectStep] at hg
        split_ifs at hg with hc
        · cases hg
          apply nodup_keys_setVendorNF
          cases hold : m.get? s.ClusterName with
          | none => exact List.nodup_nil
          | some old => exact hnd _ _ hold
        · exact hnd c ks hg)
      (by
        intro c k
        simp only [get?_collectStep]
        rw [List.map_append, List.mem_append, ← hmem c k]
        simp only [List.map_cons, List.map_nil, List.mem_singleton, combinationOf,
          Prod.mk.injEq]
        by_cases hc : c = s.ClusterName
        · subst hc
          simp only [if_true, Option.some.injEq, exists_eq_left', mem_keys_setVendorNF,
            true_and]
          cases hold : m.get? s.ClusterName with
          | none => simp
          | some old => simp
        · simp only [hc, if_false, false_and, or_false])
    rw [List.append_assoc] at hstep
    exact hstep

/-- The map collected by the first loop is a Go map whose inner maps have no repeated
key, and it holds the key `k` under the cluster `c` exactly when a site has this
combination. -/
theorem collectVendorNFs_spec (sites : List Site) :
    (collectVendorNFs sites).WF ∧
    (∀ c ks, (collectVendorNFs sites).get? c = some ks → (ks.map Prod.fst).Nodup) ∧
    (∀ c k, (∃ ks, (collectVendorNFs sites).get? c = some ks ∧ k ∈ ks.map Prod.fst) ↔
      (c, k) ∈ sites.map combinationOf) := by
  have h := collectVendorNFs_foldl sites [] GoMap.empty GoMap.WF_empty
    (by intro c ks hg; cases hg) (by intro c k; simp [GoMap.empty, GoMap.get?, GoMap.lookup])
  rw [List.nil_append] at h
  exact h

theorem fst_mem_of_mem_flattenVendorNFs (l : List (String × List (VendorNFKey × Bool)))
    (p : String × VendorNFKey) (hp : p ∈ flattenVendorNFs l) : p.1 ∈ l.map Prod.fst := by
  induction l with
  | nil => cases hp
  | cons e rest ih =>
    unfold flattenVendorNFs at hp
    rcases List.mem_append.mp hp with h | h
    · simp only [List.mem_map] at h
      obtain ⟨k, _, hk⟩ := h
      rw [← hk]
      exact List.mem_cons_self _ _
    · exact List.mem_cons_of_mem _ (ih h)

theorem nodup_flattenVendorNFs (l : List (String × List (VendorNFKey × Bool)))
    (hk : (l.map Prod.fst).Nodup) (hin : ∀ e ∈ l, (e.2.map Prod.fst).Nodup) :
    (flattenVendorNFs l).Nodup := by
  induction l with
  | nil => exact List.nodup_nil
  | cons e rest ih =>
    simp only [List.map_cons, List.nodup_cons] at hk
    unfold flattenVendorNFs
    rw [List.nodup_append]
    refine ⟨?_, ih hk.2 (fun e' he' => hin e' (List.mem_cons_of_mem _ he')), ?_⟩
    · have hn := hin e (List.mem_cons_self _ _)
      have : e.2.map (fun k => (e.1, k.1)) = (e.2.map Prod.fst).map (fun k => (e.1, k)) := by
        rw [List.map_map]; rfl
      rw [this]
      exact hn.map (fun a b hab => (Prod.mk.inj hab).2)
    · intro p hp hp'
      simp only [List.mem_map] at hp
      obtain ⟨k, _, hpk⟩ := hp
      have := fst_mem_of_mem_flattenVendorNFs rest p hp'
      rw [← hpk] at this
      exact hk.1 this

theorem mem_flattenVendorNFs (l : List (String × List (VendorNFKey × Bool)))
    (c : String) (k : VendorNFKey) :
    (c, k) ∈ flattenVendorNFs l ↔ ∃ ks, (c, ks) ∈ l ∧ k ∈ ks.map Prod.fst := by
  induction l with
  | nil => simp [flattenVendorNFs]
  | cons e rest ih =>
    unfold flattenVendorNFs
    rw [List.mem_append, ih]
    constructor
    · rintro (h | ⟨ks, hks, hk⟩)
      · simp only [List.mem_map, Prod.mk.injEq] at h
        obtain ⟨k', hk', hc, hkk⟩ := h
        refine ⟨e.2, ?_, ?_⟩
        · rw [← hc]; exact List.mem_cons_self _ _
        · rw [← hkk]; exact List.mem_map_of_mem Prod.fst hk'
      · exact ⟨ks, List.mem_cons_of_mem _ hks, hk⟩
    · rintro ⟨ks, hks, hk⟩
      rcases List.mem_cons.mp hks with h | h
      · left
        simp only [List.mem_map] at hk ⊢
        obtain ⟨k', hk', hkk⟩ := hk
        refine ⟨k', ?_, ?_⟩
        · rw [← h]; exact hk'
        · rw [← h, hkk]
      · exact Or.inr ⟨ks, h, hk⟩

/-- The pairs the two nested loops of `CreateNFDeployActuators` range over: each
combination of the sites once. -/
theorem flattenVendorNFs_collectVendorNFs (sites : List Site) :
    (flattenVendorNFs (collectVendorNFs sites).entries).Nodup ∧
    ∀ p, p ∈ flattenVendorNFs (collectVendorNFs sites).entries ↔
      p ∈ sites.map combinationOf := by
  obtain ⟨hwf, hnd, hmem⟩ := collectVendorNFs_spec sites
  constructor
  · apply nodup_flattenVendorNFs _ hwf
    intro e he
    exact hnd e.1 e.2 (GoMap.lookup_eq_some_of_mem _ _ _ hwf he)
  · rintro ⟨c, k⟩
    rw [mem_flattenVendorNFs, ← hmem c k]
    constructor
    · rintro ⟨ks, hks, hk⟩
      exact ⟨ks, GoMap.lookup_eq_some_of_mem _ _ _ hwf hks, hk⟩
    · rintro ⟨ks, hks, hk⟩
      exact ⟨ks, GoMap.mem_of_lookup_eq_some _ _ _ hks, hk⟩

/-! ### The calls made by CreateNFDeployActuators -/

theorem newPackages_append (xs ys : List ActuatorCall) :
    newPackages (xs ++ ys) = newPackages xs ++ newPackages ys := by
  unfold newPackages
  rw [List.filterMap_append]

theorem newPackages_cons_ok (call : ActuatorCall) (calls : List ActuatorCall)
    (pkgName : String) (isNew : Bool) (h : call.answer = .ok (pkgName, isNew)) :
    newPackages (call :: calls) =
      (if isNew then [pkgName] else []) ++ newPackages calls := by
  unfold newPackages
  rw [List.filterMap_cons]
  cases isNew <;> simp [h]

theorem length_callsFor_of_nodup (calls : List ActuatorCall) (p : String × VendorNFKey)
    (hnd : (calls.map ActuatorCall.combination).Nodup)
    (h : p ∈ calls.map ActuatorCall.combination) : (callsFor calls p).length = 1 := by
  induction calls with
  | nil => cases h
  | cons c cs ih =>
    simp only [List.map_cons, List.nodup_cons] at hnd
    unfold callsFor
    by_cases hc : c.combination = p
    · rw [List.filter_cons_of_pos (by simpa using hc)]
      have hnil : cs.filter (fun call => decide (call.combination = p)) = [] := by
        rw [List.filter_eq_nil_iff]
        intro a ha hap
        apply hnd.1
        rw [hc]
        have : a.combination = p := by simpa using hap
        rw [← this]
        exact List.mem_map_of_mem _ ha
      rw [hnil]
      rfl
    · rw [List.filter_cons_of_neg (by simpa using hc)]
      apply ih hnd.2
      rcases List.mem_cons.mp h with h | h
      · exact absurd h.symm hc
      · exact h

theorem FaithfulFrom_append (service : ActuatorService) (name : String) (n : Nat)
    (xs ys : List ActuatorCall) :
    FaithfulFrom service name n (xs ++ ys) ↔
      FaithfulFrom service name n xs ∧ FaithfulFrom service name (n + xs.length) ys := by
  induction xs generalizing n with
  | nil => simp [FaithfulFrom]
  | cons x xs ih =>
    have hlen : n + 1 + xs.length = n + (xs.length + 1) := by omega
    rw [List.cons_append]
    show (_ ∧ FaithfulFrom service name (n + 1) (xs ++ ys)) ↔
      (_ ∧ FaithfulFrom service name (n + 1) xs) ∧
        FaithfulFrom service name (n + (xs.length + 1)) ys
    rw [ih (n + 1), hlen]
    tauto

/-- The inner loop of `CreateNFDeployActuators`: the calls it adds are made for a
prefix of the keys, all of them when it ends without an error; an error is the wrapped
error of the last call. -/
theorem createActuatorsOfCluster_spec (service : ActuatorService) (name cluster : String)
    (nc : NamingContext) (hnc : service.NewNamingContext cluster name = .ok nc)
    (ks : List (VendorNFKey × Bool)) :
    ∀ (names : List String) (calls : List ActuatorCall), ∃ added,
      (createActuatorsOfCluster service cluster nc ks names calls).2 = calls ++ added ∧
      added.map ActuatorCall.combination <+: ks.map (fun k => (cluster, k.1)) ∧
      FaithfulFrom service name calls.length added ∧
      (∀ names', (createActuatorsOfCluster service cluster nc ks names calls).1 = .ok names' →
        added.map ActuatorCall.combination = ks.map (fun k => (cluster, k.1)) ∧
        names' = names ++ newPackages added ∧ ∀ c ∈ added, c.succeeded) ∧
      (∀ e, (createActuatorsOfCluster service cluster nc ks names calls).1 = .error e →
        ∃ init last err, added = init ++ [last] ∧ last.answer = .error err ∧
          e = .wrap "Error creating actuators with key:%#v , %w" err ∧
          ∀ c ∈ init, c.succeeded) := by
  induction ks with
  | nil =>
    intro names calls
    refine ⟨[], by simp [createActuatorsOfCluster], List.prefix_refl _, trivial, ?_, ?_⟩
    · intro names' h
      simp only [createActuatorsOfCluster, Except.ok.injEq] at h
      exact ⟨rfl, by simp [newPackages, h], fun c hc => absurd hc (List.not_mem_nil c)⟩
    · intro e h
      simp [createActuatorsOfCluster] at h
  | cons kb ks ih =>
    obtain ⟨k, b⟩ := kb
    intro names calls
    cases hans : service.CreateNFDeployActuators calls.length nc k with
    | error err =>
      refine ⟨[{ cluster := cluster, nc := nc, key := k, answer := .error err }], ?_, ?_, ?_,
        ?_, ?_⟩
      · simp only [createActuatorsOfCluster, hans]
      · exact ⟨ks.map (fun (k' : VendorNFKey × Bool) => (cluster, k'.1)), rfl⟩
      · exact ⟨⟨hnc, hans.symm⟩, trivial⟩
      · intro names' h
        simp [createActuatorsOfCluster, hans] at h
      · intro e h
        simp only [createActuatorsOfCluster, hans, Except.error.injEq] at h
        exact ⟨[], _, err, rfl, rfl, h.symm, fun c hc => absurd hc (List.not_mem_nil c)⟩
    | ok answer =>
      obtain ⟨pkgName, isNew⟩ := answer
      obtain ⟨added, h2, ⟨t, ht⟩, hf, hok, herr⟩ :=
        ih (if isNew then names ++ [pkgName] else names)
          (calls ++ [{ cluster := cluster, nc := nc, key := k, answer := .ok (pkgName, isNew) }])
      have hrun : createActuatorsOfCluster service cluster nc ((k, b) :: ks) names calls =
          createActuatorsOfCluster service cluster nc ks
            (if isNew then names ++ [pkgName] else names)
            (calls ++
              [{ cluster := cluster, nc := nc, key := k, answer := .ok (pkgName, isNew) }]) := by
        simp only [createActuatorsOfCluster, hans]
        cases isNew <;> simp
      rw [hrun]
      refine ⟨{ cluster := cluster, nc := nc, key := k, answer := .ok (pkgName, isNew) } ::
        added, ?_, ?_, ?_, ?_, ?_⟩
      · rw [h2, List.append_assoc]; rfl
      · refine ⟨t, ?_⟩
        simp only [List.map_cons, List.cons_append, ht]
        rfl
      · refine ⟨⟨hnc, hans.symm⟩, ?_⟩
        simpa using hf
      · intro names' h
        obtain ⟨h1, h3, h4⟩ := hok names' h
        refine ⟨?_, ?_, ?_⟩
        · simp only [List.map_cons, h1]
          rfl
        · rw [h3, newPackages_cons_ok _ _ pkgName isNew rfl]
          cases isNew <;> simp
        · intro c hc
          rcases List.mem_cons.mp hc with hc | hc
          · rw [hc]; exact ⟨_, rfl⟩
          · exact h4 c hc
      · intro e h
        obtain ⟨init, last, err, h1, h3, h4, h5⟩ := herr e h
        refine ⟨_ :: init, last, err, by rw [h1]; rfl, h3, h4, ?_⟩
        intro c hc
        rcases List.mem_cons.mp hc with hc | hc
        · rw [hc]; exact ⟨_, rfl⟩
        · exact h5 c hc

/-- The outer loop of `CreateNFDeployActuators`: the calls it adds are made for a
prefix of the pairs of the map, all of them when it ends without an error; an error
is the wrapped error of the last call or of a naming context. -/
theorem createActuatorsOfClusters_spec (service : ActuatorService) (name : String)
    (l : List (String × List (VendorNFKey × Bool))) :
    ∀ (names : List String) (calls : List ActuatorCall), ∃ added,
      (createActuatorsOfClusters service name l names calls).2 = calls ++ added ∧
      added.map ActuatorCall.combination <+: flattenVendorNFs l ∧
      FaithfulFrom service name calls.length added ∧
      (∀ names', (createActuatorsOfClusters service name l names calls).1 = .ok names' →
        added.map ActuatorCall.combination = flattenVendorNFs l ∧
        names' = names ++ newPackages added ∧ ∀ c ∈ added, c.succeeded) ∧
      (∀ e, (createActuatorsOfClusters service name l names calls).1 = .error e →
        (∃ init last err, added = init ++ [last] ∧ last.answer = .error err ∧
          e = .wrap "Error creating actuators with key:%#v , %w" err ∧
          ∀ c ∈ init, c.succeeded) ∨
        (∃ cluster err, service.NewNamingContext cluster name = .error err ∧
          e = .wrap "Error creating actuators, error creating naming context: %w" err ∧
          ∀ c ∈ added, c.succeeded)) := by
  induction l with
  | nil =>
    intro names calls
    refine ⟨[], by simp [createActuatorsOfClusters], List.prefix_refl _, trivial, ?_, ?_⟩
    · intro names' h
      simp only [createActuatorsOfClusters, Except.ok.injEq] at h
      exact ⟨rfl, by simp [newPackages, h], fun c hc => absurd hc (List.not_mem_nil c)⟩
    · intro e h
      simp [createActuatorsOfClusters] at h
  | cons e rest ih =>
    obtain ⟨cluster, ks⟩ := e
    intro names calls
    cases hnc : service.NewNamingContext cluster name with
    | error err =>
      refine ⟨[], ?_, List.nil_prefix, trivial, ?_, ?_⟩
      · simp only [createActuatorsOfClusters, hnc, List.append_nil]
      · intro names' h
        simp [createActuatorsOfClusters, hnc] at h
      · intro e h
        simp only [createActuatorsOfClusters, hnc, Except.error.injEq] at h
        exact Or.inr ⟨cluster, err, hnc, h.symm, fun c hc => absurd hc (List.not_mem_nil c)⟩
    | ok nc =>
      obtain ⟨added1, h2, hpre, hf, hok, herr⟩ :=
        createActuatorsOfCluster_spec service name cluster nc hnc ks names calls
      rcases hrun : createActuatorsOfCluster service cluster nc ks names calls with
        ⟨result, calls1⟩
      rw [hrun] at h2 hok herr
      simp only at h2 hok herr
      cases result with
      | error e1 =>
        refine ⟨added1, ?_, ?_, hf, ?_, ?_⟩
        · simp only [createActuatorsOfClusters, hnc, hrun]
          exact h2
        · unfold flattenVendorNFs
          exact hpre.trans (List.prefix_append _ _)
        · intro names' h
          simp [createActuatorsOfClusters, hnc, hrun] at h
        · intro e h
          simp only [createActuatorsOfClusters, hnc, hrun, Except.error.injEq] at h
          exact Or.inl (herr e (by rw [h]))
      | ok names1 =>
        obtain ⟨hfull, hnames, hsucc⟩ := hok names1 rfl
        obtain ⟨added2, g2, ⟨t, ht⟩, gf, gok, gerr⟩ := ih names1 calls1
        have hrun' : createActuatorsOfClusters service name ((cluster, ks) :: rest) names calls =
            createActuatorsOfClusters service name rest names1 calls1 := by
          simp only [createActuatorsOfClusters, hnc, hrun]
        rw [hrun']
        refine ⟨added1 ++ added2, ?_, ?_, ?_, ?_, ?_⟩
        · rw [g2, h2, List.append_assoc]
        · refine ⟨t, ?_⟩
          unfold flattenVendorNFs
          rw [List.map_append, List.append_assoc, ht, hfull]
        · rw [FaithfulFrom_append]
          refine ⟨hf, ?_⟩
          rw [h2, List.length_append] at gf
          exact gf
        · intro names' h
          obtain ⟨g1, g3, g4⟩ := gok names' h
          refine ⟨?_, ?_, ?_⟩
          · unfold flattenVendorNFs
            rw [List.map_append, hfull, g1]
          · rw [g3, hnames, newPackages_append, List.append_assoc]
          · intro c hc
            rcases List.mem_append.mp hc with hc | hc
            · exact hsucc c hc
            · exact g4 c hc
        · intro e h
          rcases gerr e h with ⟨init, last, err, g1, g3, g4, g5⟩ | ⟨cl, err, g1, g3, g4⟩
          · refine Or.inl ⟨added1 ++ init, last, err, ?_, g3, g4, ?_⟩
            · rw [g1, List.append_assoc]
            · intro c hc
              rcases List.mem_append.mp hc with hc | hc
              · exact hsucc c hc
              · exact g5 c hc
          · refine Or.inr ⟨cl, err, g1, g3, ?_⟩
            intro c hc
            rcases List.mem_append.mp hc with hc | hc
            · exact hsucc c hc
            · exact g4 c hc

/-! ### Two tracked nodes -/

theorem processNFEdgeEvent_eq_aggregateStatus (deployment : Deployment)
    (nfConditions : List NFCondition) (nfId : String)
    (h : isAmbiguousConditionSet (calculateNFConditionSet nfConditions).1 = false) :
    processNFEdgeEvent deployment nfConditions nfId =
      (updateCurrentNFStatus deployment nfId (calculateNFConditionSet nfConditions).1
          (calculateNFConditionSet nfConditions).2,
       some (aggregateStatus
        (updateCurrentNFStatus deployment nfId (calculateNFConditionSet nfConditions).1
          (calculateNFConditionSet nfConditions).2))) := by
  unfold processNFEdgeEvent
  rcases hc : calculateNFConditionSet nfConditions with ⟨c, m⟩
  rw [hc] at h
  simp only at h
  simp only [h, Bool.false_eq_true, if_false]
  rfl

/-- A report of the UPF of a two-node deployment that is neither stale nor ambiguous
stores the reported status in the UPF and hands the aggregate of the new state to the
writer. -/
theorem processEdgeEvent_twoNode_upf (name : String) (edges : List Edge) (upfNode : UPFNode)
    (smfNode : SMFNode) (conditions : List NFCondition) (timestamp : Time)
    (hid : upfNode.Id ≠ smfNode.Id)
    (hfresh : ¬ timestamp < upfNode.Status.lastEventTimestamp)
    (hclear : isAmbiguousConditionSet (calculateNFConditionSet conditions).1 = false) :
    processEdgeEvent (twoNodeDeployment name edges upfNode smfNode)
        (reportEvent "UPFDeploy" upfNode.Id conditions timestamp) =
      (twoNodeDeployment name edges
          { upfNode with Status := reportedStatus conditions timestamp } smfNode,
       some (aggregateStatus
        (twoNodeDeployment name edges
          { upfNode with Status := reportedStatus conditions timestamp } smfNode))) := by
  have hid' : ¬ smfNode.Id = upfNode.Id := fun h => hid h.symm
  have hupd : updateCurrentNFStatus
      { twoNodeDeployment name edges upfNode smfNode with
        upfNodes := (twoNodeDeployment name edges upfNode smfNode).upfNodes.set upfNode.Id
          { upfNode with
            Status := { upfNode.Status with lastEventTimestamp := timestamp } } }
      upfNode.Id (calculateNFConditionSet conditions).1 (calculateNFConditionSet conditions).2 =
      twoNodeDeployment name edges
        { upfNode with Status := reportedStatus conditions timestamp } smfNode := by
    simp [updateCurrentNFStatus, twoNodeDeployment, GoMap.get?, GoMap.lookup, GoMap.set,
      GoMap.contains, GoMap.empty, hid', storedStatus, reportedStatus]
  unfold processEdgeEvent
  simp only [reportEvent, if_true]
  have hget : (twoNodeDeployment name edges upfNode smfNode).upfNodes.get? upfNode.Id =
      some upfNode := by
    simp [twoNodeDeployment, GoMap.get?, GoMap.lookup]
  rw [hget]
  simp only [Before, decide_eq_true_eq, hfresh, if_false]
  rw [processNFEdgeEvent_eq_aggregateStatus _ _ _ hclear, hupd]

/-- A report of the SMF of a two-node deployment that is neither stale nor ambiguous
stores the reported status in the SMF and hands the aggregate of the new state to the
writer. -/
theorem processEdgeEvent_twoNode_smf (name : String) (edges : List Edge) (upfNode : UPFNode)
    (smfNode : SMFNode) (conditions : List NFCondition) (timestamp : Time)
    (hid : upfNode.Id ≠ smfNode.Id)
    (hfresh : ¬ timestamp < smfNode.Status.lastEventTimestamp)
    (hclear : isAmbiguousConditionSet (calculateNFConditionSet conditions).1 = false) :
    processEdgeEvent (twoNodeDeployment name edges upfNode smfNode)
        (reportEvent "SMFDeploy" smfNode.Id conditions timestamp) =
      (twoNodeDeployment name edges upfNode
          { smfNode with Status := reportedStatus conditions timestamp },
       some (aggregateStatus
        (twoNodeDeployment name edges upfNode
          { smfNode with Status := reportedStatus conditions timestamp }))) := by
  have hupd : updateCurrentNFStatus
      { twoNodeDeployment name edges upfNode smfNode with
        smfNodes := (twoNodeDeployment name edges upfNode smfNode).smfNodes.set smfNode.Id
          { smfNode with
            Status := { smfNode.Status with lastEventTimestamp := timestamp } } }
      smfNode.Id (calculateNFConditionSet conditions).1 (calculateNFConditionSet conditions).2 =
      twoNodeDeployment name edges upfNode
        { smfNode with Status := reportedStatus conditions timestamp } := by
    simp [updateCurrentNFStatus, twoNodeDeployment, GoMap.get?, GoMap.lookup, GoMap.set,
      GoMap.contains, GoMap.empty, hid, storedStatus, reportedStatus]
  unfold processEdgeEvent
  simp only [reportEvent]
  have hk : ¬ ("SMFDeploy" = "UPFDeploy") := by decide
  simp only [hk, if_false, if_true]
  have hget : (twoNodeDeployment name edges upfNode smfNode).smfNodes.get? smfNode.Id =
      some smfNode := by
    simp [twoNodeDeployment, GoMap.get?, GoMap.lookup]
  rw [hget]
  simp only [Before, decide_eq_true_eq, hfresh, if_false]
  rw [processNFEdgeEvent_eq_aggregateStatus _ _ _ hclear, hupd]

theorem computeReconcilingCondition_status_reason (deployment : Deployment)
    (readyNFs targetedNFs : Int) :
    ((computeReconcilingCondition deployment readyNFs targetedNFs).Status,
     (computeReconcilingCondition deployment readyNFs targetedNFs).Reason) =
      (if readyNFs = targetedNFs then (ConditionFalse, "AllNFsReconciled")
       else if intAdd readyNFs (activeCount deployment Reconciling) = targetedNFs then
        (ConditionTrue, "AllUnReconciledNFsReconciling")
       else if activeCount deployment Reconciling ≠ 0 then
        (ConditionTrue, "SomeNFsReconciling")
       else (ConditionFalse, "NoNFsReconciling")) := by
  have hcount := scanActive_statusNodes deployment Reconciling
    ("The NFs which are in Reconciling state are: ", 0)
  simp only [Nat.zero_add] at hcount
  unfold computeReconcilingCondition
  by_cases h1 : targetedNFs = readyNFs
  · simp [h1]
  · have h1' : ¬ readyNFs = targetedNFs := fun h => h1 h.symm
    simp only [h1, h1', if_false, hcount]
    by_cases h2 : intAdd readyNFs (activeCount deployment Reconciling) = targetedNFs
    · simp [h2]
    · simp only [h2, if_false]
      by_cases h3 : activeCount deployment Reconciling = 0
      · simp [h3]
      · simp [h3]

theorem computeReadyCondition_status_reason (deployment : Deployment)
    (readyNFs targetedNFs : Int) :
    ((computeReadyCondition deployment readyNFs targetedNFs).Status,
     (computeReadyCondition deployment readyNFs targetedNFs).Reason) =
      (if readyNFs = targetedNFs then ConditionTrue else ConditionFalse,
       if readyNFs = 0 then "NoNFsReady"
       else if readyNFs = targetedNFs then "AllNFsReady" else "SomeNFsReady") := by
  unfold computeReadyCondition
  by_cases h : readyNFs = targetedNFs <;> simp [h]

theorem activeCount_twoNodeDeployment (name : String) (edges : List Edge) (upfNode : UPFNode)
    (smfNode : SMFNode) (conditionType : NFConditionType) :
    activeCount (twoNodeDeployment name edges upfNode smfNode) conditionType =
      activeIn upfNode.Status conditionType + activeIn smfNode.Status conditionType := by
  simp [activeCount, statusNodes, twoNodeDeployment, GoMap.values, GoMap.empty,
    List.countP_cons, activeIn]
  omega

/-- The reconciling and ready conditions handed to the writer for a two-node
deployment, from the numbers of nodes with an active Ready and an active Reconciling
condition. -/
theorem aggregateStatus_twoNodeDeployment (name : String) (edges : List Edge)
    (upfNode : UPFNode) (smfNode : SMFNode)
    (hu : upfNode.Status.activeConditions.WF) (hs : smfNode.Status.activeConditions.WF) :
    ((aggregateStatus (twoNodeDeployment name edges upfNode smfNode)).reconcilingCondition.Status,
     (aggregateStatus
        (twoNodeDeployment name edges upfNode smfNode)).reconcilingCondition.Reason) =
      reconcilingOutcome (activeIn upfNode.Status Ready + activeIn smfNode.Status Ready)
        (activeIn upfNode.Status Reconciling + activeIn smfNode.Status Reconciling) ∧
    ((aggregateStatus (twoNodeDeployment name edges upfNode smfNode)).readyCondition.Status,
     (aggregateStatus (twoNodeDeployment name edges upfNode smfNode)).readyCondition.Reason) =
      readyOutcome (activeIn upfNode.Status Ready + activeIn smfNode.Status Ready) := by
  have hcount := calculateNFCount_eq (twoNodeDeployment name edges upfNode smfNode)
    (by
      intro node hn
      simp only [statusNodes, twoNodeDeployment, GoMap.values, GoMap.empty, List.map_cons,
        List.map_nil, List.append_nil, List.cons_append, List.nil_append, List.mem_cons,
        List.mem_singleton, List.not_mem_nil, or_false] at hn
      rcases hn with h | h
      · rw [h]; exact hu
      · rw [h]; exact hs)
  have hlen : (statusNodes (twoNodeDeployment name edges upfNode smfNode)).length = 2 := by
    simp [statusNodes, twoNodeDeployment, GoMap.values, GoMap.empty]
  rw [hlen] at hcount
  unfold aggregateStatus
  simp only [hcount]
  rw [computeReconcilingCondition_status_reason, computeReadyCondition_status_reason]
  simp only [activeCount_twoNodeDeployment]
  exact ⟨rfl, rfl⟩

theorem activeIn_reportedStatus (conditions : List NFCondition) (timestamp : Time)
    (conditionType : NFConditionType) :
    activeIn (reportedStatus conditions timestamp) conditionType =
      activeIn (reportedStatus conditions 0) conditionType := rfl

theorem WF_reportedStatus (conditions : List NFCondition) (timestamp : Time)
    (h : (reportedStatus conditions 0).activeConditions.WF) :
    (reportedStatus conditions timestamp).activeConditions.WF := h

/-- A fresh, unambiguous report of the UPF of a two-node deployment, with the nodes
given by their fields. -/
theorem processEdgeEvent_upfNodeWith (name : String) (edges : List Edge) (upfId smfId : String)
    (cu cs : GoMap Unit) (su : UPFSpec) (ss : SMFSpec) (stu sts : NFStatus)
    (conditions : List NFCondition) (timestamp : Time)
    (hid : upfId ≠ smfId)
    (hfresh : ¬ timestamp < stu.lastEventTimestamp)
    (hclear : isAmbiguousConditionSet (calculateNFConditionSet conditions).1 = false) :
    processEdgeEvent
        (twoNodeDeployment name edges (upfNodeWith upfId cu su stu) (smfNodeWith smfId cs ss sts))
        (reportEvent "UPFDeploy" upfId conditions timestamp) =
      (twoNodeDeployment name edges (upfNodeWith upfId cu su (reportedStatus conditions timestamp))
          (smfNodeWith smfId cs ss sts),
       some (aggregateStatus
        (twoNodeDeployment name edges
          (upfNodeWith upfId cu su (reportedStatus conditions timestamp))
          (smfNodeWith smfId cs ss sts)))) :=
  processEdgeEvent_twoNode_upf name edges (upfNodeWith upfId cu su stu)
    (smfNodeWith smfId cs ss sts) conditions timestamp hid hfresh hclear

/-- A fresh, unambiguous report of the SMF of a two-node deployment, with the nodes
given by their fields. -/
theorem processEdgeEvent_smfNodeWith (name : String) (edges : List Edge) (upfId smfId : String)
    (cu cs : GoMap Unit) (su : UPFSpec) (ss : SMFSpec) (stu sts : NFStatus)
    (conditions : List NFCondition) (timestamp : Time)
    (hid : upfId ≠ smfId)
    (hfresh : ¬ timestamp < sts.lastEventTimestamp)
    (hclear : isAmbiguousConditionSet (calculateNFConditionSet conditions).1 = false) :
    processEdgeEvent
        (twoNodeDeployment name edges (upfNodeWith upfId cu su stu) (smfNodeWith smfId cs ss sts))
        (reportEvent "SMFDeploy" smfId conditions timestamp) =
      (twoNodeDeployment name edges (upfNodeWith upfId cu su stu)
          (smfNodeWith smfId cs ss (reportedStatus conditions timestamp)),
       some (aggregateStatus
        (twoNodeDeployment name edges (upfNodeWith upfId cu su stu)
          (smfNodeWith smfId cs ss (reportedStatus conditions timestamp))))) :=
  processEdgeEvent_twoNode_smf name edges (upfNodeWith upfId cu su stu)
    (smfNodeWith smfId cs ss sts) conditions timestamp hid hfresh hclear

/-- The aggregate Reconciling and Ready conditions of a two-node deployment, from the
statuses of the two nodes. -/
theorem aggregateStatus_nodesWith (name : String) (edges : List Edge) (upfId smfId : String)
    (cu cs : GoMap Unit) (su : UPFSpec) (ss : SMFSpec) (stu sts : NFStatus)
    (hu : stu.activeConditions.WF) (hs : sts.activeConditions.WF) :
    ((aggregateStatus (twoNodeDeployment name edges (upfNodeWith upfId cu su stu)
        (smfNodeWith smfId cs ss sts))).reconcilingCondition.Status,
     (aggregateStatus (twoNodeDeployment name edges (upfNodeWith upfId cu su stu)
        (smfNodeWith smfId cs ss sts))).reconcilingCondition.Reason) =
      reconcilingOutcome (activeIn stu Ready + activeIn sts Ready)
        (activeIn stu Reconciling + activeIn sts Reconciling) ∧
    ((aggregateStatus (twoNodeDeployment name edges (upfNodeWith upfId cu su stu)
        (smfNodeWith smfId cs ss sts))).readyCondition.Status,
     (aggregateStatus (twoNodeDeployment name edges (upfNodeWith upfId cu su stu)
        (smfNodeWith smfId cs ss sts))).readyCondition.Reason) =
      readyOutcome (activeIn stu Ready + activeIn sts Ready) :=
  aggregateStatus_twoNodeDeployment name edges (upfNodeWith upfId cu su stu)
    (smfNodeWith smfId cs ss sts) hu hs

/-! ## Lemmas on edge events and reachable states -/

/-! ### The shape of processEdgeEvent -/

theorem kindType_cases (kind : String) :
    kindType kind = .UPF ∨ kindType kind = .SMF ∨ kindType kind = .UDM ∨
      kindType kind = .AUSF ∨ kindType kind = .UnspecifiedNFType := by
  unfold kindType
  split_ifs <;> simp

theorem kindType_ne_amf (kind : String) : kindType kind ≠ .AMF := by
  unfold kindType
  split_ifs <;> simp

theorem addressedNode_eq (deployment : Deployment) (object : Event) :
    addressedNode deployment object =
      match object.Object with
      | none => none
      | some obj => nodeAt deployment (kindType object.Kind) obj.siteId := by
  unfold addressedNode kindType
  cases object.Object with
  | none => rfl
  | some obj =>
    simp only
    split_ifs <;> rfl

theorem nodeAt_stampNode (deployment : Deployment) (t : NFType) (id : String)
    (timestamp : Time) (t' : NFType) (x : String) :
    nodeAt (stampNode deployment t id timestamp) t' x =
      if t' = t ∧ x = id then (nodeAt deployment t' x).map (fun node => node.stamp timestamp)
      else nodeAt deployment t' x := by
  cases t
  · simp only [stampNode]
    cases t' <;> simp [nodeAt]
  · simp only [stampNode]
    cases hg : deployment.upfNodes.get? id with
    | none =>
      simp only
      split_ifs with h
      · rw [h.1, h.2]; simp [nodeAt, hg]
      · rfl
    | some node =>
      cases t' <;> simp only [nodeAt, reduceCtorEq, false_and, if_false, true_and]
      rw [GoMap.get?_set]
      by_cases hx : x = id
      · subst hx; simp [hg, Node.stamp]
      · simp [hx]
  · simp only [stampNode]
    cases hg : deployment.smfNodes.get? id with
    | none =>
      simp only
      split_ifs with h
      · rw [h.1, h.2]; simp [nodeAt, hg]
      · rfl
    | some node =>
      cases t' <;> simp only [nodeAt, reduceCtorEq, false_and, if_false, true_and]
      rw [GoMap.get?_set]
      by_cases hx : x = id
      · subst hx; simp [hg, Node.stamp]
      · simp [hx]
  · simp only [stampNode]
    cases hg : deployment.amfNodes.get? id with
    | none =>
      simp only
      split_ifs with h
      · rw [h.1, h.2]; simp [nodeAt, hg]
      · rfl
    | some node =>
      cases t' <;> simp only [nodeAt, reduceCtorEq, false_and, if_false, true_and]
      rw [GoMap.get?_set]
      by_cases hx : x = id
      · subst hx; simp [hg, Node.stamp]
      · simp [hx]
  · simp only [stampNode]
    cases hg : deployment.ausfNodes.get? id with
    | none =>
      simp only
      split_ifs with h
      · rw [h.1, h.2]; simp [nodeAt, hg]
      · rfl
    | some node =>
      cases t' <;> simp only [nodeAt, reduceCtorEq, false_and, if_false, true_and]
      rw [GoMap.get?_set]
      by_cases hx : x = id
      · subst hx; simp [hg, Node.stamp]
      · simp [hx]
  · simp only [stampNode]
    cases hg : deployment.udmNodes.get? id with
    | none =>
      simp only
      split_ifs with h
      · rw [h.1, h.2]; simp [nodeAt, hg]
      · rfl
    | some node =>
      cases t' <;> simp only [nodeAt, reduceCtorEq, false_and, if_false, true_and]
      rw [GoMap.get?_set]
      by_cases hx : x = id
      · subst hx; simp [hg, Node.stamp]
      · simp [hx]

theorem partitionKeys_stampNode (deployment : Deployment) (t : NFType) (id : String)
    (timestamp : Time) (t' : NFType) :
    partitionKeys (stampNode deployment t id timestamp) t' = partitionKeys deployment t' := by
  cases t
  · rfl
  · simp only [stampNode]
    cases hg : deployment.upfNodes.get? id with
    | none => rfl
    | some node =>
      cases t' <;> simp only [partitionKeys]
      exact GoMap.keys_set_of_contains _ _ _ (by simp [GoMap.contains, hg])
  · simp only [stampNode]
    cases hg : deployment.smfNodes.get? id with
    | none => rfl
    | some node =>
      cases t' <;> simp only [partitionKeys]
      exact GoMap.keys_set_of_contains _ _ _ (by simp [GoMap.contains, hg])
  · simp only [stampNode]
    cases hg : deployment.amfNodes.get? id with
    | none => rfl
    | some node =>
      cases t' <;> simp only [partitionKeys]
      exact GoMap.keys_set_of_contains _ _ _ (by simp [GoMap.contains, hg])
  · simp only [stampNode]
    cases hg : deployment.ausfNodes.get? id with
    | none => rfl
    | some node =>
      cases t' <;> simp only [partitionKeys]
      exact GoMap.keys_set_of_contains _ _ _ (by simp [GoMap.contains, hg])
  · simp only [stampNode]
    cases hg : deployment.udmNodes.get? id with
    | none => rfl
    | some node =>
      cases t' <;> simp only [partitionKeys]
      exact GoMap.keys_set_of_contains _ _ _ (by simp [GoMap.contains, hg])

theorem stampNode_edges (deployment : Deployment) (t : NFType) (id : String)
    (timestamp : Time) :
    (stampNode deployment t id timestamp).edges = deployment.edges ∧
    (stampNode deployment t id timestamp).name = deployment.name := by
  cases t
  · exact ⟨rfl, rfl⟩
  · unfold stampNode; cases deployment.upfNodes.get? id <;> exact ⟨rfl, rfl⟩
  · unfold stampNode; cases deployment.smfNodes.get? id <;> exact ⟨rfl, rfl⟩
  · unfold stampNode; cases deployment.amfNodes.get? id <;> exact ⟨rfl, rfl⟩
  · unfold stampNode; cases deployment.ausfNodes.get? id <;> exact ⟨rfl, rfl⟩
  · unfold stampNode; cases deployment.udmNodes.get? id <;> exact ⟨rfl, rfl⟩

/-- An edge event that addresses a tracked node and is not stale is handed to
`processNFEdgeEvent` after its timestamp was written into the node. -/
theorem processEdgeEvent_of_fresh (deployment : Deployment) (object : Event)
    (obj : NFDeployDocument) (node : Node) (hobj : object.Object = some obj)
    (hnode : nodeAt deployment (kindType object.Kind) obj.siteId = some node)
    (hfresh : ¬ object.Timestamp < node.Status.lastEventTimestamp) :
    processEdgeEvent deployment object =
      processNFEdgeEvent (stampNode deployment (kindType object.Kind) obj.siteId object.Timestamp)
        obj.Conditions obj.siteId := by
  unfold processEdgeEvent
  rw [hobj]
  simp only
  unfold kindType at hnode ⊢
  split_ifs at hnode ⊢ with k1 k2 k3 k4
  · simp only [nodeAt] at hnode
    cases hg : deployment.upfNodes.get? obj.siteId with
    | none => rw [hg] at hnode; cases hnode
    | some u =>
      rw [hg] at hnode
      simp only [Option.map_some', Option.some.injEq] at hnode
      subst hnode
      simp only [stampNode, hg, Before, decide_eq_true_eq]
      rw [if_neg hfresh]
  · simp only [nodeAt] at hnode
    cases hg : deployment.smfNodes.get? obj.siteId with
    | none => rw [hg] at hnode; cases hnode
    | some u =>
      rw [hg] at hnode
      simp only [Option.map_some', Option.some.injEq] at hnode
      subst hnode
      simp only [stampNode, hg, Before, decide_eq_true_eq]
      rw [if_neg hfresh]
  · simp only [nodeAt] at hnode
    cases hg : deployment.udmNodes.get? obj.siteId with
    | none => rw [hg] at hnode; cases hnode
    | some u =>
      rw [hg] at hnode
      simp only [Option.map_some', Option.some.injEq] at hnode
      subst hnode
      simp only [stampNode, hg, Before, decide_eq_true_eq]
      rw [if_neg hfresh]
  · simp only [nodeAt] at hnode
    cases hg : deployment.ausfNodes.get? obj.siteId with
    | none => rw [hg] at hnode; cases hnode
    | some u =>
      rw [hg] at hnode
      simp only [Option.map_some', Option.some.injEq] at hnode
      subst hnode
      simp only [stampNode, hg, Before, decide_eq_true_eq]
      rw [if_neg hfresh]
  · simp only [nodeAt] at hnode
    cases hnode

/-- An edge event that addresses no tracked node leaves the deployment as it is. -/
theorem processEdgeEvent_of_untracked (deployment : Deployment) (object : Event)
    (h : addressedNode deployment object = none) :
    processEdgeEvent deployment object = (deployment, none) := by
  unfold processEdgeEvent
  unfold addressedNode at h
  cases hobj : object.Object with
  | none => rfl
  | some obj =>
    rw [hobj] at h
    simp only at h ⊢
    split_ifs at h ⊢ with k1 k2 k3 k4
    · cases hg : deployment.upfNodes.get? obj.siteId with
      | none => rfl
      | some u => rw [hg] at h; cases h
    · cases hg : deployment.smfNodes.get? obj.siteId with
      | none => rfl
      | some u => rw [hg] at h; cases h
    · cases hg : deployment.udmNodes.get? obj.siteId with
      | none => rfl
      | some u => rw [hg] at h; cases h
    · cases hg : deployment.ausfNodes.get? obj.siteId with
      | none => rfl
      | some u => rw [hg] at h; cases h
    · rfl

/-- The three ways of an edge event: it leaves the deployment as it is, or it addresses
a tracked node, is not stale and is handed to `processNFEdgeEvent` after its timestamp
was written into the node. -/
theorem processEdgeEvent_cases (deployment : Deployment) (object : Event) :
    processEdgeEvent deployment object = (deployment, none) ∨
    ∃ obj node, object.Object = some obj ∧
      nodeAt deployment (kindType object.Kind) obj.siteId = some node ∧
      ¬ object.Timestamp < node.Status.lastEventTimestamp ∧
      processEdgeEvent deployment object =
        processNFEdgeEvent
          (stampNode deployment (kindType object.Kind) obj.siteId object.Timestamp)
          obj.Conditions obj.siteId := by
  cases hnode : addressedNode deployment object with
  | none => exact Or.inl (processEdgeEvent_of_untracked _ _ hnode)
  | some node =>
    by_cases hstale : object.Timestamp < node.Status.lastEventTimestamp
    · exact Or.inl (processEdgeEvent_of_before _ _ _ hnode hstale)
    · right
      rw [addressedNode_eq] at hnode
      cases hobj : object.Object with
      | none => rw [hobj] at hnode; cases hnode
      | some obj =>
        rw [hobj] at hnode
        exact ⟨obj, node, rfl, hnode, hstale,
          processEdgeEvent_of_fresh _ _ _ _ hobj hnode hstale⟩

/-! ### The per-NF update, node by node -/

theorem nodeAt_updateCurrentNFStatus (deployment : Deployment) (nfId : String)
    (conditions : GoMap ConditionStatus) (conditionMessage : GoMap String) (t : NFType)
    (x : String) :
    nodeAt (updateCurrentNFStatus deployment nfId conditions conditionMessage) t x =
      if x = nfId ∧ t.isTracked = true then
        (nodeAt deployment t x).map
          (fun node => node.store (deriveNFStatus conditions conditionMessage))
      else nodeAt deployment t x := by
  cases t
  · simp [nodeAt]
  · simp only [nodeAt, updateCurrentNFStatus_upfNodes, NFType.isTracked, and_true]
    cases hg : deployment.upfNodes.get? nfId with
    | none =>
      simp only
      split_ifs with hx
      · subst hx; simp [hg]
      · rfl
    | some nf =>
      simp only [GoMap.get?_set]
      by_cases hx : x = nfId
      · subst hx; simp [hg, Node.store]
      · simp [hx]
  · simp only [nodeAt, updateCurrentNFStatus_smfNodes, NFType.isTracked, and_true]
    cases hg : deployment.smfNodes.get? nfId with
    | none =>
      simp only
      split_ifs with hx
      · subst hx; simp [hg]
      · rfl
    | some nf =>
      simp only [GoMap.get?_set]
      by_cases hx : x = nfId
      · subst hx; simp [hg, Node.store]
      · simp [hx]
  · simp [nodeAt, updateCurrentNFStatus_amfNodes, NFType.isTracked]
  · simp only [nodeAt, updateCurrentNFStatus_ausfNodes, NFType.isTracked, and_true]
    cases hg : deployment.ausfNodes.get? nfId with
    | none =>
      simp only
      split_ifs with hx
      · subst hx; simp [hg]
      · rfl
    | some nf =>
      simp only [GoMap.get?_set]
      by_cases hx : x = nfId
      · subst hx; simp [hg, Node.store]
      · simp [hx]
  · simp only [nodeAt, updateCurrentNFStatus_udmNodes, NFType.isTracked, and_true]
    cases hg : deployment.udmNodes.get? nfId with
    | none =>
      simp only
      split_ifs with hx
      · subst hx; simp [hg]
      · rfl
    | some nf =>
      simp only [GoMap.get?_set]
      by_cases hx : x = nfId
      · subst hx; simp [hg, Node.store]
      · simp [hx]

theorem partitionKeys_updateCurrentNFStatus (deployment : Deployment) (nfId : String)
    (conditions : GoMap ConditionStatus) (conditionMessage : GoMap String) (t : NFType) :
    partitionKeys (updateCurrentNFStatus deployment nfId conditions conditionMessage) t =
      partitionKeys deployment t := by
  cases t
  · rfl
  · simp only [partitionKeys, updateCurrentNFStatus_upfNodes]
    cases hg : deployment.upfNodes.get? nfId with
    | none => rfl
    | some nf => exact GoMap.keys_set_of_contains _ _ _ (by simp [GoMap.contains, hg])
  · simp only [partitionKeys, updateCurrentNFStatus_smfNodes]
    cases hg : deployment.smfNodes.get? nfId with
    | none => rfl
    | some nf => exact GoMap.keys_set_of_contains _ _ _ (by simp [GoMap.contains, hg])
  · simp only [partitionKeys, updateCurrentNFStatus_amfNodes]
  · simp only [partitionKeys, updateCurrentNFStatus_ausfNodes]
    cases hg : deployment.ausfNodes.get? nfId with
    | none => rfl
    | some nf => exact GoMap.keys_set_of_contains _ _ _ (by simp [GoMap.contains, hg])
  · simp only [partitionKeys, updateCurrentNFStatus_udmNodes]
    cases hg : deployment.udmNodes.get? nfId with
    | none => rfl
    | some nf => exact GoMap.keys_set_of_contains _ _ _ (by simp [GoMap.contains, hg])

theorem updateCurrentNFStatus_edges (deployment : Deployment) (nfId : String)
    (conditions : GoMap ConditionStatus) (conditionMessage : GoMap String) :
    (updateCurrentNFStatus deployment nfId conditions conditionMessage).edges =
      deployment.edges ∧
    (updateCurrentNFStatus deployment nfId conditions conditionMessage).name =
      deployment.name := by
  unfold updateCurrentNFStatus
  cases h1 : deployment.upfNodes.get? nfId <;> dsimp only <;>
  cases h2 : deployment.smfNodes.get? nfId <;> dsimp only <;>
  cases h3 : deployment.ausfNodes.get? nfId <;> dsimp only <;>
  cases h4 : deployment.udmNodes.get? nfId <;> exact ⟨rfl, rfl⟩

/-! ### Normalisation -/

theorem lastOccurrence_cons (c : NFCondition) (l : List NFCondition) (t : NFConditionType) :
    lastOccurrence (c :: l) t =
      (lastOccurrence l t).orElse (fun _ => if c.type = t then some c else none) := by
  unfold lastOccurrence
  rw [List.reverse_cons, List.find?_append]
  cases List.find? (fun condition => decide (condition.type = t)) l.reverse with
  | some x => rfl
  | none =>
    simp only [Option.none_or, Option.orElse_none, List.find?_cons, List.find?_nil]
    by_cases h : c.type = t <;> simp [h]

theorem calculateLoop_get? (l : List NFCondition) (acc : GoMap ConditionStatus × GoMap String)
    (t : NFConditionType) :
    (l.foldl
        (fun acc condition =>
          (acc.1.set condition.type condition.status,
           acc.2.set condition.type condition.message)) acc).1.get? t =
      ((lastOccurrence l t).map NFCondition.status).orElse (fun _ => acc.1.get? t) ∧
    (l.foldl
        (fun acc condition =>
          (acc.1.set condition.type condition.status,
           acc.2.set condition.type condition.message)) acc).2.get? t =
      ((lastOccurrence l t).map NFCondition.message).orElse (fun _ => acc.2.get? t) := by
  induction l generalizing acc with
  | nil => exact ⟨rfl, rfl⟩
  | cons c l ih =>
    rw [List.foldl_cons, lastOccurrence_cons]
    obtain ⟨h1, h2⟩ := ih (acc.1.set c.type c.status, acc.2.set c.type c.message)
    rw [h1, h2]
    simp only [GoMap.get?_set]
    cases lastOccurrence l t with
    | some x => exact ⟨rfl, rfl⟩
    | none =>
      by_cases h : c.type = t
      · simp [h]
      · have h' : ¬ t = c.type := fun e => h e.symm
        simp [h, h']

theorem calculateLoop_WF (l : List NFCondition) (acc : GoMap ConditionStatus × GoMap String)
    (h : acc.1.WF) :
    (l.foldl
        (fun acc condition =>
          (acc.1.set condition.type condition.status,
           acc.2.set condition.type condition.message)) acc).1.WF := by
  induction l generalizing acc with
  | nil => exact h
  | cons c l ih =>
    rw [List.foldl_cons]
    exact ih _ (GoMap.WF_set _ _ _ h)

theorem WF_ensure (m : GoMap ConditionStatus) (k : String) (v : ConditionStatus) (h : m.WF) :
    (if m.contains k then m else m.set k v).WF := by
  split_ifs
  · exact h
  · exact GoMap.WF_set _ _ _ h

/-- The normalised condition set is a Go map. -/
theorem calculateNFConditionSet_WF (nfConditions : List NFCondition) :
    (calculateNFConditionSet nfConditions).1.WF := by
  unfold calculateNFConditionSet
  simp only
  apply WF_ensure
  apply WF_ensure
  apply WF_ensure
  apply WF_ensure
  apply WF_ensure
  exact calculateLoop_WF _ _ GoMap.WF_empty

/-- The normalised condition set, type by type. -/
theorem calculateNFConditionSet_get? (nfConditions : List NFCondition)
    (t : NFConditionType) :
    (calculateNFConditionSet nfConditions).1.get? t =
      (match lastOccurrence nfConditions t with
       | some condition => some condition.status
       | none => if t ∈ knownConditionTypes then some ConditionUnknown else none) ∧
    (calculateNFConditionSet nfConditions).2.get? t =
      (lastOccurrence nfConditions t).map NFCondition.message := by
  obtain ⟨h1, h2⟩ := calculateLoop_get? nfConditions (GoMap.empty, GoMap.empty) t
  constructor
  · unfold calculateNFConditionSet
    simp only
    rw [get?_ensure, get?_ensure, get?_ensure, get?_ensure, get?_ensure, h1]
    cases lastOccurrence nfConditions t with
    | some c => rfl
    | none =>
      simp only [Option.map_none', Option.orElse_none, GoMap.get?, GoMap.empty, GoMap.lookup,
        knownConditionTypes, List.mem_cons, List.mem_singleton, List.not_mem_nil, or_false]
      by_cases a1 : t = Reconciling
      · subst a1; decide
      by_cases a2 : t = Peering
      · subst a2; decide
      by_cases a3 : t = Ready
      · subst a3; decide
      by_cases a4 : t = Stalled
      · subst a4; decide
      by_cases a5 : t = Available
      · subst a5; decide
      simp [a1, a2, a3, a4, a5]
  · unfold calculateNFConditionSet
    simp only
    rw [h2]
    cases lastOccurrence nfConditions t <;> rfl

/-! ### The derived status -/

theorem deriveNFStatus_of_invalid (conditions : GoMap ConditionStatus)
    (conditionMessage : GoMap String)
    (hinvalid : (validateNFConditionSet conditions).2 = true) :
    ∃ message, deriveNFStatus conditions conditionMessage = stalledStatus message := by
  have hs : ∃ message, (validateNFConditionSet conditions).1 = stalledStatus message := by
    unfold validateNFConditionSet at hinvalid ⊢
    split_ifs at hinvalid ⊢
    · exact ⟨_, rfl⟩
    · exact ⟨_, rfl⟩
    · exact ⟨_, rfl⟩
    · exact ⟨_, rfl⟩
  obtain ⟨message, hm⟩ := hs
  refine ⟨message, ?_⟩
  unfold deriveNFStatus
  rcases hv : validateNFConditionSet conditions with ⟨s, b⟩
  rw [hv] at hinvalid hm
  simp only at hinvalid hm
  subst hinvalid
  simp only [if_true]
  exact hm

theorem collectActiveConditions_WF (conditions : GoMap ConditionStatus)
    (conditionMessage : GoMap String) :
    (collectActiveConditions conditions conditionMessage).WF := by
  unfold collectActiveConditions
  have h : ∀ (l : List (String × ConditionStatus)) (acc : GoMap String), acc.WF →
      (l.foldl
        (fun activeConditions e =>
          if e.2 = ConditionTrue then activeConditions.set e.1 (conditionMessage.get e.1)
          else activeConditions) acc).WF := by
    intro l
    induction l with
    | nil => intro acc h; exact h
    | cons e l ih =>
      intro acc h
      rw [List.foldl_cons]
      apply ih
      split_ifs
      · exact GoMap.WF_set _ _ _ h
      · exact h
  exact h _ _ GoMap.WF_empty

theorem stalledStatus_WF (message : String) : (stalledStatus message).activeConditions.WF := by
  simp [stalledStatus, GoMap.WF, GoMap.keys]

/-- The active-conditions map of every derived status is a Go map. -/
theorem deriveNFStatus_WF (conditions : GoMap ConditionStatus)
    (conditionMessage : GoMap String) :
    (deriveNFStatus conditions conditionMessage).activeConditions.WF := by
  cases hv : (validateNFConditionSet conditions).2 with
  | true =>
    obtain ⟨message, hm⟩ := deriveNFStatus_of_invalid conditions conditionMessage hv
    rw [hm]
    exact stalledStatus_WF message
  | false =>
    rw [deriveNFStatus_of_valid _ _ hv]
    have hc := collectActiveConditions_WF conditions conditionMessage
    by_cases h1 : conditions.get Available = ConditionFalse ∧
        conditions.get Reconciling = ConditionFalse
    · rw [if_pos h1]; exact stalledStatus_WF _
    rw [if_neg h1]
    by_cases h2 : conditions.get Stalled = ConditionTrue
    · rw [if_pos h2]; exact hc
    rw [if_neg h2]
    by_cases h3 : conditions.get Ready = ConditionTrue
    · rw [if_pos h3]; exact WF_ensure _ _ _ hc
    rw [if_neg h3]
    by_cases h4 : conditions.get Peering = ConditionTrue
    · rw [if_pos h4]; exact WF_ensure _ _ _ (WF_ensure _ _ _ hc)
    rw [if_neg h4]
    by_cases h5 : conditions.get Reconciling = ConditionTrue
    · rw [if_pos h5]; exact hc
    · rw [if_neg h5]; exact hc

/-- The implied entries of a valid report that derives the state Peering. -/
theorem deriveNFStatus_peering (conditions : GoMap ConditionStatus)
    (conditionMessage : GoMap String) (hwf : conditions.WF)
    (hvalid : (validateNFConditionSet conditions).2 = false)
    (hstate : (deriveNFStatus conditions conditionMessage).state = Peering) :
    (deriveNFStatus conditions conditionMessage).activeConditions.get? Peering =
      some (conditionMessage.get Peering) ∧
    (deriveNFStatus conditions conditionMessage).activeConditions.get? Reconciling =
      some (if conditions.get Reconciling = ConditionTrue then conditionMessage.get Reconciling
        else peeringStateMessage) ∧
    (deriveNFStatus conditions conditionMessage).activeConditions.get? Available =
      some (if conditions.get Available = ConditionTrue then conditionMessage.get Available
        else peeringStateMessage) := by
  have hs := (deriveNFStatus_state conditions conditionMessage hvalid).1
  rw [hstate] at hs
  have e1 : ¬ (Peering = Stalled) := by decide
  have e2 : ¬ (Peering = Ready) := by decide
  have e3 : ¬ (Peering = Reconciling) := by decide
  have e4 : ¬ (Peering = Available) := by decide
  have e5 : ¬ (Reconciling = Available) := by decide
  have hfirst : ¬ (conditions.get Available = ConditionFalse ∧
      conditions.get Reconciling = ConditionFalse) := by
    intro h; rw [if_pos h] at hs; exact e1 hs
  rw [if_neg hfirst] at hs
  have hstalled : ¬ conditions.get Stalled = ConditionTrue := by
    intro h; rw [if_pos h] at hs; exact e1 hs
  rw [if_neg hstalled] at hs
  have hready : ¬ conditions.get Ready = ConditionTrue := by
    intro h; rw [if_pos h] at hs; exact e2 hs
  rw [if_neg hready] at hs
  have hpeering : conditions.get Peering = ConditionTrue := by
    by_contra h
    rw [if_neg h] at hs
    split_ifs at hs
    · exact e3 hs
    · exact e4 hs
  have key := deriveNFStatus_activeConditions conditions conditionMessage hwf hvalid
  refine ⟨?_, ?_, ?_⟩
  · rw [key Peering, if_neg hfirst, if_pos ((get_eq_iff_get? _ _).mp hpeering)]
  · rw [key Reconciling, if_neg hfirst, hstate]
    by_cases hr : conditions.get Reconciling = ConditionTrue
    · rw [if_pos ((get_eq_iff_get? _ _).mp hr), if_pos hr]
    · have hr' : ¬ conditions.get? Reconciling = some ConditionTrue :=
        fun h => hr ((get_eq_iff_get? _ _).mpr h)
      rw [if_neg hr', if_neg hr]
      simp [e2, e5]
  · rw [key Available, if_neg hfirst, hstate]
    by_cases hr : conditions.get Available = ConditionTrue
    · rw [if_pos ((get_eq_iff_get? _ _).mp hr), if_pos hr]
    · have hr' : ¬ conditions.get? Available = some ConditionTrue :=
        fun h => hr ((get_eq_iff_get? _ _).mpr h)
      rw [if_neg hr', if_neg hr]
      simp [e2]

/-- The implied entry of a valid report that derives the state Ready. -/
theorem deriveNFStatus_ready (conditions : GoMap ConditionStatus)
    (conditionMessage : GoMap String) (hwf : conditions.WF)
    (hvalid : (validateNFConditionSet conditions).2 = false)
    (hstate : (deriveNFStatus conditions conditionMessage).state = Ready) :
    (deriveNFStatus conditions conditionMessage).activeConditions.get? Available =
      some (if conditions.get Available = ConditionTrue then conditionMessage.get Available
        else readyStateMessage) := by
  have hs := (deriveNFStatus_state conditions conditionMessage hvalid).1
  rw [hstate] at hs
  have e1 : ¬ (Ready = Stalled) := by decide
  have hfirst : ¬ (conditions.get Available = ConditionFalse ∧
      conditions.get Reconciling = ConditionFalse) := by
    intro h; rw [if_pos h] at hs; exact e1 hs
  have key := deriveNFStatus_activeConditions conditions conditionMessage hwf hvalid
  rw [key Available, if_neg hfirst, hstate]
  by_cases hr : conditions.get Available = ConditionTrue
  · rw [if_pos ((get_eq_iff_get? _ _).mp hr), if_pos hr]
  · have hr' : ¬ conditions.get? Available = some ConditionTrue :=
      fun h => hr ((get_eq_iff_get? _ _).mpr h)
    rw [if_neg hr', if_neg hr]
    simp

/-- In every status derived from a Go map of conditions an active Ready condition
comes with Available and excludes Stalled, Peering and Reconciling. -/
theorem deriveNFStatus_readyExclusive (conditions : GoMap ConditionStatus)
    (conditionMessage : GoMap String) (hwf : conditions.WF) :
    ReadyExclusive (deriveNFStatus conditions conditionMessage) := by
  intro hr
  cases hv : (validateNFConditionSet conditions).2 with
  | true =>
    obtain ⟨message, hm⟩ := deriveNFStatus_of_invalid conditions conditionMessage hv
    rw [hm] at hr
    revert hr
    simp only [stalledStatus, GoMap.contains, GoMap.get?, GoMap.lookup]
    have e : ¬ (Stalled = Ready) := by decide
    simp [e]
  | false =>
    have key := deriveNFStatus_activeConditions conditions conditionMessage hwf hv
    have hs := (deriveNFStatus_state conditions conditionMessage hv).1
    have hval := (validateNFConditionSet_false_iff conditions).mp hv
    have e1 : ¬ (Ready = Stalled) := by decide
    have e2 : ¬ (Ready = Available) := by decide
    have e3 : ¬ (Ready = Reconciling) := by decide
    have e4 : ¬ (Ready = Peering) := by decide
    have e5 : ¬ (Stalled = Available) := by decide
    have e6 : ¬ (Peering = Available) := by decide
    have e7 : ¬ (Reconciling = Available) := by decide
    have e8 : ¬ (Stalled = Reconciling) := by decide
    have e9 : ¬ (Peering = Reconciling) := by decide
    have hfirst : ¬ (conditions.get Available = ConditionFalse ∧
        conditions.get Reconciling = ConditionFalse) := by
      intro h
      simp only [GoMap.contains, key Ready, if_pos h, e1, if_false, Option.isSome_none,
        Bool.false_eq_true] at hr
    have hready : conditions.get Ready = ConditionTrue := by
      by_contra h
      have h' : ¬ conditions.get? Ready = some ConditionTrue :=
        fun g => h ((get_eq_iff_get? _ _).mpr g)
      simp [GoMap.contains, key Ready, if_neg hfirst, h', e2, e3] at hr
    have hstalled : ¬ conditions.get Stalled = ConditionTrue := fun h => hval.1 ⟨hready, h⟩
    have hpeering : ¬ conditions.get Peering = ConditionTrue :=
      fun h => hval.2.2.2 ⟨Or.inl h, hready⟩
    have hrecon : ¬ conditions.get Reconciling = ConditionTrue :=
      fun h => hval.2.2.2 ⟨Or.inr h, hready⟩
    rw [if_neg hfirst, if_neg hstalled, if_pos hready] at hs
    have gs : ¬ conditions.get? Stalled = some ConditionTrue :=
      fun g => hstalled ((get_eq_iff_get? _ _).mpr g)
    have gp : ¬ conditions.get? Peering = some ConditionTrue :=
      fun g => hpeering ((get_eq_iff_get? _ _).mpr g)
    have gr : ¬ conditions.get? Reconciling = some ConditionTrue :=
      fun g => hrecon ((get_eq_iff_get? _ _).mpr g)
    refine ⟨?_, ?_, ?_, ?_⟩
    · simp only [GoMap.contains, key Available, if_neg hfirst, hs]
      split_ifs <;> simp_all
    · simp [GoMap.contains, key Stalled, if_neg hfirst, hs, gs, e5, e4]
    · simp [GoMap.contains, key Peering, if_neg hfirst, hs, gp, e6, e4]
    · simp [GoMap.contains, key Reconciling, if_neg hfirst, hs, gr, e7, e4]

theorem readyExclusive_empty : ReadyExclusive {} := by
  intro h
  simp [GoMap.contains, GoMap.get?, GoMap.lookup, GoMap.empty] at h

/-! ### Nodes after a topology update -/

theorem nodeAt_set_upf_eq (deployment : Deployment) (k : String) (v : UPFNode) (t : NFType)
    (x : String) :
    nodeAt { deployment with upfNodes := deployment.upfNodes.set k v } t x =
      if t = .UPF ∧ x = k then some v.toNode else nodeAt deployment t x := by
  cases t <;> simp only [nodeAt, reduceCtorEq, false_and, if_false, true_and]
  rw [GoMap.get?_set]
  split_ifs <;> rfl

theorem nodeAt_set_smf_eq (deployment : Deployment) (k : String) (v : SMFNode) (t : NFType)
    (x : String) :
    nodeAt { deployment with smfNodes := deployment.smfNodes.set k v } t x =
      if t = .SMF ∧ x = k then some v.toNode else nodeAt deployment t x := by
  cases t <;> simp only [nodeAt, reduceCtorEq, false_and, if_false, true_and]
  rw [GoMap.get?_set]
  split_ifs <;> rfl

theorem nodeAt_set_ausf_eq (deployment : Deployment) (k : String) (v : AUSFNode) (t : NFType)
    (x : String) :
    nodeAt { deployment with ausfNodes := deployment.ausfNodes.set k v } t x =
      if t = .AUSF ∧ x = k then some v.toNode else nodeAt deployment t x := by
  cases t <;> simp only [nodeAt, reduceCtorEq, false_and, if_false, true_and]
  rw [GoMap.get?_set]
  split_ifs <;> rfl

theorem nodeAt_set_udm_eq (deployment : Deployment) (k : String) (v : UDMNode) (t : NFType)
    (x : String) :
    nodeAt { deployment with udmNodes := deployment.udmNodes.set k v } t x =
      if t = .UDM ∧ x = k then some v.toNode else nodeAt deployment t x := by
  cases t <;> simp only [nodeAt, reduceCtorEq, false_and, if_false, true_and]
  rw [GoMap.get?_set]
  split_ifs <;> rfl

/-- A node found after `addOrUpdateUPFNode` was there before, or is new with an empty
status. -/
theorem nodeAt_addOrUpdateUPFNode_cases (intents : IntentProcessors)
    (deployment : Deployment) (site : Site) (t : NFType) (x : String) (node : Node)
    (h : nodeAt (addOrUpdateUPFNode intents deployment site) t x = some node) :
    nodeAt deployment t x = some node ∨ (nodeAt deployment t x = none ∧ node.Status = {}) := by
  have h1 : ∀ n, nodeAt
      (if deployment.upfNodes.contains site.Id = true then deployment
       else
        { deployment with
          upfNodes := deployment.upfNodes.set site.Id
            { Id := site.Id, NFType := .UPF, Connections := GoMap.empty,
              Spec := { clusterName := site.ClusterName } } }) t x = some n →
      nodeAt deployment t x = some n ∨ (nodeAt deployment t x = none ∧ n.Status = {}) := by
    intro n hn
    split_ifs at hn with hc
    · exact Or.inl hn
    · rw [nodeAt_set_upf_eq] at hn
      split_ifs at hn with hx
      · obtain ⟨rfl, rfl⟩ := hx
        right
        refine ⟨?_, ?_⟩
        · simp only [nodeAt]
          cases hg : deployment.upfNodes.get? site.Id with
          | none => rfl
          | some v => simp [GoMap.contains, hg] at hc
        · cases hn; rfl
      · exact Or.inl hn
  unfold addOrUpdateUPFNode at h
  simp only at h
  split at h
  · exact h1 _ h
  · split at h
    · exact h1 _ h
    · rename_i upfIntent upfNode hg
      rw [nodeAt_set_upf_eq] at h
      by_cases hx : t = .UPF ∧ x = site.Id
      · rw [if_pos hx] at h
        obtain ⟨rfl, rfl⟩ := hx
        apply h1
        simp only [nodeAt, hg, Option.map_some']
        cases h
        rfl
      · rw [if_neg hx] at h
        exact h1 _ h

/-- A node found after `addOrUpdateSMFNode` was there before, or is new with an empty
status. -/
theorem nodeAt_addOrUpdateSMFNode_cases (intents : IntentProcessors)
    (deployment : Deployment) (site : Site) (t : NFType) (x : String) (node : Node)
    (h : nodeAt (addOrUpdateSMFNode intents deployment site) t x = some node) :
    nodeAt deployment t x = some node ∨ (nodeAt deployment t x = none ∧ node.Status = {}) := by
  have h1 : ∀ n, nodeAt
      (if deployment.smfNodes.contains site.Id = true then deployment
       else
        { deployment with
          smfNodes := deployment.smfNodes.set site.Id
            { Id := site.Id, NFType := .SMF, Connections := GoMap.empty,
              Spec := { clusterName := site.ClusterName } } }) t x = some n →
      nodeAt deployment t x = some n ∨ (nodeAt deployment t x = none ∧ n.Status = {}) := by
    intro n hn
    split_ifs at hn with hc
    · exact Or.inl hn
    · rw [nodeAt_set_smf_eq] at hn
      split_ifs at hn with hx
      · obtain ⟨rfl, rfl⟩ := hx
        right
        refine ⟨?_, ?_⟩
        · simp only [nodeAt]
          cases hg : deployment.smfNodes.get? site.Id with
          | none => rfl
          | some v => simp [GoMap.contains, hg] at hc
        · cases hn; rfl
      · exact Or.inl hn
  unfold addOrUpdateSMFNode at h
  simp only at h
  split at h
  · exact h1 _ h
  · split at h
    · exact h1 _ h
    · rename_i smfNode hg _ smfIntent _
      rw [nodeAt_set_smf_eq] at h
      by_cases hx : t = .SMF ∧ x = site.Id
      · rw [if_pos hx] at h
        obtain ⟨rfl, rfl⟩ := hx
        apply h1
        simp only [nodeAt, hg, Option.map_some']
        cases h
        rfl
      · rw [if_neg hx] at h
        exact h1 _ h

/-- A node found after `addOrUpdateNode` was there before, or is new with an empty
status. -/
theorem nodeAt_addOrUpdateNode_cases (intents : IntentProcessors)
    (deployment : Deployment) (site : Site) (t : NFType) (x : String) (node : Node)
    (h : nodeAt (addOrUpdateNode intents deployment site) t x = some node) :
    nodeAt deployment t x = some node ∨ (nodeAt deployment t x = none ∧ node.Status = {}) := by
  unfold addOrUpdateNode at h
  cases hs : site.NFType <;> rw [hs] at h <;> simp only at h
  · exact Or.inl h
  · exact nodeAt_addOrUpdateUPFNode_cases _ _ _ _ _ _ h
  · exact nodeAt_addOrUpdateSMFNode_cases _ _ _ _ _ _ h
  · exact Or.inl h
  · unfold addOrUpdateAUSFNode at h
    simp only at h
    split_ifs at h with hc
    · exact Or.inl h
    · rw [nodeAt_set_ausf_eq] at h
      split_ifs at h with hx
      · obtain ⟨rfl, rfl⟩ := hx
        right
        refine ⟨?_, ?_⟩
        · simp only [nodeAt]
          cases hg : deployment.ausfNodes.get? site.Id with
          | none => rfl
          | some v => simp [GoMap.contains, hg] at hc
        · cases h; rfl
      · exact Or.inl h
  · unfold addOrUpdateUDMNode at h
    simp only at h
    split_ifs at h with hc
    · exact Or.inl h
    · rw [nodeAt_set_udm_eq] at h
      split_ifs at h with hx
      · obtain ⟨rfl, rfl⟩ := hx
        right
        refine ⟨?_, ?_⟩
        · simp only [nodeAt]
          cases hg : deployment.udmNodes.get? site.Id with
          | none => rfl
          | some v => simp [GoMap.contains, hg] at hc
        · cases h; rfl
      · exact Or.inl h

theorem nodeAt_foldl_addOrUpdateNode_cases (intents : IntentProcessors) (sites : List Site)
    (deployment : Deployment) (t : NFType) (x : String) (node : Node)
    (h : nodeAt (sites.foldl (addOrUpdateNode intents) deployment) t x = some node) :
    nodeAt deployment t x = some node ∨ (nodeAt deployment t x = none ∧ node.Status = {}) := by
  induction sites generalizing deployment with
  | nil => exact Or.inl h
  | cons s sites ih =>
    rw [List.foldl_cons] at h
    rcases ih _ h with h1 | ⟨h1, h2⟩
    · exact nodeAt_addOrUpdateNode_cases _ _ _ _ _ _ h1
    · right
      refine ⟨?_, h2⟩
      cases hd : nodeAt deployment t x with
      | none => rfl
      | some n =>
        rw [nodeAt_addOrUpdateNode_of_some intents deployment s t x n hd] at h1
        cases h1

theorem connectIf_Id (c : Prop) [Decidable c] (node : Node) (id : String) :
    (connectIf c node id).Id = node.Id ∧ (connectIf c node id).NFType = node.NFType := by
  unfold connectIf Node.connect
  split_ifs <;> exact ⟨rfl, rfl⟩

/-- A node found after the edges of a topology were created was there before, with
the same status and a connection set that has only grown. -/
theorem nodeAt_foldl_createEdgesOf_some (sites : List Site) (deployment : Deployment)
    (t : NFType) (x : String) (node' : Node)
    (h : nodeAt (sites.foldl createEdgesOf deployment) t x = some node') :
    ∃ node, nodeAt deployment t x = some node ∧ node'.Status = node.Status ∧
      node'.Id = node.Id ∧ node'.NFType = node.NFType ∧
      ∀ y, node.Connections.contains y = true → node'.Connections.contains y = true := by
  have key := foldl_createEdge_invariant
    (fun d => ∀ node', nodeAt d t x = some node' →
      ∃ node, nodeAt deployment t x = some node ∧ node'.Status = node.Status ∧
        node'.Id = node.Id ∧ node'.NFType = node.NFType ∧
        ∀ y, node.Connections.contains y = true → node'.Connections.contains y = true)
    sites ?_ deployment ?_
  · exact key node' h
  · intro d s _ c _ hq n' hn'
    by_cases hc : ∃ e ∈ d.edges, e.IsEqual s.Id c.NeighborName = true
    · rw [createEdge_of_connected _ _ _ hc] at hn'
      exact hq n' hn'
    · rw [nodeAt_createEdge _ _ _ _ _ hc] at hn'
      cases hd : nodeAt d t x with
      | none => rw [hd] at hn'; cases hn'
      | some n'' =>
        rw [hd] at hn'
        simp only [Option.map_some', Option.some.injEq] at hn'
        obtain ⟨n, g1, g2, g3, g4, g5⟩ := hq n'' hd
        refine ⟨n, g1, ?_, ?_, ?_, ?_⟩
        · rw [← hn', connectIf_Status, connectIf_Status, g2]
        · rw [← hn', (connectIf_Id _ _ _).1, (connectIf_Id _ _ _).1, g3]
        · rw [← hn', (connectIf_Id _ _ _).2, (connectIf_Id _ _ _).2, g4]
        · intro y hy
          rw [← hn']
          exact connectIf_contains _ _ _ _ (connectIf_contains _ _ _ _ (g5 y hy))
  · intro n' hn'
    exact ⟨n', hn', rfl, rfl, rfl, fun _ hy => hy⟩

/-- A node found after `ReportNFDeployEvent` is not stale and was there before, with
the same status and a connection set that has only grown, or is new with an empty
status. -/
theorem nodeAt_ReportNFDeployEvent_some (intents : IntentProcessors)
    (deployment : Deployment) (nfDeploy : NfDeploy) (t : NFType) (x : String) (node' : Node)
    (h : nodeAt (ReportNFDeployEvent intents deployment nfDeploy) t x = some node') :
    isStale (siteTypes nfDeploy) x t = false ∧
    ((∃ node, nodeAt deployment t x = some node ∧ node'.Status = node.Status ∧
        node'.Id = node.Id ∧ node'.NFType = node.NFType ∧
        ∀ y, node.Connections.contains y = true → node'.Connections.contains y = true) ∨
      (nodeAt deployment t x = none ∧ node'.Status = {})) := by
  rw [ReportNFDeployEvent_eq, nodeAt_removeNFs] at h
  split_ifs at h with hs
  refine ⟨by simpa using hs, ?_⟩
  obtain ⟨n1, g1, g2, g3, g4, g5⟩ := nodeAt_foldl_createEdgesOf_some _ _ _ _ _ h
  rcases nodeAt_foldl_addOrUpdateNode_cases _ _ _ _ _ _ g1 with h1 | ⟨h1, h2⟩
  · left
    exact ⟨n1, h1, g2, g3, g4, g5⟩
  · right
    exact ⟨h1, by rw [g2, h2]⟩

/-- A node that is tracked before `ReportNFDeployEvent` and not stale for the new
topology is tracked afterwards. -/
theorem nodeAt_ReportNFDeployEvent_isSome (intents : IntentProcessors)
    (deployment : Deployment) (nfDeploy : NfDeploy) (t : NFType) (x : String) (node : Node)
    (h : nodeAt deployment t x = some node)
    (hs : isStale (siteTypes nfDeploy) x t = false) :
    (nodeAt (ReportNFDeployEvent intents deployment nfDeploy) t x).isSome = true := by
  rw [ReportNFDeployEvent_eq, nodeAt_removeNFs, hs]
  simp only [Bool.false_eq_true, if_false]
  rw [nodeAt_isSome_iff, partitionKeys_foldl_createEdgesOf, ← nodeAt_isSome_iff]
  rw [nodeAt_foldl_addOrUpdateNode_of_some intents nfDeploy.Sites
    { deployment with name := nfDeploy.Name } t x node h]
  rfl

/-- After a topology update an id is tracked in one partition only. -/
theorem ReportNFDeployEvent_onePartition (intents : IntentProcessors)
    (deployment : Deployment) (nfDeploy : NfDeploy) (t1 t2 : NFType) (x : String)
    (h1 : (nodeAt (ReportNFDeployEvent intents deployment nfDeploy) t1 x).isSome = true)
    (h2 : (nodeAt (ReportNFDeployEvent intents deployment nfDeploy) t2 x).isSome = true) :
    t1 = t2 := by
  rw [ReportNFDeployEvent_eq, nodeAt_removeNFs] at h1 h2
  have s1 : isStale (siteTypes nfDeploy) x t1 = false := by
    cases hs : isStale (siteTypes nfDeploy) x t1 with
    | false => rfl
    | true => rw [hs] at h1; simp at h1
  have s2 : isStale (siteTypes nfDeploy) x t2 = false := by
    cases hs : isStale (siteTypes nfDeploy) x t2 with
    | false => rfl
    | true => rw [hs] at h2; simp at h2
  unfold isStale at s1 s2
  cases hg : (siteTypes nfDeploy).get? x with
  | none => rw [hg] at s1; simp at s1
  | some declared =>
    rw [hg] at s1 s2
    simp only [ne_eq, decide_not, Bool.not_eq_false', decide_eq_true_eq] at s1 s2
    rw [← s1, ← s2]

/-- A topology update keeps the partitions Go maps. -/
theorem WFNodes_ReportNFDeployEvent (intents : IntentProcessors) (deployment : Deployment)
    (nfDeploy : NfDeploy) (hwf : WFNodes deployment) :
    WFNodes (ReportNFDeployEvent intents deployment nfDeploy) := by
  rw [ReportNFDeployEvent_eq, WFNodes_iff]
  intro t
  rw [partitionKeys_removeNFs, partitionKeys_foldl_createEdgesOf]
  apply List.Nodup.filter
  have h0 : WFNodes { deployment with name := nfDeploy.Name } := hwf
  exact (WFNodes_iff _).mp
    ((foldl_addOrUpdateNode intents nfDeploy.Sites _).2.1 h0) t

/-! ### Nodes after an edge event -/

theorem Node.store_fields (node : Node) (currentStatus : NFStatus) :
    (node.store currentStatus).Id = node.Id ∧
    (node.store currentStatus).NFType = node.NFType ∧
    (node.store currentStatus).Connections = node.Connections ∧
    (node.store currentStatus).Status = storedStatus currentStatus node.Status :=
  ⟨rfl, rfl, rfl, rfl⟩

theorem Node.stamp_fields (node : Node) (timestamp : Time) :
    (node.stamp timestamp).Id = node.Id ∧
    (node.stamp timestamp).NFType = node.NFType ∧
    (node.stamp timestamp).Connections = node.Connections ∧
    (node.stamp timestamp).Status =
      { node.Status with lastEventTimestamp := timestamp } :=
  ⟨rfl, rfl, rfl, rfl⟩

theorem storedStatus_fields (currentStatus old : NFStatus) :
    (storedStatus currentStatus old).state = currentStatus.state ∧
    (storedStatus currentStatus old).stateMessage = currentStatus.stateMessage ∧
    (storedStatus currentStatus old).activeConditions = currentStatus.activeConditions ∧
    (storedStatus currentStatus old).lastEventTimestamp = old.lastEventTimestamp :=
  ⟨rfl, rfl, rfl, rfl⟩

theorem ReadyExclusive.congr {status status' : NFStatus}
    (h : status'.activeConditions = status.activeConditions) (hr : ReadyExclusive status) :
    ReadyExclusive status' := by
  unfold ReadyExclusive at hr ⊢
  rw [h]
  exact hr

theorem nodeAt_processNFEdgeEvent (deployment : Deployment) (nfConditions : List NFCondition)
    (nfId : String) (t : NFType) (x : String) :
    nodeAt (processNFEdgeEvent deployment nfConditions nfId).1 t x =
      if isAmbiguousConditionSet (calculateNFConditionSet nfConditions).1 = false ∧
          x = nfId ∧ t.isTracked = true then
        (nodeAt deployment t x).map
          (fun node =>
            node.store
              (deriveNFStatus (calculateNFConditionSet nfConditions).1
                (calculateNFConditionSet nfConditions).2))
      else nodeAt deployment t x := by
  cases h : isAmbiguousConditionSet (calculateNFConditionSet nfConditions).1 with
  | true =>
    rw [processNFEdgeEvent_of_ambiguous _ _ _ h]
    simp
  | false =>
    rw [processNFEdgeEvent_of_not_ambiguous _ _ _ h, nodeAt_updateCurrentNFStatus]
    simp

theorem partitionKeys_processNFEdgeEvent (deployment : Deployment)
    (nfConditions : List NFCondition) (nfId : String) (t : NFType) :
    partitionKeys (processNFEdgeEvent deployment nfConditions nfId).1 t =
      partitionKeys deployment t := by
  cases h : isAmbiguousConditionSet (calculateNFConditionSet nfConditions).1 with
  | true => rw [processNFEdgeEvent_of_ambiguous _ _ _ h]
  | false =>
    rw [processNFEdgeEvent_of_not_ambiguous _ _ _ h, partitionKeys_updateCurrentNFStatus]

theorem processNFEdgeEvent_edges (deployment : Deployment)
    (nfConditions : List NFCondition) (nfId : String) :
    (processNFEdgeEvent deployment nfConditions nfId).1.edges = deployment.edges ∧
    (processNFEdgeEvent deployment nfConditions nfId).1.name = deployment.name := by
  cases h : isAmbiguousConditionSet (calculateNFConditionSet nfConditions).1 with
  | true => rw [processNFEdgeEvent_of_ambiguous _ _ _ h]; exact ⟨rfl, rfl⟩
  | false =>
    rw [processNFEdgeEvent_of_not_ambiguous _ _ _ h]
    exact updateCurrentNFStatus_edges _ _ _ _

/-- An edge event keeps the keys of every partition. -/
theorem partitionKeys_processEdgeEvent (deployment : Deployment) (object : Event)
    (t : NFType) :
    partitionKeys (processEdgeEvent deployment object).1 t = partitionKeys deployment t := by
  rcases processEdgeEvent_cases deployment object with h | ⟨obj, node, _, _, _, h⟩
  · rw [h]
  · rw [h, partitionKeys_processNFEdgeEvent, partitionKeys_stampNode]

/-- An edge event keeps the edge list and the name. -/
theorem processEdgeEvent_edges (deployment : Deployment) (object : Event) :
    (processEdgeEvent deployment object).1.edges = deployment.edges ∧
    (processEdgeEvent deployment object).1.name = deployment.name := by
  rcases processEdgeEvent_cases deployment object with h | ⟨obj, node, _, _, _, h⟩
  · rw [h]; exact ⟨rfl, rfl⟩
  · rw [h]
    obtain ⟨a1, a2⟩ := processNFEdgeEvent_edges
      (stampNode deployment (kindType object.Kind) obj.siteId object.Timestamp)
      obj.Conditions obj.siteId
    obtain ⟨b1, b2⟩ := stampNode_edges deployment (kindType object.Kind) obj.siteId
      object.Timestamp
    exact ⟨a1.trans b1, a2.trans b2⟩

/-- A node found after an edge event was there before with the same id, type and
connection set; its status is the old one, or the node has the id the event reports
on and its status is the old one with the timestamp of the event, or the status
derived from the report of the event, stored over some earlier status. -/
theorem nodeAt_processEdgeEvent_some (deployment : Deployment) (object : Event) (t : NFType)
    (x : String) (node' : Node)
    (h : nodeAt (processEdgeEvent deployment object).1 t x = some node') :
    ∃ node, nodeAt deployment t x = some node ∧ node'.Id = node.Id ∧
      node'.NFType = node.NFType ∧ node'.Connections = node.Connections ∧
      (node'.Status = node.Status ∨
        ∃ obj, object.Object = some obj ∧ x = obj.siteId ∧
          (node'.Status = { node.Status with lastEventTimestamp := object.Timestamp } ∨
            ∃ old,
              node'.Status =
                storedStatus
                  (deriveNFStatus (calculateNFConditionSet obj.Conditions).1
                    (calculateNFConditionSet obj.Conditions).2) old)) := by
  rcases processEdgeEvent_cases deployment object with he | ⟨obj, n0, hobj, _, _, he⟩
  · rw [he] at h
    exact ⟨node', h, rfl, rfl, rfl, Or.inl rfl⟩
  · rw [he, nodeAt_processNFEdgeEvent, nodeAt_stampNode] at h
    cases hd : nodeAt deployment t x with
    | none =>
      rw [hd] at h
      simp at h
    | some node =>
      rw [hd] at h
      refine ⟨node, rfl, ?_⟩
      by_cases hc : isAmbiguousConditionSet (calculateNFConditionSet obj.Conditions).1 = false ∧
          x = obj.siteId ∧ t.isTracked = true
      · rw [if_pos hc] at h
        by_cases hk : t = kindType object.Kind ∧ x = obj.siteId
        · rw [if_pos hk] at h
          simp only [Option.map_some', Option.some.injEq] at h
          subst h
          obtain ⟨a1, a2, a3, a4⟩ := Node.store_fields (node.stamp object.Timestamp)
            (deriveNFStatus (calculateNFConditionSet obj.Conditions).1
              (calculateNFConditionSet obj.Conditions).2)
          obtain ⟨b1, b2, b3, _⟩ := Node.stamp_fields node object.Timestamp
          exact ⟨a1.trans b1, a2.trans b2, a3.trans b3,
            Or.inr ⟨obj, hobj, hc.2.1, Or.inr ⟨_, a4⟩⟩⟩
        · rw [if_neg hk] at h
          simp only [Option.map_some', Option.some.injEq] at h
          subst h
          obtain ⟨a1, a2, a3, a4⟩ := Node.store_fields node
            (deriveNFStatus (calculateNFConditionSet obj.Conditions).1
              (calculateNFConditionSet obj.Conditions).2)
          exact ⟨a1, a2, a3, Or.inr ⟨obj, hobj, hc.2.1, Or.inr ⟨_, a4⟩⟩⟩
      · rw [if_neg hc] at h
        by_cases hk : t = kindType object.Kind ∧ x = obj.siteId
        · rw [if_pos hk] at h
          simp only [Option.map_some', Option.some.injEq] at h
          subst h
          obtain ⟨b1, b2, b3, b4⟩ := Node.stamp_fields node object.Timestamp
          exact ⟨b1, b2, b3, Or.inr ⟨obj, hobj, hk.2, Or.inl b4⟩⟩
        · rw [if_neg hk] at h
          simp only [Option.some.injEq] at h
          subst h
          exact ⟨rfl, rfl, rfl, Or.inl rfl⟩

/-! ### The invariant of the reachable states -/

theorem SoundStatuses_processEdgeEvent (deployment : Deployment) (object : Event)
    (h : SoundStatuses deployment) : SoundStatuses (processEdgeEvent deployment object).1 := by
  intro t x node' hn
  obtain ⟨node, g1, _, _, _, g5⟩ := nodeAt_processEdgeEvent_some _ _ _ _ _ hn
  obtain ⟨w, r⟩ := h t x node g1
  rcases g5 with g | ⟨obj, _, _, g | ⟨old, g⟩⟩
  · rw [g]; exact ⟨w, r⟩
  · rw [g]; exact ⟨w, ReadyExclusive.congr rfl r⟩
  · rw [g, (storedStatus_fields _ _).2.2.1]
    exact ⟨deriveNFStatus_WF _ _,
      ReadyExclusive.congr (storedStatus_fields _ _).2.2.1
        (deriveNFStatus_readyExclusive _ _ (calculateNFConditionSet_WF obj.Conditions))⟩

theorem SoundStatuses_ReportNFDeployEvent (intents : IntentProcessors)
    (deployment : Deployment) (nfDeploy : NfDeploy) (h : SoundStatuses deployment) :
    SoundStatuses (ReportNFDeployEvent intents deployment nfDeploy) := by
  intro t x node' hn
  rcases (nodeAt_ReportNFDeployEvent_some _ _ _ _ _ _ hn).2 with
    ⟨node, g1, g2, _⟩ | ⟨_, g2⟩
  · rw [g2]; exact h t x node g1
  · rw [g2]; exact ⟨GoMap.WF_empty, readyExclusive_empty⟩

theorem WFNodes_processEdgeEvent (deployment : Deployment) (object : Event)
    (h : WFNodes deployment) : WFNodes (processEdgeEvent deployment object).1 := by
  rw [WFNodes_iff] at h ⊢
  intro t
  rw [partitionKeys_processEdgeEvent]
  exact h t

theorem OnePartition_processEdgeEvent (deployment : Deployment) (object : Event)
    (h : OnePartition deployment) : OnePartition (processEdgeEvent deployment object).1 := by
  intro t1 t2 x h1 h2
  rw [nodeAt_isSome_iff, partitionKeys_processEdgeEvent, ← nodeAt_isSome_iff] at h1 h2
  exact h t1 t2 x h1 h2

/-- In every state reached by topology updates and edge events the partitions are Go
maps, the statuses are sound and an id is tracked in one partition only. -/
theorem ReachableByEvents.invariant {deployment : Deployment}
    (h : ReachableByEvents deployment) :
    WFNodes deployment ∧ SoundStatuses deployment ∧ OnePartition deployment := by
  induction h with
  | empty =>
    refine ⟨GraphInv_empty.2.2, ?_, ?_⟩
    · intro t x node hn
      cases t <;> simp [nodeAt, GoMap.get?, GoMap.lookup, GoMap.empty] at hn
    · intro t1 t2 x h1 _
      cases t1 <;> simp [nodeAt, GoMap.get?, GoMap.lookup, GoMap.empty] at h1
  | report intents d nfDeploy _ ih =>
    exact ⟨WFNodes_ReportNFDeployEvent _ _ _ ih.1,
      SoundStatuses_ReportNFDeployEvent _ _ _ ih.2.1,
      fun t1 t2 x h1 h2 => ReportNFDeployEvent_onePartition _ _ _ t1 t2 x h1 h2⟩
  | event d object _ ih =>
    exact ⟨WFNodes_processEdgeEvent _ _ ih.1, SoundStatuses_processEdgeEvent _ _ ih.2.1,
      OnePartition_processEdgeEvent _ _ ih.2.2⟩

/-! ### Counting exclusive conditions -/

theorem mem_statusNodes (deployment : Deployment) (hwf : WFNodes deployment) (node : Node)
    (h : node ∈ statusNodes deployment) :
    ∃ t x, nodeAt deployment t x = some node := by
  unfold statusNodes at h
  simp only [List.mem_append, List.mem_map, GoMap.values] at h
  rcases h with ((⟨v, ⟨e, he, rfl⟩, rfl⟩ | ⟨v, ⟨e, he, rfl⟩, rfl⟩) | ⟨v, ⟨e, he, rfl⟩, rfl⟩) |
    ⟨v, ⟨e, he, rfl⟩, rfl⟩
  · refine ⟨.UPF, e.1, ?_⟩
    simp only [nodeAt]
    rw [(GoMap.get?_eq_some_iff_mem _ hwf.1 e.1 e.2).mpr he]
    rfl
  · refine ⟨.SMF, e.1, ?_⟩
    simp only [nodeAt]
    rw [(GoMap.get?_eq_some_iff_mem _ hwf.2.1 e.1 e.2).mpr he]
    rfl
  · refine ⟨.AUSF, e.1, ?_⟩
    simp only [nodeAt]
    rw [(GoMap.get?_eq_some_iff_mem _ hwf.2.2.2.1 e.1 e.2).mpr he]
    rfl
  · refine ⟨.UDM, e.1, ?_⟩
    simp only [nodeAt]
    rw [(GoMap.get?_eq_some_iff_mem _ hwf.2.2.2.2 e.1 e.2).mpr he]
    rfl

theorem countP_add_countP_le {α : Type} (p q : α → Bool) (l : List α)
    (h : ∀ a ∈ l, p a = true → q a = false) :
    l.countP p + l.countP q ≤ l.length := by
  induction l with
  | nil => simp
  | cons a l ih =>
    have ih' := ih (fun b hb => h b (List.mem_cons_of_mem _ hb))
    have ha := h a (List.mem_cons_self _ _)
    rw [List.countP_cons, List.countP_cons, List.length_cons]
    cases hp : p a with
    | true =>
      rw [ha hp]
      simp only [if_true, Bool.false_eq_true, if_false]
      omega
    | false =>
      simp only [Bool.false_eq_true, if_false]
      split_ifs <;> omega

/-! ### Specs, counts and the aggregate after an edge event -/

theorem specAt_updateCurrentNFStatus (deployment : Deployment) (nfId : String)
    (conditions : GoMap ConditionStatus) (conditionMessage : GoMap String) (x : String) :
    upfSpecAt (updateCurrentNFStatus deployment nfId conditions conditionMessage) x =
      upfSpecAt deployment x ∧
    smfSpecAt (updateCurrentNFStatus deployment nfId conditions conditionMessage) x =
      smfSpecAt deployment x := by
  unfold upfSpecAt smfSpecAt
  rw [updateCurrentNFStatus_upfNodes, updateCurrentNFStatus_smfNodes]
  constructor
  · cases hg : deployment.upfNodes.get? nfId with
    | none => rfl
    | some nf =>
      simp only [GoMap.get?_set]
      by_cases hx : x = nfId
      · subst hx; simp [hg]
      · simp [hx]
  · cases hg : deployment.smfNodes.get? nfId with
    | none => rfl
    | some nf =>
      simp only [GoMap.get?_set]
      by_cases hx : x = nfId
      · subst hx; simp [hg]
      · simp [hx]

theorem specAt_stampNode (deployment : Deployment) (t : NFType) (id : String)
    (timestamp : Time) (x : String) :
    upfSpecAt (stampNode deployment t id timestamp) x = upfSpecAt deployment x ∧
    smfSpecAt (stampNode deployment t id timestamp) x = smfSpecAt deployment x := by
  unfold upfSpecAt smfSpecAt
  cases t
  · exact ⟨rfl, rfl⟩
  · unfold stampNode
    cases hg : deployment.upfNodes.get? id with
    | none => exact ⟨rfl, rfl⟩
    | some node =>
      refine ⟨?_, rfl⟩
      simp only [GoMap.get?_set]
      by_cases hx : x = id
      · subst hx; simp [hg]
      · simp [hx]
  · unfold stampNode
    cases hg : deployment.smfNodes.get? id with
    | none => exact ⟨rfl, rfl⟩
    | some node =>
      refine ⟨rfl, ?_⟩
      simp only [GoMap.get?_set]
      by_cases hx : x = id
      · subst hx; simp [hg]
      · simp [hx]
  · unfold stampNode
    cases deployment.amfNodes.get? id <;> exact ⟨rfl, rfl⟩
  · unfold stampNode
    cases deployment.ausfNodes.get? id <;> exact ⟨rfl, rfl⟩
  · unfold stampNode
    cases deployment.udmNodes.get? id <;> exact ⟨rfl, rfl⟩

/-- An edge event keeps the spec of every UPF and SMF node. -/
theorem specAt_processEdgeEvent (deployment : Deployment) (object : Event) (x : String) :
    upfSpecAt (processEdgeEvent deployment object).1 x = upfSpecAt deployment x ∧
    smfSpecAt (processEdgeEvent deployment object).1 x = smfSpecAt deployment x := by
  rcases processEdgeEvent_cases deployment object with h | ⟨obj, node, _, _, _, h⟩
  · rw [h]; exact ⟨rfl, rfl⟩
  · rw [h]
    obtain ⟨b1, b2⟩ := specAt_stampNode deployment (kindType object.Kind) obj.siteId
      object.Timestamp x
    cases ha : isAmbiguousConditionSet (calculateNFConditionSet obj.Conditions).1 with
    | true =>
      rw [processNFEdgeEvent_of_ambiguous _ _ _ ha]
      exact ⟨b1, b2⟩
    | false =>
      rw [processNFEdgeEvent_of_not_ambiguous _ _ _ ha]
      obtain ⟨a1, a2⟩ := specAt_updateCurrentNFStatus
        (stampNode deployment (kindType object.Kind) obj.siteId object.Timestamp) obj.siteId
        (calculateNFConditionSet obj.Conditions).1 (calculateNFConditionSet obj.Conditions).2 x
      exact ⟨a1.trans b1, a2.trans b2⟩

/-- An edge event keeps the number of targeted NFs. -/
theorem targetedNFs_processEdgeEvent (deployment : Deployment) (object : Event) :
    targetedNFs (processEdgeEvent deployment object).1 = targetedNFs deployment := by
  rw [targetedNFs_eq, targetedNFs_eq]
  simp only [partitionKeys_processEdgeEvent]

/-- A deployment that tracks a node in one of the four status-bearing partitions has
at least one targeted NF. -/
theorem one_le_targetedNFs (deployment : Deployment) (t : NFType) (x : String)
    (ht : t.isTracked = true) (h : (nodeAt deployment t x).isSome = true) :
    1 ≤ targetedNFs deployment := by
  rw [nodeAt_isSome_iff] at h
  have hpos : 0 < (partitionKeys deployment t).length := List.length_pos_of_mem h
  rw [targetedNFs_eq]
  cases t <;> simp only [NFType.isTracked, Bool.false_eq_true] at ht <;> omega

theorem kindType_isTracked (kind : String) (h : kindType kind ≠ .UnspecifiedNFType) :
    (kindType kind).isTracked = true := by
  rcases kindType_cases kind with h1 | h1 | h1 | h1 | h1
  · rw [h1]; rfl
  · rw [h1]; rfl
  · rw [h1]; rfl
  · rw [h1]; rfl
  · exact absurd h1 h

/-- The writer is called by an edge event only with the aggregate of the state after
the event, and then the event addressed a tracked node. -/
theorem processEdgeEvent_some (deployment : Deployment) (object : Event)
    (update : StatusUpdate) (h : (processEdgeEvent deployment object).2 = some update) :
    update = aggregateStatus (processEdgeEvent deployment object).1 ∧
    ∃ obj node, object.Object = some obj ∧
      nodeAt deployment (kindType object.Kind) obj.siteId = some node ∧
      (kindType object.Kind).isTracked = true := by
  rcases processEdgeEvent_cases deployment object with he | ⟨obj, node, hobj, hnode, _, he⟩
  · rw [he] at h; cases h
  · have htr : (kindType object.Kind).isTracked = true := by
      apply kindType_isTracked
      intro hk
      rw [hk] at hnode
      cases hnode
    refine ⟨?_, obj, node, hobj, hnode, htr⟩
    rw [he] at h ⊢
    cases ha : isAmbiguousConditionSet (calculateNFConditionSet obj.Conditions).1 with
    | true =>
      rw [processNFEdgeEvent_of_ambiguous _ _ _ ha] at h
      cases h
    | false =>
      rw [processNFEdgeEvent_eq_aggregateStatus _ _ _ ha] at h ⊢
      simp only [Option.some.injEq] at h
      exact h.symm

theorem computeStalledCondition_status_reason (deployment : Deployment)
    (stalledNFs targetedNFs : Int) :
    ((computeStalledCondition deployment stalledNFs targetedNFs).Status,
     (computeStalledCondition deployment stalledNFs targetedNFs).Reason) =
      (if stalledNFs ≠ 0 then ConditionTrue else ConditionFalse,
       if stalledNFs = targetedNFs then "AllNFsStalled"
       else if stalledNFs = 0 then "NoNFsStalled" else "SomeNFsStalled") := by
  unfold computeStalledCondition
  by_cases h : stalledNFs = 0 <;> simp [h]

theorem toInt32_of_range (x : Int) (h1 : 0 ≤ x) (h2 : x < 2 ^ 31) : toInt32 x = x := by
  unfold toInt32
  norm_num at h2 ⊢
  omega

/-! ### Failures of CreateNFDeployActuators -/

/-- Every call of a faithful log was made with the naming context of its cluster and
carries an answer of the package service. -/
theorem FaithfulFrom.mem {service : ActuatorService} {name : String} {n : Nat}
    {calls : List ActuatorCall} (h : FaithfulFrom service name n calls) :
    ∀ call ∈ calls, service.NewNamingContext call.cluster name = .ok call.nc ∧
      ∃ m, call.answer = service.CreateNFDeployActuators m call.nc call.key := by
  induction calls generalizing n with
  | nil => intro call hc; exact absurd hc (List.not_mem_nil call)
  | cons c calls ih =>
    intro call hc
    obtain ⟨⟨h1, h2⟩, h3⟩ := h
    rcases List.mem_cons.mp hc with hc | hc
    · rw [hc]; exact ⟨h1, n, h2⟩
    · exact ih h3 call hc

theorem keys_collectVendorNFs_foldl (rest : List Site) :
    ∀ (m : GoMap (List (VendorNFKey × Bool))) (c : String),
      c ∈ (rest.foldl
        (fun clusterVendorNFsMap site =>
          (if clusterVendorNFsMap.contains site.ClusterName then clusterVendorNFsMap
            else clusterVendorNFsMap.set site.ClusterName []).set site.ClusterName
            (setVendorNF
              ((if clusterVendorNFsMap.contains site.ClusterName then clusterVendorNFsMap
                else clusterVendorNFsMap.set site.ClusterName []).get site.ClusterName)
              { Vendor := site.NFVendor, Version := site.NFVersion,
                NFType := site.NFType })) m).keys →
      c ∈ m.keys ∨ c ∈ rest.map Site.ClusterName := by
  induction rest with
  | nil => intro m c h; exact Or.inl h
  | cons s rest ih =>
    intro m c h
    rw [List.foldl_cons] at h
    rcases ih _ c h with h1 | h1
    · rw [GoMap.keys_set] at h1
      have hstep : c ∈ (if m.contains s.ClusterName then m
          else m.set s.ClusterName []).keys → c ∈ m.keys ∨ c = s.ClusterName := by
        intro hk
        split_ifs at hk with hc
        · exact Or.inl hk
        · rw [GoMap.keys_set, if_neg hc] at hk
          rcases List.mem_append.mp hk with hk | hk
          · exact Or.inl hk
          · exact Or.inr (List.mem_singleton.mp hk)
      have hres : c ∈ m.keys ∨ c = s.ClusterName := by
        generalize (if m.contains s.ClusterName then m else m.set s.ClusterName []) = m'
          at h1 hstep
        by_cases hc : m'.contains s.ClusterName = true
        · rw [if_pos hc] at h1
          exact hstep h1
        · rw [if_neg hc] at h1
          rcases List.mem_append.mp h1 with hk | hk
          · exact hstep hk
          · exact Or.inr (List.mem_singleton.mp hk)
      rcases hres with hk | hk
      · exact Or.inl hk
      · exact Or.inr (by rw [hk]; exact List.mem_cons_self _ _)
    · exact Or.inr (List.mem_cons_of_mem _ h1)

/-- The clusters `CreateNFDeployActuators` ranges over are clusters of the sites. -/
theorem keys_collectVendorNFs (sites : List Site) (c : String)
    (h : c ∈ (collectVendorNFs sites).keys) : c ∈ sites.map Site.ClusterName := by
  unfold collectVendorNFs at h
  rcases keys_collectVendorNFs_foldl sites GoMap.empty c h with h1 | h1
  · simp [GoMap.keys, GoMap.empty] at h1
  · exact h1

/-- An error of the outer loop of `CreateNFDeployActuators` is the wrapped failure of a
call in the log or of the naming context of one of the clusters. -/
theorem createActuatorsOfClusters_error (service : ActuatorService) (name : String)
    (l : List (String × List (VendorNFKey × Bool))) :
    ∀ (names : List String) (calls : List ActuatorCall) (e : GoError),
      (createActuatorsOfClusters service name l names calls).1 = .error e →
      (∃ call ∈ (createActuatorsOfClusters service name l names calls).2, ∃ err,
        call.answer = .error err ∧
          e = .wrap "Error creating actuators with key:%#v , %w" err) ∨
      (∃ cluster ∈ l.map Prod.fst, ∃ err,
        service.NewNamingContext cluster name = .error err ∧
          e = .wrap "Error creating actuators, error creating naming context: %w" err) := by
  induction l with
  | nil =>
    intro names calls e h
    simp [createActuatorsOfClusters] at h
  | cons x rest ih =>
    obtain ⟨cluster, ks⟩ := x
    intro names calls e h
    cases hnc : service.NewNamingContext cluster name with
    | error err =>
      simp only [createActuatorsOfClusters, hnc, Except.error.injEq] at h
      exact Or.inr ⟨cluster, List.mem_cons_self _ _, err, hnc, h.symm⟩
    | ok nc =>
      obtain ⟨added1, h2, _, _, _, herr⟩ :=
        createActuatorsOfCluster_spec service name cluster nc hnc ks names calls
      rcases hrun : createActuatorsOfCluster service cluster nc ks names calls with
        ⟨result, calls1⟩
      rw [hrun] at h2 herr
      simp only at h2 herr
      cases result with
      | error e1 =>
        have hout : createActuatorsOfClusters service name ((cluster, ks) :: rest) names
            calls = (.error e1, calls1) := by
          simp only [createActuatorsOfClusters, hnc, hrun]
        rw [hout] at h ⊢
        simp only [Except.error.injEq] at h
        obtain ⟨init, last, err, g1, g2, g3, _⟩ := herr e1 rfl
        refine Or.inl ⟨last, ?_, err, g2, by rw [← h, g3]⟩
        rw [h2, g1]
        simp
      | ok names1 =>
        have hrun' : createActuatorsOfClusters service name ((cluster, ks) :: rest) names
            calls = createActuatorsOfClusters service name rest names1 calls1 := by
          simp only [createActuatorsOfClusters, hnc, hrun]
        rw [hrun'] at h ⊢
        rcases ih names1 calls1 e h with g | ⟨c, hc, err, g1, g2⟩
        · exact Or.inl g
        · exact Or.inr ⟨c, List.mem_cons_of_mem _ hc, err, g1, g2⟩

/-! ### Reachability -/

theorem Reachable.byEvents {deployment : Deployment} (h : Reachable deployment) :
    ReachableByEvents deployment := by
  induction h with
  | empty => exact .empty
  | report intents d nfDeploy _ _ _ ih => exact .report intents d nfDeploy ih

/-! ## The claims -/

/-- C1 as stated fails: the node `upf` has `lastEventTimestamp` 5 and an event with
the equal timestamp 5 reports Reconciling=True; `processEdgeEvent` processes it, the
stored state of the node changes from the empty state to Reconciling, and the
writer is called. -/
theorem processEdgeEvent_equal_timestamp_processed :
    (addressedNode staleDeployment (upfEvent reconcilingReport 5)).map
        (fun node => (node.Status.lastEventTimestamp, node.Status.state)) = some (5, "") ∧
    (upfEvent reconcilingReport 5).Timestamp ≤ 5 ∧
    (addressedNode (processEdgeEvent staleDeployment (upfEvent reconcilingReport 5)).1
        (upfEvent reconcilingReport 5)).map
        (fun node => (node.Status.lastEventTimestamp, node.Status.state)) =
      some (5, Reconciling) ∧
    (processEdgeEvent staleDeployment (upfEvent reconcilingReport 5)).2.isSome = true := by
  decide

/-- C1, amended: for every tracked node and every edge event addressed to it whose
timestamp is strictly before the node's current `lastEventTimestamp`,
`processEdgeEvent` returns the deployment unchanged, so the stored status of the node
(state, message, active conditions, `lastEventTimestamp`) is unchanged, and it
performs no recompute and no status write. -/
theorem processEdgeEvent_stale_discarded (deployment : Deployment) (object : Event)
    (node : Node) (hnode : addressedNode deployment object = some node)
    (hstale : object.Timestamp < node.Status.lastEventTimestamp) :
    processEdgeEvent deployment object = (deployment, none) ∧
    addressedNode (processEdgeEvent deployment object).1 object = some node := by
  have h := processEdgeEvent_of_before deployment object node hnode hstale
  exact ⟨h, by rw [h]; exact hnode⟩

/-- C1 at a concrete input: the node `upf` has `lastEventTimestamp` 5 and the event
carries timestamp 4; the deployment comes back unchanged and the writer is not called. -/
theorem processEdgeEvent_stale_discarded_witness :
    addressedNode staleDeployment (upfEvent reconcilingReport 4) =
      some { Id := "upf", NFType := .UPF, Status := { lastEventTimestamp := 5 } } ∧
    (upfEvent reconcilingReport 4).Timestamp < 5 ∧
    processEdgeEvent staleDeployment (upfEvent reconcilingReport 4) =
      (staleDeployment, none) :=
  ⟨by decide, by decide,
   (processEdgeEvent_stale_discarded staleDeployment (upfEvent reconcilingReport 4)
      { Id := "upf", NFType := .UPF, Status := { lastEventTimestamp := 5 } }
      (by decide) (by decide)).1⟩

/-- C2 fails on the code: the persisted Stalled condition has status False, reason
NoNFsStalled, the message of the freshly computed Stalled condition, and both
timestamps 100. The writer finds the two conditions equal and writes the fresh
condition back with its own timestamps, the zero time, instead of 100. The other
three types have no persisted condition and are stamped with the clock, 200. -/
theorem updateNFDeployStatus_equal_condition_loses_timestamps :
    persistedStatus.Conditions.map
        (fun c => (c.type, c.LastTransitionTime, c.LastUpdateTime)) =
      [(.DeploymentStalled, 100, 100)] ∧
    persistedStatus.Conditions.map
        (areNFDeployStatusConditionsEqual freshUpdate.stalledCondition) = [true] ∧
    (updateNFDeployStatus steadyStore freshUpdate).1.map
        (fun status =>
          status.Conditions.map
            (fun c => (c.type, c.LastTransitionTime, c.LastUpdateTime))) =
      [[(.DeploymentStalled, 0, 0), (.DeploymentReady, 200, 200),
        (.DeploymentPeering, 200, 200), (.DeploymentReconciling, 200, 200)]] := by
  decide

/-- C3: for every deployment state and all Go integers `readyNFs`, `targetedNFs`, with
`activeCount` the number of UPF, SMF, AUSF and UDM nodes whose active-conditions map
contains Reconciling, `computeReconcilingCondition` returns type
DeploymentReconciling with (status, reason) = (False, AllNFsReconciled) if
`readyNFs = targetedNFs`; otherwise (True, AllUnReconciledNFsReconciling) if
`readyNFs + activeCount = targetedNFs`; otherwise (True, SomeNFsReconciling) if
`activeCount ≠ 0`; otherwise (False, NoNFsReconciling). The sum is the sum of Go
`int`, which is the sum of integers whenever that is representable in 64 bits. -/
theorem computeReconcilingCondition_spec (deployment : Deployment)
    (readyNFs targetedNFs : Int) :
    (computeReconcilingCondition deployment readyNFs targetedNFs).type =
        NFDeployConditionType.DeploymentReconciling ∧
    ((computeReconcilingCondition deployment readyNFs targetedNFs).Status,
     (computeReconcilingCondition deployment readyNFs targetedNFs).Reason) =
      (if readyNFs = targetedNFs then (ConditionFalse, "AllNFsReconciled")
       else if intAdd readyNFs (activeCount deployment Reconciling) = targetedNFs then
        (ConditionTrue, "AllUnReconciledNFsReconciling")
       else if activeCount deployment Reconciling ≠ 0 then
        (ConditionTrue, "SomeNFsReconciling")
       else (ConditionFalse, "NoNFsReconciling")) ∧
    (-(2 : Int) ^ 63 ≤ readyNFs + activeCount deployment Reconciling →
      readyNFs + activeCount deployment Reconciling < 2 ^ 63 →
      intAdd readyNFs (activeCount deployment Reconciling) =
        readyNFs + activeCount deployment Reconciling) := by
  have hcount := scanActive_statusNodes deployment Reconciling
    ("The NFs which are in Reconciling state are: ", 0)
  simp only [Nat.zero_add] at hcount
  have key :
      (computeReconcilingCondition deployment readyNFs targetedNFs).type =
          NFDeployConditionType.DeploymentReconciling ∧
      ((computeReconcilingCondition deployment readyNFs targetedNFs).Status,
       (computeReconcilingCondition deployment readyNFs targetedNFs).Reason) =
        (if readyNFs = targetedNFs then (ConditionFalse, "AllNFsReconciled")
         else if intAdd readyNFs (activeCount deployment Reconciling) = targetedNFs then
          (ConditionTrue, "AllUnReconciledNFsReconciling")
         else if activeCount deployment Reconciling ≠ 0 then (ConditionTrue, "SomeNFsReconciling")
         else (ConditionFalse, "NoNFsReconciling")) := by
    unfold computeReconcilingCondition
    by_cases h1 : targetedNFs = readyNFs
    · simp [h1]
    · have h1' : ¬ readyNFs = targetedNFs := fun h => h1 h.symm
      simp only [h1, h1', if_false, hcount]
      by_cases h2 : intAdd readyNFs (activeCount deployment Reconciling) = targetedNFs
      · simp [h2]
      · simp only [h2, if_false]
        by_cases h3 : activeCount deployment Reconciling = 0
        · simp [h3]
        · simp [h3]
  exact ⟨key.1, key.2, fun h1 h2 => wrapInt_of_range _ h1 h2⟩

/-- C3 at a concrete input: for `readyNFs = 0` in the two-node deployment the sum is
representable and the Go sum is the integer sum. -/
theorem computeReconcilingCondition_spec_witness :
    -(2 : Int) ^ 63 ≤ 0 + activeCount stalledDeployment Reconciling ∧
    (0 : Int) + activeCount stalledDeployment Reconciling < 2 ^ 63 ∧
    intAdd 0 (activeCount stalledDeployment Reconciling) =
      0 + activeCount stalledDeployment Reconciling :=
  ⟨by decide, by decide,
   (computeReconcilingCondition_spec stalledDeployment 0 2).2.2 (by decide) (by decide)⟩

/-- C4: for every deployment state and all Go integers `readyNFs`, `targetedNFs`, with
`activeCount` the number of UPF, SMF, AUSF and UDM nodes whose active-conditions map
contains Peering, `computePeeringCondition` returns type DeploymentPeering with
(status, reason) = (False, AllNFsPeered) if `readyNFs = targetedNFs`; otherwise
(True, AllUnPeeredNFsPeering) if `readyNFs + activeCount = targetedNFs`; otherwise
(True, SomeNFsPeering) if `activeCount ≠ 0`; otherwise (False, NoNFsPeering). The sum
is the sum of Go `int`, which is the sum of integers whenever that is representable
in 64 bits. -/
theorem computePeeringCondition_spec (deployment : Deployment)
    (readyNFs targetedNFs : Int) :
    (computePeeringCondition deployment readyNFs targetedNFs).type =
        NFDeployConditionType.DeploymentPeering ∧
    ((computePeeringCondition deployment readyNFs targetedNFs).Status,
     (computePeeringCondition deployment readyNFs targetedNFs).Reason) =
      (if readyNFs = targetedNFs then (ConditionFalse, "AllNFsPeered")
       else if intAdd readyNFs (activeCount deployment Peering) = targetedNFs then
        (ConditionTrue, "AllUnPeeredNFsPeering")
       else if activeCount deployment Peering ≠ 0 then (ConditionTrue, "SomeNFsPeering")
       else (ConditionFalse, "NoNFsPeering")) ∧
    (-(2 : Int) ^ 63 ≤ readyNFs + activeCount deployment Peering →
      readyNFs + activeCount deployment Peering < 2 ^ 63 →
      intAdd readyNFs (activeCount deployment Peering) =
        readyNFs + activeCount deployment Peering) := by
  have hcount := scanActive_statusNodes deployment Peering
    ("The NFs which are in Peering state are: ", 0)
  simp only [Nat.zero_add] at hcount
  have key :
      (computePeeringCondition deployment readyNFs targetedNFs).type =
          NFDeployConditionType.DeploymentPeering ∧
      ((computePeeringCondition deployment readyNFs targetedNFs).Status,
       (computePeeringCondition deployment readyNFs targetedNFs).Reason) =
        (if readyNFs = targetedNFs then (ConditionFalse, "AllNFsPeered")
         else if intAdd readyNFs (activeCount deployment Peering) = targetedNFs then
          (ConditionTrue, "AllUnPeeredNFsPeering")
         else if activeCount deployment Peering ≠ 0 then (ConditionTrue, "SomeNFsPeering")
         else (ConditionFalse, "NoNFsPeering")) := by
    unfold computePeeringCondition
    by_cases h1 : targetedNFs = readyNFs
    · simp [h1]
    · have h1' : ¬ readyNFs = targetedNFs := fun h => h1 h.symm
      simp only [h1, h1', if_false, hcount]
      by_cases h2 : intAdd readyNFs (activeCount deployment Peering) = targetedNFs
      · simp [h2]
      · simp only [h2, if_false]
        by_cases h3 : activeCount deployment Peering = 0
        · simp [h3]
        · simp [h3]
  exact ⟨key.1, key.2, fun h1 h2 => wrapInt_of_range _ h1 h2⟩

/-- C4 at a concrete input: for `readyNFs = 1` in the two-node deployment the sum is
representable and the Go sum is the integer sum. -/
theorem computePeeringCondition_spec_witness :
    -(2 : Int) ^ 63 ≤ 1 + activeCount stalledDeployment Peering ∧
    (1 : Int) + activeCount stalledDeployment Peering < 2 ^ 63 ∧
    intAdd 1 (activeCount stalledDeployment Peering) =
      1 + activeCount stalledDeployment Peering :=
  ⟨by decide, by decide,
   (computePeeringCondition_spec stalledDeployment 1 2).2.2 (by decide) (by decide)⟩

/-- C5: for all `readyNFs` and `targetedNFs`, `computeReadyCondition` returns type
DeploymentReady with status True if and only if `readyNFs = targetedNFs` (False
otherwise), and reason NoNFsReady if `readyNFs = 0`, else AllNFsReady if
`readyNFs = targetedNFs`, else SomeNFsReady; when `readyNFs ≠ targetedNFs` the message
lists, joined by commas, exactly the ids of the UPF, SMF, AUSF and UDM nodes that
have no active Ready condition, and when `readyNFs = targetedNFs` it is the fixed
message "All NFs are in Ready state.". -/
theorem computeReadyCondition_spec (deployment : Deployment) (readyNFs targetedNFs : Int) :
    (computeReadyCondition deployment readyNFs targetedNFs).type =
        NFDeployConditionType.DeploymentReady ∧
    ((computeReadyCondition deployment readyNFs targetedNFs).Status = ConditionTrue ↔
        readyNFs = targetedNFs) ∧
    (computeReadyCondition deployment readyNFs targetedNFs).Status =
        (if readyNFs = targetedNFs then ConditionTrue else ConditionFalse) ∧
    (computeReadyCondition deployment readyNFs targetedNFs).Reason =
        (if readyNFs = 0 then "NoNFsReady"
         else if readyNFs = targetedNFs then "AllNFsReady" else "SomeNFsReady") ∧
    (computeReadyCondition deployment readyNFs targetedNFs).Message =
        (if readyNFs = targetedNFs then "All NFs are in Ready state."
         else "The NFs which are not in Ready state are: " ++
           ", ".intercalate (notReadyIds deployment) ++ ".") := by
  unfold computeReadyCondition
  by_cases h : readyNFs = targetedNFs
  · simp only [h, if_true]
    refine ⟨by trivial, by simp, by trivial, by trivial, by trivial⟩
  · simp only [h, if_false]
    refine ⟨by trivial, ?_, by trivial, by trivial, ?_⟩
    · simp only [iff_false]; decide
    · rw [scanNotReady_append, scanNotReady_append, scanNotReady_append, scanNotReady_eq]
      have hp : ¬ (", " : String).data <:+
          ("The NFs which are not in Ready state are: " : String).data := by decide
      have := joined_message ", " "The NFs which are not in Ready state are: "
        (notReadyIds deployment) hp
      simpa [notReadyIds, statusNodes, List.append_assoc] using this

/-- C6: for all `stalledNFs` and `targetedNFs`, and every deployment whose
active-conditions maps are Go maps (no repeated key), `computeStalledCondition`
returns type DeploymentStalled with status True if and only if `stalledNFs ≠ 0`, which
for `stalledNFs ≥ 0` is `stalledNFs > 0`, and reason AllNFsStalled if
`stalledNFs = targetedNFs`, else NoNFsStalled if `stalledNFs = 0`, else SomeNFsStalled;
when `stalledNFs ≠ 0` the message lists, joined by commas, one entry
`<id>: <message>` for exactly the UPF, SMF, AUSF and UDM nodes whose
active-conditions map contains Stalled. -/
theorem computeStalledCondition_spec (deployment : Deployment) (stalledNFs targetedNFs : Int)
    (hwf : ∀ node ∈ statusNodes deployment, node.Status.activeConditions.WF) :
    (computeStalledCondition deployment stalledNFs targetedNFs).type =
        NFDeployConditionType.DeploymentStalled ∧
    ((computeStalledCondition deployment stalledNFs targetedNFs).Status = ConditionTrue ↔
        stalledNFs ≠ 0) ∧
    (0 ≤ stalledNFs →
      ((computeStalledCondition deployment stalledNFs targetedNFs).Status = ConditionTrue ↔
        0 < stalledNFs)) ∧
    (computeStalledCondition deployment stalledNFs targetedNFs).Status =
        (if stalledNFs ≠ 0 then ConditionTrue else ConditionFalse) ∧
    (computeStalledCondition deployment stalledNFs targetedNFs).Reason =
        (if stalledNFs = targetedNFs then "AllNFsStalled"
         else if stalledNFs = 0 then "NoNFsStalled" else "SomeNFsStalled") ∧
    (computeStalledCondition deployment stalledNFs targetedNFs).Message =
        (if stalledNFs = 0 then "No NFs are in stalled state."
         else ", ".intercalate (stalledEntries deployment) ++ ".") := by
  unfold computeStalledCondition
  by_cases h : stalledNFs = 0
  · simp only [h, if_true, ne_eq, not_true_eq_false, if_false]
    refine ⟨by trivial, ?_, ?_, by trivial, by trivial, by trivial⟩
    · simp only [iff_false]; decide
    · intro _; simp only [lt_self_iff_false, iff_false]; decide
  · simp only [h, if_false, ne_eq, not_false_eq_true, if_true]
    refine ⟨by trivial, by simp, ?_, by trivial, by trivial, ?_⟩
    · intro h0
      have : 0 < stalledNFs := lt_of_le_of_ne h0 (Ne.symm h)
      simp [this]
    · rw [scanStalled_append, scanStalled_append, scanStalled_append]
      have hnodes :
          List.map UPFNode.toNode deployment.upfNodes.values ++
            List.map SMFNode.toNode deployment.smfNodes.values ++
            List.map AUSFNode.toNode deployment.ausfNodes.values ++
            List.map UDMNode.toNode deployment.udmNodes.values = statusNodes deployment := rfl
      simp only [List.append_assoc] at hnodes ⊢
      rw [hnodes, scanStalled_eq _ _ hwf]
      have hp : ¬ (", " : String).data <:+ ("" : String).data := by decide
      have := joined_message ", " "" (stalledEntries deployment) hp
      simpa [stalledEntries] using this

/-- C6 at a concrete input: the two-node deployment with the UPF stalled, one stalled
NF out of two targeted. -/
theorem computeStalledCondition_spec_witness :
    (∀ node ∈ statusNodes stalledDeployment, node.Status.activeConditions.WF) ∧
    ((computeStalledCondition stalledDeployment 1 2).Status = ConditionTrue ↔ (1 : Int) ≠ 0) ∧
    (computeStalledCondition stalledDeployment 1 2).Reason = "SomeNFsStalled" ∧
    (computeStalledCondition stalledDeployment 1 2).Message = "upf: disk full." :=
  ⟨by decide, (computeStalledCondition_spec stalledDeployment 1 2 (by decide)).2.1,
   by decide, by decide⟩

/-- C7: for every condition set, `validateNFConditionSet` reports a violation if and only
if at least one of these holds: (a) Ready=True and Stalled=True; (b) (Ready=True or
Peering=True) and Available=False; (c) Reconciling=False and Peering=True;
(d) (Peering=True or Reconciling=True) and Ready=True. When it reports a violation the
returned status has state Stalled, its message is the diagnostic of the first
matching rule in the order a, b, c, d, and its active-conditions map is exactly
Stalled with that message. -/
theorem validateNFConditionSet_spec (conditions : GoMap ConditionStatus) :
    ((validateNFConditionSet conditions).2 = true ↔
      ((conditions.get Ready = ConditionTrue ∧ conditions.get Stalled = ConditionTrue) ∨
       ((conditions.get Ready = ConditionTrue ∨ conditions.get Peering = ConditionTrue) ∧
          conditions.get Available = ConditionFalse) ∨
       (conditions.get Reconciling = ConditionFalse ∧
          conditions.get Peering = ConditionTrue) ∨
       ((conditions.get Peering = ConditionTrue ∨
          conditions.get Reconciling = ConditionTrue) ∧
          conditions.get Ready = ConditionTrue))) ∧
    ((validateNFConditionSet conditions).2 = true →
      (validateNFConditionSet conditions).1.state = Stalled ∧
      (validateNFConditionSet conditions).1.stateMessage =
        (if conditions.get Ready = ConditionTrue ∧ conditions.get Stalled = ConditionTrue then
          "Inconsistent NFTypeDeploy status received. Ready and stalled conditions cannot be true at the same time."
         else if (conditions.get Ready = ConditionTrue ∨
            conditions.get Peering = ConditionTrue) ∧
            conditions.get Available = ConditionFalse then
          "Inconsistent NFTypeDeploy status received. Available condition cannot be false when ready or peering conditions are true."
         else if conditions.get Reconciling = ConditionFalse ∧
            conditions.get Peering = ConditionTrue then
          "Inconsistent NFTypeDeploy status received. Reconciling condition cannot be false when peering condition is true."
         else
          "Inconsistent NFTypeDeploy status received. Ready condition cannot be true when either reconciling or peering condition are true.") ∧
      (validateNFConditionSet conditions).1.activeConditions.entries =
        [(Stalled, (validateNFConditionSet conditions).1.stateMessage)]) := by
  have e1 : inconsistentReadyStalled =
      "Inconsistent NFTypeDeploy status received. Ready and stalled conditions cannot be true at the same time." := by
    decide
  have e2 : inconsistentAvailable =
      "Inconsistent NFTypeDeploy status received. Available condition cannot be false when ready or peering conditions are true." := by
    decide
  have e3 : inconsistentReconciling =
      "Inconsistent NFTypeDeploy status received. Reconciling condition cannot be false when peering condition is true." := by
    decide
  have e4 : inconsistentReady =
      "Inconsistent NFTypeDeploy status received. Ready condition cannot be true when either reconciling or peering condition are true." := by
    decide
  rw [← e1, ← e2, ← e3, ← e4]
  unfold validateNFConditionSet
  by_cases ha : conditions.get Ready = ConditionTrue ∧ conditions.get Stalled = ConditionTrue
  · simp only [ha, and_self, if_true, true_or, true_and, stalledStatus]
    simp
  · rw [if_neg ha, if_neg ha]
    by_cases hb : (conditions.get Ready = ConditionTrue ∨
        conditions.get Peering = ConditionTrue) ∧ conditions.get Available = ConditionFalse
    · rw [if_pos hb, if_pos hb]
      simp only [stalledStatus, hb, true_or, or_true, and_self]
      simp
    · rw [if_neg hb, if_neg hb]
      by_cases hc : conditions.get Reconciling = ConditionFalse ∧
          conditions.get Peering = ConditionTrue
      · rw [if_pos hc, if_pos hc]
        simp only [stalledStatus, hc, true_or, or_true, and_self]
        simp
      · rw [if_neg hc, if_neg hc]
        by_cases hd : (conditions.get Peering = ConditionTrue ∨
            conditions.get Reconciling = ConditionTrue) ∧ conditions.get Ready = ConditionTrue
        · rw [if_pos hd]
          simp only [stalledStatus, hd, true_or, or_true, and_self]
          simp
        · rw [if_neg hd]
          simp only [ha, hb, hc, hd, or_self]
          simp

/-- C7 at a concrete input: a report with Ready=True and Stalled=True violates rule a. -/
theorem validateNFConditionSet_spec_witness :
    (validateNFConditionSet (calculateNFConditionSet readyStalledReport).1).2 = true ∧
    (validateNFConditionSet (calculateNFConditionSet readyStalledReport).1).1.state =
      Stalled ∧
    (validateNFConditionSet
        (calculateNFConditionSet readyStalledReport).1).1.activeConditions.entries =
      [(Stalled,
        (validateNFConditionSet
          (calculateNFConditionSet readyStalledReport).1).1.stateMessage)] :=
  ⟨by decide,
   ((validateNFConditionSet_spec (calculateNFConditionSet readyStalledReport).1).2
      (by decide)).1,
   ((validateNFConditionSet_spec (calculateNFConditionSet readyStalledReport).1).2
      (by decide)).2.2⟩

/-- C8: for every tracked node and every event addressed to it that is not stale and
whose normalized report has Ready=True and Stalled=True, whatever the statuses of
Available, Peering and Reconciling, after `processEdgeEvent` the node's state is
Stalled, its active conditions contain Stalled and do not contain Ready, so the node
adds one to `stalledNFs` and nothing to `readyNFs`. -/
theorem processEdgeEvent_ready_and_stalled (deployment : Deployment) (object : Event)
    (obj : NFDeployDocument) (node : Node)
    (hobj : object.Object = some obj)
    (hnode : addressedNode deployment object = some node)
    (hfresh : ¬ object.Timestamp < node.Status.lastEventTimestamp)
    (hready : (calculateNFConditionSet obj.Conditions).1.get Ready = ConditionTrue)
    (hstalled : (calculateNFConditionSet obj.Conditions).1.get Stalled = ConditionTrue) :
    ∃ node', addressedNode (processEdgeEvent deployment object).1 object = some node' ∧
      node'.Id = node.Id ∧
      node'.Status.state = Stalled ∧
      node'.Status.activeConditions.contains Stalled = true ∧
      node'.Status.activeConditions.contains Ready = false ∧
      (countNode {} node').stalledNFs = 1 ∧
      (countNode {} node').readyNFs = 0 := by
  have hclear := isAmbiguousConditionSet_of_true _ Ready hready
  refine ⟨_, addressedNode_processEdgeEvent deployment object obj node hobj hnode hfresh hclear,
    rfl, ?_⟩
  rw [deriveNFStatus_readyStalled _ _ hready hstalled]
  refine ⟨rfl, ?_, ?_, ?_, ?_⟩
  · show (stalledStatus inconsistentReadyStalled).activeConditions.contains Stalled = true
    decide
  · show (stalledStatus inconsistentReadyStalled).activeConditions.contains Ready = false
    decide
  · dsimp only [countNode, stalledStatus]
    decide
  · dsimp only [countNode, stalledStatus]
    decide

/-- C8 at a concrete input: the UPF of the two-node deployment reports Ready=True and
Stalled=True at instant 7. -/
theorem processEdgeEvent_ready_and_stalled_witness :
    (upfEvent readyStalledReport 7).Object =
      some { siteId := "upf", Conditions := readyStalledReport } ∧
    addressedNode exampleDeployment (upfEvent readyStalledReport 7) =
      some { Id := "upf", NFType := .UPF } ∧
    ¬ (upfEvent readyStalledReport 7).Timestamp < 0 ∧
    (calculateNFConditionSet readyStalledReport).1.get Ready = ConditionTrue ∧
    (calculateNFConditionSet readyStalledReport).1.get Stalled = ConditionTrue ∧
    ∃ node',
      addressedNode (processEdgeEvent exampleDeployment (upfEvent readyStalledReport 7)).1
        (upfEvent readyStalledReport 7) = some node' ∧
      node'.Status.state = Stalled :=
  ⟨by decide, by decide, by decide, by decide, by decide,
   (processEdgeEvent_ready_and_stalled exampleDeployment (upfEvent readyStalledReport 7)
      { siteId := "upf", Conditions := readyStalledReport } { Id := "upf", NFType := .UPF }
      (by decide) (by decide) (by decide) (by decide) (by decide)).imp
      (fun _ h => ⟨h.1, h.2.2.1⟩)⟩

/-- C9: for every condition set for which `validateNFConditionSet` reports no violation,
`updateCurrentNFStatus` keeps the nodes tracked under the id and sets the state of
each by the first matching rule in this order: Available=False and Reconciling=False
gives Stalled with the synthetic message "NF is neither available nor reconciling.";
Stalled=True gives Stalled; Ready=True gives Ready; Peering=True gives Peering;
Reconciling=True gives Reconciling; otherwise Available. -/
theorem updateCurrentNFStatus_state (deployment : Deployment) (nfId : String)
    (conditions : GoMap ConditionStatus) (conditionMessage : GoMap String)
    (hvalid : (validateNFConditionSet conditions).2 = false) :
    (trackedNodes (updateCurrentNFStatus deployment nfId conditions conditionMessage)
        nfId).map Node.Id = (trackedNodes deployment nfId).map Node.Id ∧
    ∀ node ∈ trackedNodes
        (updateCurrentNFStatus deployment nfId conditions conditionMessage) nfId,
      node.Status.state =
        (if conditions.get Available = ConditionFalse ∧
            conditions.get Reconciling = ConditionFalse then Stalled
         else if conditions.get Stalled = ConditionTrue then Stalled
         else if conditions.get Ready = ConditionTrue then Ready
         else if conditions.get Peering = ConditionTrue then Peering
         else if conditions.get Reconciling = ConditionTrue then Reconciling
         else Available) ∧
      (conditions.get Available = ConditionFalse ∧
          conditions.get Reconciling = ConditionFalse →
        node.Status.stateMessage = "NF is neither available nor reconciling.") := by
  rw [trackedNodes_updateCurrentNFStatus]
  refine ⟨by simp [Function.comp_def], ?_⟩
  intro node hmem
  obtain ⟨old, _, rfl⟩ := List.mem_map.mp hmem
  have hs := deriveNFStatus_state conditions conditionMessage hvalid
  refine ⟨hs.1, ?_⟩
  intro h0
  have hm := hs.2
  rw [if_pos h0] at hm
  exact hm

/-- C9 at a concrete input: a report with Peering=True and Reconciling=True passes
validation and gives the UPF the state Peering. -/
theorem updateCurrentNFStatus_state_witness :
    (validateNFConditionSet (calculateNFConditionSet peeringReport).1).2 = false ∧
    (trackedNodes
        (updateCurrentNFStatus exampleDeployment "upf" (calculateNFConditionSet peeringReport).1
          (calculateNFConditionSet peeringReport).2) "upf").map Node.Id =
      (trackedNodes exampleDeployment "upf").map Node.Id ∧
    (trackedNodes
        (updateCurrentNFStatus exampleDeployment "upf" (calculateNFConditionSet peeringReport).1
          (calculateNFConditionSet peeringReport).2) "upf").map
        (fun node => node.Status.state) = [Peering] :=
  ⟨by decide,
   (updateCurrentNFStatus_state exampleDeployment "upf" (calculateNFConditionSet peeringReport).1
      (calculateNFConditionSet peeringReport).2 (by decide)).1,
   by decide⟩

/-- C10 as stated fails: the report asserts Stalled=True with the message "disk full",
Available=False and Reconciling=False; it passes validation and is not ambiguous,
yet the active-conditions map of the node maps Stalled to the synthetic message and
not to the message the report carried. -/
theorem updateCurrentNFStatus_unavailable_overrides_report :
    (validateNFConditionSet (calculateNFConditionSet unavailableStalledReport).1).2 = false ∧
    isAmbiguousConditionSet (calculateNFConditionSet unavailableStalledReport).1 = false ∧
    (calculateNFConditionSet unavailableStalledReport).1.get? Stalled = some ConditionTrue ∧
    (calculateNFConditionSet unavailableStalledReport).2.get? Stalled = some "disk full" ∧
    (trackedNodes
        (updateCurrentNFStatus exampleDeployment "upf"
          (calculateNFConditionSet unavailableStalledReport).1
          (calculateNFConditionSet unavailableStalledReport).2) "upf").map
        (fun node => node.Status.activeConditions.get? Stalled) =
      [some "NF is neither available nor reconciling."] := by
  decide

/-- C10, amended: for every condition set (a Go map) that passes consistency
validation, the active-conditions map of the node after `updateCurrentNFStatus` is as
follows. When the report has Available=False and Reconciling=False the map is exactly
Stalled with the synthetic message "NF is neither available nor reconciling.".
Otherwise it contains every condition type the report asserts True, each mapped to
the message the report carried for that type, plus the implied entries of the
derived state (Available for Ready; Reconciling and Available for Peering) with
their synthetic messages, and nothing else. -/
theorem updateCurrentNFStatus_activeConditions (deployment : Deployment) (nfId : String)
    (conditions : GoMap ConditionStatus) (conditionMessage : GoMap String)
    (hwf : conditions.WF)
    (hvalid : (validateNFConditionSet conditions).2 = false) :
    (trackedNodes (updateCurrentNFStatus deployment nfId conditions conditionMessage)
        nfId).map Node.Id = (trackedNodes deployment nfId).map Node.Id ∧
    ∀ node ∈ trackedNodes
        (updateCurrentNFStatus deployment nfId conditions conditionMessage) nfId,
      ∀ t : NFConditionType,
        node.Status.activeConditions.get? t =
          if conditions.get Available = ConditionFalse ∧
              conditions.get Reconciling = ConditionFalse then
            (if t = Stalled then some "NF is neither available nor reconciling." else none)
          else if conditions.get? t = some ConditionTrue then some (conditionMessage.get t)
          else if node.Status.state = Ready ∧ t = Available then
            some "NF is in ready state."
          else if node.Status.state = Peering ∧ (t = Reconciling ∨ t = Available) then
            some "NF is in peering state."
          else none := by
  rw [trackedNodes_updateCurrentNFStatus]
  refine ⟨by simp [Function.comp_def], ?_⟩
  intro node hmem t
  obtain ⟨old, _, rfl⟩ := List.mem_map.mp hmem
  exact deriveNFStatus_activeConditions conditions conditionMessage hwf hvalid t

/-- C10 at a concrete input: a report with Peering=True and Reconciling=True keeps
both with their messages and adds the implied Available entry. -/
theorem updateCurrentNFStatus_activeConditions_witness :
    (calculateNFConditionSet peeringReport).1.WF ∧
    (validateNFConditionSet (calculateNFConditionSet peeringReport).1).2 = false ∧
    (trackedNodes
        (updateCurrentNFStatus exampleDeployment "upf" (calculateNFConditionSet peeringReport).1
          (calculateNFConditionSet peeringReport).2) "upf").map Node.Id =
      (trackedNodes exampleDeployment "upf").map Node.Id ∧
    (trackedNodes
        (updateCurrentNFStatus exampleDeployment "upf" (calculateNFConditionSet peeringReport).1
          (calculateNFConditionSet peeringReport).2) "upf").map
        (fun node =>
          (node.Status.activeConditions.get? Peering,
           node.Status.activeConditions.get? Reconciling,
           node.Status.activeConditions.get? Available,
           node.Status.activeConditions.get? Ready)) =
      [(some "peering with smf", some "rolling out", some "NF is in peering state.", none)] :=
  ⟨by decide, by decide,
   (updateCurrentNFStatus_activeConditions exampleDeployment "upf"
      (calculateNFConditionSet peeringReport).1 (calculateNFConditionSet peeringReport).2
      (by decide) (by decide)).1,
   by decide⟩

/-- C11: for every condition set, `isAmbiguousConditionSet` returns true if and only if
no condition has status True and it is not the case that both Available=False and
Reconciling=False. -/
theorem isAmbiguousConditionSet_spec (conditions : GoMap ConditionStatus) :
    isAmbiguousConditionSet conditions = true ↔
      (∀ e ∈ conditions.entries, e.2 ≠ ConditionTrue) ∧
      ¬ (conditions.get Available = ConditionFalse ∧
          conditions.get Reconciling = ConditionFalse) := by
  rw [isAmbiguousConditionSet_eq]
  simp only [Bool.and_eq_true, Bool.not_eq_true', decide_eq_false_iff_not]
  constructor
  · rintro ⟨h1, h2⟩
    refine ⟨?_, h2⟩
    intro e he htrue
    have : conditions.entries.any (fun e => decide (e.2 = ConditionTrue)) = true :=
      List.any_eq_true.mpr ⟨e, he, by simp [htrue]⟩
    rw [h1] at this
    cases this
  · rintro ⟨h1, h2⟩
    refine ⟨?_, h2⟩
    cases hany : conditions.entries.any (fun e => decide (e.2 = ConditionTrue)) with
    | false => rfl
    | true =>
      obtain ⟨e, he, hdec⟩ := List.any_eq_true.mp hany
      exact absurd (by simpa using hdec) (h1 e he)

/-- C12: for every deployment, every node id and every report whose normalized
condition set is ambiguous, `processNFEdgeEvent` returns the deployment as it was, so
the state, state message and active-conditions map of every tracked node are
unchanged, nothing is recomputed and the writer is not called: the persisted
aggregate conditions stay as they were. -/
theorem processNFEdgeEvent_ambiguous (deployment : Deployment)
    (nfConditions : List NFCondition) (nfId : String)
    (h : isAmbiguousConditionSet (calculateNFConditionSet nfConditions).1 = true) :
    processNFEdgeEvent deployment nfConditions nfId = (deployment, none) ∧
    trackedNodes (processNFEdgeEvent deployment nfConditions nfId).1 nfId =
      trackedNodes deployment nfId := by
  have hp := processNFEdgeEvent_of_ambiguous deployment nfConditions nfId h
  exact ⟨hp, by rw [hp]⟩

/-- C12 at a concrete input: the stalled UPF of the two-node deployment reports all
five conditions Unknown. -/
theorem processNFEdgeEvent_ambiguous_witness :
    isAmbiguousConditionSet (calculateNFConditionSet unknownReport).1 = true ∧
    processNFEdgeEvent stalledDeployment unknownReport "upf" = (stalledDeployment, none) :=
  ⟨by decide, (processNFEdgeEvent_ambiguous stalledDeployment unknownReport "upf" (by decide)).1⟩

/-- C13 as stated fails: the sample deployment of the unit tests holds three nodes,
one of them in the AMF partition, and `calculateNFCount` returns `targetedNFs = 2`. -/
theorem calculateNFCount_skips_amf :
    sampleDeployment.upfNodes.len + sampleDeployment.smfNodes.len +
        sampleDeployment.amfNodes.len + sampleDeployment.ausfNodes.len +
        sampleDeployment.udmNodes.len = 3 ∧
    (calculateNFCount sampleDeployment).2.2.2 = 2 := by
  decide

/-- C13, amended: for every deployment state whose active-conditions maps are Go maps
(no repeated key), `calculateNFCount` returns `targetedNFs` equal to the number of
nodes of the UPF, SMF, AUSF and UDM partitions (AMF nodes are not counted), and
`availableNFs`, `readyNFs`, `stalledNFs` equal to the number of those nodes whose
active-conditions map contains Available, Ready, Stalled respectively. -/
theorem calculateNFCount_spec (deployment : Deployment)
    (hwf : ∀ node ∈ statusNodes deployment, node.Status.activeConditions.WF) :
    calculateNFCount deployment =
      ((activeCount deployment Available : Int), (activeCount deployment Ready : Int),
       (activeCount deployment Stalled : Int),
       ((deployment.upfNodes.len + deployment.smfNodes.len + deployment.ausfNodes.len +
          deployment.udmNodes.len : Nat) : Int)) := by
  rw [calculateNFCount_eq deployment hwf]
  simp [statusNodes, GoMap.len, GoMap.values]
  omega

/-- C13 at a concrete input: the two-node deployment with the UPF stalled. -/
theorem calculateNFCount_spec_witness :
    (∀ node ∈ statusNodes stalledDeployment, node.Status.activeConditions.WF) ∧
    calculateNFCount stalledDeployment =
      ((activeCount stalledDeployment Available : Int),
       (activeCount stalledDeployment Ready : Int),
       (activeCount stalledDeployment Stalled : Int),
       ((stalledDeployment.upfNodes.len + stalledDeployment.smfNodes.len +
          stalledDeployment.ausfNodes.len + stalledDeployment.udmNodes.len : Nat) : Int)) ∧
    calculateNFCount stalledDeployment = (0, 0, 1, 2) :=
  ⟨by decide, calculateNFCount_spec stalledDeployment (by decide), by decide⟩

/-- C14: every status the writer hands to the store, for a call made by
`processNFEdgeEvent` and for a call made by `updateSubscriptionFailureCondition`,
whatever the store answers and whatever conditions the persisted status held,
contains exactly four conditions, one for each of the types Stalled, Ready, Peering
and Reconciling, in this order. -/
theorem updateNFDeployStatus_four_conditions :
    (∀ (rounds : Nat → ApiRound) (deployment deployment' : Deployment)
        (nfConditions : List NFCondition) (nfId : String) (update : StatusUpdate),
      processNFEdgeEvent deployment nfConditions nfId = (deployment', some update) →
      ∀ status ∈ (updateNFDeployStatus rounds update).1,
        status.Conditions.map (fun c => c.type) =
          [.DeploymentStalled, .DeploymentReady, .DeploymentPeering,
           .DeploymentReconciling]) ∧
    (∀ (rounds : Nat → ApiRound) (reason message : String) (currentTime : Time),
      ∀ status ∈
        (updateNFDeployStatus rounds
          (updateSubscriptionFailureCondition reason message currentTime)).1,
        status.Conditions.map (fun c => c.type) =
          [.DeploymentStalled, .DeploymentReady, .DeploymentPeering,
           .DeploymentReconciling]) := by
  constructor
  · intro rounds deployment deployment' nfConditions nfId update h status hmem
    have hc := updateNFDeployStatus_cores rounds update status hmem
    have ht := processNFEdgeEvent_types _ _ _ _ _ h
    rw [← hc, List.map_map] at ht
    exact ht
  · intro rounds reason message currentTime status hmem
    have hc := updateNFDeployStatus_cores rounds _ status hmem
    have ht : status.Conditions.map (Prod.fst ∘ NFDeployCondition.core) =
        (updateSubscriptionFailureCondition reason message currentTime).cores.map
          Prod.fst := by
      rw [← hc, List.map_map]
    exact ht

/-- C14 at a concrete input: the UPF of the two-node deployment reports
Reconciling=True and the store holds a single Stalled condition. -/
theorem updateNFDeployStatus_four_conditions_witness :
    (processNFEdgeEvent exampleDeployment reconcilingReport "upf").2.isSome = true ∧
    ∀ status ∈
      (updateNFDeployStatus steadyStore
        (updateSubscriptionFailureCondition "EdgeConnectionBroken" "" 7)).1,
      status.Conditions.map (fun c => c.type) =
        [.DeploymentStalled, .DeploymentReady, .DeploymentPeering,
         .DeploymentReconciling] :=
  ⟨by decide,
   updateNFDeployStatus_four_conditions.2 steadyStore "EdgeConnectionBroken" "" 7⟩

/-- C15: in `computeSingleNFDeployStatusConditionChange`, when the freshly computed
condition differs from the persisted condition of the same type in status, reason or
message, or no persisted condition of that type exists, `LastUpdateTime` is set to
the current time, and `LastTransitionTime` is the persisted `LastTransitionTime` if
a persisted condition exists with the same status, and the current time otherwise;
type, status, reason and message stay those of the fresh condition. -/
theorem computeSingleNFDeployStatusConditionChange_changed
    (conditions : List NFDeployCondition) (currentCondition : NFDeployCondition)
    (currentTime : Time)
    (hdiff : ∀ original, persistedCondition conditions currentCondition.type = some original →
      currentCondition.Status ≠ original.Status ∨
      currentCondition.Reason ≠ original.Reason ∨
      currentCondition.Message ≠ original.Message) :
    (computeSingleNFDeployStatusConditionChange conditions currentCondition
        currentTime).LastUpdateTime = currentTime ∧
    (computeSingleNFDeployStatusConditionChange conditions currentCondition
        currentTime).LastTransitionTime =
      (match persistedCondition conditions currentCondition.type with
       | some original =>
         if currentCondition.Status = original.Status then original.LastTransitionTime
         else currentTime
       | none => currentTime) ∧
    (computeSingleNFDeployStatusConditionChange conditions currentCondition
        currentTime).core = currentCondition.core := by
  refine ⟨?_, ?_, computeSingleNFDeployStatusConditionChange_core _ _ _⟩
  · rw [computeSingleNFDeployStatusConditionChange_eq]
    cases hp : persistedCondition conditions currentCondition.type with
    | none => rfl
    | some original =>
      have hne : areNFDeployStatusConditionsEqual currentCondition original = false := by
        unfold areNFDeployStatusConditionsEqual
        rcases hdiff original hp with h | h | h <;> simp [h]
      simp only [hne, Bool.false_eq_true, if_false]
      split_ifs <;> rfl
  · rw [computeSingleNFDeployStatusConditionChange_eq]
    cases hp : persistedCondition conditions currentCondition.type with
    | none => rfl
    | some original =>
      have hne : areNFDeployStatusConditionsEqual currentCondition original = false := by
        unfold areNFDeployStatusConditionsEqual
        rcases hdiff original hp with h | h | h <;> simp [h]
      simp only [hne, Bool.false_eq_true, if_false]
      split_ifs <;> rfl

/-- C15 at a concrete input: the persisted Ready condition (the later of two) has
status False and last transition 30; the fresh one has status False and another
reason, so the transition time 30 is kept and the update time is the clock, 50. -/
theorem computeSingleNFDeployStatusConditionChange_changed_witness :
    persistedCondition persistedReady .DeploymentReady = persistedReady.getLast? ∧
    (computeSingleNFDeployStatusConditionChange persistedReady
        { type := .DeploymentReady, Status := ConditionFalse, Reason := "SomeNFsReady",
          Message := "The NFs which are not in Ready state are: smf." } 50).LastUpdateTime =
      50 ∧
    (computeSingleNFDeployStatusConditionChange persistedReady
        { type := .DeploymentReady, Status := ConditionFalse, Reason := "SomeNFsReady",
          Message := "The NFs which are not in Ready state are: smf." }
        50).LastTransitionTime = 30 :=
  ⟨by decide,
   (computeSingleNFDeployStatusConditionChange_changed persistedReady
      { type := .DeploymentReady, Status := ConditionFalse, Reason := "SomeNFsReady",
        Message := "The NFs which are not in Ready state are: smf." } 50
      (by decide)).1,
   by decide⟩

/-- C16: when the subscription-result signal carries an error, or the signal source
is closed before producing a value, `ListenSubscriptionStatus` leaves the deployment
as it is, calls the writer exactly once and returns, the same way whatever the event
stream would yield (the event loop is not entered). Every status the writer hands to
the store has all four aggregate conditions with status Unknown and reason
EdgeConnectionFailure, the message embedding the error text in the error case; a
store that answers the first read is handed at least one such status. -/
theorem ListenSubscriptionStatus_failure (world : World) (deployment : Deployment)
    (signal : SubscriptionSignal) (observations : List SelectOutcome)
    (hfail : signal ≠ .success) :
    (ListenSubscriptionStatus world deployment signal observations).1 = deployment ∧
    (ListenSubscriptionStatus world deployment signal observations).2.length = 1 ∧
    ListenSubscriptionStatus world deployment signal observations =
      ListenSubscriptionStatus world deployment signal [] ∧
    (∀ call ∈ (ListenSubscriptionStatus world deployment signal observations).2,
      ∀ status ∈ call.written,
        status.Conditions.map NFDeployCondition.core =
          [(.DeploymentStalled, ConditionUnknown, "EdgeConnectionFailure",
              failureMessage signal),
           (.DeploymentReady, ConditionUnknown, "EdgeConnectionFailure",
              failureMessage signal),
           (.DeploymentPeering, ConditionUnknown, "EdgeConnectionFailure",
              failureMessage signal),
           (.DeploymentReconciling, ConditionUnknown, "EdgeConnectionFailure",
              failureMessage signal)]) ∧
    (∀ persisted, (world.rounds 0 0).get = .ok persisted →
      ∀ call ∈ (ListenSubscriptionStatus world deployment signal observations).2,
        call.written ≠ []) := by
  cases signal with
  | success => exact absurd rfl hfail
  | failure errorText =>
    refine ⟨rfl, rfl, rfl, ?_, ?_⟩
    · intro call hcall status hstatus
      simp only [ListenSubscriptionStatus, List.mem_singleton] at hcall
      subst hcall
      exact updateNFDeployStatus_cores _ _ status hstatus
    · intro persisted hget call hcall
      simp only [ListenSubscriptionStatus, List.mem_singleton] at hcall
      subst hcall
      exact updateNFDeployStatus_written_of_get _ _ persisted hget
  | closed =>
    refine ⟨rfl, rfl, rfl, ?_, ?_⟩
    · intro call hcall status hstatus
      simp only [ListenSubscriptionStatus, List.mem_singleton] at hcall
      subst hcall
      exact updateNFDeployStatus_cores _ _ status hstatus
    · intro persisted hget call hcall
      simp only [ListenSubscriptionStatus, List.mem_singleton] at hcall
      subst hcall
      exact updateNFDeployStatus_written_of_get _ _ persisted hget

/-- C16 at a concrete input: the subscription fails with "test error from
edgewatcher" while the event stream would deliver an event. -/
theorem ListenSubscriptionStatus_failure_witness :
    SubscriptionSignal.failure "test error from edgewatcher" ≠ .success ∧
    (ListenSubscriptionStatus steadyWorld exampleDeployment
        (.failure "test error from edgewatcher")
        [.event (upfEvent reconcilingReport 1)]).2.length = 1 ∧
    (ListenSubscriptionStatus steadyWorld exampleDeployment
        (.failure "test error from edgewatcher")
        [.event (upfEvent reconcilingReport 1)]).2.map
        (fun call =>
          call.written.map
            (fun status => status.Conditions.map (fun c => (c.Status, c.Reason, c.Message)))) =
      [[[(ConditionUnknown, "EdgeConnectionFailure",
            "Connection with edge failed due to test error from edgewatcher"),
         (ConditionUnknown, "EdgeConnectionFailure",
            "Connection with edge failed due to test error from edgewatcher"),
         (ConditionUnknown, "EdgeConnectionFailure",
            "Connection with edge failed due to test error from edgewatcher"),
         (ConditionUnknown, "EdgeConnectionFailure",
            "Connection with edge failed due to test error from edgewatcher")]]] :=
  ⟨by decide,
   (ListenSubscriptionStatus_failure steadyWorld exampleDeployment
      (.failure "test error from edgewatcher") [.event (upfEvent reconcilingReport 1)]
      (by decide)).2.1,
   by decide⟩

/-- C17 fails on the code: the event channel is found closed, the listener reports
EdgeConnectionBroken through the writer and, having no `return` in that branch,
goes round the loop again; the closed channel is found closed again and the
listener writes a second time before the lifetime is cancelled. -/
theorem listenEdgeEvents_closed_writes_again :
    (listenEdgeEvents steadyWorld exampleDeployment 0 [.closed, .closed, .done]).2.map
        (fun call =>
          call.written.map
            (fun status => status.Conditions.map (fun c => (c.Status, c.Reason)))) =
      [[[(ConditionUnknown, "EdgeConnectionBroken"), (ConditionUnknown, "EdgeConnectionBroken"),
         (ConditionUnknown, "EdgeConnectionBroken"),
         (ConditionUnknown, "EdgeConnectionBroken")]],
       [[(ConditionUnknown, "EdgeConnectionBroken"), (ConditionUnknown, "EdgeConnectionBroken"),
         (ConditionUnknown, "EdgeConnectionBroken"),
         (ConditionUnknown, "EdgeConnectionBroken")]]] := by
  decide

/-- C18: for ids `a` and `b` of tracked nodes, `createEdge a b` changes nothing when
the edge list already holds an edge that connects `a` and `b` in either order;
otherwise it appends exactly the edge `(a, b)` at the end of the edge list, adds `b`
to the connection set of the node of `a` and `a` to the connection set of the node of
`b`, leaves every other node as it was, and changes nothing besides connectivity. -/
theorem createEdge_spec (deployment : Deployment) (a b : String)
    (hwf : WFNodes deployment)
    (ha : getNFType deployment a ≠ .UnspecifiedNFType)
    (hb : getNFType deployment b ≠ .UnspecifiedNFType) :
    ((∃ e ∈ deployment.edges, e.IsEqual a b = true) →
      createEdge deployment a b = deployment) ∧
    ((¬ ∃ e ∈ deployment.edges, e.IsEqual a b = true) →
      (createEdge deployment a b).edges =
        deployment.edges ++ [{ FirstNode := a, SecondNode := b }] ∧
      (∃ na nb, nodeAt deployment (getNFType deployment a) a = some na ∧
        nodeAt deployment (getNFType deployment b) b = some nb) ∧
      (∀ t x, nodeAt (createEdge deployment a b) t x =
        (nodeAt deployment t x).map
          (fun node =>
            connectIf (t = getNFType deployment b ∧ x = b)
              (connectIf (t = getNFType deployment a ∧ x = a) node b) a)) ∧
      (∀ t, partitionKeys (createEdge deployment a b) t = partitionKeys deployment t) ∧
      withoutConnectivity (createEdge deployment a b) = withoutConnectivity deployment) := by
  refine ⟨createEdge_of_connected deployment a b, fun hc => ⟨?_, ?_, ?_, ?_, ?_⟩⟩
  · rw [createEdge_edges, if_neg hc]
  · obtain ⟨na, hna⟩ := Option.isSome_iff_exists.mp (nodeAt_getNFType deployment a ha)
    obtain ⟨nb, hnb⟩ := Option.isSome_iff_exists.mp (nodeAt_getNFType deployment b hb)
    exact ⟨na, nb, hna, hnb⟩
  · intro t x
    exact nodeAt_createEdge deployment a b t x hc
  · exact partitionKeys_createEdge deployment a b
  · exact withoutConnectivity_createEdge deployment a b hwf

/-- C18 at a concrete input: in the sample deployment the UPF and the AMF are tracked
and not connected; `createEdge` appends the edge and records the AMF on the UPF. -/
theorem createEdge_spec_witness :
    WFNodes sampleDeployment ∧
    getNFType sampleDeployment "sample-upf" ≠ .UnspecifiedNFType ∧
    getNFType sampleDeployment "sample-amf" ≠ .UnspecifiedNFType ∧
    (¬ ∃ e ∈ sampleDeployment.edges, e.IsEqual "sample-upf" "sample-amf" = true) ∧
    (createEdge sampleDeployment "sample-upf" "sample-amf").edges =
      sampleDeployment.edges ++ [{ FirstNode := "sample-upf", SecondNode := "sample-amf" }] ∧
    ((nodeAt (createEdge sampleDeployment "sample-upf" "sample-amf") .UPF "sample-upf").map
      (fun node => node.Connections.keys)) = some ["sample-smf", "sample-amf"] :=
  ⟨by decide, by decide, by decide, by decide,
   ((createEdge_spec sampleDeployment "sample-upf" "sample-amf" (by decide) (by decide)
      (by decide)).2 (by decide)).1,
   by decide⟩

/-- C19: the edge list never holds two edges that connect the same unordered pair of
ids: the empty deployment has no duplicate edge, and `createEdge`, `removeEdge`,
`removeNFs` and `ReportNFDeployEvent` keep an edge list without duplicates that way,
from every state and for every topology. -/
theorem NoDuplicateEdges_preserved :
    NoDuplicateEdges ({} : Deployment).edges ∧
    (∀ (deployment : Deployment) (a b : String), NoDuplicateEdges deployment.edges →
      NoDuplicateEdges (createEdge deployment a b).edges) ∧
    (∀ (deployment : Deployment) (a b : String), NoDuplicateEdges deployment.edges →
      NoDuplicateEdges (removeEdge deployment a b).edges) ∧
    (∀ (deployment : Deployment) (nfDeploy : NfDeploy), NoDuplicateEdges deployment.edges →
      NoDuplicateEdges (removeNFs deployment nfDeploy).edges) ∧
    (∀ (intents : IntentProcessors) (deployment : Deployment) (nfDeploy : NfDeploy),
      NoDuplicateEdges deployment.edges →
      NoDuplicateEdges (ReportNFDeployEvent intents deployment nfDeploy).edges) := by
  refine ⟨List.Pairwise.nil, createEdge_noDuplicateEdges, ?_, removeNFs_noDuplicateEdges,
    ReportNFDeployEvent_noDuplicateEdges⟩
  intro deployment a b h
  exact NoDuplicateEdges.sublist (removeFirstEdge_sublist a b deployment.edges) h

/-- C20 fails as stated: the topology of a UPF and an AMF is well-formed, and so is
the next one that omits the AMF; no node was ever created for the AMF site, the edge
between the UPF and the AMF stays in the edge list after the omission, and the number
of targeted NFs is 1 before and after. -/
theorem ReportNFDeployEvent_amf_site_left_behind :
    WellFormedTopology amfTopology ∧ WellFormedTopology upfOnlyTopology ∧
    "amf" ∈ siteIds amfTopology ∧ "amf" ∉ siteIds upfOnlyTopology ∧
    siteIds upfOnlyTopology = (siteIds amfTopology).erase "amf" ∧
    getNFType (ReportNFDeployEvent noIntents {} amfTopology) "amf" = .UnspecifiedNFType ∧
    (ReportNFDeployEvent noIntents (ReportNFDeployEvent noIntents {} amfTopology)
      upfOnlyTopology).edges = [{ FirstNode := "upf", SecondNode := "amf" }] ∧
    targetedNFs (ReportNFDeployEvent noIntents {} amfTopology) = 1 ∧
    targetedNFs (ReportNFDeployEvent noIntents (ReportNFDeployEvent noIntents {} amfTopology)
      upfOnlyTopology) = 1 := by
  decide

/-- C20 (amended): for every deployment state reached from the empty deployment by
well-formed topology updates whose sites all have the NF type UPF, SMF, AUSF or UDM,
and every two further such updates of which the first declares the site `x` and the
second omits it: `x` is tracked after the first update; after the second no partition
holds a node `x` and no edge of the edge list touches `x`; and when the second update
declares exactly the other sites of the first, the targeted NFs computed by
`calculateNFCount` are fewer by exactly one. -/
theorem ReportNFDeployEvent_omitted_site (intents intents' : IntentProcessors)
    (deployment : Deployment) (declared next : NfDeploy) (x : String)
    (hreach : Reachable deployment)
    (hdeclared : WellFormedTopology declared) (htracked : TrackedTypes declared)
    (hnext : WellFormedTopology next) (hnextTracked : TrackedTypes next)
    (hx : x ∈ siteIds declared) (homit : x ∉ siteIds next) :
    getNFType (ReportNFDeployEvent intents deployment declared) x ≠ .UnspecifiedNFType ∧
    (∀ t, nodeAt
      (ReportNFDeployEvent intents' (ReportNFDeployEvent intents deployment declared) next)
      t x = none) ∧
    getNFType
      (ReportNFDeployEvent intents' (ReportNFDeployEvent intents deployment declared) next)
      x = .UnspecifiedNFType ∧
    (∀ e ∈
      (ReportNFDeployEvent intents' (ReportNFDeployEvent intents deployment declared)
        next).edges,
      e.FirstNode ≠ x ∧ e.SecondNode ≠ x) ∧
    ((siteIds next).Perm ((siteIds declared).erase x) →
      targetedNFs
        (ReportNFDeployEvent intents' (ReportNFDeployEvent intents deployment declared) next)
        + 1 =
      targetedNFs (ReportNFDeployEvent intents deployment declared)) := by
  have hinv := hreach.graphInv
  have hinv1 := GraphInv_ReportNFDeployEvent intents deployment declared hdeclared htracked hinv
  have hinv2 := GraphInv_ReportNFDeployEvent intents'
    (ReportNFDeployEvent intents deployment declared) next hnext hnextTracked hinv1
  have hnone := nodeAt_ReportNFDeployEvent_of_not_declared intents'
    (ReportNFDeployEvent intents deployment declared) next x homit
  refine ⟨?_, hnone, ?_, hinv2.no_edge_of_untracked x hnone, ?_⟩
  · obtain ⟨site, hs, hid⟩ := List.mem_map.mp hx
    apply getNFType_ne_unspecified_of_mem _ site.NFType
    exact (mem_partitionKeys_ReportNFDeployEvent intents deployment declared hdeclared.1
      htracked site.NFType x).mpr ⟨site, hs, hid, rfl⟩
  · apply getNFType_eq_unspecified_of_not_mem
    intro t hmem
    have := (nodeAt_isSome_iff _ t x).mpr hmem
    rw [hnone t] at this
    cases this
  · intro hperm
    rw [targetedNFs_ReportNFDeployEvent intents' _ next hnext.1 hnextTracked hinv1.2.2,
      targetedNFs_ReportNFDeployEvent intents _ declared hdeclared.1 htracked hinv.2.2]
    have hlen := hperm.length_eq
    rw [List.length_erase_of_mem hx] at hlen
    unfold siteIds at hlen hx
    rw [List.length_map, List.length_map] at hlen
    have hpos : 0 < declared.Sites.length := by
      rw [← List.length_map declared.Sites Site.Id]
      exact List.length_pos_of_mem hx
    omega

/-- C20 (amended) at a concrete input: from the empty deployment, the topology of a
connected UPF and SMF followed by the topology of the SMF alone leaves no edge that
touches the UPF and one targeted NF less. -/
theorem ReportNFDeployEvent_omitted_site_witness :
    WellFormedTopology pairTopology ∧ TrackedTypes pairTopology ∧
    WellFormedTopology smfOnlyTopology ∧ TrackedTypes smfOnlyTopology ∧
    "upf" ∈ siteIds pairTopology ∧ "upf" ∉ siteIds smfOnlyTopology ∧
    (ReportNFDeployEvent noIntents {} pairTopology).edges =
      [{ FirstNode := "upf", SecondNode := "smf" }] ∧
    (∀ e ∈
      (ReportNFDeployEvent noIntents (ReportNFDeployEvent noIntents {} pairTopology)
        smfOnlyTopology).edges,
      e.FirstNode ≠ "upf" ∧ e.SecondNode ≠ "upf") ∧
    targetedNFs
      (ReportNFDeployEvent noIntents (ReportNFDeployEvent noIntents {} pairTopology)
        smfOnlyTopology) + 1 =
    targetedNFs (ReportNFDeployEvent noIntents {} pairTopology) :=
  ⟨by decide, by decide, by decide, by decide, by decide, by decide, by decide,
   (ReportNFDeployEvent_omitted_site noIntents noIntents {} pairTopology smfOnlyTopology "upf"
      Reachable.empty (by decide) (by decide) (by decide) (by decide) (by decide)
      (by decide)).2.2.2.1,
   (ReportNFDeployEvent_omitted_site noIntents noIntents {} pairTopology smfOnlyTopology "upf"
      Reachable.empty (by decide) (by decide) (by decide) (by decide) (by decide)
      (by decide)).2.2.2.2 (List.Perm.refl _)⟩

/-- C21 fails as stated: the topology of a UPF and an AMF has unique site ids, and
after `ReportNFDeployEvent` on the empty deployment the declared site `amf` is not
among the tracked ids. -/
theorem ReportNFDeployEvent_amf_site_not_tracked :
    (siteIds amfTopology).Nodup ∧ "amf" ∈ siteIds amfTopology ∧
    "amf" ∉ trackedIds (ReportNFDeployEvent noIntents {} amfTopology) ∧
    trackedIds (ReportNFDeployEvent noIntents {} amfTopology) = ["upf"] := by
  decide

/-- C21 (amended): for every deployment state and every topology with unique site
ids, after `ReportNFDeployEvent` every tracked id is a declared site id, every
declared site of type UPF, SMF, AUSF or UDM is tracked in the partition of its
declared type, and a partition holds an id only if the topology declares it with the
type of the partition; when all sites have one of these four types the tracked ids
are exactly the declared site ids. -/
theorem ReportNFDeployEvent_trackedIds (intents : IntentProcessors) (deployment : Deployment)
    (nfDeploy : NfDeploy) (hnd : (siteIds nfDeploy).Nodup) :
    (∀ x, x ∈ trackedIds (ReportNFDeployEvent intents deployment nfDeploy) →
      x ∈ siteIds nfDeploy) ∧
    (∀ site ∈ nfDeploy.Sites, site.NFType.isTracked = true →
      site.Id ∈ partitionKeys (ReportNFDeployEvent intents deployment nfDeploy) site.NFType) ∧
    (∀ t x, x ∈ partitionKeys (ReportNFDeployEvent intents deployment nfDeploy) t →
      ∃ site ∈ nfDeploy.Sites, site.Id = x ∧ site.NFType = t) ∧
    (TrackedTypes nfDeploy →
      ∀ x, x ∈ trackedIds (ReportNFDeployEvent intents deployment nfDeploy) ↔
        x ∈ siteIds nfDeploy) := by
  have hkey := mem_partitionKeys_ReportNFDeployEvent_iff intents deployment nfDeploy hnd
  have hsub : ∀ x, x ∈ trackedIds (ReportNFDeployEvent intents deployment nfDeploy) →
      x ∈ siteIds nfDeploy := by
    intro x hx
    obtain ⟨t, ht⟩ := (mem_trackedIds _ x).mp hx
    obtain ⟨⟨site, hs, hid, _⟩, _⟩ := (hkey t x).mp ht
    rw [← hid]
    exact List.mem_map_of_mem _ hs
  refine ⟨hsub, ?_, ?_, ?_⟩
  · intro site hs htr
    exact (hkey site.NFType site.Id).mpr ⟨⟨site, hs, rfl, rfl⟩, Or.inr htr⟩
  · intro t x hx
    exact ((hkey t x).mp hx).1
  · intro htr x
    refine ⟨hsub x, fun hx => ?_⟩
    obtain ⟨site, hs, hid⟩ := List.mem_map.mp hx
    rw [mem_trackedIds]
    exact ⟨site.NFType,
      (hkey site.NFType x).mpr ⟨⟨site, hs, hid, rfl⟩, Or.inr (htr site hs)⟩⟩

/-- C21 (amended) at a concrete input: the topology of the SMF alone on the sample
deployment of the unit tests, which tracks a UPF, an SMF and an AMF under other ids. -/
theorem ReportNFDeployEvent_trackedIds_witness :
    (siteIds smfOnlyTopology).Nodup ∧
    trackedIds sampleDeployment = ["sample-upf", "sample-smf", "sample-amf"] ∧
    trackedIds (ReportNFDeployEvent noIntents sampleDeployment smfOnlyTopology) = ["smf"] ∧
    (∀ x, x ∈ trackedIds (ReportNFDeployEvent noIntents sampleDeployment smfOnlyTopology) →
      x ∈ siteIds smfOnlyTopology) :=
  ⟨by decide, by decide, by decide,
   (ReportNFDeployEvent_trackedIds noIntents sampleDeployment smfOnlyTopology (by decide)).1⟩

/-- C22 fails on the code: from the state reached by the topology of a connected UPF
`upf` and SMF `smf`, the well-formed topology that declares `upf` as an AUSF, still
connected to `smf`, leaves no edge when it is applied once and the edge
`(upf, smf)` when it is applied twice; the two graphs differ also in the connection
set of the node `upf`. -/
theorem ReportNFDeployEvent_twice_differs :
    WellFormedTopology pairTopology ∧ WellFormedTopology retypedTopology ∧
    (ReportNFDeployEvent noIntents (ReportNFDeployEvent noIntents {} pairTopology)
      retypedTopology).edges = [] ∧
    (ReportNFDeployEvent noIntents
      (ReportNFDeployEvent noIntents (ReportNFDeployEvent noIntents {} pairTopology)
        retypedTopology) retypedTopology).edges =
      [{ FirstNode := "upf", SecondNode := "smf" }] ∧
    ReportNFDeployEvent noIntents
      (ReportNFDeployEvent noIntents (ReportNFDeployEvent noIntents {} pairTopology)
        retypedTopology) retypedTopology ≠
    ReportNFDeployEvent noIntents (ReportNFDeployEvent noIntents {} pairTopology)
      retypedTopology := by
  decide

/-- C23 fails on the code: from the state reached by the topology of a connected UPF
`upf` and SMF `smf`, the well-formed topology that declares `upf` as an AUSF
connected to `smf` leaves both ids tracked, `upf` in the AUSF partition only, and no
edge between them: `createEdge` finds the old edge and adds nothing, and `removeNFs`
removes that edge with the UPF node. -/
theorem ReportNFDeployEvent_retyped_site_loses_edge :
    WellFormedTopology pairTopology ∧ WellFormedTopology retypedTopology ∧
    Reachable (ReportNFDeployEvent noIntents {} pairTopology) ∧
    trackedIds
      (ReportNFDeployEvent noIntents (ReportNFDeployEvent noIntents {} pairTopology)
        retypedTopology) = ["smf", "upf"] ∧
    partitionKeys
      (ReportNFDeployEvent noIntents (ReportNFDeployEvent noIntents {} pairTopology)
        retypedTopology) .AUSF = ["upf"] ∧
    (¬ ∃ e ∈
      (ReportNFDeployEvent noIntents (ReportNFDeployEvent noIntents {} pairTopology)
        retypedTopology).edges, e.IsEqual "upf" "smf" = true) :=
  ⟨by decide, by decide, Reachable.report noIntents {} pairTopology Reachable.empty
    (by decide) (by decide), by decide, by decide, by decide⟩

/-- C26: `removeEdge a b` leaves the deployment as it is when no edge connects `a` and
`b` in either order; otherwise the edge list splits at the first edge that connects
them, and the result is the deployment with that one edge taken out, the edges
before and after it kept in their order, and nothing else changed. -/
theorem removeEdge_spec (deployment : Deployment) (a b : String) :
    ((∀ e ∈ deployment.edges, e.IsEqual a b = false) →
      removeEdge deployment a b = deployment) ∧
    ((∃ e ∈ deployment.edges, e.IsEqual a b = true) →
      ∃ l1 e l2, deployment.edges = l1 ++ e :: l2 ∧
        (∀ f ∈ l1, f.IsEqual a b = false) ∧ e.IsEqual a b = true ∧
        removeEdge deployment a b = { deployment with edges := l1 ++ l2 }) := by
  constructor
  · intro h
    unfold removeEdge
    rw [removeFirstEdge_of_no_match a b _ h]
  · intro h
    obtain ⟨l1, e, l2, hs, h1, he⟩ := exists_first_match a b deployment.edges h
    refine ⟨l1, e, l2, hs, h1, he, ?_⟩
    unfold removeEdge
    rw [hs, removeFirstEdge_split a b l1 e l2 h1 he]

/-- C28: an edge event of kind UPFDeploy, SMFDeploy, UDMDeploy or AUSFDeploy whose
site id is not tracked in the partition of that kind, and an event of any other kind,
leaves the deployment as it is (no node, edge or status changes) and the writer is
not called. -/
theorem processEdgeEvent_untracked (deployment : Deployment) (object : Event) :
    (∀ obj, object.Object = some obj → object.Kind = "UPFDeploy" →
      deployment.upfNodes.contains obj.siteId = false →
      processEdgeEvent deployment object = (deployment, none)) ∧
    (∀ obj, object.Object = some obj → object.Kind = "SMFDeploy" →
      deployment.smfNodes.contains obj.siteId = false →
      processEdgeEvent deployment object = (deployment, none)) ∧
    (∀ obj, object.Object = some obj → object.Kind = "UDMDeploy" →
      deployment.udmNodes.contains obj.siteId = false →
      processEdgeEvent deployment object = (deployment, none)) ∧
    (∀ obj, object.Object = some obj → object.Kind = "AUSFDeploy" →
      deployment.ausfNodes.contains obj.siteId = false →
      processEdgeEvent deployment object = (deployment, none)) ∧
    (object.Kind ≠ "UPFDeploy" → object.Kind ≠ "SMFDeploy" → object.Kind ≠ "UDMDeploy" →
      object.Kind ≠ "AUSFDeploy" →
      processEdgeEvent deployment object = (deployment, none)) := by
  refine ⟨?_, ?_, ?_, ?_, ?_⟩
  · intro obj hobj hk hc
    have hg : deployment.upfNodes.get? obj.siteId = none := by
      simpa [GoMap.contains] using hc
    unfold processEdgeEvent
    simp [hobj, hk, hg]
  · intro obj hobj hk hc
    have hg : deployment.smfNodes.get? obj.siteId = none := by
      simpa [GoMap.contains] using hc
    unfold processEdgeEvent
    simp [hobj, hk, hg]
  · intro obj hobj hk hc
    have hg : deployment.udmNodes.get? obj.siteId = none := by
      simpa [GoMap.contains] using hc
    unfold processEdgeEvent
    simp [hobj, hk, hg]
  · intro obj hobj hk hc
    have hg : deployment.ausfNodes.get? obj.siteId = none := by
      simpa [GoMap.contains] using hc
    unfold processEdgeEvent
    simp [hobj, hk, hg]
  · intro h1 h2 h3 h4
    unfold processEdgeEvent
    cases hobj : object.Object with
    | none => rfl
    | some obj => simp [h1, h2, h3, h4]

/-- C28 at concrete inputs: on the two-node deployment a UPFDeploy event for the
untracked id `ghost` and an AMFDeploy event for the tracked id `upf` change nothing
and call no writer. -/
theorem processEdgeEvent_untracked_witness :
    processEdgeEvent exampleDeployment (ghostEvent reconcilingReport 1) =
      (exampleDeployment, none) ∧
    processEdgeEvent exampleDeployment (amfEvent reconcilingReport 1) =
      (exampleDeployment, none) :=
  ⟨(processEdgeEvent_untracked exampleDeployment (ghostEvent reconcilingReport 1)).1
      { siteId := "ghost", Conditions := reconcilingReport } rfl rfl (by decide),
   (processEdgeEvent_untracked exampleDeployment (amfEvent reconcilingReport 1)).2.2.2.2
      (by decide) (by decide) (by decide) (by decide)⟩

/-- C29: `GetUPFIntent` looks up the UPF type and then the capacity profile it names.
When both lookups succeed it returns the intent with the throughput of that profile
and no error; when the type lookup fails it returns the empty intent and that error
and makes no further call; when the capacity-profile lookup fails it returns the
empty intent and that error. -/
theorem GetUPFIntent_spec (upfTypeName : String) (crdReader : CRDReader) :
    (∀ upfType profile, crdReader.GetUPFTypeObject upfTypeName = .ok upfType →
      crdReader.GetUPFCapacityProfileObject upfType.Spec.CapacityProfile = .ok profile →
      GetUPFIntent upfTypeName crdReader =
        (({ Throughput := profile.Spec.Throughput }, none),
         [.GetUPFTypeObject upfTypeName,
          .GetUPFCapacityProfileObject upfType.Spec.CapacityProfile])) ∧
    (∀ err, crdReader.GetUPFTypeObject upfTypeName = .error err →
      GetUPFIntent upfTypeName crdReader =
        (({}, some err), [.GetUPFTypeObject upfTypeName])) ∧
    (∀ upfType err, crdReader.GetUPFTypeObject upfTypeName = .ok upfType →
      crdReader.GetUPFCapacityProfileObject upfType.Spec.CapacityProfile = .error err →
      GetUPFIntent upfTypeName crdReader =
        (({}, some err),
         [.GetUPFTypeObject upfTypeName,
          .GetUPFCapacityProfileObject upfType.Spec.CapacityProfile])) := by
  refine ⟨?_, ?_, ?_⟩
  · intro upfType profile h1 h2
    simp [GetUPFIntent, getUPFCapacityProfileName, getUPFCapacityProfile, h1, h2]
  · intro err h1
    simp [GetUPFIntent, getUPFCapacityProfileName, h1]
  · intro upfType err h1 h2
    simp [GetUPFIntent, getUPFCapacityProfileName, getUPFCapacityProfile, h1, h2]

/-- C29 at concrete inputs: the sample reader resolves `upf-type` to the throughput
`10G` with two lookups, and answers an unknown type with the error of the first
lookup after one call. -/
theorem GetUPFIntent_spec_witness :
    GetUPFIntent "upf-type" sampleReader =
      (({ Throughput := "10G" }, none),
       [.GetUPFTypeObject "upf-type", .GetUPFCapacityProfileObject "capacity-profile"]) ∧
    GetUPFIntent "other" sampleReader =
      (({}, some (.new "UPFType CRD with name other not found")),
       [.GetUPFTypeObject "other"]) :=
  ⟨(GetUPFIntent_spec "upf-type" sampleReader).1
      { Spec := { CapacityProfile := "capacity-profile" } } { Spec := { Throughput := "10G" } }
      rfl rfl,
   (GetUPFIntent_spec "other" sampleReader).2.1 _ rfl⟩

/-- C24: for every node, identified by its partition and id, the `lastEventTimestamp`
never decreases for as long as the node stays tracked: after `processEdgeEvent`, for
any event, the node is still tracked with a timestamp that is not earlier, and a node
that is still tracked after `ReportNFDeployEvent` has the timestamp it had. -/
theorem lastEventTimestamp_monotone (deployment : Deployment) (t : NFType) (x : String)
    (old : Time) (h : lastEventTimestampAt deployment t x = some old) :
    (∀ object : Event,
      ∃ new, lastEventTimestampAt (processEdgeEvent deployment object).1 t x = some new ∧
        old ≤ new) ∧
    (∀ (intents : IntentProcessors) (nfDeploy : NfDeploy) (new : Time),
      lastEventTimestampAt (ReportNFDeployEvent intents deployment nfDeploy) t x = some new →
      new = old) :=
  ⟨fun object => lastEventTimestampAt_processEdgeEvent deployment object t x old h,
   fun intents nfDeploy new h' =>
    lastEventTimestampAt_ReportNFDeployEvent intents deployment nfDeploy t x old new h h'⟩

/-- C24 at a concrete input: the UPF of the two-node deployment has seen an event at
instant 5; a later event at instant 7 moves its timestamp to 7, and a topology update
that keeps the UPF leaves it at 5. -/
theorem lastEventTimestamp_monotone_witness :
    lastEventTimestampAt staleDeployment .UPF "upf" = some 5 ∧
    lastEventTimestampAt (processEdgeEvent staleDeployment (upfEvent reconcilingReport 7)).1
      .UPF "upf" = some 7 ∧
    lastEventTimestampAt (ReportNFDeployEvent noIntents staleDeployment pairTopology)
      .UPF "upf" = some 5 ∧
    (∃ new,
      lastEventTimestampAt
        (processEdgeEvent staleDeployment (upfEvent reconcilingReport 3)).1 .UPF "upf" =
        some new ∧ (5 : Time) ≤ new) :=
  ⟨by decide, by decide, by decide,
   (lastEventTimestamp_monotone staleDeployment .UPF "upf" 5 (by decide)).1
      (upfEvent reconcilingReport 3)⟩

/-- C27: when the profile lookup for a UPF or SMF site fails, `addOrUpdateUPFNode`
(resp. `addOrUpdateSMFNode`) creates the node with an empty connection set and empty
enrichment if it was absent and leaves the deployment as it is otherwise; when the
lookup succeeds the node of the site has the value returned in its enrichment field
(`throughput`, resp. `maxSessions`). After the whole update every declared UPF and SMF
site of a topology with unique ids is tracked, and the result is the same for every
outcome of the lookups up to the enrichment fields: sites, edges and pruning are
processed the same way. -/
theorem addOrUpdateNode_lookup_failure (intents : IntentProcessors) (deployment : Deployment) :
    (∀ site : Site, intents.GetUPFIntent site.NFTypeName = none →
      (deployment.upfNodes.contains site.Id = false →
        addOrUpdateUPFNode intents deployment site =
          { deployment with
            upfNodes := deployment.upfNodes.set site.Id
              { Id := site.Id, NFType := .UPF, Connections := GoMap.empty,
                Spec := { clusterName := site.ClusterName, throughput := "" } } }) ∧
      (deployment.upfNodes.contains site.Id = true →
        addOrUpdateUPFNode intents deployment site = deployment)) ∧
    (∀ site : Site, intents.GetSMFIntent site.NFTypeName = none →
      (deployment.smfNodes.contains site.Id = false →
        addOrUpdateSMFNode intents deployment site =
          { deployment with
            smfNodes := deployment.smfNodes.set site.Id
              { Id := site.Id, NFType := .SMF, Connections := GoMap.empty,
                Spec := { clusterName := site.ClusterName, maxSessions := "" } } }) ∧
      (deployment.smfNodes.contains site.Id = true →
        addOrUpdateSMFNode intents deployment site = deployment)) ∧
    (∀ (site : Site) (upfIntent : UPFIntent),
      intents.GetUPFIntent site.NFTypeName = some upfIntent →
      ∃ node, (addOrUpdateUPFNode intents deployment site).upfNodes.get? site.Id = some node ∧
        node.Spec.throughput = upfIntent.Throughput) ∧
    (∀ (site : Site) (smfIntent : SMFIntent),
      intents.GetSMFIntent site.NFTypeName = some smfIntent →
      ∃ node, (addOrUpdateSMFNode intents deployment site).smfNodes.get? site.Id = some node ∧
        node.Spec.maxSessions = smfIntent.MaxSessions) ∧
    (∀ nfDeploy : NfDeploy, (siteIds nfDeploy).Nodup →
      ∀ site ∈ nfDeploy.Sites, site.NFType = .UPF ∨ site.NFType = .SMF →
        site.Id ∈ partitionKeys (ReportNFDeployEvent intents deployment nfDeploy)
          site.NFType) ∧
    (WFNodes deployment →
      ∀ (other : IntentProcessors) (nfDeploy : NfDeploy),
        withoutEnrichment (ReportNFDeployEvent intents deployment nfDeploy) =
          withoutEnrichment (ReportNFDeployEvent other deployment nfDeploy)) := by
  refine ⟨?_, ?_, ?_, ?_, ?_, ?_⟩
  · intro site hi
    constructor
    · intro hc
      unfold addOrUpdateUPFNode
      simp only [hc, hi, if_false, Bool.false_eq_true]
    · intro hc
      unfold addOrUpdateUPFNode
      simp only [hc, hi, if_true]
  · intro site hi
    constructor
    · intro hc
      unfold addOrUpdateSMFNode
      simp only [hc, hi, if_false, Bool.false_eq_true, GoMap.get?_set_self]
    · intro hc
      unfold addOrUpdateSMFNode
      simp only [hc, hi, if_true]
      cases deployment.smfNodes.get? site.Id <;> rfl
  · intro site upfIntent hi
    unfold addOrUpdateUPFNode
    simp only [hi]
    by_cases hc : deployment.upfNodes.contains site.Id = true
    · simp only [hc, if_true]
      cases hg : deployment.upfNodes.get? site.Id with
      | none => simp [GoMap.contains, hg] at hc
      | some upfNode => exact ⟨_, GoMap.get?_set_self _ _ _, rfl⟩
    · simp only [hc, if_false, Bool.false_eq_true, GoMap.get?_set_self]
      exact ⟨_, rfl, rfl⟩
  · intro site smfIntent hi
    unfold addOrUpdateSMFNode
    simp only [hi]
    by_cases hc : deployment.smfNodes.contains site.Id = true
    · simp only [hc, if_true]
      cases hg : deployment.smfNodes.get? site.Id with
      | none => simp [GoMap.contains, hg] at hc
      | some smfNode => exact ⟨_, GoMap.get?_set_self _ _ _, rfl⟩
    · simp only [hc, if_false, Bool.false_eq_true, GoMap.get?_set_self]
      exact ⟨_, rfl, rfl⟩
  · intro nfDeploy hnd site hs ht
    apply (mem_partitionKeys_ReportNFDeployEvent_iff intents deployment nfDeploy hnd
      site.NFType site.Id).mpr
    refine ⟨⟨site, hs, rfl, rfl⟩, Or.inr ?_⟩
    rcases ht with ht | ht <;> rw [ht] <;> rfl
  · intro hwf other nfDeploy
    rw [ReportNFDeployEvent_withoutEnrichment intents deployment nfDeploy hwf,
      ReportNFDeployEvent_withoutEnrichment other deployment nfDeploy hwf]

/-- C27 at a concrete input: the topology of a connected UPF and SMF on the empty
deployment, once with no profile resolved and once with every profile resolved. The
failed lookup leaves the UPF tracked with an empty throughput and the edge in place,
the successful one stores `10G`, and the two graphs agree up to the enrichment. -/
theorem addOrUpdateNode_lookup_failure_witness :
    ((ReportNFDeployEvent noIntents {} pairTopology).upfNodes.get? "upf").map
        (fun node => (node.Spec.throughput, node.Connections.keys)) = some ("", ["smf"]) ∧
    ((ReportNFDeployEvent sampleIntents {} pairTopology).upfNodes.get? "upf").map
        (fun node => (node.Spec.throughput, node.Connections.keys)) = some ("10G", ["smf"]) ∧
    (ReportNFDeployEvent noIntents {} pairTopology).edges =
      [{ FirstNode := "upf", SecondNode := "smf" }] ∧
    withoutEnrichment (ReportNFDeployEvent noIntents {} pairTopology) =
      withoutEnrichment (ReportNFDeployEvent sampleIntents {} pairTopology) :=
  ⟨by decide, by decide, by decide,
   (addOrUpdateNode_lookup_failure noIntents {}).2.2.2.2.2 (by decide) sampleIntents
      pairTopology⟩

/-- C30: when the naming context can be made for the cluster of every site and the
package service answers every call for the key of a site with a package,
`CreateNFDeployActuators` returns no error, has called the service exactly once for
the (cluster, vendor, version, NF type) combination of every site, however many sites
share it, and returns exactly the package names of the calls that reported a new
package, in the order of the calls. For every service: the calls carry the answers of
the service and are made with the naming context of their cluster, no combination is
called twice and only combinations of the sites are called; a run without error has
called every combination once and returns the new packages; an empty site list gives
no call and an empty, non-nil list and no error; a failing call gives a nil list and
the error that wraps its failure; every error is the wrapped failure of a call of the
log or of the naming context of the cluster of a site, and comes with a nil list. -/
theorem CreateNFDeployActuators_spec (service : ActuatorService) (nfDeploy : NfDeploy) :
    ((∀ site ∈ nfDeploy.Sites,
        ∃ nc, service.NewNamingContext site.ClusterName nfDeploy.Name = .ok nc) →
      (∀ (n : Nat), ∀ site ∈ nfDeploy.Sites, ∀ nc,
        service.NewNamingContext site.ClusterName nfDeploy.Name = .ok nc →
        ∃ answer, service.CreateNFDeployActuators n nc (vendorNFKeyOf site) = .ok answer) →
      (CreateNFDeployActuators service nfDeploy).1.2 = none ∧
      (∀ site ∈ nfDeploy.Sites,
        (callsFor (CreateNFDeployActuators service nfDeploy).2 (combinationOf site)).length =
          1) ∧
      (CreateNFDeployActuators service nfDeploy).1.1 =
        some (newPackages (CreateNFDeployActuators service nfDeploy).2)) ∧
    FaithfulFrom service nfDeploy.Name 0 (CreateNFDeployActuators service nfDeploy).2 ∧
    ((CreateNFDeployActuators service nfDeploy).2.map ActuatorCall.combination).Nodup ∧
    (∀ call ∈ (CreateNFDeployActuators service nfDeploy).2,
      call.combination ∈ nfDeploy.Sites.map combinationOf) ∧
    ((CreateNFDeployActuators service nfDeploy).1.2 = none →
      (∀ site ∈ nfDeploy.Sites,
        (callsFor (CreateNFDeployActuators service nfDeploy).2 (combinationOf site)).length =
          1) ∧
      (CreateNFDeployActuators service nfDeploy).1.1 =
        some (newPackages (CreateNFDeployActuators service nfDeploy).2) ∧
      ∀ call ∈ (CreateNFDeployActuators service nfDeploy).2, call.succeeded) ∧
    (nfDeploy.Sites = [] →
      CreateNFDeployActuators service nfDeploy = ((some [], none), [])) ∧
    (∀ call ∈ (CreateNFDeployActuators service nfDeploy).2, ∀ err,
      call.answer = .error err →
      (CreateNFDeployActuators service nfDeploy).1 =
        (none, some (.wrap "Error creating actuators with key:%#v , %w" err))) ∧
    (∀ err, (CreateNFDeployActuators service nfDeploy).1.2 = some err →
      (∃ call ∈ (CreateNFDeployActuators service nfDeploy).2, ∃ cause,
        call.answer = .error cause ∧
          err = .wrap "Error creating actuators with key:%#v , %w" cause) ∨
      (∃ site ∈ nfDeploy.Sites, ∃ cause,
        service.NewNamingContext site.ClusterName nfDeploy.Name = .error cause ∧
          err = .wrap "Error creating actuators, error creating naming context: %w" cause)) ∧
    (∀ err, (CreateNFDeployActuators service nfDeploy).1.2 = some err →
      (CreateNFDeployActuators service nfDeploy).1.1 = none) := by
  obtain ⟨added, h2, hpre, hf, hok, herr⟩ :=
    createActuatorsOfClusters_spec service nfDeploy.Name
      (collectVendorNFs nfDeploy.Sites).entries [] []
  have hcause := createActuatorsOfClusters_error service nfDeploy.Name
    (collectVendorNFs nfDeploy.Sites).entries [] []
  obtain ⟨hnd, hmem⟩ := flattenVendorNFs_collectVendorNFs nfDeploy.Sites
  rcases hrun : createActuatorsOfClusters service nfDeploy.Name
      (collectVendorNFs nfDeploy.Sites).entries [] [] with ⟨result, calls⟩
  rw [hrun] at h2 hok herr hcause
  simp only [List.nil_append] at h2 hok herr hcause
  subst h2
  have hndc : (calls.map ActuatorCall.combination).Nodup := hpre.sublist.nodup hnd
  have hsub : ∀ call ∈ calls, call.combination ∈ nfDeploy.Sites.map combinationOf := by
    intro call hc
    exact (hmem _).mp (hpre.subset (List.mem_map_of_mem _ hc))
  have hcause' : ∀ e, result = .error e →
      (∃ call ∈ calls, ∃ cause, call.answer = .error cause ∧
          e = .wrap "Error creating actuators with key:%#v , %w" cause) ∨
      (∃ site ∈ nfDeploy.Sites, ∃ cause,
        service.NewNamingContext site.ClusterName nfDeploy.Name = .error cause ∧
          e = .wrap "Error creating actuators, error creating naming context: %w" cause) := by
    intro e he
    rcases hcause e he with g | ⟨cluster, hc, cause, g1, g2⟩
    · exact Or.inl g
    · obtain ⟨site, hs, hsc⟩ := List.mem_map.mp (keys_collectVendorNFs nfDeploy.Sites cluster hc)
      exact Or.inr ⟨site, hs, cause, by rw [hsc]; exact g1, g2⟩
  have hservice : (∀ site ∈ nfDeploy.Sites,
        ∃ nc, service.NewNamingContext site.ClusterName nfDeploy.Name = .ok nc) →
      (∀ (n : Nat), ∀ site ∈ nfDeploy.Sites, ∀ nc,
        service.NewNamingContext site.ClusterName nfDeploy.Name = .ok nc →
        ∃ answer, service.CreateNFDeployActuators n nc (vendorNFKeyOf site) = .ok answer) →
      ∀ e, result ≠ .error e := by
    intro hnc hans e he
    rcases hcause' e he with ⟨call, hc, cause, g1, _⟩ | ⟨site, hs, cause, g1, _⟩
    · obtain ⟨f1, m, f2⟩ := hf.mem call hc
      obtain ⟨site, hs, hcomb⟩ := List.mem_map.mp (hsub call hc)
      have hcl : site.ClusterName = call.cluster := congrArg Prod.fst hcomb
      have hkey : vendorNFKeyOf site = call.key := congrArg Prod.snd hcomb
      obtain ⟨answer, ha⟩ := hans m site hs call.nc (by rw [hcl]; exact f1)
      rw [hkey, ← f2, g1] at ha
      cases ha
    · obtain ⟨nc, hn⟩ := hnc site hs
      rw [hn] at g1
      cases g1
  cases result with
  | error e =>
    have hout : CreateNFDeployActuators service nfDeploy = ((none, some e), calls) := by
      unfold CreateNFDeployActuators
      simp only [hrun]
    rw [hout]
    refine ⟨?_, hf, hndc, hsub, ?_, ?_, ?_, ?_, ?_⟩
    · intro hnc hans
      exact absurd rfl (hservice hnc hans e)
    · intro h; cases h
    · intro hs
      rw [hs] at hrun
      simp [collectVendorNFs, GoMap.empty, createActuatorsOfClusters] at hrun
    · intro call hc err hans
      rcases herr e rfl with ⟨init, last, err', g1, g3, g4, g5⟩ | ⟨cl, err', g1, g3, g4⟩
      · rw [g1] at hc
        rcases List.mem_append.mp hc with hc | hc
        · obtain ⟨answer, ha⟩ := g5 call hc
          rw [ha] at hans; cases hans
        · rw [List.mem_singleton] at hc
          rw [hc, g3] at hans
          cases hans
          simp only [g4]
      · obtain ⟨answer, ha⟩ := g4 call hc
        rw [ha] at hans; cases hans
    · intro err h
      simp only [Option.some.injEq] at h
      rw [← h]
      exact hcause' e rfl
    · intro err _; rfl
  | ok names =>
    have hout : CreateNFDeployActuators service nfDeploy = ((some names, none), calls) := by
      unfold CreateNFDeployActuators
      simp only [hrun]
    rw [hout]
    obtain ⟨hfull, hnames, hsucc⟩ := hok names rfl
    have hone : ∀ site ∈ nfDeploy.Sites,
        (callsFor calls (combinationOf site)).length = 1 := by
      intro site hs
      apply length_callsFor_of_nodup calls _ hndc
      rw [hfull]
      exact (hmem _).mpr (List.mem_map_of_mem _ hs)
    have hlist : some names = some (newPackages calls) := by
      simp only [hnames, List.nil_append]
    refine ⟨fun _ _ => ⟨rfl, hone, hlist⟩, hf, hndc, hsub, fun _ => ⟨hone, hlist, hsucc⟩,
      ?_, ?_, ?_, ?_⟩
    · intro hs
      rw [hs] at hrun
      simp only [collectVendorNFs, List.foldl_nil, GoMap.empty, createActuatorsOfClusters,
        Prod.mk.injEq, Except.ok.injEq] at hrun
      rw [← hrun.1, ← hrun.2]
    · intro call hc err hans
      obtain ⟨answer, ha⟩ := hsucc call hc
      rw [ha] at hans; cases hans
    · intro err h; cases h
    · intro err h; cases h

/-- C30 at the input of the unit test: six sites with five distinct combinations and a
service that answers every call with a package, the first, second and fifth call with
a new one. From the answers of the service: no error, one call for the combination of
every site and the new packages returned. Five calls are made and the packages of the
three new ones are returned; a service that fails stops the run at the first call with
a nil list and the wrapped error. -/
theorem CreateNFDeployActuators_spec_witness :
    ((CreateNFDeployActuators actuatorService
        { Name := "nfdeploy", Sites := actuatorSites }).1.2 = none ∧
      (∀ site ∈ actuatorSites,
        (callsFor (CreateNFDeployActuators actuatorService
          { Name := "nfdeploy", Sites := actuatorSites }).2 (combinationOf site)).length = 1) ∧
      (CreateNFDeployActuators actuatorService
          { Name := "nfdeploy", Sites := actuatorSites }).1.1 =
        some (newPackages (CreateNFDeployActuators actuatorService
          { Name := "nfdeploy", Sites := actuatorSites }).2)) ∧
    (CreateNFDeployActuators actuatorService { Name := "nfdeploy", Sites := actuatorSites }).1 =
      (some ["package1", "package2", "package5"], none) ∧
    ((CreateNFDeployActuators actuatorService
        { Name := "nfdeploy", Sites := actuatorSites }).2.map ActuatorCall.combination).length =
      5 ∧
    (CreateNFDeployActuators failingActuatorService
        { Name := "nfdeploy", Sites := actuatorSites }).1 =
      (none,
       some (.wrap "Error creating actuators with key:%#v , %w"
        (.new "Error fetching pkg revision"))) ∧
    (CreateNFDeployActuators failingActuatorService
        { Name := "nfdeploy", Sites := actuatorSites }).2.length = 1 :=
  ⟨(CreateNFDeployActuators_spec actuatorService
      { Name := "nfdeploy", Sites := actuatorSites }).1
      (fun site hs => by
        simp only [actuatorSites, List.mem_cons, List.mem_singleton, List.not_mem_nil,
          or_false] at hs
        rcases hs with rfl | rfl | rfl | rfl | rfl | rfl <;> exact ⟨_, rfl⟩)
      (fun _ _ _ _ _ => ⟨_, rfl⟩),
   by decide, by decide, by decide, by decide⟩

/-- C25: in a deployment that tracks exactly one UPF and one SMF, both without a
stored status, with six events of strictly increasing timestamps: after the UPF
reports Reconciling=True with the other conditions False the writer is handed the
aggregate Reconciling (True, SomeNFsReconciling); after the SMF then reports the same,
(True, AllUnReconciledNFsReconciling); after both then report all five conditions
False, (False, NoNFsReconciling); after both then report Ready=True, Available=True
and the others False, (False, AllNFsReconciled) with the aggregate Ready
(True, AllNFsReady). -/
theorem processEdgeEvents_reconciling_scenario (name : String) (edges : List Edge)
    (upfId smfId : String) (cu cs : GoMap Unit) (su : UPFSpec) (ss : SMFSpec)
    (t1 t2 t3 t4 t5 t6 : Time) (hid : upfId ≠ smfId) (h0 : 0 ≤ t1) (h12 : t1 < t2)
    (h23 : t2 < t3) (h34 : t3 < t4) (h45 : t4 < t5) (h56 : t5 < t6) :
    ((processEdgeEvents
        (twoNodeDeployment name edges (upfNodeWith upfId cu su {}) (smfNodeWith smfId cs ss {}))
        [reportEvent "UPFDeploy" upfId reconcilingReport t1]).2.map
      (fun update => (update.reconcilingCondition.Status, update.reconcilingCondition.Reason)) =
        some (ConditionTrue, "SomeNFsReconciling")) ∧
    ((processEdgeEvents
        (twoNodeDeployment name edges (upfNodeWith upfId cu su {}) (smfNodeWith smfId cs ss {}))
        [reportEvent "UPFDeploy" upfId reconcilingReport t1,
         reportEvent "SMFDeploy" smfId reconcilingReport t2]).2.map
      (fun update => (update.reconcilingCondition.Status, update.reconcilingCondition.Reason)) =
        some (ConditionTrue, "AllUnReconciledNFsReconciling")) ∧
    ((processEdgeEvents
        (twoNodeDeployment name edges (upfNodeWith upfId cu su {}) (smfNodeWith smfId cs ss {}))
        [reportEvent "UPFDeploy" upfId reconcilingReport t1,
         reportEvent "SMFDeploy" smfId reconcilingReport t2,
         reportEvent "UPFDeploy" upfId allFalseReport t3,
         reportEvent "SMFDeploy" smfId allFalseReport t4]).2.map
      (fun update => (update.reconcilingCondition.Status, update.reconcilingCondition.Reason)) =
        some (ConditionFalse, "NoNFsReconciling")) ∧
    ((processEdgeEvents
        (twoNodeDeployment name edges (upfNodeWith upfId cu su {}) (smfNodeWith smfId cs ss {}))
        [reportEvent "UPFDeploy" upfId reconcilingReport t1,
         reportEvent "SMFDeploy" smfId reconcilingReport t2,
         reportEvent "UPFDeploy" upfId allFalseReport t3,
         reportEvent "SMFDeploy" smfId allFalseReport t4,
         reportEvent "UPFDeploy" upfId readyReport t5,
         reportEvent "SMFDeploy" smfId readyReport t6]).2.map
      (fun update =>
        ((update.reconcilingCondition.Status, update.reconcilingCondition.Reason),
         (update.readyCondition.Status, update.readyCondition.Reason))) =
        some ((ConditionFalse, "AllNFsReconciled"), (ConditionTrue, "AllNFsReady"))) := by
  have c1 : isAmbiguousConditionSet (calculateNFConditionSet reconcilingReport).1 = false := by
    decide
  have c2 : isAmbiguousConditionSet (calculateNFConditionSet allFalseReport).1 = false := by
    decide
  have c3 : isAmbiguousConditionSet (calculateNFConditionSet readyReport).1 = false := by
    decide
  have w0 : ({} : NFStatus).activeConditions.WF := by decide
  have w1 : ∀ t, (reportedStatus reconcilingReport t).activeConditions.WF :=
    fun t => WF_reportedStatus reconcilingReport t (by decide)
  have w2 : ∀ t, (reportedStatus allFalseReport t).activeConditions.WF :=
    fun t => WF_reportedStatus allFalseReport t (by decide)
  have w3 : ∀ t, (reportedStatus readyReport t).activeConditions.WF :=
    fun t => WF_reportedStatus readyReport t (by decide)
  have f1 : ¬ t1 < ({} : NFStatus).lastEventTimestamp := by
    exact not_lt.mpr h0
  have f2 : ¬ t2 < ({} : NFStatus).lastEventTimestamp := by
    exact not_lt.mpr (le_of_lt (lt_of_le_of_lt h0 h12))
  have f3 : ¬ t3 < (reportedStatus reconcilingReport t1).lastEventTimestamp := by
    exact not_lt.mpr (le_of_lt (lt_trans h12 h23))
  have f4 : ¬ t4 < (reportedStatus reconcilingReport t2).lastEventTimestamp := by
    exact not_lt.mpr (le_of_lt (lt_trans h23 h34))
  have f5 : ¬ t5 < (reportedStatus allFalseReport t3).lastEventTimestamp := by
    exact not_lt.mpr (le_of_lt (lt_trans h34 h45))
  have f6 : ¬ t6 < (reportedStatus allFalseReport t4).lastEventTimestamp := by
    exact not_lt.mpr (le_of_lt (lt_trans h45 h56))
  have s1 := processEdgeEvent_upfNodeWith name edges upfId smfId cu cs su ss {} {}
    reconcilingReport t1 hid f1 c1
  have s2 := processEdgeEvent_smfNodeWith name edges upfId smfId cu cs su ss
    (reportedStatus reconcilingReport t1) {} reconcilingReport t2 hid f2 c1
  have s3 := processEdgeEvent_upfNodeWith name edges upfId smfId cu cs su ss
    (reportedStatus reconcilingReport t1) (reportedStatus reconcilingReport t2)
    allFalseReport t3 hid f3 c2
  have s4 := processEdgeEvent_smfNodeWith name edges upfId smfId cu cs su ss
    (reportedStatus allFalseReport t3) (reportedStatus reconcilingReport t2)
    allFalseReport t4 hid f4 c2
  have s5 := processEdgeEvent_upfNodeWith name edges upfId smfId cu cs su ss
    (reportedStatus allFalseReport t3) (reportedStatus allFalseReport t4)
    readyReport t5 hid f5 c3
  have s6 := processEdgeEvent_smfNodeWith name edges upfId smfId cu cs su ss
    (reportedStatus readyReport t5) (reportedStatus allFalseReport t4)
    readyReport t6 hid f6 c3
  have a1 := aggregateStatus_nodesWith name edges upfId smfId cu cs su ss
    (reportedStatus reconcilingReport t1) {} (w1 t1) w0
  have a2 := aggregateStatus_nodesWith name edges upfId smfId cu cs su ss
    (reportedStatus reconcilingReport t1) (reportedStatus reconcilingReport t2) (w1 t1) (w1 t2)
  have a4 := aggregateStatus_nodesWith name edges upfId smfId cu cs su ss
    (reportedStatus allFalseReport t3) (reportedStatus allFalseReport t4) (w2 t3) (w2 t4)
  have a6 := aggregateStatus_nodesWith name edges upfId smfId cu cs su ss
    (reportedStatus readyReport t5) (reportedStatus readyReport t6) (w3 t5) (w3 t6)
  have e1 : reconcilingOutcome
      (activeIn (reportedStatus reconcilingReport 0) Ready + activeIn {} Ready)
      (activeIn (reportedStatus reconcilingReport 0) Reconciling + activeIn {} Reconciling) =
      (ConditionTrue, "SomeNFsReconciling") := by decide
  have e2 : reconcilingOutcome
      (activeIn (reportedStatus reconcilingReport 0) Ready +
        activeIn (reportedStatus reconcilingReport 0) Ready)
      (activeIn (reportedStatus reconcilingReport 0) Reconciling +
        activeIn (reportedStatus reconcilingReport 0) Reconciling) =
      (ConditionTrue, "AllUnReconciledNFsReconciling") := by decide
  have e4 : reconcilingOutcome
      (activeIn (reportedStatus allFalseReport 0) Ready +
        activeIn (reportedStatus allFalseReport 0) Ready)
      (activeIn (reportedStatus allFalseReport 0) Reconciling +
        activeIn (reportedStatus allFalseReport 0) Reconciling) =
      (ConditionFalse, "NoNFsReconciling") := by decide
  have e6 : reconcilingOutcome
      (activeIn (reportedStatus readyReport 0) Ready +
        activeIn (reportedStatus readyReport 0) Ready)
      (activeIn (reportedStatus readyReport 0) Reconciling +
        activeIn (reportedStatus readyReport 0) Reconciling) =
      (ConditionFalse, "AllNFsReconciled") := by decide
  have e7 : readyOutcome
      (activeIn (reportedStatus readyReport 0) Ready +
        activeIn (reportedStatus readyReport 0) Ready) =
      (ConditionTrue, "AllNFsReady") := by decide
  refine ⟨?_, ?_, ?_, ?_⟩
  · simp only [processEdgeEvents, List.foldl_cons, List.foldl_nil, s1, Option.map_some']
    rw [a1.1]
    exact congrArg some e1
  · simp only [processEdgeEvents, List.foldl_cons, List.foldl_nil, s1, s2, Option.map_some']
    rw [a2.1]
    exact congrArg some e2
  · simp only [processEdgeEvents, List.foldl_cons, List.foldl_nil, s1, s2, s3, s4,
      Option.map_some']
    rw [a4.1]
    exact congrArg some e4
  · simp only [processEdgeEvents, List.foldl_cons, List.foldl_nil, s1, s2, s3, s4, s5, s6,
      Option.map_some']
    rw [a6.1, a6.2]
    exact congrArg some (congrArg₂ Prod.mk e6 e7)

/-- C25 at the two sites of the controller test, with the six events one second
apart. -/
theorem processEdgeEvents_reconciling_scenario_witness :
    ((processEdgeEvents
        (twoNodeDeployment "nfdeploy" [] (upfNodeWith "upf" GoMap.empty {} {})
          (smfNodeWith "smf" GoMap.empty {} {}))
        [reportEvent "UPFDeploy" "upf" reconcilingReport 1,
         reportEvent "SMFDeploy" "smf" reconcilingReport 2,
         reportEvent "UPFDeploy" "upf" allFalseReport 3,
         reportEvent "SMFDeploy" "smf" allFalseReport 4,
         reportEvent "UPFDeploy" "upf" readyReport 5,
         reportEvent "SMFDeploy" "smf" readyReport 6]).2.map
      (fun update =>
        ((update.reconcilingCondition.Status, update.reconcilingCondition.Reason),
         (update.readyCondition.Status, update.readyCondition.Reason))) =
        some ((ConditionFalse, "AllNFsReconciled"), (ConditionTrue, "AllNFsReady"))) :=
  (processEdgeEvents_reconciling_scenario "nfdeploy" [] "upf" "smf"
    GoMap.empty GoMap.empty {} {} 1 2 3 4 5 6
    (by decide) (by decide) (by decide) (by decide) (by decide) (by decide) (by decide)).2.2.2

/-- C31 fails as stated: the UPF has the state Reconciling from an event at instant 1;
an ambiguous event at instant 10 is dropped, but it leaves 10 as the
`lastEventTimestamp` of the node; the later report Ready=True, Available=True with
timestamp 5, strictly after the event that produced the status, is then discarded as
stale: the writer is not called and the state stays Reconciling. -/
theorem processEdgeEvent_ambiguous_advances_timestamp :
    (addressedNode (processEdgeEvents exampleDeployment [upfEvent reconcilingReport 1]).1
        (upfEvent unknownReport 10)).map
        (fun node => (node.Status.lastEventTimestamp, node.Status.state)) =
      some (1, Reconciling) ∧
    isAmbiguousConditionSet (calculateNFConditionSet unknownReport).1 = true ∧
    (addressedNode ambiguousDeployment (upfEvent readyReport 5)).map
        (fun node => (node.Status.lastEventTimestamp, node.Status.state)) =
      some (10, Reconciling) ∧
    isAmbiguousConditionSet (calculateNFConditionSet readyReport).1 = false ∧
    (1 : Time) < (upfEvent readyReport 5).Timestamp ∧
    (processEdgeEvent ambiguousDeployment (upfEvent readyReport 5)).2 = none ∧
    (addressedNode (processEdgeEvent ambiguousDeployment (upfEvent readyReport 5)).1
        (upfEvent readyReport 5)).map
        (fun node => (node.Status.lastEventTimestamp, node.Status.state)) =
      some (10, Reconciling) := by
  decide

/-- C31, amended: when an event that addresses a tracked node is not stale and is
dropped as ambiguous, the writer is not called and the state, the state message and
the active conditions of the node are unchanged, but its `lastEventTimestamp` becomes
the timestamp of the dropped event. A later event for the same node is discarded as
stale when its timestamp is before that of the dropped event; when its timestamp is
not before it and its report is not ambiguous, it is applied: the writer is called and
the node gets the status derived from the report with the timestamp of the event. -/
theorem processEdgeEvent_ambiguous_dropped (deployment : Deployment) (object : Event)
    (obj : NFDeployDocument) (node : Node) (hobj : object.Object = some obj)
    (hnode : addressedNode deployment object = some node)
    (hfresh : ¬ object.Timestamp < node.Status.lastEventTimestamp)
    (hambiguous : isAmbiguousConditionSet (calculateNFConditionSet obj.Conditions).1 = true) :
    (processEdgeEvent deployment object).2 = none ∧
    addressedNode (processEdgeEvent deployment object).1 object =
      some { node with
        Status := { node.Status with lastEventTimestamp := object.Timestamp } } ∧
    ∀ (later : Event) (laterObj : NFDeployDocument), later.Kind = object.Kind →
      later.Object = some laterObj → laterObj.siteId = obj.siteId →
      (later.Timestamp < object.Timestamp →
        processEdgeEvent (processEdgeEvent deployment object).1 later =
          ((processEdgeEvent deployment object).1, none)) ∧
      (¬ later.Timestamp < object.Timestamp →
        isAmbiguousConditionSet (calculateNFConditionSet laterObj.Conditions).1 = false →
        (processEdgeEvent (processEdgeEvent deployment object).1 later).2.isSome = true ∧
        addressedNode (processEdgeEvent (processEdgeEvent deployment object).1 later).1 later =
          some { node with
            Status :=
              { deriveNFStatus (calculateNFConditionSet laterObj.Conditions).1
                  (calculateNFConditionSet laterObj.Conditions).2 with
                lastEventTimestamp := later.Timestamp } }) := by
  have hnode' : nodeAt deployment (kindType object.Kind) obj.siteId = some node := by
    rw [addressedNode_eq, hobj] at hnode
    exact hnode
  have he : processEdgeEvent deployment object =
      (stampNode deployment (kindType object.Kind) obj.siteId object.Timestamp, none) := by
    rw [processEdgeEvent_of_fresh _ _ _ _ hobj hnode' hfresh,
      processNFEdgeEvent_of_ambiguous _ _ _ hambiguous]
  have hstamped : ∀ (later : Event) (laterObj : NFDeployDocument),
      later.Kind = object.Kind → later.Object = some laterObj →
      laterObj.siteId = obj.siteId →
      addressedNode (stampNode deployment (kindType object.Kind) obj.siteId object.Timestamp)
          later =
        some { node with
          Status := { node.Status with lastEventTimestamp := object.Timestamp } } := by
    intro later laterObj hk ho hid
    rw [addressedNode_eq, ho]
    simp only
    rw [hk, hid, nodeAt_stampNode, if_pos ⟨rfl, rfl⟩, hnode']
    rfl
  rw [he]
  refine ⟨rfl, hstamped object obj rfl hobj rfl, ?_⟩
  intro later laterObj hk ho hid
  have hl := hstamped later laterObj hk ho hid
  constructor
  · intro hbefore
    exact processEdgeEvent_of_before _ _ _ hl hbefore
  · intro hnot hclear
    constructor
    · have hl' := hl
      rw [addressedNode_eq, ho] at hl'
      rw [processEdgeEvent_of_fresh _ _ _ _ ho hl' hnot,
        processNFEdgeEvent_eq_aggregateStatus _ _ _ hclear]
      rfl
    · exact addressedNode_processEdgeEvent _ later laterObj
        { node with Status := { node.Status with lastEventTimestamp := object.Timestamp } }
        ho hl hnot hclear

/-- C31 at a concrete input: the UPF of the two-node deployment, in the state
Reconciling since instant 1, gets an ambiguous report at instant 10. -/
theorem processEdgeEvent_ambiguous_dropped_witness :
    (processEdgeEvent (processEdgeEvents exampleDeployment [upfEvent reconcilingReport 1]).1
        (upfEvent unknownReport 10)).2 = none ∧
    (addressedNode
        (processEdgeEvent
          (processEdgeEvents exampleDeployment [upfEvent reconcilingReport 1]).1
          (upfEvent unknownReport 10)).1 (upfEvent unknownReport 10)).map
        (fun node => (node.Status.lastEventTimestamp, node.Status.state)) =
      some (10, Reconciling) :=
  ⟨(processEdgeEvent_ambiguous_dropped
      (processEdgeEvents exampleDeployment [upfEvent reconcilingReport 1]).1
      (upfEvent unknownReport 10) { siteId := "upf", Conditions := unknownReport }
      { Id := "upf", NFType := .UPF, Status := reportedStatus reconcilingReport 1 }
      rfl (by decide) (by decide) (by decide)).1,
   by decide⟩

/-- C32 fails as stated: the topology of a connected SMF `smf` and UPF `upf` creates
the edge `(smf, upf)`; after it is replaced by the topology of `upf` alone, both
well-formed, the node `smf` and the edge are removed, but `smf` stays in the
connection set of the tracked node `upf`: in a state reached by well-formed topology
updates a connection set holds an id that no edge connects. -/
theorem removeNFs_leaves_connection_entry :
    WellFormedTopology smfFirstTopology ∧ TrackedTypes smfFirstTopology ∧
    WellFormedTopology upfAloneTopology ∧ TrackedTypes upfAloneTopology ∧
    Reachable prunedDeployment ∧
    (ReportNFDeployEvent noIntents {} smfFirstTopology).edges =
      [{ FirstNode := "smf", SecondNode := "upf" }] ∧
    trackedIds prunedDeployment = ["upf"] ∧
    (nodeAt prunedDeployment .UPF "upf").map
        (fun node => node.Connections.contains "smf") = some true ∧
    prunedDeployment.edges = [] :=
  ⟨by decide, by decide, by decide, by decide,
    .report _ _ _ (.report _ _ _ .empty (by decide) (by decide)) (by decide) (by decide),
    by decide, by decide, by decide, by decide⟩

/-- C32, amended: in every graph state reached from the empty deployment by
well-formed topology updates, every edge is recorded on both of its endpoints: for
every tracked node `a` and id `b`, if the edge list contains an edge connecting `a`
and `b`, in either order, then `b` is in the connection set of `a`. -/
theorem Reachable_edge_recorded (deployment : Deployment) (h : Reachable deployment) :
    (∀ t a node b, nodeAt deployment t a = some node →
      (∃ e ∈ deployment.edges, e.IsEqual a b = true) →
      node.Connections.contains b = true) ∧
    (∀ e ∈ deployment.edges,
      connectedTo deployment e.FirstNode e.SecondNode ∧
        connectedTo deployment e.SecondNode e.FirstNode) := by
  have hcov := h.graphInv.2.1
  have hone := h.byEvents.invariant.2.2
  refine ⟨?_, hcov⟩
  intro t a node b hn ⟨e, he, heq⟩
  obtain ⟨c1, c2⟩ := hcov e he
  have hsame : ∀ t' node', nodeAt deployment t' a = some node' → node' = node := by
    intro t' node' hn'
    have ht : t' = t := hone t' t a (by rw [hn']; rfl) (by rw [hn]; rfl)
    subst ht
    rw [hn] at hn'
    exact (Option.some.inj hn').symm
  unfold Edge.IsEqual at heq
  simp only [Bool.or_eq_true, Bool.and_eq_true, decide_eq_true_eq] at heq
  rcases heq with ⟨h1, h2⟩ | ⟨h1, h2⟩
  · obtain ⟨t', node', g1, g2⟩ := c1
    rw [h1] at g1
    rw [hsame t' node' g1, h2] at g2
    exact g2
  · obtain ⟨t', node', g1, g2⟩ := c2
    rw [h2] at g1
    rw [hsame t' node' g1, h1] at g2
    exact g2

/-- C32 at a concrete state: after the topology of a connected UPF `upf` and SMF `smf`
the edge `(upf, smf)` is in the connection sets of both. -/
theorem Reachable_edge_recorded_witness :
    Reachable (ReportNFDeployEvent noIntents {} pairTopology) ∧
    (ReportNFDeployEvent noIntents {} pairTopology).edges =
      [{ FirstNode := "upf", SecondNode := "smf" }] ∧
    ∀ t a node b, nodeAt (ReportNFDeployEvent noIntents {} pairTopology) t a = some node →
      (∃ e ∈ (ReportNFDeployEvent noIntents {} pairTopology).edges, e.IsEqual a b = true) →
      node.Connections.contains b = true :=
  ⟨.report _ _ _ .empty (by decide) (by decide), by decide,
   (Reachable_edge_recorded (ReportNFDeployEvent noIntents {} pairTopology)
      (.report _ _ _ .empty (by decide) (by decide))).1⟩

/-- C33: for every list of raw condition reports the status map of
`calculateNFConditionSet` is a Go map that contains all five condition types
(Available, Ready, Peering, Reconciling, Stalled); a type of the five that no entry of
the list carries maps to Unknown; a type that the list carries maps to the status of
its last occurrence in the list, and to the message of that occurrence in the message
map. -/
theorem calculateNFConditionSet_spec (nfConditions : List NFCondition) :
    (calculateNFConditionSet nfConditions).1.WF ∧
    (∀ t ∈ [Available, Ready, Peering, Reconciling, Stalled],
      (calculateNFConditionSet nfConditions).1.contains t = true) ∧
    (∀ t ∈ [Available, Ready, Peering, Reconciling, Stalled],
      (∀ condition ∈ nfConditions, condition.type ≠ t) →
      (calculateNFConditionSet nfConditions).1.get? t = some ConditionUnknown) ∧
    (∀ (before after : List NFCondition) (condition : NFCondition),
      nfConditions = before ++ condition :: after →
      (∀ later ∈ after, later.type ≠ condition.type) →
      (calculateNFConditionSet nfConditions).1.get? condition.type = some condition.status ∧
      (calculateNFConditionSet nfConditions).2.get? condition.type =
        some condition.message) := by
  have habsent : ∀ t, (∀ condition ∈ nfConditions, condition.type ≠ t) →
      lastOccurrence nfConditions t = none := by
    intro t h
    unfold lastOccurrence
    rw [List.find?_eq_none]
    intro c hc
    simpa using h c (List.mem_reverse.mp hc)
  refine ⟨calculateNFConditionSet_WF nfConditions, ?_, ?_, ?_⟩
  · intro t ht
    have h := (calculateNFConditionSet_get? nfConditions t).1
    unfold GoMap.contains
    rw [h]
    cases lastOccurrence nfConditions t with
    | some c => rfl
    | none =>
      have hk : t ∈ knownConditionTypes := ht
      simp only [hk, if_true, Option.isSome_some]
  · intro t ht h
    have hk : t ∈ knownConditionTypes := ht
    rw [(calculateNFConditionSet_get? nfConditions t).1, habsent t h]
    simp only [hk, if_true]
  · intro l1 l2 c hsplit hlast
    have hocc : lastOccurrence nfConditions c.type = some c := by
      unfold lastOccurrence
      rw [hsplit, List.reverse_append, List.reverse_cons, List.append_assoc,
        List.find?_append]
      have h2 : List.find? (fun condition => decide (condition.type = c.type)) l2.reverse =
          none := by
        rw [List.find?_eq_none]
        intro d hd
        simpa using hlast d (List.mem_reverse.mp hd)
      rw [h2]
      simp
    obtain ⟨g1, g2⟩ := calculateNFConditionSet_get? nfConditions c.type
    rw [g1, g2, hocc]
    exact ⟨rfl, rfl⟩

/-- C34: for every report that passes validation, every node tracked under the id
that has the state Peering after `updateCurrentNFStatus` has Peering, Reconciling and
Available in its active-conditions map; Reconciling and Available carry the message
of the report when the report asserted them True and the synthetic message "NF is in
peering state." otherwise. A node that has the state Ready has Available in its map,
with the message of the report when the report asserted it True and the synthetic
message "NF is in ready state." otherwise. -/
theorem updateCurrentNFStatus_implied_conditions (deployment : Deployment) (nfId : String)
    (nfConditions : List NFCondition)
    (hvalid : (validateNFConditionSet (calculateNFConditionSet nfConditions).1).2 = false) :
    ∀ node ∈ trackedNodes
        (updateCurrentNFStatus deployment nfId (calculateNFConditionSet nfConditions).1
          (calculateNFConditionSet nfConditions).2) nfId,
      (node.Status.state = Peering →
        node.Status.activeConditions.get? Peering =
          some ((calculateNFConditionSet nfConditions).2.get Peering) ∧
        node.Status.activeConditions.get? Reconciling =
          some (if (calculateNFConditionSet nfConditions).1.get Reconciling = ConditionTrue
            then (calculateNFConditionSet nfConditions).2.get Reconciling
            else "NF is in peering state.") ∧
        node.Status.activeConditions.get? Available =
          some (if (calculateNFConditionSet nfConditions).1.get Available = ConditionTrue
            then (calculateNFConditionSet nfConditions).2.get Available
            else "NF is in peering state.")) ∧
      (node.Status.state = Ready →
        node.Status.activeConditions.get? Available =
          some (if (calculateNFConditionSet nfConditions).1.get Available = ConditionTrue
            then (calculateNFConditionSet nfConditions).2.get Available
            else "NF is in ready state.")) := by
  intro node hn
  rw [trackedNodes_updateCurrentNFStatus] at hn
  have hst : ∃ old, node.Status =
      storedStatus
        (deriveNFStatus (calculateNFConditionSet nfConditions).1
          (calculateNFConditionSet nfConditions).2) old := by
    generalize deriveNFStatus (calculateNFConditionSet nfConditions).1
      (calculateNFConditionSet nfConditions).2 = derived at hn
    obtain ⟨old, _, hnode⟩ := List.mem_map.mp hn
    exact ⟨old.Status, by rw [← hnode]⟩
  obtain ⟨old, hst⟩ := hst
  have hwf := calculateNFConditionSet_WF nfConditions
  rw [hst, (storedStatus_fields _ _).1, (storedStatus_fields _ _).2.2.1]
  constructor
  · intro hs
    exact deriveNFStatus_peering _ _ hwf hvalid hs
  · intro hs
    exact deriveNFStatus_ready _ _ hwf hvalid hs

/-- C34 at a concrete input: the UPF of the two-node deployment reports Peering=True
and Reconciling=True with their messages; it gets the state Peering, keeps both
entries with the messages of the report and gets the implied Available entry with the
synthetic message. -/
theorem updateCurrentNFStatus_implied_conditions_witness :
    (trackedNodes
        (updateCurrentNFStatus exampleDeployment "upf" (calculateNFConditionSet peeringReport).1
          (calculateNFConditionSet peeringReport).2) "upf").map
        (fun node =>
          (node.Status.state, node.Status.activeConditions.get? Peering,
           node.Status.activeConditions.get? Reconciling,
           node.Status.activeConditions.get? Available)) =
      [(Peering, some "peering with smf", some "rolling out",
        some "NF is in peering state.")] ∧
    ∀ node ∈ trackedNodes
        (updateCurrentNFStatus exampleDeployment "upf" (calculateNFConditionSet peeringReport).1
          (calculateNFConditionSet peeringReport).2) "upf",
      node.Status.state = Peering →
        node.Status.activeConditions.get? Peering =
          some ((calculateNFConditionSet peeringReport).2.get Peering) ∧
        node.Status.activeConditions.get? Reconciling =
          some (if (calculateNFConditionSet peeringReport).1.get Reconciling = ConditionTrue
            then (calculateNFConditionSet peeringReport).2.get Reconciling
            else "NF is in peering state.") ∧
        node.Status.activeConditions.get? Available =
          some (if (calculateNFConditionSet peeringReport).1.get Available = ConditionTrue
            then (calculateNFConditionSet peeringReport).2.get Available
            else "NF is in peering state.") :=
  ⟨by decide,
   fun node hn =>
    (updateCurrentNFStatus_implied_conditions exampleDeployment "upf" peeringReport
      (by decide) node hn).1⟩

/-- C35: in every deployment state reached from the empty deployment by topology
updates and edge events, every tracked node whose active-conditions map contains
Ready also has Available active and has none of Stalled, Peering and Reconciling
active; hence the counts of `calculateNFCount` satisfy readyNFs ≤ availableNFs ≤
targetedNFs and readyNFs + stalledNFs ≤ targetedNFs, and readyNFs plus the number of
nodes with an active Peering, respectively Reconciling, condition is at most
targetedNFs. -/
theorem reachable_ready_exclusive (deployment : Deployment)
    (h : ReachableByEvents deployment) :
    (∀ t x node, nodeAt deployment t x = some node →
      node.Status.activeConditions.contains Ready = true →
      node.Status.activeConditions.contains Available = true ∧
      node.Status.activeConditions.contains Stalled = false ∧
      node.Status.activeConditions.contains Peering = false ∧
      node.Status.activeConditions.contains Reconciling = false) ∧
    (calculateNFCount deployment).2.1 ≤ (calculateNFCount deployment).1 ∧
    (calculateNFCount deployment).1 ≤ (calculateNFCount deployment).2.2.2 ∧
    (calculateNFCount deployment).2.1 + (calculateNFCount deployment).2.2.1 ≤
      (calculateNFCount deployment).2.2.2 ∧
    (calculateNFCount deployment).2.1 + (activeCount deployment Peering : Int) ≤
      (calculateNFCount deployment).2.2.2 ∧
    (calculateNFCount deployment).2.1 + (activeCount deployment Reconciling : Int) ≤
      (calculateNFCount deployment).2.2.2 := by
  obtain ⟨hwf, hsound, _⟩ := h.invariant
  have hs : ∀ node ∈ statusNodes deployment,
      node.Status.activeConditions.WF ∧ ReadyExclusive node.Status := by
    intro node hn
    obtain ⟨t, x, hx⟩ := mem_statusNodes deployment hwf node hn
    exact hsound t x node hx
  refine ⟨fun t x node hn hr => (hsound t x node hn).2 hr, ?_⟩
  rw [calculateNFCount_eq deployment (fun node hn => (hs node hn).1)]
  simp only
  unfold activeCount
  refine ⟨?_, ?_, ?_, ?_, ?_⟩
  · exact_mod_cast List.countP_mono_left (fun node hn hr => ((hs node hn).2 hr).1)
  · exact_mod_cast List.countP_le_length _
  · exact_mod_cast countP_add_countP_le _ _ _ (fun node hn hr => ((hs node hn).2 hr).2.1)
  · exact_mod_cast countP_add_countP_le _ _ _ (fun node hn hr => ((hs node hn).2 hr).2.2.1)
  · exact_mod_cast countP_add_countP_le _ _ _ (fun node hn hr => ((hs node hn).2 hr).2.2.2)

/-- C35 at a concrete state: the topology of a connected UPF and SMF applied to the
empty deployment, followed by a report of the UPF. -/
theorem reachable_ready_exclusive_witness :
    ReachableByEvents reportingDeployment ∧
    (calculateNFCount reportingDeployment).2.1 ≤ (calculateNFCount reportingDeployment).1 ∧
    (calculateNFCount reportingDeployment).1 ≤ (calculateNFCount reportingDeployment).2.2.2 :=
  ⟨.event _ _ (.report noIntents {} pairTopology .empty),
   (reachable_ready_exclusive reportingDeployment
      (.event _ _ (.report noIntents {} pairTopology .empty))).2.1,
   (reachable_ready_exclusive reportingDeployment
      (.event _ _ (.report noIntents {} pairTopology .empty))).2.2.1⟩

/-- C36: the per-node update is memoryless. For any two deployment states that track
the node id in a status-bearing partition, `updateCurrentNFStatus` with the same
conditions and messages keeps the node tracked in both and gives it the same state,
state message and active-conditions map, those of the status derived from the
conditions alone; only `lastEventTimestamp` is carried over from the node. -/
theorem updateCurrentNFStatus_memoryless (d1 d2 : Deployment) (nfId : String)
    (conditions : GoMap ConditionStatus) (conditionMessage : GoMap String)
    (t1 t2 : NFType) (n1 n2 : Node)
    (ht1 : t1.isTracked = true) (ht2 : t2.isTracked = true)
    (h1 : nodeAt d1 t1 nfId = some n1) (h2 : nodeAt d2 t2 nfId = some n2) :
    ∃ n1' n2',
      nodeAt (updateCurrentNFStatus d1 nfId conditions conditionMessage) t1 nfId = some n1' ∧
      nodeAt (updateCurrentNFStatus d2 nfId conditions conditionMessage) t2 nfId = some n2' ∧
      n1'.Status.state = n2'.Status.state ∧
      n1'.Status.stateMessage = n2'.Status.stateMessage ∧
      n1'.Status.activeConditions = n2'.Status.activeConditions ∧
      n1'.Status =
        { deriveNFStatus conditions conditionMessage with
          lastEventTimestamp := n1.Status.lastEventTimestamp } ∧
      n2'.Status =
        { deriveNFStatus conditions conditionMessage with
          lastEventTimestamp := n2.Status.lastEventTimestamp } := by
  refine ⟨n1.store (deriveNFStatus conditions conditionMessage),
    n2.store (deriveNFStatus conditions conditionMessage), ?_, ?_, ?_, ?_, ?_, ?_, ?_⟩
  · rw [nodeAt_updateCurrentNFStatus, if_pos ⟨rfl, ht1⟩, h1]; rfl
  · rw [nodeAt_updateCurrentNFStatus, if_pos ⟨rfl, ht2⟩, h2]; rfl
  · rw [(Node.store_fields _ _).2.2.2, (Node.store_fields _ _).2.2.2,
      (storedStatus_fields _ _).1, (storedStatus_fields _ _).1]
  · rw [(Node.store_fields _ _).2.2.2, (Node.store_fields _ _).2.2.2,
      (storedStatus_fields _ _).2.1, (storedStatus_fields _ _).2.1]
  · rw [(Node.store_fields _ _).2.2.2, (Node.store_fields _ _).2.2.2,
      (storedStatus_fields _ _).2.2.1, (storedStatus_fields _ _).2.2.1]
  · rw [(Node.store_fields _ _).2.2.2]; rfl
  · rw [(Node.store_fields _ _).2.2.2]; rfl

/-- C36 at a concrete input: the UPF without a status and the stalled UPF with the
timestamp 0 get the same status from the same report. -/
theorem updateCurrentNFStatus_memoryless_witness :
    ∃ n1' n2',
      nodeAt (updateCurrentNFStatus exampleDeployment "upf"
        (calculateNFConditionSet reconcilingReport).1
        (calculateNFConditionSet reconcilingReport).2) .UPF "upf" = some n1' ∧
      nodeAt (updateCurrentNFStatus stalledDeployment "upf"
        (calculateNFConditionSet reconcilingReport).1
        (calculateNFConditionSet reconcilingReport).2) .UPF "upf" = some n2' ∧
      n1'.Status.state = n2'.Status.state ∧
      n1'.Status.stateMessage = n2'.Status.stateMessage ∧
      n1'.Status.activeConditions = n2'.Status.activeConditions :=
  let ⟨n1', n2', a, b, c, d, e, _⟩ :=
    updateCurrentNFStatus_memoryless exampleDeployment stalledDeployment "upf"
      (calculateNFConditionSet reconcilingReport).1
      (calculateNFConditionSet reconcilingReport).2 .UPF .UPF
      { Id := "upf", NFType := .UPF }
      { Id := "upf", NFType := .UPF,
        Status :=
          { state := Stalled, stateMessage := "disk full",
            activeConditions := ⟨[(Stalled, "disk full")]⟩ } }
      rfl rfl (by decide) (by decide)
  ⟨n1', n2', a, b, c, d, e⟩

/-- C37: a topology update never resets what is known about a retained node. A node
that is tracked before `ReportNFDeployEvent` and still tracked in the same partition
afterwards has the same status (state, message, active conditions,
`lastEventTimestamp`), id and type, and its connection set has only grown; when the
site ids of the topology are unique and the topology declares the id with the type
of the node, the node is still tracked afterwards. -/
theorem ReportNFDeployEvent_retained_node (intents : IntentProcessors)
    (deployment : Deployment) (nfDeploy : NfDeploy) (t : NFType) (x : String) (node : Node)
    (h : nodeAt deployment t x = some node) :
    (∀ node', nodeAt (ReportNFDeployEvent intents deployment nfDeploy) t x = some node' →
      node'.Status = node.Status ∧ node'.Id = node.Id ∧ node'.NFType = node.NFType ∧
      ∀ y, node.Connections.contains y = true → node'.Connections.contains y = true) ∧
    ((siteIds nfDeploy).Nodup →
      (∃ site ∈ nfDeploy.Sites, site.Id = x ∧ site.NFType = t) →
      (nodeAt (ReportNFDeployEvent intents deployment nfDeploy) t x).isSome = true) := by
  constructor
  · intro node' hn
    rcases (nodeAt_ReportNFDeployEvent_some _ _ _ _ _ _ hn).2 with
      ⟨node0, g1, g2, g3, g4, g5⟩ | ⟨g1, _⟩
    · rw [h] at g1
      cases g1
      exact ⟨g2, g3, g4, g5⟩
    · rw [h] at g1
      cases g1
  · intro hnd hsite
    exact nodeAt_ReportNFDeployEvent_isSome _ _ _ _ _ _ h
      ((isStale_eq_false_iff nfDeploy hnd x t).mpr hsite)

/-- C37 at a concrete input: the UPF that reported Reconciling=True at instant 1 keeps
its status when the same topology is applied again. -/
theorem ReportNFDeployEvent_retained_node_witness :
    (nodeAt (ReportNFDeployEvent noIntents reportingDeployment pairTopology) .UPF
        "upf").isSome = true ∧
    ∀ node', nodeAt (ReportNFDeployEvent noIntents reportingDeployment pairTopology) .UPF
        "upf" = some node' →
      node'.Status = reportedStatus reconcilingReport 1 :=
  ⟨(ReportNFDeployEvent_retained_node noIntents reportingDeployment pairTopology .UPF "upf"
      { Id := "upf", NFType := .UPF, Connections := ⟨[("smf", ())]⟩,
        Status := reportedStatus reconcilingReport 1 } (by decide)).2 (by decide)
      ⟨{ Id := "upf", NFType := .UPF, Connectivities := [⟨"smf"⟩] }, by decide, rfl, rfl⟩,
   fun node' hn =>
    ((ReportNFDeployEvent_retained_node noIntents reportingDeployment pairTopology .UPF "upf"
      { Id := "upf", NFType := .UPF, Connections := ⟨[("smf", ())]⟩,
        Status := reportedStatus reconcilingReport 1 } (by decide)).1 node' hn).1⟩

/-- C38: every status that `processEdgeEvent` hands to the writer is computed for a
deployment with at least one targeted NF, the node the event reports on, and in it
status and reason agree: the Ready condition is True exactly when its reason is
AllNFsReady, and the Stalled condition is True exactly when its reason is
SomeNFsStalled or AllNFsStalled. The `targetedNFs` handed to the writer is the count
converted to `int32`, at least 1 when fewer than 2^31 NFs are tracked. -/
theorem processEdgeEvent_status_consistent (deployment : Deployment) (object : Event)
    (update : StatusUpdate) (h : (processEdgeEvent deployment object).2 = some update) :
    1 ≤ targetedNFs (processEdgeEvent deployment object).1 ∧
    update.targetedNFs = toInt32 (targetedNFs (processEdgeEvent deployment object).1) ∧
    (targetedNFs (processEdgeEvent deployment object).1 < 2 ^ 31 → 1 ≤ update.targetedNFs) ∧
    (update.readyCondition.Status = ConditionTrue ↔
      update.readyCondition.Reason = "AllNFsReady") ∧
    (update.stalledCondition.Status = ConditionTrue ↔
      update.stalledCondition.Reason = "SomeNFsStalled" ∨
        update.stalledCondition.Reason = "AllNFsStalled") := by
  obtain ⟨hu, obj, node, _, hnode, htr⟩ := processEdgeEvent_some _ _ _ h
  have h1 : 1 ≤ targetedNFs (processEdgeEvent deployment object).1 := by
    rw [targetedNFs_processEdgeEvent]
    exact one_le_targetedNFs deployment _ _ htr (by rw [hnode]; rfl)
  generalize (processEdgeEvent deployment object).1 = d at hu h1 ⊢
  subst hu
  have ht : (aggregateStatus d).targetedNFs = toInt32 (targetedNFs d) := rfl
  have hready := computeReadyCondition_status_reason d (calculateNFCount d).2.1
    (calculateNFCount d).2.2.2
  have hstalled := computeStalledCondition_status_reason d (calculateNFCount d).2.2.1
    (calculateNFCount d).2.2.2
  have hr1 : (aggregateStatus d).readyCondition =
      computeReadyCondition d (calculateNFCount d).2.1 (calculateNFCount d).2.2.2 := rfl
  have hs1 : (aggregateStatus d).stalledCondition =
      computeStalledCondition d (calculateNFCount d).2.2.1 (calculateNFCount d).2.2.2 := rfl
  have h1' : 1 ≤ (calculateNFCount d).2.2.2 := h1
  refine ⟨h1, ht, ?_, ?_, ?_⟩
  · intro hlt
    rw [ht, toInt32_of_range _ (by omega) hlt]
    exact h1
  · rw [hr1]
    generalize computeReadyCondition d (calculateNFCount d).2.1 (calculateNFCount d).2.2.2 =
      c at hready
    generalize (calculateNFCount d).2.1 = ready at hready
    generalize (calculateNFCount d).2.2.2 = targeted at hready h1'
    simp only [Prod.mk.injEq] at hready
    rw [hready.1, hready.2]
    have e1 : ¬ (ConditionFalse = ConditionTrue) := by decide
    have e2 : ¬ ("NoNFsReady" = "AllNFsReady") := by decide
    have e3 : ¬ ("SomeNFsReady" = "AllNFsReady") := by decide
    by_cases ha : ready = targeted
    · have h0 : ¬ ready = 0 := by omega
      simp [ha, h0]
      omega
    · have ht0 : ¬ (0 : Int) = targeted := by omega
      by_cases h0 : ready = 0
      · subst h0; simp [ht0, e1, e2]
      · simp [ha, h0, e1, e3]
  · rw [hs1]
    generalize computeStalledCondition d (calculateNFCount d).2.2.1
      (calculateNFCount d).2.2.2 = c at hstalled
    generalize (calculateNFCount d).2.2.1 = stalled at hstalled
    generalize (calculateNFCount d).2.2.2 = targeted at hstalled h1'
    simp only [Prod.mk.injEq] at hstalled
    rw [hstalled.1, hstalled.2]
    have e1 : ¬ (ConditionFalse = ConditionTrue) := by decide
    have e2 : ¬ ("NoNFsStalled" = "SomeNFsStalled") := by decide
    have e3 : ¬ ("NoNFsStalled" = "AllNFsStalled") := by decide
    by_cases ha : stalled = targeted
    · have h0 : ¬ stalled = 0 := by omega
      simp [ha, h0]
      omega
    · have ht0 : ¬ (0 : Int) = targeted := by omega
      by_cases h0 : stalled = 0
      · subst h0; simp [ht0, e1, e2, e3]
      · simp [ha, h0]

/-- C38 at a concrete input: the UPF of the two-node deployment reports
Reconciling=True; the writer is called with two targeted NFs, Ready False with the
reason NoNFsReady and Stalled False with the reason NoNFsStalled. -/
theorem processEdgeEvent_status_consistent_witness :
    (processEdgeEvent exampleDeployment (upfEvent reconcilingReport 1)).2 =
      some (aggregateStatus (processEdgeEvent exampleDeployment
        (upfEvent reconcilingReport 1)).1) ∧
    1 ≤ targetedNFs (processEdgeEvent exampleDeployment (upfEvent reconcilingReport 1)).1 ∧
    (aggregateStatus (processEdgeEvent exampleDeployment
        (upfEvent reconcilingReport 1)).1).targetedNFs = 2 :=
  ⟨by decide,
   (processEdgeEvent_status_consistent exampleDeployment (upfEvent reconcilingReport 1)
      (aggregateStatus (processEdgeEvent exampleDeployment (upfEvent reconcilingReport 1)).1)
      (by decide)).1,
   by decide⟩

/-- C39: processing an edge event modifies at most the status of the nodes tracked
under the id the event reports on. The edge list, the name and the keys of every type
partition are the same before and after `processEdgeEvent`; every node keeps its id,
type and connection set, every UPF and SMF node its spec, and every node tracked
under another id its status. In a state where an id is tracked in one partition
only, as in every state reached by topology updates and edge events, every node other
than the one in the partition of the event's kind is the same before and after. -/
theorem processEdgeEvent_frame (deployment : Deployment) (object : Event) :
    (processEdgeEvent deployment object).1.edges = deployment.edges ∧
    (processEdgeEvent deployment object).1.name = deployment.name ∧
    (∀ t, partitionKeys (processEdgeEvent deployment object).1 t =
      partitionKeys deployment t) ∧
    (∀ t x node, nodeAt deployment t x = some node →
      ∃ node', nodeAt (processEdgeEvent deployment object).1 t x = some node' ∧
        node'.Id = node.Id ∧ node'.NFType = node.NFType ∧
        node'.Connections = node.Connections ∧
        ((∀ obj, object.Object = some obj → x ≠ obj.siteId) → node'.Status = node.Status)) ∧
    (∀ x, upfSpecAt (processEdgeEvent deployment object).1 x = upfSpecAt deployment x ∧
      smfSpecAt (processEdgeEvent deployment object).1 x = smfSpecAt deployment x) ∧
    (OnePartition deployment → ∀ t x,
      (∀ obj, object.Object = some obj → ¬ (t = kindType object.Kind ∧ x = obj.siteId)) →
      nodeAt (processEdgeEvent deployment object).1 t x = nodeAt deployment t x) ∧
    (ReachableByEvents deployment → OnePartition deployment) := by
  refine ⟨(processEdgeEvent_edges _ _).1, (processEdgeEvent_edges _ _).2,
    partitionKeys_processEdgeEvent _ _, ?_, specAt_processEdgeEvent _ _, ?_,
    fun h => h.invariant.2.2⟩
  · intro t x node hn
    have hsome : (nodeAt (processEdgeEvent deployment object).1 t x).isSome = true := by
      rw [nodeAt_isSome_iff, partitionKeys_processEdgeEvent, ← nodeAt_isSome_iff, hn]
      rfl
    obtain ⟨node', hn'⟩ := Option.isSome_iff_exists.mp hsome
    obtain ⟨node0, g1, g2, g3, g4, g5⟩ := nodeAt_processEdgeEvent_some _ _ _ _ _ hn'
    rw [hn] at g1
    cases g1
    refine ⟨node', hn', g2, g3, g4, ?_⟩
    intro hother
    rcases g5 with g | ⟨obj, hobj, hx, _⟩
    · exact g
    · exact absurd hx (hother obj hobj)
  · intro hone t x hother
    cases hd : nodeAt deployment t x with
    | none =>
      cases hd' : nodeAt (processEdgeEvent deployment object).1 t x with
      | none => rfl
      | some node' =>
        have hsome : (nodeAt deployment t x).isSome = true := by
          rw [nodeAt_isSome_iff, ← partitionKeys_processEdgeEvent deployment object,
            ← nodeAt_isSome_iff, hd']
          rfl
        rw [hd] at hsome
        cases hsome
    | some node =>
      rcases processEdgeEvent_cases deployment object with he | ⟨obj, n0, hobj, hn0, _, he⟩
      · rw [he, hd]
      · have hx : x ≠ obj.siteId := by
          intro hx
          subst hx
          have ht : t = kindType object.Kind :=
            hone t (kindType object.Kind) obj.siteId (by rw [hd]; rfl) (by rw [hn0]; rfl)
          exact hother obj hobj ⟨ht, rfl⟩
        have hc : ¬ (isAmbiguousConditionSet (calculateNFConditionSet obj.Conditions).1 =
            false ∧ x = obj.siteId ∧ t.isTracked = true) := fun hc => hx hc.2.1
        have hk : ¬ (t = kindType object.Kind ∧ x = obj.siteId) := fun hk => hx hk.2
        rw [he, nodeAt_processNFEdgeEvent, if_neg hc, nodeAt_stampNode, if_neg hk, hd]

end NFDeploy
